import Mathlib

/-!
# Differentiable timestep snapshot (`dart/neural/BackpropSnapshot.cpp`)

A shallow embedding of the parts of `BackpropSnapshot` that assemble the
per-group constraint data into world-indexed matrices and vectors, compute and
cache the analytic Jacobians (`getVelJacobianWrt`, `getJacobianOfConstraintForce`,
`getBounceApproximationJacobian` and the caching getters), chain the cached
Jacobians in `backprop`, and clip loss gradients at box limits; together with
`benchmarkJacobians` and the finite differencing of the transposed clamping
constraint matrix, as far as they write the snapshot and the world; the
linearised step model `scratch`; and finite-difference routines of the three
kinds: plain (`finiteDifferenceJacobianOfC`, `finiteDifferenceMassVelJacobian`,
`finiteDifferencePosPosJacobian`), step-halving (`finiteDifferenceVelVelJacobian`,
`finiteDifferenceJacobianOfProjectionIntoClampsMatrix`) and Ridders
(`finiteDifferenceRiddersJacobianOfMinv`, `finiteDifferenceRiddersJacobianOfC`,
`finiteDifferenceRiddersPosJacobianWrt`).

Conventions of the embedding:

* a C++ `double` is an exact rational number (`ℚ`); rounding is not modelled;
* `Eigen::VectorXd` is a `List ℚ`, `Eigen::MatrixXd` is a pair of dimensions
  with a coefficient function on `ℕ × ℕ` (only the coefficients inside the
  dimensions are meaningful);
* a `std::shared_ptr<ConstrainedGroupGradientMatrices>` is the record it
  points to together with its address `ptr`, which is what `std::find`
  compares;
* `std::unordered_map<std::string, std::size_t>` read through `operator[]`
  is a total function that returns `0` for a key never written;
* the world is a value: a routine that rewinds the world and restores it
  before it returns reads the rewound value and hands nothing back, and a
  routine whose effect on the world is the subject returns the world it
  leaves;
* the finite-difference routines reach the world only through calls on it;
  they are embedded over an arbitrary world state with these calls as
  parameters (`WorldCalls`) and return the world they leave with their matrix;
* in the finite-difference routines the assertions of the linear-algebra
  library on run-time sizes (the difference of two vectors of different sizes,
  `maxCoeff` of an empty vector, the assignment of a vector to a column) are
  failures of the same kind as `assert`;
* a `while (true)` loop carries a bound on the number of its passes, and
  `none` says that the loop has not left within the bound.
-/

namespace dart
namespace neural

/-! ## Dense vectors and matrices -/

/-- Dense dynamic vector (`Eigen::VectorXd`). -/
abbrev Vec := List ℚ

/-- Sum `f 0 + ... + f (n-1)`, the inner loop of every dense product. -/
def sumTo (n : Nat) (f : Nat → ℚ) : ℚ :=
  match n with
  | 0 => 0
  | k + 1 => sumTo k f + f k

/-- Coefficient read `v(i)` of a dynamic vector of any scalar type. -/
def coeffAt {α : Type} [Zero α] (v : List α) (i : Nat) : α := v.getD i 0

/-- Read `v.segment(start, n)`. -/
def segmentOf {α : Type} [Zero α] (v : List α) (start n : Nat) : List α :=
  (List.range n).map (fun i => coeffAt v (start + i))

/-- Write `v.segment(start, n) = src`: coefficients `start .. start+n-1` of `v`
are replaced by coefficients `0 .. n-1` of `src`. -/
def writeSegment {α : Type} [Zero α] (v : List α) (start n : Nat) (src : List α) : List α :=
  (List.range v.length).map
    (fun i => if start ≤ i ∧ i < start + n then coeffAt src (i - start) else coeffAt v i)

/-- Vector of `n` zeros (`Eigen::VectorXd::Zero(n)`). -/
def Vec.zero (n : Nat) : Vec := List.replicate n 0

/-- Sum `a + b` of two vectors. -/
def Vec.add (a b : Vec) : Vec := (List.range a.length).map (fun i => coeffAt a i + coeffAt b i)

/-- Difference `a - b` of two vectors. -/
def Vec.sub (a b : Vec) : Vec := (List.range a.length).map (fun i => coeffAt a i - coeffAt b i)

/-- Scalar multiple `c * a` of a vector. -/
def Vec.scale (c : ℚ) (a : Vec) : Vec := a.map (fun x => c * x)

/-- Dense dynamic matrix (`Eigen::MatrixXd`). -/
structure Mat where
  rows : Nat
  cols : Nat
  coeff : Nat → Nat → ℚ

/-- The call `Eigen::MatrixXd::Zero(r, c)`. -/
def Mat.zero (r c : Nat) : Mat := ⟨r, c, fun _ _ => 0⟩

/-- The call `Eigen::MatrixXd::Identity(r, c)`. -/
def Mat.identity (r c : Nat) : Mat := ⟨r, c, fun i j => if i = j then 1 else 0⟩

/-- The call `M.transpose()`. -/
def Mat.transpose (M : Mat) : Mat := ⟨M.cols, M.rows, fun i j => M.coeff j i⟩

/-- Sum `A + B`. -/
def Mat.add (A B : Mat) : Mat := ⟨A.rows, A.cols, fun i j => A.coeff i j + B.coeff i j⟩

/-- Difference `A - B`. -/
def Mat.sub (A B : Mat) : Mat := ⟨A.rows, A.cols, fun i j => A.coeff i j - B.coeff i j⟩

/-- Scalar multiple `c * A`. -/
def Mat.scale (c : ℚ) (A : Mat) : Mat := ⟨A.rows, A.cols, fun i j => c * A.coeff i j⟩

/-- Product `A * B`. -/
def Mat.mul (A B : Mat) : Mat :=
  ⟨A.rows, B.cols, fun i j => sumTo A.cols (fun k => A.coeff i k * B.coeff k j)⟩

/-- Matrix-vector product `A * v`. -/
def Mat.mulVec (A : Mat) (v : Vec) : Vec :=
  (List.range A.rows).map (fun i => sumTo A.cols (fun k => A.coeff i k * coeffAt v k))

/-- Negation `-A`. -/
def Mat.neg (A : Mat) : Mat := ⟨A.rows, A.cols, fun i j => -A.coeff i j⟩

/-- The call `v.asDiagonal()`: the square matrix with `v` on its diagonal. -/
def Mat.diagonal (v : Vec) : Mat :=
  ⟨v.length, v.length, fun i j => if i = j then coeffAt v i else 0⟩

/-- The call `A.size()`, the number of coefficients. -/
def Mat.size (A : Mat) : Nat := A.rows * A.cols

/-- Block write `M.block(r0, c0, nr, nc) = src.block(sr, sc, nr, nc)`. -/
def Mat.setBlock (M : Mat) (r0 c0 nr nc : Nat) (src : Mat) (sr sc : Nat) : Mat :=
  ⟨M.rows, M.cols, fun i j =>
    if r0 ≤ i ∧ i < r0 + nr ∧ c0 ≤ j ∧ j < c0 + nc then src.coeff (sr + (i - r0)) (sc + (j - c0))
    else M.coeff i j⟩

/-- The coefficients of a dense matrix read as an `m × n` matrix of Mathlib. -/
def Mat.toMatrix (M : Mat) (m n : Nat) : Matrix (Fin m) (Fin n) ℚ := fun i j => M.coeff i j

/-- The coefficients of a dense vector read as a function on `Fin n`. -/
def Vec.toFun (v : Vec) (n : Nat) : Fin n → ℚ := fun i => coeffAt v i

/-! ## The kinematic tree, as far as the snapshot reads it -/

/-- State and box limits of one degree of freedom (`DegreeOfFreedom.cpp`:
`getPosition`, `getPositionLowerLimit`, ...). -/
structure DegreeOfFreedom where
  position : ℚ
  positionLowerLimit : ℚ
  positionUpperLimit : ℚ
  velocity : ℚ
  velocityLowerLimit : ℚ
  velocityUpperLimit : ℚ
  force : ℚ
  forceLowerLimit : ℚ
  forceUpperLimit : ℚ

/-- A contact constraint (`DifferentiableContactConstraint`), as far as the
snapshot touches it: the address held by the shared pointer and the two values
stored by `setOffsetIntoWorld(offset, isUpperBoundConstraint)`. -/
structure DifferentiableContactConstraint where
  ptr : Nat
  offsetIntoWorld : Nat
  isUpperBoundConstraint : Bool
  deriving DecidableEq, Repr

/-- Per-group constraint data (`ConstrainedGroupGradientMatrices`), consumed
through its getters. `ptr` is the address held by the shared pointer. -/
structure ConstrainedGroupGradientMatrices where
  ptr : Nat
  skeletons : List String
  clampingConstraints : List DifferentiableContactConstraint
  upperBoundConstraints : List DifferentiableContactConstraint
  numDOFs : Nat
  numConstraintDim : Nat
  clampingConstraintMatrix : Mat
  massedClampingConstraintMatrix : Mat
  upperBoundConstraintMatrix : Mat
  massedUpperBoundConstraintMatrix : Mat
  bouncingConstraintMatrix : Mat
  upperBoundMappingMatrix : Mat
  bounceDiagonals : Vec
  restitutionDiagonals : Vec
  contactConstraintImpluses : Vec
  contactConstraintMappings : List ℤ
  penetrationCorrectionVelocities : Vec
  clampingConstraintImpulses : Vec
  clampingConstraintRelativeVels : Vec
  velocityDueToIllegalImpulses : Vec
  preStepVelocity : Vec
  preStepTorques : Vec
  preLCPVelocity : Vec

/-- A skeleton, as far as the snapshot reads it: its name, its degrees of
freedom, the constraint group attached to it by the forward pass (a null
pointer is `none`) and whether it is mobile. -/
structure Skeleton where
  name : String
  dofs : List DegreeOfFreedom
  gradientConstraintMatrices : Option ConstrainedGroupGradientMatrices
  mobile : Bool

/-- The call `skel->getNumDofs()`. -/
def Skeleton.getNumDofs (skel : Skeleton) : Nat := skel.dofs.length

/-- The simulated world, as far as the snapshot reads it. -/
structure World where
  skeletons : List Skeleton
  timeStep : ℚ
  useFDOverride : Bool
  slowDebugResultsAgainstFD : Bool
  cachedLCPSolution : Vec

/-- Modelled from the spec: `World::getSkeleton(name)` (defined in
`World.cpp`), the skeleton of that name; `none` is the null pointer. -/
def World.getSkeleton (world : World) (name : String) : Option Skeleton :=
  world.skeletons.find? (fun skel => skel.name = name)

/-- Modelled from the spec: the degrees of freedom of the world, skeletons in
world order, DOFs in skeleton order (the order of `world->getDofs()` and of
the double loop of `clipLossGradientsToBounds`). -/
def World.allDofs (world : World) : List DegreeOfFreedom :=
  (world.skeletons.map (fun skel => skel.dofs)).flatten

/-- Modelled from the spec: `World::getNumDofs` (defined in `World.cpp`), the
sum of the DOF counts of the skeletons. -/
def World.getNumDofs (world : World) : Nat :=
  (world.skeletons.map Skeleton.getNumDofs).sum

/-- Modelled from the spec: `World::getPositions` (defined in `World.cpp`). -/
def World.getPositions (world : World) : Vec := world.allDofs.map (fun d => d.position)

/-- Modelled from the spec: `World::getVelocities` (defined in `World.cpp`). -/
def World.getVelocities (world : World) : Vec := world.allDofs.map (fun d => d.velocity)

/-- Modelled from the spec: `World::getExternalForces` (defined in `World.cpp`). -/
def World.getExternalForces (world : World) : Vec := world.allDofs.map (fun d => d.force)

/-- Modelled from the spec: the world setters write coefficients
`cursor, cursor+1, ...` of `v` into consecutive DOFs. -/
def setDofs (upd : DegreeOfFreedom → ℚ → DegreeOfFreedom) :
    List DegreeOfFreedom → Nat → Vec → List DegreeOfFreedom
  | [], _, _ => []
  | d :: ds, cursor, v => upd d (coeffAt v cursor) :: setDofs upd ds (cursor + 1) v

/-- Modelled from the spec: the world setters write a world-indexed vector
into the skeletons, one segment per skeleton. -/
def setSkeletons (upd : DegreeOfFreedom → ℚ → DegreeOfFreedom) :
    List Skeleton → Nat → Vec → List Skeleton
  | [], _, _ => []
  | skel :: rest, cursor, v =>
    { skel with dofs := setDofs upd skel.dofs cursor v }
      :: setSkeletons upd rest (cursor + skel.getNumDofs) v

/-- Modelled from the spec: `World::setPositions` (defined in `World.cpp`): DOF `i`
of the world receives coefficient `i`. -/
def World.setPositions (world : World) (v : Vec) : World :=
  { world with skeletons := setSkeletons (fun d x => { d with position := x }) world.skeletons 0 v }

/-- Modelled from the spec: `World::setVelocities` (defined in `World.cpp`). -/
def World.setVelocities (world : World) (v : Vec) : World :=
  { world with skeletons := setSkeletons (fun d x => { d with velocity := x }) world.skeletons 0 v }

/-- Modelled from the spec: `World::setExternalForces` (defined in
`World.cpp`); the generalized force of DOF `i` receives coefficient `i`. -/
def World.setExternalForces (world : World) (v : Vec) : World :=
  { world with skeletons := setSkeletons (fun d x => { d with force := x }) world.skeletons 0 v }

/-- Modelled from the spec: `World::setCachedLCPSolution` (defined in
`World.cpp`). -/
def World.setCachedLCPSolution (world : World) (v : Vec) : World :=
  { world with cachedLCPSolution := v }

/-- The differentiation variable (`WithRespectTo::POSITION`, ..., and the
world's mass selector `world->getWrtMass()`). -/
inductive WithRespectTo where
  | POSITION
  | VELOCITY
  | FORCE
  | MASS
  deriving DecidableEq, Repr

/-- Selector of `assembleMatrix`. -/
inductive MatrixToAssemble where
  | CLAMPING
  | MASSED_CLAMPING
  | UPPER_BOUND
  | MASSED_UPPER_BOUND
  | BOUNCING
  deriving DecidableEq, Repr

/-- Selector of `assembleBlockDiagonalMatrix`. -/
inductive BlockDiagonalMatrixToAssemble where
  | MASS
  | INV_MASS
  | POS_C
  | VEL_C
  deriving DecidableEq, Repr

/-- Selector of `assembleVector`. -/
inductive VectorToAssemble where
  | BOUNCE_DIAGONALS
  | RESTITUTION_DIAGONALS
  | CONTACT_CONSTRAINT_IMPULSES
  | CONTACT_CONSTRAINT_MAPPINGS
  | PENETRATION_VELOCITY_HACK
  | CLAMPING_CONSTRAINT_IMPULSES
  | CLAMPING_CONSTRAINT_RELATIVE_VELS
  | VEL_DUE_TO_ILLEGAL
  | PRE_STEP_VEL
  | PRE_STEP_TAU
  | PRE_LCP_VEL
  deriving DecidableEq, Repr

/-- The ways in which a routine stops without returning. -/
inductive Failure where
  /-- An `assert` fails. -/
  | assertion
  /-- The null pointer returned by `world->getSkeleton(name)` is dereferenced. -/
  | nullSkeleton
  /-- The call `exit(1)` of `equalsOrCrash`. -/
  | exitOne
  deriving DecidableEq, Repr

/-- The record `LossGradient`. -/
structure LossGradient where
  lossWrtPosition : Vec
  lossWrtVelocity : Vec
  lossWrtTorque : Vec
  lossWrtMass : Vec

/-- The fields of a `BackpropSnapshot`. -/
structure BackpropSnapshot where
  mUseFDOverride : Bool
  mSlowDebugResultsAgainstFD : Bool
  mTimeStep : ℚ
  mNumDOFs : Nat
  mNumConstraintDim : Nat
  mNumClamping : Nat
  mNumUpperBound : Nat
  mNumBouncing : Nat
  mPreStepPosition : Vec
  mPreStepVelocity : Vec
  mPreStepTorques : Vec
  mPreConstraintVelocities : Vec
  mPreStepLCPCache : Vec
  mPostStepPosition : Vec
  mPostStepVelocity : Vec
  mPostStepTorques : Vec
  mSkeletonOffset : String → Nat
  mSkeletonDofs : String → Nat
  mGradientMatrices : List ConstrainedGroupGradientMatrices
  mCachedPosPosDirty : Bool
  mCachedVelPosDirty : Bool
  mCachedBounceApproximationDirty : Bool
  mCachedPosVelDirty : Bool
  mCachedVelVelDirty : Bool
  mCachedForcePosDirty : Bool
  mCachedForceVelDirty : Bool
  mCachedMassVelDirty : Bool
  mCachedPosPos : Mat
  mCachedVelPos : Mat
  mCachedBounceApproximation : Mat
  mCachedPosVel : Mat
  mCachedVelVel : Mat
  mCachedForceVel : Mat
  mCachedMassVel : Mat

/-- Routines that the embedded code calls but that are not embedded here: the
kinematic-tree, world and constraint-group collaborators, the dense
least-squares solver, and the finite-difference routines of the snapshot
itself. Each is a parameter; nothing is assumed about its result. -/
structure External where
  /-- The call `world->getInvMassMatrix()`. -/
  worldInvMassMatrix : World → Mat
  /-- The call `world->getPosPosJacobian()`. -/
  worldPosPosJacobian : World → Mat
  /-- The call `world->getVelPosJacobian()`. -/
  worldVelPosJacobian : World → Mat
  /-- The call `world->getCoriolisAndGravityAndExternalForces()`. -/
  coriolisAndGravityAndExternalForces : World → Vec
  /-- The call `world->getMassDims()`. -/
  massDims : World → Nat
  /-- The call `wrt->dim(world)`. -/
  wrtDim : WithRespectTo → World → Nat
  /-- The default value of the parameter `forFiniteDifferencing`, declared in
  the header. -/
  forFiniteDifferencingDefault : Bool
  /-- The call `skel->getMassMatrix()`. -/
  skelMassMatrix : Skeleton → Mat
  /-- The call `skel->getInvMassMatrix()`. -/
  skelInvMassMatrix : Skeleton → Mat
  /-- The call `skel->getJacobianOfC(WithRespectTo::POSITION)`. -/
  skelPosCJacobian : Skeleton → Mat
  /-- The call `skel->getVelCJacobian()`. -/
  skelVelCJacobian : Skeleton → Mat
  /-- The call `skel->getUnconstrainedVelJacobianWrt(dt, WithRespectTo::POSITION)`. -/
  skelUnconstrainedVelJacobianWrtPosition : Skeleton → ℚ → Mat
  /-- The call `group->backprop(world, thisLoss, nextLoss, explore)`; the
  result is the value left in `thisLoss`. -/
  groupBackprop :
    ConstrainedGroupGradientMatrices → World → LossGradient → LossGradient → Bool → LossGradient
  /-- The call `M.completeOrthogonalDecomposition().solve(b)`. -/
  solve : Mat → Vec → Vec
  /-- The content of freshly allocated, uninitialised vector storage. -/
  uninitialised : Nat → ℚ
  /-- The call `areResultsStandardized()`. -/
  areResultsStandardized : BackpropSnapshot → Bool
  finiteDifferenceForceVelJacobian : BackpropSnapshot → World → Mat
  finiteDifferenceMassVelJacobian : BackpropSnapshot → World → Mat
  finiteDifferenceVelVelJacobian : BackpropSnapshot → World → Mat
  finiteDifferencePosVelJacobian : BackpropSnapshot → World → Mat
  finiteDifferencePosPosJacobian : BackpropSnapshot → World → Mat
  finiteDifferenceVelPosJacobian : BackpropSnapshot → World → Mat
  /-- The routine `getJacobianOfMinv(world, tau, wrt)`, which hands over to
  the finite-difference routine `finiteDifferenceJacobianOfMinv`. -/
  getJacobianOfMinv : BackpropSnapshot → World → Vec → WithRespectTo → Mat
  /-- The routine `getJacobianOfC(world, wrt)`, which hands over to the
  finite-difference routine `finiteDifferenceJacobianOfC`. -/
  getJacobianOfC : BackpropSnapshot → World → WithRespectTo → Mat
  /-- The coefficients of `Q.completeOrthogonalDecomposition().pseudoInverse()`,
  a matrix with `Q.cols()` rows and `Q.rows()` columns. -/
  pseudoInverse : Mat → Nat → Nat → ℚ
  /-- The call `constraint->getConstraintForcesJacobian(world)`. -/
  getConstraintForcesJacobian : DifferentiableContactConstraint → World → Mat
  /-- The call `Q.completeOrthogonalDecomposition().solve(B)` for a matrix `B`. -/
  solveMatrix : Mat → Mat → Mat

/-! ## Construction -/

/-- The snapshot before the skeleton loop of the constructor: the member
initialisers and the assignments of lines 46-54. The dirty flags are only
set after the loop in the source; the loop does not read them. -/
def BackpropSnapshot.init (world : World)
    (preStepPosition preStepVelocity preStepTorques preConstraintVelocities preStepLCPCache : Vec) :
    BackpropSnapshot where
  mUseFDOverride := world.useFDOverride
  mSlowDebugResultsAgainstFD := world.slowDebugResultsAgainstFD
  mTimeStep := world.timeStep
  mNumDOFs := 0
  mNumConstraintDim := 0
  mNumClamping := 0
  mNumUpperBound := 0
  mNumBouncing := 0
  mPreStepPosition := preStepPosition
  mPreStepVelocity := preStepVelocity
  mPreStepTorques := preStepTorques
  mPreConstraintVelocities := preConstraintVelocities
  mPreStepLCPCache := preStepLCPCache
  mPostStepPosition := world.getPositions
  mPostStepVelocity := world.getVelocities
  mPostStepTorques := world.getExternalForces
  mSkeletonOffset := fun _ => 0
  mSkeletonDofs := fun _ => 0
  mGradientMatrices := []
  mCachedPosPosDirty := true
  mCachedVelPosDirty := true
  mCachedBounceApproximationDirty := true
  mCachedPosVelDirty := true
  mCachedVelVelDirty := true
  mCachedForcePosDirty := true
  mCachedForceVelDirty := true
  mCachedMassVelDirty := true
  mCachedPosPos := Mat.zero 0 0
  mCachedVelPos := Mat.zero 0 0
  mCachedBounceApproximation := Mat.zero 0 0
  mCachedPosVel := Mat.zero 0 0
  mCachedVelVel := Mat.zero 0 0
  mCachedForceVel := Mat.zero 0 0
  mCachedMassVel := Mat.zero 0 0

/-- The test `std::find(mGradientMatrices.begin(), mGradientMatrices.end(), g)
!= mGradientMatrices.end()`, which compares shared pointers. -/
def containsGroup (groups : List ConstrainedGroupGradientMatrices)
    (g : ConstrainedGroupGradientMatrices) : Bool :=
  groups.any (fun h => decide (h.ptr = g.ptr))

/-- One iteration of the skeleton loop of the constructor (lines 67-90). -/
def collectSkeleton (s : BackpropSnapshot) (skel : Skeleton) : BackpropSnapshot :=
  let s1 : BackpropSnapshot :=
    { s with
      mSkeletonOffset := Function.update s.mSkeletonOffset skel.name s.mNumDOFs
      mSkeletonDofs := Function.update s.mSkeletonDofs skel.name skel.getNumDofs
      mNumDOFs := s.mNumDOFs + skel.getNumDofs }
  match skel.gradientConstraintMatrices with
  | none => s1
  | some gradientMatrix =>
    if containsGroup s1.mGradientMatrices gradientMatrix then s1
    else
      { s1 with
        mGradientMatrices := s1.mGradientMatrices ++ [gradientMatrix]
        mNumConstraintDim := s1.mNumConstraintDim + gradientMatrix.numConstraintDim
        mNumClamping := s1.mNumClamping + gradientMatrix.clampingConstraintMatrix.cols
        mNumUpperBound := s1.mNumUpperBound + gradientMatrix.upperBoundConstraintMatrix.cols
        mNumBouncing := s1.mNumBouncing + gradientMatrix.bouncingConstraintMatrix.cols }

/-- The constructor `BackpropSnapshot::BackpropSnapshot`. The group data of a
skeleton is read while the world is rewound to the pre-step state; the
rewinding is restored before the constructor returns. -/
def BackpropSnapshot.create (world : World)
    (preStepPosition preStepVelocity preStepTorques preConstraintVelocities preStepLCPCache : Vec) :
    BackpropSnapshot :=
  let rewound :=
    (((world.setPositions preStepPosition).setVelocities preStepVelocity).setExternalForces
      preStepTorques).setCachedLCPSolution preStepLCPCache
  rewound.skeletons.foldl collectSkeleton
    (BackpropSnapshot.init world preStepPosition preStepVelocity preStepTorques
      preConstraintVelocities preStepLCPCache)

/-! ## Gradient clipping -/

/-- The three vectors that `clipLossGradientsToBounds` updates in place. -/
structure ClippedGradients where
  lossWrtPos : Vec
  lossWrtVel : Vec
  lossWrtForce : Vec

/-- The statement `if ((x == lower) && (g(cursor) > 0)) g(cursor) = 0;`. -/
def clipAtLower (x lower : ℚ) (g : Vec) (cursor : Nat) : Vec :=
  if x = lower ∧ coeffAt g cursor > 0 then g.set cursor 0 else g

/-- The statement `if ((x == upper) && (g(cursor) < 0)) g(cursor) = 0;`. -/
def clipAtUpper (x upper : ℚ) (g : Vec) (cursor : Nat) : Vec :=
  if x = upper ∧ coeffAt g cursor < 0 then g.set cursor 0 else g

/-- Body of the inner loop of `clipLossGradientsToBounds` for one DOF. -/
def clipDof (d : DegreeOfFreedom) (cursor : Nat) (g : ClippedGradients) : ClippedGradients :=
  { lossWrtPos :=
      clipAtUpper d.position d.positionUpperLimit
        (clipAtLower d.position d.positionLowerLimit g.lossWrtPos cursor) cursor
    lossWrtVel :=
      clipAtUpper d.velocity d.velocityUpperLimit
        (clipAtLower d.velocity d.velocityLowerLimit g.lossWrtVel cursor) cursor
    lossWrtForce :=
      clipAtUpper d.force d.forceUpperLimit
        (clipAtLower d.force d.forceLowerLimit g.lossWrtForce cursor) cursor }

/-- Inner loop of `clipLossGradientsToBounds` over the DOFs of one skeleton;
returns the advanced cursor. -/
def clipDofs : List DegreeOfFreedom → Nat → ClippedGradients → Nat × ClippedGradients
  | [], cursor, g => (cursor, g)
  | d :: ds, cursor, g => clipDofs ds (cursor + 1) (clipDof d cursor g)

/-- Outer loop of `clipLossGradientsToBounds` over the skeletons. -/
def clipSkeletons : List Skeleton → Nat → ClippedGradients → Nat × ClippedGradients
  | [], cursor, g => (cursor, g)
  | skel :: rest, cursor, g =>
    clipSkeletons rest (clipDofs skel.dofs cursor g).1 (clipDofs skel.dofs cursor g).2

/-- The routine `BackpropSnapshot::clipLossGradientsToBounds`. -/
def clipLossGradientsToBounds (world : World) (g : ClippedGradients) : ClippedGradients :=
  (clipSkeletons world.skeletons 0 g).2

/-! ## Assembling the groups into world-indexed matrices and vectors -/

/-- The group matrix that `assembleMatrix` reads for a selector. -/
def groupMatrixToAssemble (g : ConstrainedGroupGradientMatrices) : MatrixToAssemble → Mat
  | .CLAMPING => g.clampingConstraintMatrix
  | .MASSED_CLAMPING => g.massedClampingConstraintMatrix
  | .UPPER_BOUND => g.upperBoundConstraintMatrix
  | .MASSED_UPPER_BOUND => g.massedUpperBoundConstraintMatrix
  | .BOUNCING => g.bouncingConstraintMatrix

/-- The column count `numCols` chosen at the start of `assembleMatrix`. -/
def assembleNumCols (s : BackpropSnapshot) : MatrixToAssemble → Nat
  | .CLAMPING => s.mNumClamping
  | .MASSED_CLAMPING => s.mNumClamping
  | .UPPER_BOUND => s.mNumUpperBound
  | .MASSED_UPPER_BOUND => s.mNumUpperBound
  | .BOUNCING => s.mNumBouncing

/-- Inner loop of `assembleMatrix` over the skeletons of one group: copies the
row block of each skeleton. fails when a name is not a skeleton of the world
(the source dereferences a null pointer). -/
def assembleGroupRows (s : BackpropSnapshot) (world : World) (groupMatrix : Mat)
    (constraintCursor : Nat) : List String → Nat → Mat → Except Failure Mat
  | [], _, matrix => .ok matrix
  | name :: rest, dofCursorGroup, matrix =>
    match world.getSkeleton name with
    | none => .error .nullSkeleton
    | some skel =>
      assembleGroupRows s world groupMatrix constraintCursor rest
        (dofCursorGroup + skel.getNumDofs)
        (matrix.setBlock (s.mSkeletonOffset skel.name) constraintCursor skel.getNumDofs
          groupMatrix.cols groupMatrix dofCursorGroup 0)

/-- Outer loop of `assembleMatrix` over the groups. -/
def assembleGroups (s : BackpropSnapshot) (world : World) (whichMatrix : MatrixToAssemble) :
    List ConstrainedGroupGradientMatrices → Nat → Mat → Except Failure Mat
  | [], _, matrix => .ok matrix
  | g :: rest, constraintCursor, matrix =>
    match assembleGroupRows s world (groupMatrixToAssemble g whichMatrix) constraintCursor
        g.skeletons 0 matrix with
    | .error e => .error e
    | .ok matrix1 =>
      assembleGroups s world whichMatrix rest
        (constraintCursor + (groupMatrixToAssemble g whichMatrix).cols) matrix1

/-- The routine `BackpropSnapshot::assembleMatrix`. -/
def assembleMatrix (s : BackpropSnapshot) (world : World) (whichMatrix : MatrixToAssemble) :
    Except Failure Mat :=
  assembleGroups s world whichMatrix s.mGradientMatrices 0
    (Mat.zero s.mNumDOFs (assembleNumCols s whichMatrix))

/-- The routine `getClampingConstraintMatrix`. -/
def getClampingConstraintMatrix (s : BackpropSnapshot) (world : World) : Except Failure Mat :=
  assembleMatrix s world .CLAMPING

/-- The routine `getUpperBoundConstraintMatrix`. -/
def getUpperBoundConstraintMatrix (s : BackpropSnapshot) (world : World) : Except Failure Mat :=
  assembleMatrix s world .UPPER_BOUND

/-- The routine `getBouncingConstraintMatrix`. -/
def getBouncingConstraintMatrix (s : BackpropSnapshot) (world : World) : Except Failure Mat :=
  assembleMatrix s world .BOUNCING

/-- Second loop of `getUpperBoundMappingMatrix`: one diagonal block per group. -/
def mappingBlocks : List ConstrainedGroupGradientMatrices → Nat → Nat → Mat → Mat
  | [], _, _, mappingMatrix => mappingMatrix
  | g :: rest, cursorUpperBound, cursorClamping, mappingMatrix =>
    mappingBlocks rest (cursorUpperBound + g.upperBoundMappingMatrix.rows)
      (cursorClamping + g.upperBoundMappingMatrix.cols)
      (mappingMatrix.setBlock cursorUpperBound cursorClamping g.upperBoundMappingMatrix.rows
        g.upperBoundMappingMatrix.cols g.upperBoundMappingMatrix 0 0)

/-- The routine `BackpropSnapshot::getUpperBoundMappingMatrix`. -/
def getUpperBoundMappingMatrix (s : BackpropSnapshot) : Mat :=
  mappingBlocks s.mGradientMatrices 0 0
    (Mat.zero (s.mGradientMatrices.map (fun g => g.upperBoundConstraintMatrix.cols)).sum
      (s.mGradientMatrices.map (fun g => g.clampingConstraintMatrix.cols)).sum)

/-- The skeleton matrix that `assembleBlockDiagonalMatrix` reads for a selector. -/
def skelBlockToAssemble (ext : External) (skel : Skeleton) : BlockDiagonalMatrixToAssemble → Mat
  | .MASS => ext.skelMassMatrix skel
  | .INV_MASS => ext.skelInvMassMatrix skel
  | .POS_C => ext.skelPosCJacobian skel
  | .VEL_C => ext.skelVelCJacobian skel

/-- Skeleton loop of `assembleBlockDiagonalMatrix`. -/
def blockDiagonalLoop (ext : External) (whichMatrix : BlockDiagonalMatrixToAssemble) :
    List Skeleton → Nat → Mat → Mat
  | [], _, J => J
  | skel :: rest, cursor, J =>
    blockDiagonalLoop ext whichMatrix rest (cursor + skel.getNumDofs)
      (J.setBlock cursor cursor skel.getNumDofs skel.getNumDofs
        (skelBlockToAssemble ext skel whichMatrix) 0 0)

/-- The routine `BackpropSnapshot::assembleBlockDiagonalMatrix`. -/
def assembleBlockDiagonalMatrix (ext : External) (s : BackpropSnapshot) (world : World)
    (whichMatrix : BlockDiagonalMatrixToAssemble) (forFiniteDifferencing : Bool) : Mat :=
  let world1 :=
    if forFiniteDifferencing then world
    else (world.setPositions s.mPreStepPosition).setVelocities s.mPreStepVelocity
  blockDiagonalLoop ext whichMatrix world1.skeletons 0 (Mat.zero s.mNumDOFs s.mNumDOFs)

/-- The routine `getInvMassMatrix(world)`, called without its second argument. -/
def getInvMassMatrix (ext : External) (s : BackpropSnapshot) (world : World) : Mat :=
  assembleBlockDiagonalMatrix ext s world .INV_MASS ext.forFiniteDifferencingDefault

/-- The routine `getVelCJacobian(world)`. -/
def getVelCJacobian (ext : External) (s : BackpropSnapshot) (world : World) : Mat :=
  assembleBlockDiagonalMatrix ext s world .VEL_C ext.forFiniteDifferencingDefault

/-- The specialisation `getVectorToAssemble<Eigen::VectorXd>`; fails for the
selector on which the assertion fails and the routine throws. -/
def getVectorToAssembleXd (g : ConstrainedGroupGradientMatrices) :
    VectorToAssemble → Except Failure (List ℚ)
  | .BOUNCE_DIAGONALS => .ok g.bounceDiagonals
  | .RESTITUTION_DIAGONALS => .ok g.restitutionDiagonals
  | .CONTACT_CONSTRAINT_IMPULSES => .ok g.contactConstraintImpluses
  | .PENETRATION_VELOCITY_HACK => .ok g.penetrationCorrectionVelocities
  | .CLAMPING_CONSTRAINT_IMPULSES => .ok g.clampingConstraintImpulses
  | .CLAMPING_CONSTRAINT_RELATIVE_VELS => .ok g.clampingConstraintRelativeVels
  | .VEL_DUE_TO_ILLEGAL => .ok g.velocityDueToIllegalImpulses
  | .PRE_STEP_VEL => .ok g.preStepVelocity
  | .PRE_STEP_TAU => .ok g.preStepTorques
  | .PRE_LCP_VEL => .ok g.preLCPVelocity
  | .CONTACT_CONSTRAINT_MAPPINGS => .error .assertion

/-- The specialisation `getVectorToAssemble<Eigen::VectorXi>`; fails when the
assertion fails. -/
def getVectorToAssembleXi (g : ConstrainedGroupGradientMatrices) :
    VectorToAssemble → Except Failure (List ℤ)
  | .CONTACT_CONSTRAINT_MAPPINGS => .ok g.contactConstraintMappings
  | _ => .error .assertion

/-- The test at the head of `assembleVector`: the vector has one entry per
constraint and is assembled in order of constraint groups. -/
def isPerConstraint : VectorToAssemble → Bool
  | .BOUNCE_DIAGONALS => true
  | .RESTITUTION_DIAGONALS => true
  | .CONTACT_CONSTRAINT_IMPULSES => true
  | .CONTACT_CONSTRAINT_MAPPINGS => true
  | .PENETRATION_VELOCITY_HACK => true
  | .CLAMPING_CONSTRAINT_IMPULSES => true
  | .CLAMPING_CONSTRAINT_RELATIVE_VELS => true
  | _ => false

/-- First loop of the per-constraint branch: the total size. -/
def assembledSize {α : Type} (get : ConstrainedGroupGradientMatrices → Except Failure (List α)) :
    List ConstrainedGroupGradientMatrices → Nat → Except Failure Nat
  | [], size => .ok size
  | g :: rest, size =>
    match get g with
    | .error e => .error e
    | .ok vec => assembledSize get rest (size + vec.length)

/-- Second loop of the per-constraint branch: copies each group's vector at
the cursor and advances the cursor by its size. -/
def collectSegments {α : Type} [Zero α] (get : ConstrainedGroupGradientMatrices → Except Failure (List α)) :
    List ConstrainedGroupGradientMatrices → Nat → List α → Except Failure (List α)
  | [], _, collected => .ok collected
  | g :: rest, cursor, collected =>
    match get g with
    | .error e => .error e
    | .ok vec =>
      collectSegments get rest (cursor + vec.length) (writeSegment collected cursor vec.length vec)

/-- Inner loop of the per-DOF branch over the skeleton names of one group. -/
def scatterGroup {α : Type} [Zero α] (s : BackpropSnapshot) (vec : List α) :
    List String → Nat → List α → List α
  | [], _, collected => collected
  | skelName :: rest, groupCursor, collected =>
    scatterGroup s vec rest (groupCursor + s.mSkeletonDofs skelName)
      (writeSegment collected (s.mSkeletonOffset skelName) (s.mSkeletonDofs skelName)
        (segmentOf vec groupCursor (s.mSkeletonDofs skelName)))

/-- Outer loop of the per-DOF branch over the groups. -/
def scatterGroups {α : Type} [Zero α] (s : BackpropSnapshot)
    (get : ConstrainedGroupGradientMatrices → Except Failure (List α)) :
    List ConstrainedGroupGradientMatrices → List α → Except Failure (List α)
  | [], collected => .ok collected
  | g :: rest, collected =>
    match get g with
    | .error e => .error e
    | .ok vec => scatterGroups s get rest (scatterGroup s vec g.skeletons 0 collected)

/-- The template `BackpropSnapshot::assembleVector<Vec>`, for the scalar type
`α` with `getVectorToAssemble<Vec>` given by `get`. `uninit` is the content of
the freshly allocated, uninitialised `Vec(size)` of the per-constraint branch. -/
def assembleVector {α : Type} [Zero α] (s : BackpropSnapshot)
    (get : ConstrainedGroupGradientMatrices → VectorToAssemble → Except Failure (List α))
    (uninit : Nat → α) (whichVector : VectorToAssemble) : Except Failure (List α) :=
  if isPerConstraint whichVector then
    match s.mGradientMatrices with
    | [g] => get g whichVector
    | groups =>
      match assembledSize (fun g => get g whichVector) groups 0 with
      | .error e => .error e
      | .ok size =>
        collectSegments (fun g => get g whichVector) groups 0 ((List.range size).map uninit)
  else
    scatterGroups s (fun g => get g whichVector) s.mGradientMatrices
      (List.replicate s.mNumDOFs 0)

/-- The routine `getClampingConstraintImpulses`, an `assembleVector<Eigen::VectorXd>`. -/
def getClampingConstraintImpulses (ext : External) (s : BackpropSnapshot) : Except Failure Vec :=
  assembleVector s getVectorToAssembleXd ext.uninitialised .CLAMPING_CONSTRAINT_IMPULSES

/-- The routine `getRestitutionDiagonals`, an `assembleVector<Eigen::VectorXd>`. -/
def getRestitutionDiagonals (ext : External) (s : BackpropSnapshot) : Except Failure Vec :=
  assembleVector s getVectorToAssembleXd ext.uninitialised .RESTITUTION_DIAGONALS

/-! ## The analytic velocity Jacobians and their caches -/

/-- The world rewound to the pre-step state of the snapshot: the four calls
`setPositions`, `setVelocities`, `setExternalForces`, `setCachedLCPSolution`. -/
def rewind (s : BackpropSnapshot) (world : World) : World :=
  (((world.setPositions s.mPreStepPosition).setVelocities s.mPreStepVelocity).setExternalForces
    s.mPreStepTorques).setCachedLCPSolution s.mPreStepLCPCache

/-- The routine `getBounceDiagonals`, an `assembleVector<Eigen::VectorXd>`. -/
def getBounceDiagonals (ext : External) (s : BackpropSnapshot) : Except Failure Vec :=
  assembleVector s getVectorToAssembleXd ext.uninitialised .BOUNCE_DIAGONALS

/-- The routine `getClampingConstraintRelativeVels`, an
`assembleVector<Eigen::VectorXd>`. -/
def getClampingConstraintRelativeVels (ext : External) (s : BackpropSnapshot) :
    Except Failure Vec :=
  assembleVector s getVectorToAssembleXd ext.uninitialised .CLAMPING_CONSTRAINT_RELATIVE_VELS

/-- Inner loop of `getClampingConstraints` and `getUpperBoundConstraints` over
the constraints of one group: `constraint->setOffsetIntoWorld(vec.size(), ub);
vec.push_back(constraint);`. -/
def collectConstraints (isUpperBound : Bool) :
    List DifferentiableContactConstraint → List DifferentiableContactConstraint →
      List DifferentiableContactConstraint
  | [], vec => vec
  | constraint :: rest, vec =>
    collectConstraints isUpperBound rest
      (vec ++ [{ constraint with
        offsetIntoWorld := vec.length, isUpperBoundConstraint := isUpperBound }])

/-- The routine `BackpropSnapshot::getClampingConstraints`. -/
def getClampingConstraints (s : BackpropSnapshot) :
    Except Failure (List DifferentiableContactConstraint) :=
  let vec := s.mGradientMatrices.foldl
    (fun vec g => collectConstraints false g.clampingConstraints vec) []
  if vec.length = s.mNumClamping then .ok vec else .error .assertion

/-- The routine `BackpropSnapshot::getUpperBoundConstraints`. -/
def getUpperBoundConstraints (s : BackpropSnapshot) : List DifferentiableContactConstraint :=
  s.mGradientMatrices.foldl (fun vec g => collectConstraints true g.upperBoundConstraints vec) []

/-- The loop `result += f0(i) * constraints[i]->getConstraintForcesJacobian(world)`. -/
def sumConstraintForcesJacobians (ext : External) (world : World) (f0 : Vec) :
    List DifferentiableContactConstraint → Nat → Mat → Mat
  | [], _, result => result
  | constraint :: rest, i, result =>
    sumConstraintForcesJacobians ext world f0 rest (i + 1)
      (result.add (Mat.scale (coeffAt f0 i) (ext.getConstraintForcesJacobian constraint world)))

/-- The routine `BackpropSnapshot::getJacobianOfClampingConstraints`. -/
def getJacobianOfClampingConstraints (ext : External) (s : BackpropSnapshot) (world : World)
    (f0 : Vec) : Except Failure Mat :=
  let world1 := rewind s world
  match getClampingConstraints s with
  | .error e => .error e
  | .ok constraints =>
    let dofs := world1.getNumDofs
    if constraints.length = f0.length then
      .ok (sumConstraintForcesJacobians ext world1 f0 constraints 0 (Mat.zero dofs dofs))
    else .error .assertion

/-- The loop `result.row(i) = constraints[i]->getConstraintForcesJacobian(world)
.transpose() * v0`. -/
def constraintForcesJacobianRows (ext : External) (world : World) (v0 : Vec) :
    List DifferentiableContactConstraint → Nat → Mat → Mat
  | [], _, result => result
  | constraint :: rest, i, result =>
    constraintForcesJacobianRows ext world v0 rest (i + 1)
      ⟨result.rows, result.cols, fun r c =>
        if r = i ∧ c < result.cols then
          coeffAt ((ext.getConstraintForcesJacobian constraint world).transpose.mulVec v0) c
        else result.coeff r c⟩

/-- The routine `BackpropSnapshot::getJacobianOfClampingConstraintsTranspose`. -/
def getJacobianOfClampingConstraintsTranspose (ext : External) (s : BackpropSnapshot)
    (world : World) (v0 : Vec) : Except Failure Mat :=
  let world1 := rewind s world
  match getClampingConstraints s with
  | .error e => .error e
  | .ok constraints =>
    let dofs := world1.getNumDofs
    if constraints.length = s.mNumClamping then
      .ok (constraintForcesJacobianRows ext world1 v0 constraints 0 (Mat.zero s.mNumClamping dofs))
    else .error .assertion

/-- The routine `BackpropSnapshot::getJacobianOfUpperBoundConstraints`. -/
def getJacobianOfUpperBoundConstraints (ext : External) (s : BackpropSnapshot) (world : World)
    (E_f0 : Vec) : Except Failure Mat :=
  let constraints := getUpperBoundConstraints s
  let dofs := world.getNumDofs
  if constraints.length = E_f0.length then
    .ok (sumConstraintForcesJacobians ext world E_f0 constraints 0 (Mat.zero dofs dofs))
  else .error .assertion

/-- The routine `BackpropSnapshot::getJacobianOfLCPOffsetClampingSubset`: the
Jacobian of `b` (from `Q^{-1} b`) with respect to `wrt`. -/
def getJacobianOfLCPOffsetClampingSubset (ext : External) (s : BackpropSnapshot) (world : World)
    (wrt : WithRespectTo) : Except Failure Mat :=
  let world1 := rewind s world
  let dt := world1.timeStep
  let Minv := getInvMassMatrix ext s world1
  match getClampingConstraintMatrix s world1 with
  | .error e => .error e
  | .ok A_c =>
  let dC := ext.getJacobianOfC s world1 wrt
  if wrt = .VELOCITY then
    match getBounceDiagonals ext s with
    | .error e => .error e
    | .ok bounce =>
      .ok (((Mat.diagonal bounce).mul A_c.transpose.neg).mul
        ((Mat.identity world.getNumDofs world.getNumDofs).sub ((Mat.scale dt Minv).mul dC)))
  else if wrt = .FORCE then
    match getBounceDiagonals ext s with
    | .error e => .error e
    | .ok bounce =>
      .ok ((Mat.scale dt ((Mat.diagonal bounce).mul A_c.transpose.neg)).mul Minv)
  else
    let C := ext.coriolisAndGravityAndExternalForces world1
    let f := Vec.sub s.mPreStepTorques C
    let dMinv_f := ext.getJacobianOfMinv s world1 f wrt
    let v_f := s.mPreConstraintVelocities
    if wrt = .POSITION then
      match getJacobianOfClampingConstraintsTranspose ext s world1 v_f with
      | .error e => .error e
      | .ok dA_c_f =>
        match getBounceDiagonals ext s with
        | .error e => .error e
        | .ok bounce =>
          .ok ((Mat.diagonal bounce).mul
            (dA_c_f.add ((Mat.scale dt A_c.transpose).mul (dMinv_f.sub (Minv.mul dC)))).neg)
    else
      match getBounceDiagonals ext s with
      | .error e => .error e
      | .ok bounce =>
        .ok ((Mat.diagonal bounce).mul
          ((Mat.scale dt A_c.transpose).mul (dMinv_f.sub (Minv.mul dC))).neg)

/-- The routine `BackpropSnapshot::getJacobianOfUpperBoundConstraintsTranspose`. -/
def getJacobianOfUpperBoundConstraintsTranspose (ext : External) (s : BackpropSnapshot)
    (world : World) (v0 : Vec) : Except Failure Mat :=
  let constraints := getUpperBoundConstraints s
  let dofs := world.getNumDofs
  if constraints.length = s.mNumUpperBound then
    .ok (constraintForcesJacobianRows ext world v0 constraints 0 (Mat.zero s.mNumUpperBound dofs))
  else .error .assertion

/-- The call `M.squaredNorm()`: the sum of the squares of the coefficients. -/
def Mat.squaredNorm (M : Mat) : ℚ :=
  sumTo M.rows (fun i => sumTo M.cols (fun j => M.coeff i j ^ 2))

/-- The macro `dQ(rhs)` of the branch `A_ub.cols() > 0` of
`getJacobianOfLCPConstraintMatrixClampingSubset` (lines 3942-3948); `world` is
the world after `snapshot.restore()`. -/
def dQ_ub (ext : External) (s : BackpropSnapshot) (world : World) (wrt : WithRespectTo)
    (A_c A_c_ub_E E Minv : Mat) (rhs : Vec) : Except Failure Mat :=
  match getJacobianOfClampingConstraintsTranspose ext s world
      ((Minv.mul A_c_ub_E).mulVec rhs) with
  | .error e => .error e
  | .ok dA_cT =>
  match getJacobianOfClampingConstraints ext s world rhs with
  | .error e => .error e
  | .ok dA_c =>
  match getJacobianOfUpperBoundConstraints ext s world (E.mulVec rhs) with
  | .error e => .error e
  | .ok dA_ub =>
    .ok (dA_cT.add (A_c.transpose.mul
      ((ext.getJacobianOfMinv s world (A_c_ub_E.mulVec rhs) wrt).add
        (Minv.mul (dA_c.add dA_ub)))))

/-- The macro `dQT(rhs)` of the branch `A_ub.cols() > 0` (lines 3950-3961). -/
def dQT_ub (ext : External) (s : BackpropSnapshot) (world : World) (wrt : WithRespectTo)
    (A_c A_ub E Minv : Mat) (rhs : Vec) : Except Failure Mat :=
  match getJacobianOfClampingConstraintsTranspose ext s world ((Minv.mul A_c).mulVec rhs) with
  | .error e => .error e
  | .ok dA_cT =>
  match getJacobianOfClampingConstraints ext s world rhs with
  | .error e => .error e
  | .ok dA_c =>
  match getJacobianOfUpperBoundConstraintsTranspose ext s world
      ((Minv.mul A_c).mulVec rhs) with
  | .error e => .error e
  | .ok dA_ubT =>
    .ok ((dA_cT.add (A_c.transpose.mul
        ((ext.getJacobianOfMinv s world (A_c.mulVec rhs) wrt).add (Minv.mul dA_c)))).add
      (E.transpose.mul (dA_ubT.add (A_ub.transpose.mul
        ((ext.getJacobianOfMinv s world (A_c.mulVec rhs) wrt).add (Minv.mul dA_c))))))

/-- The macros `dQ(rhs)` and `dQT(rhs)` of the branch without upper-bound
constraints (lines 4009-4015), where `dQT` is defined as `dQ`. -/
def dQ_c (ext : External) (s : BackpropSnapshot) (world : World) (wrt : WithRespectTo)
    (A_c Minv : Mat) (rhs : Vec) : Except Failure Mat :=
  match getJacobianOfClampingConstraintsTranspose ext s world ((Minv.mul A_c).mulVec rhs) with
  | .error e => .error e
  | .ok dA_cT =>
  match getJacobianOfClampingConstraints ext s world rhs with
  | .error e => .error e
  | .ok dA_c =>
    .ok (dA_cT.add (A_c.transpose.mul
      ((ext.getJacobianOfMinv s world (A_c.mulVec rhs) wrt).add (Minv.mul dA_c))))

/-- The return statement `return -Qinv * dQ(Qinv * b);` of both position
branches (lines 3973 and 4028): the Jacobian of `Q^{-1} b` for an invertible
`Q`. `dQ` is the macro of the branch. -/
def plainInverseJacobian (dQ : Vec → Except Failure Mat) (Qinv : Mat) (b : Vec) :
    Except Failure Mat :=
  match dQ (Qinv.mulVec b) with
  | .error e => .error e
  | .ok d1 => .ok (Qinv.neg.mul d1)

/-- The return statement
`return -Qinv * dQ(Qinv * b) + Qinv * Qinv.transpose() * dQT(imprecisionMap * b)
+ (I - Qinv * Q) * dQT(Qinv.transpose() * Qinv * b);` of both position branches
(lines 3980-3982 and 4034-4036): the gradient of the pseudo-inverse. -/
def pseudoInverseDerivative (dQ dQT : Vec → Except Failure Mat) (Q Qinv : Mat) (b : Vec) :
    Except Failure Mat :=
  let I := Mat.identity Q.rows Q.cols
  let imprecisionMap := I.sub (Q.mul Qinv)
  match dQ (Qinv.mulVec b) with
  | .error e => .error e
  | .ok d1 =>
  match dQT (imprecisionMap.mulVec b) with
  | .error e => .error e
  | .ok d2 =>
  match dQT ((Qinv.transpose.mul Qinv).mulVec b) with
  | .error e => .error e
  | .ok d3 =>
    .ok (((Qinv.neg.mul d1).add ((Qinv.mul Qinv.transpose).mul d2)).add
      ((I.sub (Qinv.mul Q)).mul d3))

/-- The choice shared by both position branches (lines 3964-3983 and
4019-4037): the plain-inverse formula when `imprecisionMap.squaredNorm() < 1e-18`,
the derivative of the pseudo-inverse otherwise. -/
def pseudoInverseJacobian (dQ dQT : Vec → Except Failure Mat) (Q Qinv : Mat) (b : Vec) :
    Except Failure Mat :=
  let I := Mat.identity Q.rows Q.cols
  let imprecisionMap := I.sub (Q.mul Qinv)
  if imprecisionMap.squaredNorm < 1 / 10 ^ 18 then plainInverseJacobian dQ Qinv b
  else pseudoInverseDerivative dQ dQT Q Qinv b

/-- The routine `BackpropSnapshot::getJacobianOfLCPConstraintMatrixClampingSubset`:
the Jacobian of `Q^{-1} b` with respect to `wrt`, holding `b` constant. -/
def getJacobianOfLCPConstraintMatrixClampingSubset (ext : External) (s : BackpropSnapshot)
    (world : World) (b : Vec) (wrt : WithRespectTo) : Except Failure Mat :=
  match getClampingConstraintMatrix s world with
  | .error e => .error e
  | .ok A_c =>
  if A_c.cols = 0 then .ok (Mat.zero 0 0)
  else if wrt = .VELOCITY ∨ wrt = .FORCE then .ok (Mat.zero A_c.cols s.mNumDOFs)
  else
    let world1 := rewind s world
    match getUpperBoundConstraintMatrix s world1 with
    | .error e => .error e
    | .ok A_ub =>
    let E := getUpperBoundMappingMatrix s
    let A_c_ub_E := A_c.add (A_ub.mul E)
    let Minv := getInvMassMatrix ext s world1
    let Q := (A_c.transpose.mul Minv).mul (A_c.add (A_ub.mul E))
    let Qinv_b := ext.solve Q b
    if wrt = .POSITION then
      let Qinv : Mat := ⟨Q.cols, Q.rows, ext.pseudoInverse Q⟩
      if 0 < A_ub.cols then
        pseudoInverseJacobian (dQ_ub ext s world wrt A_c A_c_ub_E E Minv)
          (dQT_ub ext s world wrt A_c A_ub E Minv) Q Qinv b
      else
        pseudoInverseJacobian (dQ_c ext s world wrt A_c Minv) (dQ_c ext s world wrt A_c Minv)
          Q Qinv b
    else
      let innerTerms := A_c.transpose.mul (ext.getJacobianOfMinv s world1 (A_c.mulVec Qinv_b) wrt)
      .ok (ext.solveMatrix Q innerTerms).neg

/-- The routine `BackpropSnapshot::getJacobianOfConstraintForce`. -/
def getJacobianOfConstraintForce (ext : External) (s : BackpropSnapshot) (world : World)
    (wrt : WithRespectTo) : Except Failure Mat :=
  match getClampingConstraintMatrix s world with
  | .error e => .error e
  | .ok A_c =>
  if A_c.cols = 0 then .ok (Mat.zero 0 (ext.wrtDim wrt world))
  else
    match getUpperBoundConstraintMatrix s world with
    | .error e => .error e
    | .ok A_ub =>
    let E := getUpperBoundMappingMatrix s
    let world1 := rewind s world
    let Minv := getInvMassMatrix ext s world1
    let A_c_ub_E := A_c.add (A_ub.mul E)
    let Q := (A_c.transpose.mul Minv).mul A_c_ub_E
    match getJacobianOfLCPOffsetClampingSubset ext s world1 wrt with
    | .error e => .error e
    | .ok dB =>
    if wrt = .VELOCITY ∨ wrt = .FORCE then .ok (ext.solveMatrix Q dB)
    else
      match getClampingConstraintRelativeVels ext s with
      | .error e => .error e
      | .ok b =>
        match getJacobianOfLCPConstraintMatrixClampingSubset ext s world1 b wrt with
        | .error e => .error e
        | .ok dQ_b => .ok (dQ_b.add (ext.solveMatrix Q dB))

/-- The routine `BackpropSnapshot::getVelJacobianWrt`. -/
def getVelJacobianWrt (ext : External) (s : BackpropSnapshot) (world : World)
    (wrt : WithRespectTo) : Except Failure Mat :=
  if ext.wrtDim wrt world = 0 then .ok (Mat.zero world.getNumDofs 0)
  else
    let world1 := rewind s world
    match getClampingConstraintMatrix s world1 with
    | .error e => .error e
    | .ok A_c =>
    match getUpperBoundConstraintMatrix s world1 with
    | .error e => .error e
    | .ok A_ub =>
    let E := getUpperBoundMappingMatrix s
    let A_c_ub_E := A_c.add (A_ub.mul E)
    let tau := world1.getExternalForces
    let C := ext.coriolisAndGravityAndExternalForces world1
    match getClampingConstraintImpulses ext s with
    | .error e => .error e
    | .ok f_c =>
    let dt := world1.timeStep
    let dM :=
      ext.getJacobianOfMinv s world1 (Vec.add (Vec.scale dt (Vec.sub tau C)) (A_c_ub_E.mulVec f_c)) wrt
    let Minv := ext.worldInvMassMatrix world1
    match getJacobianOfConstraintForce ext s world1 wrt with
    | .error e => .error e
    | .ok dF_c =>
    if wrt = .FORCE then
      .ok (Minv.mul ((A_c_ub_E.mul dF_c).add
        (Mat.scale dt (Mat.identity world.getNumDofs world.getNumDofs))))
    else
      let dC := ext.getJacobianOfC s world1 wrt
      if wrt = .VELOCITY then
        .ok ((Mat.identity world.getNumDofs world.getNumDofs).add
          (Minv.mul ((A_c_ub_E.mul dF_c).sub (Mat.scale dt dC))))
      else if wrt = .POSITION then
        match getJacobianOfClampingConstraints ext s world1 f_c with
        | .error e => .error e
        | .ok dA_c =>
        match getJacobianOfUpperBoundConstraints ext s world1 (E.mulVec f_c) with
        | .error e => .error e
        | .ok dA_ubE =>
        .ok (dM.add (Minv.mul ((((A_c_ub_E.mul dF_c).add dA_c).add dA_ubE).sub (Mat.scale dt dC))))
      else
        .ok (dM.add (Minv.mul ((A_c_ub_E.mul dF_c).sub (Mat.scale dt dC))))

/-- The routine `BackpropSnapshot::equalsOrCrash`: `true` when it returns,
`false` when it calls `exit(1)`. -/
def equalsOrCrash (ext : External) (s : BackpropSnapshot) (analytical bruteForce : Mat) : Bool :=
  if ext.areResultsStandardized s = false then false
  else
    !((List.range analytical.rows).any (fun i =>
        (List.range analytical.cols).any (fun j =>
          decide (|analytical.coeff i j - bruteForce.coeff i j| > 1 / 100000))))

/-- The block `if (mSlowDebugResultsAgainstFD) equalsOrCrash(...)` shared by the getters. -/
def slowDebugCheck (ext : External) (s : BackpropSnapshot) (analytical bruteForce : Mat) :
    Except Failure Unit :=
  if s.mSlowDebugResultsAgainstFD then
    if equalsOrCrash ext s analytical bruteForce then .ok () else .error .exitOne
  else .ok ()

/-- The routine `BackpropSnapshot::getForceVelJacobian`: the updated snapshot
and the cached matrix that the returned reference designates. -/
def getForceVelJacobian (ext : External) (s : BackpropSnapshot) (world : World) :
    Except Failure BackpropSnapshot :=
  if s.mCachedForceVelDirty then
    let computed : Except Failure Mat :=
      if s.mUseFDOverride then .ok (ext.finiteDifferenceForceVelJacobian s world)
      else
        match getClampingConstraintMatrix s world with
        | .error e => .error e
        | .ok A_c =>
          let Minv := getInvMassMatrix ext s world
          if A_c.size = 0 then .ok (Mat.scale s.mTimeStep Minv)
          else getVelJacobianWrt ext s world .FORCE
    match computed with
    | .error e => .error e
    | .ok J =>
      let s1 := { s with mCachedForceVel := J }
      match slowDebugCheck ext s1 s1.mCachedForceVel (ext.finiteDifferenceForceVelJacobian s1 world) with
      | .error e => .error e
      | .ok _ => .ok { s1 with mCachedForceVelDirty := false }
  else .ok s

/-- The routine `BackpropSnapshot::getMassVelJacobian`. -/
def getMassVelJacobian (ext : External) (s : BackpropSnapshot) (world : World) :
    Except Failure BackpropSnapshot :=
  if s.mCachedMassVelDirty then
    let computed : Except Failure Mat :=
      if s.mUseFDOverride then .ok (ext.finiteDifferenceMassVelJacobian s world)
      else getVelJacobianWrt ext s world .MASS
    match computed with
    | .error e => .error e
    | .ok J =>
      let s1 := { s with mCachedMassVel := J }
      match slowDebugCheck ext s1 s1.mCachedMassVel (ext.finiteDifferenceMassVelJacobian s1 world) with
      | .error e => .error e
      | .ok _ => .ok { s1 with mCachedMassVelDirty := false }
  else .ok s

/-- The routine `BackpropSnapshot::getPosVelJacobian`. -/
def getPosVelJacobian (ext : External) (s : BackpropSnapshot) (world : World) :
    Except Failure BackpropSnapshot :=
  if s.mCachedPosVelDirty then
    let computed : Except Failure Mat :=
      if s.mUseFDOverride then .ok (ext.finiteDifferencePosVelJacobian s world)
      else getVelJacobianWrt ext s world .POSITION
    match computed with
    | .error e => .error e
    | .ok J =>
      let s1 := { s with mCachedPosVel := J }
      match slowDebugCheck ext s1 s1.mCachedPosVel (ext.finiteDifferencePosVelJacobian s1 world) with
      | .error e => .error e
      | .ok _ => .ok { s1 with mCachedPosVelDirty := false }
  else .ok s

/-- The routine `BackpropSnapshot::getVelVelJacobian`. -/
def getVelVelJacobian (ext : External) (s : BackpropSnapshot) (world : World) :
    Except Failure BackpropSnapshot :=
  if s.mCachedVelVelDirty then
    let computed : Except Failure (BackpropSnapshot × Mat) :=
      if s.mUseFDOverride then .ok (s, ext.finiteDifferenceVelVelJacobian s world)
      else
        match getClampingConstraintMatrix s world with
        | .error e => .error e
        | .ok A_c =>
          if A_c.size = 0 then
            match getForceVelJacobian ext s world with
            | .error e => .error e
            | .ok s0 =>
              .ok (s0, (Mat.identity s0.mNumDOFs s0.mNumDOFs).sub
                (s0.mCachedForceVel.mul (getVelCJacobian ext s0 world)))
          else
            match getVelJacobianWrt ext s world .VELOCITY with
            | .error e => .error e
            | .ok J => .ok (s, J)
    match computed with
    | .error e => .error e
    | .ok (s0, J) =>
      let s1 := { s0 with mCachedVelVel := J }
      match slowDebugCheck ext s1 s1.mCachedVelVel (ext.finiteDifferenceVelVelJacobian s1 world) with
      | .error e => .error e
      | .ok _ => .ok { s1 with mCachedVelVelDirty := false }
  else .ok s

/-- The matrix `W` of `getBounceApproximationJacobian`: for column `i` and
`j < rows`, the block at `(j * rows, i)` of height `rows` is `a_i(j) * a_i`. -/
def bounceW (A_b : Mat) : Mat :=
  ⟨A_b.rows * A_b.rows, A_b.cols, fun x i =>
    if x < A_b.rows * A_b.rows ∧ i < A_b.cols then
      A_b.coeff (x / A_b.rows) i * A_b.coeff (x % A_b.rows) i
    else 0⟩

/-- The vector `center` of `getBounceApproximationJacobian`: zero except for
`center(i * n + i) = 1`, `i < n`. -/
def bounceCenter (n : Nat) : Vec :=
  (List.range (n * n)).map (fun x => if x / n = x % n then 1 else 0)

/-- The routine `BackpropSnapshot::getBounceApproximationJacobian`. -/
def getBounceApproximationJacobian (ext : External) (s : BackpropSnapshot) (world : World) :
    Except Failure BackpropSnapshot :=
  if s.mCachedBounceApproximationDirty then
    let world1 := rewind s world
    match getBouncingConstraintMatrix s world1 with
    | .error e => .error e
    | .ok A_b =>
      if A_b.size = 0 then
        .ok { s with
          mCachedBounceApproximation := Mat.identity s.mNumDOFs s.mNumDOFs
          mCachedBounceApproximationDirty := false }
      else
        match getRestitutionDiagonals ext s with
        | .error e => .error e
        | .ok restitution =>
          let W := bounceW A_b
          let center := bounceCenter s.mNumDOFs
          let q := Vec.sub center
            (ext.solve W.transpose (Vec.add restitution (W.transpose.mulVec center)))
          let X : Mat :=
            ⟨s.mNumDOFs, s.mNumDOFs, fun r i =>
              if r < s.mNumDOFs ∧ i < s.mNumDOFs then coeffAt q (i * s.mNumDOFs + r) else 0⟩
          .ok { s with
            mCachedBounceApproximation := X
            mCachedBounceApproximationDirty := false }
  else .ok s

/-- The routine `BackpropSnapshot::getPosPosJacobian`. -/
def getPosPosJacobian (ext : External) (s : BackpropSnapshot) (world : World) :
    Except Failure BackpropSnapshot :=
  if s.mCachedPosPosDirty then
    let computed : Except Failure (BackpropSnapshot × Mat) :=
      if s.mUseFDOverride then .ok (s, ext.finiteDifferencePosPosJacobian s world)
      else
        let world1 := rewind s world
        match getBounceApproximationJacobian ext s world1 with
        | .error e => .error e
        | .ok s0 => .ok (s0, (ext.worldPosPosJacobian world1).mul s0.mCachedBounceApproximation)
    match computed with
    | .error e => .error e
    | .ok (s0, J) =>
      let s1 := { s0 with mCachedPosPos := J }
      match slowDebugCheck ext s1 s1.mCachedPosPos (ext.finiteDifferencePosPosJacobian s1 world) with
      | .error e => .error e
      | .ok _ => .ok { s1 with mCachedPosPosDirty := false }
  else .ok s

/-- The routine `BackpropSnapshot::getVelPosJacobian`. -/
def getVelPosJacobian (ext : External) (s : BackpropSnapshot) (world : World) :
    Except Failure BackpropSnapshot :=
  if s.mCachedVelPosDirty then
    let computed : Except Failure (BackpropSnapshot × Mat) :=
      if s.mUseFDOverride then .ok (s, ext.finiteDifferenceVelPosJacobian s world)
      else
        match getBounceApproximationJacobian ext s world with
        | .error e => .error e
        | .ok s0 => .ok (s0, (ext.worldVelPosJacobian world).mul s0.mCachedBounceApproximation)
    match computed with
    | .error e => .error e
    | .ok (s0, J) =>
      let s1 := { s0 with mCachedVelPos := J }
      match slowDebugCheck ext s1 s1.mCachedVelPos (ext.finiteDifferenceVelPosJacobian s1 world) with
      | .error e => .error e
      | .ok _ => .ok { s1 with mCachedVelPosDirty := false }
  else .ok s

/-! ## Backward propagation -/

/-- The six getter calls at the head of the chained branch of `backprop`, in
source order. The returned references designate the caches of the final
snapshot. -/
def getSixJacobians (ext : External) (s : BackpropSnapshot) (world : World) :
    Except Failure BackpropSnapshot :=
  match getPosPosJacobian ext s world with
  | .error e => .error e
  | .ok s1 =>
  match getPosVelJacobian ext s1 world with
  | .error e => .error e
  | .ok s2 =>
  match getVelPosJacobian ext s2 world with
  | .error e => .error e
  | .ok s3 =>
  match getVelVelJacobian ext s3 world with
  | .error e => .error e
  | .ok s4 =>
  match getForceVelJacobian ext s4 world with
  | .error e => .error e
  | .ok s5 => getMassVelJacobian ext s5 world

/-- The chain rule of the chained branch (lines 161-170), before clipping. -/
def chainedLoss (s : BackpropSnapshot) (nextTimestepLoss : LossGradient) : LossGradient :=
  { lossWrtPosition :=
      Vec.add (s.mCachedPosPos.transpose.mulVec nextTimestepLoss.lossWrtPosition)
        (s.mCachedPosVel.transpose.mulVec nextTimestepLoss.lossWrtVelocity)
    lossWrtVelocity :=
      Vec.add (s.mCachedVelPos.transpose.mulVec nextTimestepLoss.lossWrtPosition)
        (s.mCachedVelVel.transpose.mulVec nextTimestepLoss.lossWrtVelocity)
    lossWrtTorque := s.mCachedForceVel.transpose.mulVec nextTimestepLoss.lossWrtVelocity
    lossWrtMass := s.mCachedMassVel.transpose.mulVec nextTimestepLoss.lossWrtVelocity }

/-- First inner loop of the per-group branch (lines 218-238): copies the
world segments of the next-step gradient into the group vectors and records
the skeletons visited. -/
def gatherGroupLoss (s : BackpropSnapshot) (world : World) (nextTimestepLoss : LossGradient) :
    List String → Nat → List String → LossGradient → Except Failure (List String × LossGradient)
  | [], _, skeletonsVisited, groupNextTimestepLoss => .ok (skeletonsVisited, groupNextTimestepLoss)
  | name :: rest, cursor, skeletonsVisited, groupNextTimestepLoss =>
    match world.getSkeleton name with
    | none => .error .nullSkeleton
    | some skel =>
      let dofCursorWorld := s.mSkeletonOffset skel.name
      let dofs := skel.getNumDofs
      if skel.name ∈ skeletonsVisited then .error .assertion
      else
        gatherGroupLoss s world nextTimestepLoss rest (cursor + dofs) (skel.name :: skeletonsVisited)
          { groupNextTimestepLoss with
            lossWrtPosition :=
              writeSegment groupNextTimestepLoss.lossWrtPosition cursor dofs
                (segmentOf nextTimestepLoss.lossWrtPosition dofCursorWorld dofs)
            lossWrtVelocity :=
              writeSegment groupNextTimestepLoss.lossWrtVelocity cursor dofs
                (segmentOf nextTimestepLoss.lossWrtVelocity dofCursorWorld dofs) }

/-- Second inner loop of the per-group branch (lines 250-265): writes the
group result back into the world segments. -/
def scatterGroupLoss (s : BackpropSnapshot) (world : World) (groupThisTimestepLoss : LossGradient) :
    List String → Nat → LossGradient → Except Failure LossGradient
  | [], _, thisTimestepLoss => .ok thisTimestepLoss
  | name :: rest, cursor, thisTimestepLoss =>
    match world.getSkeleton name with
    | none => .error .nullSkeleton
    | some skel =>
      let dofCursorWorld := s.mSkeletonOffset skel.name
      let dofs := skel.getNumDofs
      scatterGroupLoss s world groupThisTimestepLoss rest (cursor + dofs)
        { thisTimestepLoss with
          lossWrtPosition :=
            writeSegment thisTimestepLoss.lossWrtPosition dofCursorWorld dofs
              (segmentOf groupThisTimestepLoss.lossWrtPosition cursor dofs)
          lossWrtVelocity :=
            writeSegment thisTimestepLoss.lossWrtVelocity dofCursorWorld dofs
              (segmentOf groupThisTimestepLoss.lossWrtVelocity cursor dofs)
          lossWrtTorque :=
            writeSegment thisTimestepLoss.lossWrtTorque dofCursorWorld dofs
              (segmentOf groupThisTimestepLoss.lossWrtTorque cursor dofs) }

/-- The loop over the constraint groups of the per-group branch (lines
203-266). `groupThis` and `groupNext` are the two locals declared before the
loop; each iteration resets only the fields that the source resets. -/
def backpropGroups (ext : External) (s : BackpropSnapshot) (world : World)
    (nextTimestepLoss : LossGradient) (exploreAlternateStrategies : Bool) :
    List ConstrainedGroupGradientMatrices → List String → LossGradient → LossGradient →
      LossGradient → Except Failure (List String × LossGradient)
  | [], skeletonsVisited, _, _, thisTimestepLoss => .ok (skeletonsVisited, thisTimestepLoss)
  | group :: rest, skeletonsVisited, groupThis, groupNext, thisTimestepLoss =>
    let groupDofs := group.numDOFs
    let groupNext0 : LossGradient :=
      { groupNext with lossWrtPosition := Vec.zero groupDofs, lossWrtVelocity := Vec.zero groupDofs }
    let groupThis0 : LossGradient :=
      { groupThis with
        lossWrtPosition := Vec.zero groupDofs
        lossWrtVelocity := Vec.zero groupDofs
        lossWrtTorque := Vec.zero groupDofs }
    match gatherGroupLoss s world nextTimestepLoss group.skeletons 0 skeletonsVisited groupNext0 with
    | .error e => .error e
    | .ok (visited1, groupNext1) =>
      let groupThis1 :=
        ext.groupBackprop group world groupThis0 groupNext1 exploreAlternateStrategies
      match scatterGroupLoss s world groupThis1 group.skeletons 0 thisTimestepLoss with
      | .error e => .error e
      | .ok thisTimestepLoss1 =>
        backpropGroups ext s world nextTimestepLoss exploreAlternateStrategies rest visited1
          groupThis1 groupNext1 thisTimestepLoss1

/-- The loop over the skeletons that no constraint group covers (lines 273-358). -/
def backpropUngrouped (ext : External) (s : BackpropSnapshot) (world : World)
    (nextTimestepLoss : LossGradient) (skeletonsVisited : List String) :
    List Skeleton → LossGradient → LossGradient
  | [], thisTimestepLoss => thisTimestepLoss
  | skel :: rest, thisTimestepLoss =>
    if skel.name ∉ skeletonsVisited ∧ skel.mobile = true then
      let dofCursorWorld := s.mSkeletonOffset skel.name
      let dofs := skel.getNumDofs
      let Minv := ext.skelInvMassMatrix skel
      let forceVel := Mat.scale s.mTimeStep Minv
      let velVel :=
        (Mat.identity skel.getNumDofs skel.getNumDofs).sub
          ((Mat.scale s.mTimeStep Minv).mul (ext.skelVelCJacobian skel))
      let posVel := ext.skelUnconstrainedVelJacobianWrtPosition skel world.timeStep
      let posPos := Mat.identity skel.getNumDofs skel.getNumDofs
      let velPos := Mat.scale s.mTimeStep (Mat.identity skel.getNumDofs skel.getNumDofs)
      let nextVel := segmentOf nextTimestepLoss.lossWrtVelocity dofCursorWorld dofs
      let nextPos := segmentOf nextTimestepLoss.lossWrtPosition dofCursorWorld dofs
      backpropUngrouped ext s world nextTimestepLoss skeletonsVisited rest
        { thisTimestepLoss with
          lossWrtTorque :=
            writeSegment thisTimestepLoss.lossWrtTorque dofCursorWorld dofs
              (forceVel.transpose.mulVec nextVel)
          lossWrtVelocity :=
            writeSegment thisTimestepLoss.lossWrtVelocity dofCursorWorld dofs
              (Vec.add (velVel.transpose.mulVec nextVel) (velPos.transpose.mulVec nextPos))
          lossWrtPosition :=
            writeSegment thisTimestepLoss.lossWrtPosition dofCursorWorld dofs
              (Vec.add (posVel.transpose.mulVec nextVel) (posPos.transpose.mulVec nextPos)) }
    else backpropUngrouped ext s world nextTimestepLoss skeletonsVisited rest thisTimestepLoss

/-- The world after lines 136-139 of `backprop`: set to the pre-step position,
velocity and force of the snapshot (the cached LCP solution is left alone). -/
def preStepWorld (s : BackpropSnapshot) (world : World) : World :=
  ((world.setPositions s.mPreStepPosition).setVelocities s.mPreStepVelocity).setExternalForces
    s.mPreStepTorques

/-- The routine `BackpropSnapshot::backprop`: the updated snapshot (its caches)
and the value left in `thisTimestepLoss`. The world handed to the getters, to
the groups and to the clipping is the one set to the pre-step position,
velocity and force (lines 136-139). -/
def backprop (ext : External) (s : BackpropSnapshot) (world : World)
    (nextTimestepLoss : LossGradient) (exploreAlternateStrategies : Bool) :
    Except Failure (BackpropSnapshot × LossGradient) :=
  let world1 := preStepWorld s world
  let thisTimestepLoss0 : LossGradient :=
    { lossWrtPosition := Vec.zero s.mNumDOFs
      lossWrtVelocity := Vec.zero s.mNumDOFs
      lossWrtTorque := Vec.zero s.mNumDOFs
      lossWrtMass := Vec.zero (ext.massDims world1) }
  if exploreAlternateStrategies = false then
    match getSixJacobians ext s world1 with
    | .error e => .error e
    | .ok s1 =>
      let chained := chainedLoss s1 nextTimestepLoss
      let clipped :=
        clipLossGradientsToBounds world1
          ⟨chained.lossWrtPosition, chained.lossWrtVelocity, chained.lossWrtTorque⟩
      .ok (s1,
        { lossWrtPosition := clipped.lossWrtPos
          lossWrtVelocity := clipped.lossWrtVel
          lossWrtTorque := clipped.lossWrtForce
          lossWrtMass := chained.lossWrtMass })
  else
    match getMassVelJacobian ext s world1 with
    | .error e => .error e
    | .ok s1 =>
      let thisTimestepLoss1 : LossGradient :=
        { thisTimestepLoss0 with
          lossWrtMass := s1.mCachedMassVel.transpose.mulVec nextTimestepLoss.lossWrtVelocity }
      let empty : LossGradient := ⟨[], [], [], []⟩
      match backpropGroups ext s1 world1 nextTimestepLoss exploreAlternateStrategies
          s1.mGradientMatrices [] empty empty thisTimestepLoss1 with
      | .error e => .error e
      | .ok (skeletonsVisited, thisTimestepLoss2) =>
        .ok (s1, backpropUngrouped ext s1 world1 nextTimestepLoss skeletonsVisited
          world1.skeletons thisTimestepLoss2)

/-! ## The other routines that write members of the snapshot -/

/-- The routine `BackpropSnapshot::setUseFDOverride`. -/
def setUseFDOverride (s : BackpropSnapshot) (fdOverride : Bool) : BackpropSnapshot :=
  { s with mUseFDOverride := fdOverride }

/-- The routine `BackpropSnapshot::setSlowDebugResultsAgainstFD`. -/
def setSlowDebugResultsAgainstFD (s : BackpropSnapshot) (slowDebug : Bool) : BackpropSnapshot :=
  { s with mSlowDebugResultsAgainstFD := slowDebug }

/-- The routine `BackpropSnapshot::getPosJacobianWrt`: the updated snapshot and
the matrix returned. -/
def getPosJacobianWrt (ext : External) (s : BackpropSnapshot) (world : World)
    (wrt : WithRespectTo) : Except Failure (BackpropSnapshot × Mat) :=
  if wrt = .POSITION then
    match getPosPosJacobian ext s world with
    | .error e => .error e
    | .ok s1 => .ok (s1, s1.mCachedPosPos)
  else if wrt = .VELOCITY then
    match getVelPosJacobian ext s world with
    | .error e => .error e
    | .ok s1 => .ok (s1, s1.mCachedVelPos)
  else .ok (s, Mat.zero s.mNumDOFs (ext.wrtDim wrt world))

/-- One pass of the sampling loop of `benchmarkJacobians` (lines 1824-1935), as
far as the snapshot goes: the two constraint lists are collected, each of five
dirty flags is set and its getter called; the finite-difference calls that
follow are timed and their results dropped. -/
def benchmarkSample (ext : External) (world : World) (s : BackpropSnapshot) :
    Except Failure BackpropSnapshot :=
  match getClampingConstraints s with
  | .error e => .error e
  | .ok _ =>
  match getPosPosJacobian ext { s with mCachedPosPosDirty := true } world with
  | .error e => .error e
  | .ok s1 =>
  match getPosVelJacobian ext { s1 with mCachedPosVelDirty := true } world with
  | .error e => .error e
  | .ok s2 =>
  match getVelPosJacobian ext { s2 with mCachedVelPosDirty := true } world with
  | .error e => .error e
  | .ok s3 =>
  match getVelVelJacobian ext { s3 with mCachedVelVelDirty := true } world with
  | .error e => .error e
  | .ok s4 => getForceVelJacobian ext { s4 with mCachedForceVelDirty := true } world

/-- The sampling loop `for (int sample = 0; sample < numSamples; sample++)`. -/
def benchmarkSamples (ext : External) (world : World) :
    Nat → BackpropSnapshot → Except Failure BackpropSnapshot
  | 0, s => .ok s
  | k + 1, s =>
    match benchmarkSample ext world s with
    | .error e => .error e
    | .ok s1 => benchmarkSamples ext world k s1

/-- The routine `BackpropSnapshot::benchmarkJacobians`, as far as the snapshot
goes: the sampling loop, then one call of each of the five getters for the
accuracy report. -/
def benchmarkJacobians (ext : External) (s : BackpropSnapshot) (world : World)
    (numSamples : Int) : Except Failure BackpropSnapshot :=
  match benchmarkSamples ext world numSamples.toNat s with
  | .error e => .error e
  | .ok s0 =>
  match getPosPosJacobian ext s0 world with
  | .error e => .error e
  | .ok s1 =>
  match getPosVelJacobian ext s1 world with
  | .error e => .error e
  | .ok s2 =>
  match getVelPosJacobian ext s2 world with
  | .error e => .error e
  | .ok s3 =>
  match getVelVelJacobian ext s3 world with
  | .error e => .error e
  | .ok s4 => getForceVelJacobian ext s4 world

/-! ## Finite differencing of the clamping constraint matrix -/

/-- Modelled from the spec: the snapshot/restore primitive `RestorableSnapshot`
of the world (declared in `RestorableSnapshot.hpp`): the positions,
velocities, external forces and cached LCP solution recorded by its
constructor. -/
structure RestorableSnapshot where
  mPositions : Vec
  mVelocities : Vec
  mForces : Vec
  mLCPCache : Vec

/-- Modelled from the spec: the constructor `RestorableSnapshot snapshot(world)`. -/
def RestorableSnapshot.create (world : World) : RestorableSnapshot :=
  { mPositions := world.getPositions
    mVelocities := world.getVelocities
    mForces := world.getExternalForces
    mLCPCache := world.cachedLCPSolution }

/-- Modelled from the spec: the call `snapshot.restore()`, which writes the
recorded state back into the world. The routines of `BackpropSnapshot.cpp`
call it by hand before they return; the world is restored at those calls. -/
def RestorableSnapshot.restore (snapshot : RestorableSnapshot) (world : World) : World :=
  (((world.setPositions snapshot.mPositions).setVelocities snapshot.mVelocities).setExternalForces
    snapshot.mForces).setCachedLCPSolution snapshot.mLCPCache

/-- The routine `finiteDifferenceRiddersJacobianOfClampingConstraintsTranspose`
(lines 5431-5557) with the state of the world made explicit: the result is the
world as the routine leaves it and the matrix returned. The loop over the
DOFs, which perturbs the world and runs `neural::forwardPass` on it, is the
parameter `columns`; it receives the restorable snapshot, the world and the
zero matrix `J`. -/
def finiteDifferenceRiddersJacobianOfClampingConstraintsTranspose
    (columns : RestorableSnapshot → World → Mat → Except Failure (World × Mat))
    (s : BackpropSnapshot) (world : World) (v0 : Vec) : Except Failure (World × Mat) :=
  let snapshot := RestorableSnapshot.create world
  let world1 :=
    (((world.setPositions s.mPreStepPosition).setVelocities s.mPreStepVelocity).setExternalForces
      s.mPreStepTorques).setCachedLCPSolution s.mPreStepLCPCache
  match getClampingConstraintMatrix s world1 with
  | .error e => .error e
  | .ok A_c =>
    let original := A_c.transpose.mulVec v0
    let J := Mat.zero original.length s.mNumDOFs
    if original.length = 0 then .ok (world1, J)
    else
      match columns snapshot world1 J with
      | .error e => .error e
      | .ok (world2, J2) => .ok (snapshot.restore world2, J2)

/-- The routine `finiteDifferenceJacobianOfClampingConstraintsTranspose`
(lines 5343-5425) with the state of the world made explicit. The loop over the
DOFs of the plain central difference is the parameter `plainColumns`, that of
the Ridders routine the parameter `riddersColumns`. -/
def finiteDifferenceJacobianOfClampingConstraintsTranspose
    (plainColumns riddersColumns :
      RestorableSnapshot → World → Mat → Except Failure (World × Mat))
    (s : BackpropSnapshot) (world : World) (v0 : Vec) (useRidders : Bool) :
    Except Failure (World × Mat) :=
  if useRidders then
    finiteDifferenceRiddersJacobianOfClampingConstraintsTranspose riddersColumns s world v0
  else
    let snapshot := RestorableSnapshot.create world
    let world1 :=
      (((world.setPositions s.mPreStepPosition).setVelocities
        s.mPreStepVelocity).setExternalForces s.mPreStepTorques).setCachedLCPSolution
          s.mPreStepLCPCache
    match getClampingConstraintMatrix s world1 with
    | .error e => .error e
    | .ok A_c =>
      let original := A_c.transpose.mulVec v0
      let result := Mat.zero original.length s.mNumDOFs
      match plainColumns snapshot world1 result with
      | .error e => .error e
      | .ok (world2, result2) => .ok (snapshot.restore world2, result2)

/-! ## Finite differences

The finite-difference routines reach the world only through calls on it, on
the differentiation variable and on `neural::forwardPass`; they are embedded
over an arbitrary world state `σ` with these calls as parameters. -/

/-- The calls that the finite-difference routines make on the world
(`World.cpp`, `Skeleton.cpp`), on the differentiation variable
(`WithRespectTo.cpp`) and on the forward pass (`NeuralUtils.cpp`), for a world
state of type `σ`. Each is a parameter; nothing is assumed about its result. -/
structure WorldCalls (σ : Type) where
  getPositions : σ → Vec
  getVelocities : σ → Vec
  getExternalForces : σ → Vec
  getCachedLCPSolution : σ → Vec
  setPositions : σ → Vec → σ
  setVelocities : σ → Vec → σ
  setExternalForces : σ → Vec → σ
  setCachedLCPSolution : σ → Vec → σ
  getTimeStep : σ → ℚ
  setTimeStep : σ → ℚ → σ
  getNumDofs : σ → Nat
  /-- The call `world->step(false)`. -/
  step : σ → σ
  /-- The call `neural::forwardPass(world, true)`: the snapshot of one step
  from the state of the world; the idempotent pass leaves the world as it was. -/
  forwardPass : σ → BackpropSnapshot
  /-- The call `wrt->dim(world)`. -/
  wrtDim : WithRespectTo → σ → Nat
  /-- The call `wrt->get(world)`. -/
  wrtGet : WithRespectTo → σ → Vec
  /-- The call `wrt->set(world, value)`. -/
  wrtSet : WithRespectTo → σ → Vec → σ
  /-- The call `world->getCoriolisAndGravityAndExternalForces()`. -/
  getCoriolisAndGravityAndExternalForces : σ → Vec
  /-- The DOF counts `world->getSkeleton(i)->getNumDofs()`, in world order. -/
  skeletonDofs : σ → List Nat
  /-- The call `world->getSkeleton(i)->multiplyByImplicitInvMassMatrix(x)`. -/
  multiplyByImplicitInvMassMatrix : σ → Nat → Vec → Vec
  /-- The call `snapshot->getProjectionIntoClampsMatrix(world, forFiniteDifferencing)`. -/
  getProjectionIntoClampsMatrix : BackpropSnapshot → σ → Bool → Mat

/-- Modelled from the spec: the constructor `RestorableSnapshot snapshot(world)`
for a world driven through `WorldCalls`. -/
def RestorableSnapshot.record {σ : Type} (calls : WorldCalls σ) (world : σ) :
    RestorableSnapshot :=
  { mPositions := calls.getPositions world
    mVelocities := calls.getVelocities world
    mForces := calls.getExternalForces world
    mLCPCache := calls.getCachedLCPSolution world }

/-- Modelled from the spec: the call `snapshot.restore()` for a world driven
through `WorldCalls`. -/
def RestorableSnapshot.restoreTo {σ : Type} (calls : WorldCalls σ)
    (snapshot : RestorableSnapshot) (world : σ) : σ :=
  calls.setCachedLCPSolution
    (calls.setExternalForces
      (calls.setVelocities (calls.setPositions world snapshot.mPositions) snapshot.mVelocities)
      snapshot.mForces)
    snapshot.mLCPCache

/-- The assignment `v(i) += h` on a dense vector. -/
def Vec.addAt (v : Vec) (i : Nat) (h : ℚ) : Vec := v.set i (coeffAt v i + h)

/-- The quotient `v / c` of a dense vector by a scalar. -/
def Vec.div (v : Vec) (c : ℚ) : Vec := v.map (fun x => x / c)

/-- The difference `a - b` of two dense vectors of run-time size; the
linear-algebra library asserts that the sizes agree. -/
def Vec.subSized (a b : Vec) : Except Failure Vec :=
  if a.length = b.length then .ok (Vec.sub a b) else .error .assertion

/-- The call `v.array().abs().maxCoeff()`; the linear-algebra library asserts
that the vector is not empty. -/
def Vec.absMaxCoeff : Vec → Except Failure ℚ
  | [] => .error .assertion
  | x :: xs => .ok (xs.foldl (fun m y => max m |y|) |x|)

/-- The matrix `J` with column `i` replaced by `v`. -/
def Mat.setCol (J : Mat) (i : Nat) (v : Vec) : Mat :=
  ⟨J.rows, J.cols, fun r c => if c = i then coeffAt v r else J.coeff r c⟩

/-- The assignment `J.col(i) = v`; the linear-algebra library asserts that the
column exists and that `v` has as many entries as `J` has rows. -/
def Mat.assignCol (J : Mat) (i : Nat) (v : Vec) : Except Failure Mat :=
  if i < J.cols ∧ v.length = J.rows then .ok (J.setCol i v) else .error .assertion

/-- The value `std::numeric_limits<double>::max()`, `(2 - 2^-52) * 2^1023`. -/
def maxDouble : ℚ := (2 ^ 53 - 1) * 2 ^ 971

/-- The Neville tableau `std::array<std::array<Eigen::VectorXd, tabSize>,
tabSize> tab` of the Ridders routines; an entry not yet assigned is the empty
vector of the default constructor. -/
def Tableau : Type := Nat → Nat → Vec

/-- The tableau as declared. -/
def Tableau.fresh : Tableau := fun _ _ => []

/-- The assignment `tab[j][k] = v`. -/
def Tableau.assign (tab : Tableau) (j k : Nat) (v : Vec) : Tableau :=
  fun a b => if a = j ∧ b = k then v else tab a b

/-- The extrapolation `(a * fac - b) / (fac - 1.0)` of the Ridders routines. -/
def riddersCombine (a b : Vec) (fac : ℚ) : Except Failure Vec :=
  match Vec.subSized (a.map (fun x => x * fac)) b with
  | .error e => .error e
  | .ok d => .ok (d.div (fac - 1))

/-- The loop `for (int jTab = 1; jTab <= iTab; jTab++)` shared by the Ridders
routines (for instance lines 6092-6106), for column `i` of `J`: the state is
`jTab`, `fac`, the tableau, `bestError` and `J`; the first argument counts the
passes left. -/
def riddersExtrapolate (con2 : ℚ) (i iTab : Nat) :
    Nat → Nat → ℚ → Tableau → ℚ → Mat → Except Failure (Tableau × ℚ × Mat)
  | 0, _, _, tab, bestError, J => .ok (tab, bestError, J)
  | n + 1, jTab, fac, tab, bestError, J =>
    match riddersCombine (tab (jTab - 1) iTab) (tab (jTab - 1) (iTab - 1)) fac with
    | .error e => .error e
    | .ok t =>
    let tab1 := tab.assign jTab iTab t
    match Vec.subSized (tab1 jTab iTab) (tab1 (jTab - 1) iTab) with
    | .error e => .error e
    | .ok d1 =>
    match d1.absMaxCoeff with
    | .error e => .error e
    | .ok e1 =>
    match Vec.subSized (tab1 jTab iTab) (tab1 (jTab - 1) (iTab - 1)) with
    | .error e => .error e
    | .ok d2 =>
    match d2.absMaxCoeff with
    | .error e => .error e
    | .ok e2 =>
      let currError := max e1 e2
      if currError < bestError then
        match J.assignCol i (tab1 jTab iTab) with
        | .error e => .error e
        | .ok J1 => riddersExtrapolate con2 i iTab n (jTab + 1) (con2 * fac) tab1 currError J1
      else
        riddersExtrapolate con2 i iTab n (jTab + 1) (con2 * fac) tab1 bestError J

/-- The test `(tab[iTab][iTab] - tab[iTab-1][iTab-1]).array().abs().maxCoeff()
>= safeThreshold * bestError` that ends the loop over the step sizes early. -/
def riddersQuitEarly (safeThreshold : ℚ) (iTab : Nat) (tab : Tableau) (bestError : ℚ) :
    Except Failure Bool :=
  match Vec.subSized (tab iTab iTab) (tab (iTab - 1) (iTab - 1)) with
  | .error e => .error e
  | .ok d =>
    match d.absMaxCoeff with
    | .error e => .error e
    | .ok e => .ok (decide (e ≥ safeThreshold * bestError))

/-- Skeleton loop of `implicitMultiplyByInvMassMatrix`. -/
def implicitMultiplyByInvMassMatrixLoop {σ : Type} (calls : WorldCalls σ) (world : σ)
    (x : Vec) : List Nat → Nat → Nat → Vec → Vec
  | [], _, _, result => result
  | dofs :: rest, i, cursor, result =>
    implicitMultiplyByInvMassMatrixLoop calls world x rest (i + 1) (cursor + dofs)
      (writeSegment result cursor dofs
        (calls.multiplyByImplicitInvMassMatrix world i (segmentOf x cursor dofs)))

/-- The routine `BackpropSnapshot::implicitMultiplyByInvMassMatrix`. -/
def implicitMultiplyByInvMassMatrix {σ : Type} (calls : WorldCalls σ) (world : σ) (x : Vec) :
    Vec :=
  implicitMultiplyByInvMassMatrixLoop calls world x (calls.skeletonDofs world) 0 0 x

/-- The loop `for (int iTab = 1; iTab < tabSize; iTab++)` of
`finiteDifferenceRiddersJacobianOfMinv` (lines 6076-6113) and of
`finiteDifferenceRiddersJacobianOfC` (lines 6206-6243), which differ only in
the quantity `sample` read from the perturbed world. The state is `iTab`,
`stepSize`, the world, the tableau, `bestError` and `J`; the first argument
counts the passes left. -/
def riddersStepSizes {σ : Type} (calls : WorldCalls σ) (sample : σ → Vec)
    (wrt : WithRespectTo) (originalWrt : Vec) (i : Nat) :
    Nat → Nat → ℚ → σ → Tableau → ℚ → Mat → Except Failure (σ × Mat)
  | 0, _, _, world, _, _, J => .ok (world, J)
  | n + 1, iTab, stepSize, world, tab, bestError, J =>
    let con : ℚ := 14 / 10
    let con2 : ℚ := con * con
    let safeThreshold : ℚ := 2
    let stepSize1 := stepSize / con
    let perturbedPlus := Vec.addAt originalWrt i stepSize1
    let world1 := calls.wrtSet wrt world perturbedPlus
    let plus := sample world1
    let perturbedMinus := Vec.addAt originalWrt i (-stepSize1)
    let world2 := calls.wrtSet wrt world1 perturbedMinus
    let minus := sample world2
    match Vec.subSized plus minus with
    | .error e => .error e
    | .ok d =>
    let tab1 := tab.assign 0 iTab (d.div (2 * stepSize1))
    match riddersExtrapolate con2 i iTab iTab 1 con2 tab1 bestError J with
    | .error e => .error e
    | .ok (tab2, bestError2, J2) =>
    match riddersQuitEarly safeThreshold iTab tab2 bestError2 with
    | .error e => .error e
    | .ok quit =>
      if quit then .ok (world2, J2)
      else riddersStepSizes calls sample wrt originalWrt i n (iTab + 1) stepSize1 world2 tab2
        bestError2 J2

/-- The loop over the columns `i < innerDim` of
`finiteDifferenceRiddersJacobianOfMinv` (lines 6052-6114) and of
`finiteDifferenceRiddersJacobianOfC` (lines 6182-6244). -/
def riddersColumns {σ : Type} (calls : WorldCalls σ) (sample : σ → Vec)
    (wrt : WithRespectTo) (originalWrt : Vec) :
    Nat → Nat → σ → Mat → Except Failure (σ × Mat)
  | 0, _, world, J => .ok (world, J)
  | n + 1, i, world, J =>
    let originalStepSize : ℚ := 1 / 1000
    let tabSize : Nat := 10
    let stepSize := originalStepSize
    let bestError := maxDouble
    let tab := Tableau.fresh
    let perturbedPlus := Vec.addAt originalWrt i stepSize
    let world1 := calls.wrtSet wrt world perturbedPlus
    let plus := sample world1
    let perturbedMinus := Vec.addAt originalWrt i (-stepSize)
    let world2 := calls.wrtSet wrt world1 perturbedMinus
    let minus := sample world2
    match Vec.subSized plus minus with
    | .error e => .error e
    | .ok d =>
    let tab1 := tab.assign 0 0 (d.div (2 * stepSize))
    match riddersStepSizes calls sample wrt originalWrt i (tabSize - 1) 1 stepSize world2 tab1
        bestError J with
    | .error e => .error e
    | .ok (world3, J1) => riddersColumns calls sample wrt originalWrt n (i + 1) world3 J1

/-- The routine `BackpropSnapshot::finiteDifferenceRiddersJacobianOfMinv`: the
world as the routine leaves it and the matrix returned. -/
def finiteDifferenceRiddersJacobianOfMinv {σ : Type} (calls : WorldCalls σ) (world : σ)
    (tau : Vec) (wrt : WithRespectTo) : Except Failure (σ × Mat) :=
  let snapshot := RestorableSnapshot.record calls world
  let innerDim := calls.wrtDim wrt world
  let original := implicitMultiplyByInvMassMatrix calls world tau
  let J := Mat.zero original.length innerDim
  let originalWrt := calls.wrtGet wrt world
  match riddersColumns calls (fun w => implicitMultiplyByInvMassMatrix calls w tau) wrt
      originalWrt innerDim 0 world J with
  | .error e => .error e
  | .ok (world1, J1) =>
    .ok (snapshot.restoreTo calls (calls.wrtSet wrt world1 originalWrt), J1)

/-- The routine `BackpropSnapshot::finiteDifferenceRiddersJacobianOfC`: the
world as the routine leaves it and the matrix returned. -/
def finiteDifferenceRiddersJacobianOfC {σ : Type} (calls : WorldCalls σ) (world : σ)
    (wrt : WithRespectTo) : Except Failure (σ × Mat) :=
  let snapshot := RestorableSnapshot.record calls world
  let innerDim := calls.wrtDim wrt world
  let original := calls.getCoriolisAndGravityAndExternalForces world
  let J := Mat.zero original.length innerDim
  let originalWrt := calls.wrtGet wrt world
  match riddersColumns calls calls.getCoriolisAndGravityAndExternalForces wrt
      originalWrt innerDim 0 world J with
  | .error e => .error e
  | .ok (world1, J1) =>
    .ok (snapshot.restoreTo calls (calls.wrtSet wrt world1 originalWrt), J1)

/-- The four calls `world->setPositions(mPreStepPosition);
world->setVelocities(mPreStepVelocity); world->setExternalForces(mPreStepTorques);
world->setCachedLCPSolution(mPreStepLCPCache);` on a world driven through
`WorldCalls`. -/
def rewindWith {σ : Type} (calls : WorldCalls σ) (s : BackpropSnapshot) (world : σ) : σ :=
  calls.setCachedLCPSolution
    (calls.setExternalForces
      (calls.setVelocities (calls.setPositions world s.mPreStepPosition) s.mPreStepVelocity)
      s.mPreStepTorques)
    s.mPreStepLCPCache

/-- The three calls `world->setVelocities(mPreStepVelocity);
world->setExternalForces(mPreStepTorques);
world->setCachedLCPSolution(mPreStepLCPCache);` of `finiteDifferencePosPosJacobian`. -/
def rewindAllButPositions {σ : Type} (calls : WorldCalls σ) (s : BackpropSnapshot) (world : σ) :
    σ :=
  calls.setCachedLCPSolution
    (calls.setExternalForces (calls.setVelocities world s.mPreStepVelocity) s.mPreStepTorques)
    s.mPreStepLCPCache

/-- The three calls `world->setPositions(mPreStepPosition);
world->setExternalForces(mPreStepTorques);
world->setCachedLCPSolution(mPreStepLCPCache);` of `finiteDifferenceVelVelJacobian`. -/
def rewindAllButVelocities {σ : Type} (calls : WorldCalls σ) (s : BackpropSnapshot) (world : σ) :
    σ :=
  calls.setCachedLCPSolution
    (calls.setExternalForces (calls.setPositions world s.mPreStepPosition) s.mPreStepTorques)
    s.mPreStepLCPCache

/-- A matrix declared as `Eigen::MatrixXd J(rows, cols)`: its coefficients are
the content `uninitialised` of freshly allocated column-major storage. -/
def Mat.declared (rows cols : Nat) (uninitialised : Nat → ℚ) : Mat :=
  ⟨rows, cols, fun r c => uninitialised (c * rows + r)⟩

/-- The loop `for (j = 0; j < subdivisions; j++) world->step(false);`. -/
def stepTimes {σ : Type} (calls : WorldCalls σ) : Nat → σ → σ
  | 0, world => world
  | n + 1, world => stepTimes calls n (calls.step world)

/-! ### Plain finite differences -/

/-- The loop over the columns of `finiteDifferenceJacobianOfC` (lines
6139-6151); the first argument counts the columns left. -/
def finiteDifferenceJacobianOfCLoop {σ : Type} (calls : WorldCalls σ) (wrt : WithRespectTo)
    (before : Vec) : Nat → Nat → σ → Mat → Except Failure (σ × Mat)
  | 0, _, world, result => .ok (world, result)
  | n + 1, i, world, result =>
    let EPS : ℚ := 1 / 10 ^ 7
    let perturbed := Vec.addAt before i EPS
    let world1 := calls.wrtSet wrt world perturbed
    let tauPos := calls.getCoriolisAndGravityAndExternalForces world1
    let perturbed := Vec.addAt before i (-EPS)
    let world2 := calls.wrtSet wrt world1 perturbed
    let tauNeg := calls.getCoriolisAndGravityAndExternalForces world2
    match Vec.subSized tauPos tauNeg with
    | .error e => .error e
    | .ok diff =>
    match result.assignCol i (diff.div (2 * EPS)) with
    | .error e => .error e
    | .ok result1 => finiteDifferenceJacobianOfCLoop calls wrt before n (i + 1) world2 result1

/-- The routine `BackpropSnapshot::finiteDifferenceJacobianOfC`: the world as
the routine leaves it and the matrix returned. -/
def finiteDifferenceJacobianOfC {σ : Type} (calls : WorldCalls σ) (world : σ)
    (wrt : WithRespectTo) (useRidders : Bool) : Except Failure (σ × Mat) :=
  if useRidders then finiteDifferenceRiddersJacobianOfC calls world wrt
  else
    let snapshot := RestorableSnapshot.record calls world
    let innerDim := calls.wrtDim wrt world
    let original := calls.getCoriolisAndGravityAndExternalForces world
    let result := Mat.zero original.length innerDim
    let before := calls.wrtGet wrt world
    match finiteDifferenceJacobianOfCLoop calls wrt before innerDim 0 world result with
    | .error e => .error e
    | .ok (world1, result1) =>
      .ok (snapshot.restoreTo calls (calls.wrtSet wrt world1 before), result1)

/-- The loop over the columns of `finiteDifferenceMassVelJacobian` (lines
2844-2859); the first argument counts the columns left. -/
def finiteDifferenceMassVelJacobianLoop {σ : Type} (calls : WorldCalls σ)
    (s : BackpropSnapshot) (snapshot : RestorableSnapshot) (originalMass originalVel : Vec) :
    Nat → Nat → σ → Mat → Except Failure (σ × Mat)
  | 0, _, world, J => .ok (world, J)
  | n + 1, i, world, J =>
    let EPSILON : ℚ := 1 / 10 ^ 7
    let world1 := snapshot.restoreTo calls world
    let world2 :=
      calls.setVelocities (calls.setPositions world1 s.mPreStepPosition) s.mPreStepVelocity
    let tweakedMass := Vec.addAt originalMass i EPSILON
    let world3 := calls.wrtSet .MASS world2 tweakedMass
    let world4 := calls.step world3
    match Vec.subSized (calls.getVelocities world4) originalVel with
    | .error e => .error e
    | .ok d =>
    match J.assignCol i (d.div EPSILON) with
    | .error e => .error e
    | .ok J1 =>
      finiteDifferenceMassVelJacobianLoop calls s snapshot originalMass originalVel n (i + 1)
        world4 J1

/-- The routine `BackpropSnapshot::finiteDifferenceMassVelJacobian`: the world
as the routine leaves it and the matrix returned. The Ridders routine it hands
over to is the parameter `ridders`. -/
def finiteDifferenceMassVelJacobian {σ : Type} (calls : WorldCalls σ)
    (ridders : σ → Except Failure (σ × Mat)) (uninitialised : Nat → ℚ)
    (s : BackpropSnapshot) (world : σ) (useRidders : Bool) : Except Failure (σ × Mat) :=
  if useRidders then ridders world
  else
    let snapshot := RestorableSnapshot.record calls world
    let world1 := calls.step (rewindWith calls s world)
    let originalMass := calls.wrtGet .MASS world1
    let originalVel := calls.getVelocities world1
    let J := Mat.declared s.mNumDOFs originalMass.length uninitialised
    match finiteDifferenceMassVelJacobianLoop calls s snapshot originalMass originalVel
        originalMass.length 0 world1 J with
    | .error e => .error e
    | .ok (world2, J1) => .ok (snapshot.restoreTo calls world2, J1)

/-- The loop over the columns of `finiteDifferencePosPosJacobian` for
`subdivisions == 1` (lines 3006-3031); the first argument counts the columns
left. -/
def finiteDifferencePosPosJacobianCentralLoop {σ : Type} (calls : WorldCalls σ)
    (s : BackpropSnapshot) (snapshot : RestorableSnapshot) :
    Nat → Nat → σ → Mat → Except Failure (σ × Mat)
  | 0, _, world, J => .ok (world, J)
  | n + 1, i, world, J =>
    let EPSILON : ℚ := 1 / 10 ^ 6
    let world1 := rewindAllButPositions calls s (snapshot.restoreTo calls world)
    let tweakedPositions := Vec.addAt s.mPreStepPosition i EPSILON
    let world2 := calls.step (calls.setPositions world1 tweakedPositions)
    let posChange := calls.getPositions world2
    let world3 := rewindAllButPositions calls s world2
    let tweakedPositions := Vec.addAt s.mPreStepPosition i (-EPSILON)
    let world4 := calls.step (calls.setPositions world3 tweakedPositions)
    let negChange := calls.getPositions world4
    match Vec.subSized posChange negChange with
    | .error e => .error e
    | .ok d =>
    match J.assignCol i (d.div (2 * EPSILON)) with
    | .error e => .error e
    | .ok J1 => finiteDifferencePosPosJacobianCentralLoop calls s snapshot n (i + 1) world4 J1

/-- The loop over the columns of `finiteDifferencePosPosJacobian` for
`subdivisions != 1` (lines 3038-3056); the first argument counts the columns
left. -/
def finiteDifferencePosPosJacobianSubdividedLoop {σ : Type} (calls : WorldCalls σ)
    (s : BackpropSnapshot) (snapshot : RestorableSnapshot) (subdivisions : Nat)
    (originalPosition : Vec) : Nat → Nat → σ → Mat → Except Failure (σ × Mat)
  | 0, _, world, J => .ok (world, J)
  | n + 1, i, world, J =>
    let EPSILON : ℚ := (1 / 10 ^ 2) / subdivisions
    let world1 := rewindAllButPositions calls s (snapshot.restoreTo calls world)
    let tweakedPositions := Vec.addAt s.mPreStepPosition i EPSILON
    let world2 := stepTimes calls subdivisions (calls.setPositions world1 tweakedPositions)
    match Vec.subSized (calls.getPositions world2) originalPosition with
    | .error e => .error e
    | .ok d =>
    match J.assignCol i (d.div EPSILON) with
    | .error e => .error e
    | .ok J1 =>
      finiteDifferencePosPosJacobianSubdividedLoop calls s snapshot subdivisions
        originalPosition n (i + 1) world2 J1

/-- The routine `BackpropSnapshot::finiteDifferencePosPosJacobian`: the world
as the routine leaves it and the matrix returned. The Ridders routine it hands
over to is the parameter `ridders`; the bound `world->getNumDofs()` of the
column loops is read once, the world keeping its DOFs. -/
def finiteDifferencePosPosJacobian {σ : Type} (calls : WorldCalls σ)
    (ridders : σ → Nat → Except Failure (σ × Mat)) (uninitialised : Nat → ℚ)
    (s : BackpropSnapshot) (world : σ) (subdivisions : Nat) (useRidders : Bool) :
    Except Failure (σ × Mat) :=
  if useRidders then ridders world subdivisions
  else
    let snapshot := RestorableSnapshot.record calls world
    let oldTimestep := calls.getTimeStep world
    let world1 := calls.setTimeStep world (oldTimestep / subdivisions)
    let J := Mat.declared s.mNumDOFs s.mNumDOFs uninitialised
    let world2 := stepTimes calls subdivisions (rewindWith calls s world1)
    let originalPosition := calls.getPositions world2
    let columns :=
      if subdivisions = 1 then
        finiteDifferencePosPosJacobianCentralLoop calls s snapshot (calls.getNumDofs world2) 0
          world2 J
      else
        finiteDifferencePosPosJacobianSubdividedLoop calls s snapshot subdivisions
          originalPosition (calls.getNumDofs world2) 0 world2 J
    match columns with
    | .error e => .error e
    | .ok (world3, J1) =>
      .ok (snapshot.restoreTo calls (calls.setTimeStep world3 oldTimestep), J1)

/-! ### Step halving -/

/-- The two loops `while (true)` of `finiteDifferenceVelVelJacobian` (lines
2067-2089 and 2091-2113), which differ in the sign of the perturbation
(`plus`). The first argument bounds the number of passes: `none` says that
the loop has not left after that many passes. On leaving, the world, the
sampled velocity and the step size reached. -/
def finiteDifferenceVelVelJacobianSearch {σ : Type}
    (areResultsStandardized : BackpropSnapshot → Bool) (calls : WorldCalls σ)
    (s : BackpropSnapshot) (i : Nat) (plus : Bool) :
    Nat → ℚ → σ → Option (Except Failure (σ × Vec × ℚ))
  | 0, _, _ => none
  | fuel + 1, eps, world =>
    let world1 := rewindAllButVelocities calls s world
    let tweakedVel := Vec.addAt s.mPreStepVelocity i (if plus then eps else -eps)
    let world2 := calls.setVelocities world1 tweakedVel
    let snapshot := calls.forwardPass world2
    if (!areResultsStandardized s || areResultsStandardized snapshot)
        ∧ snapshot.mNumClamping = s.mNumClamping
        ∧ snapshot.mNumUpperBound = s.mNumUpperBound then
      some (.ok (world2, snapshot.mPostStepVelocity, eps))
    else
      let eps1 := eps * (1 / 2)
      if |eps1| > 1 / 10 ^ 20 then
        finiteDifferenceVelVelJacobianSearch areResultsStandardized calls s i plus fuel eps1
          world2
      else some (.error .assertion)

/-- The loop over the columns of `finiteDifferenceVelVelJacobian` (lines
2060-2144); `fuel` bounds the passes of each `while (true)` loop, the first
argument counts the columns left. -/
def finiteDifferenceVelVelJacobianLoop {σ : Type}
    (areResultsStandardized : BackpropSnapshot → Bool) (calls : WorldCalls σ)
    (s : BackpropSnapshot) (snapshot : RestorableSnapshot) (fuel : Nat) :
    Nat → Nat → σ → Mat → Option (Except Failure (σ × Mat))
  | 0, _, world, J => some (.ok (world, J))
  | n + 1, i, world, J =>
    let EPSILON : ℚ := 1 / 10 ^ 7
    let world1 := snapshot.restoreTo calls world
    match finiteDifferenceVelVelJacobianSearch areResultsStandardized calls s i true fuel
        EPSILON world1 with
    | none => none
    | some (.error e) => some (.error e)
    | some (.ok (world2, velPos, epsPos)) =>
    match finiteDifferenceVelVelJacobianSearch areResultsStandardized calls s i false fuel
        EPSILON world2 with
    | none => none
    | some (.error e) => some (.error e)
    | some (.ok (world3, velNeg, epsNeg)) =>
    match Vec.subSized velPos velNeg with
    | .error e => some (.error e)
    | .ok d =>
    match J.assignCol i (d.div (epsPos + epsNeg)) with
    | .error e => some (.error e)
    | .ok J1 =>
      finiteDifferenceVelVelJacobianLoop areResultsStandardized calls s snapshot fuel n (i + 1)
        world3 J1

/-- The routine `BackpropSnapshot::finiteDifferenceVelVelJacobian`: the world
as the routine leaves it and the matrix returned, `none` when a `while (true)`
loop has not left after `fuel` passes. The Ridders routine it hands over to is
the parameter `ridders`; the bound `world->getNumDofs()` of the column loop is
read once. -/
def finiteDifferenceVelVelJacobian {σ : Type}
    (areResultsStandardized : BackpropSnapshot → Bool) (calls : WorldCalls σ)
    (ridders : σ → Except Failure (σ × Mat)) (uninitialised : Nat → ℚ) (fuel : Nat)
    (s : BackpropSnapshot) (world : σ) (useRidders : Bool) :
    Option (Except Failure (σ × Mat)) :=
  if useRidders then some (ridders world)
  else
    let snapshot := RestorableSnapshot.record calls world
    let J := Mat.declared s.mNumDOFs s.mNumDOFs uninitialised
    let world1 := calls.step (rewindWith calls s world)
    match finiteDifferenceVelVelJacobianLoop areResultsStandardized calls s snapshot fuel
        (calls.getNumDofs world1) 0 world1 J with
    | none => none
    | some (.error e) => some (.error e)
    | some (.ok (world2, J1)) => some (.ok (snapshot.restoreTo calls world2, J1))

/-- The first loop `while (true)` of
`finiteDifferenceJacobianOfProjectionIntoClampsMatrix` (lines 5809-5824). The
first argument bounds the number of passes: `none` says that the loop has not
left after that many passes. On leaving, the world, `newPlus` and `posEps`. -/
def finiteDifferenceJacobianOfProjectionIntoClampsMatrixPlus {σ : Type} (calls : WorldCalls σ)
    (forFiniteDifferencingDefault : Bool) (wrt : WithRespectTo) (before v : Vec)
    (originalP_c : Mat) (i : Nat) : Nat → ℚ → σ → Option (σ × Vec × ℚ)
  | 0, _, _ => none
  | fuel + 1, posEps, world =>
    let perturbed := Vec.addAt before i posEps
    let world1 := calls.wrtSet wrt world perturbed
    let plusBackptr := calls.forwardPass world1
    let newP_c :=
      calls.getProjectionIntoClampsMatrix plusBackptr world1 forFiniteDifferencingDefault
    if newP_c.rows = originalP_c.rows then some (world1, newP_c.mulVec v, posEps)
    else
      finiteDifferenceJacobianOfProjectionIntoClampsMatrixPlus calls
        forFiniteDifferencingDefault wrt before v originalP_c i fuel (posEps * (1 / 2)) world1

/-- The second loop `while (true)` of
`finiteDifferenceJacobianOfProjectionIntoClampsMatrix` (lines 5828-5843). -/
def finiteDifferenceJacobianOfProjectionIntoClampsMatrixMinus {σ : Type}
    (calls : WorldCalls σ) (s : BackpropSnapshot) (wrt : WithRespectTo) (before v : Vec)
    (originalP_c : Mat) (i : Nat) : Nat → ℚ → σ → Option (σ × Vec × ℚ)
  | 0, _, _ => none
  | fuel + 1, negEps, world =>
    let perturbed := Vec.addAt before i (-negEps)
    let world1 := calls.wrtSet wrt world perturbed
    let newP_c := calls.getProjectionIntoClampsMatrix s world1 true
    if newP_c.rows = originalP_c.rows then some (world1, newP_c.mulVec v, negEps)
    else
      finiteDifferenceJacobianOfProjectionIntoClampsMatrixMinus calls s wrt before v
        originalP_c i fuel (negEps * (1 / 2)) world1

/-- The loop over the columns of
`finiteDifferenceJacobianOfProjectionIntoClampsMatrix` (lines 5801-5847);
`fuel` bounds the passes of each `while (true)` loop, the first argument
counts the columns left. -/
def finiteDifferenceJacobianOfProjectionIntoClampsMatrixLoop {σ : Type}
    (calls : WorldCalls σ) (forFiniteDifferencingDefault : Bool) (s : BackpropSnapshot)
    (wrt : WithRespectTo) (before v : Vec) (originalP_c : Mat) (fuel : Nat) :
    Nat → Nat → σ → Mat → Option (Except Failure (σ × Mat))
  | 0, _, world, result => some (.ok (world, result))
  | n + 1, i, world, result =>
    let EPS : ℚ := 1 / 10 ^ 5
    match finiteDifferenceJacobianOfProjectionIntoClampsMatrixPlus calls
        forFiniteDifferencingDefault wrt before v originalP_c i fuel EPS world with
    | none => none
    | some (world1, newPlus, posEps) =>
    match finiteDifferenceJacobianOfProjectionIntoClampsMatrixMinus calls s wrt before v
        originalP_c i fuel EPS world1 with
    | none => none
    | some (world2, newMinus, negEps) =>
    match Vec.subSized newPlus newMinus with
    | .error e => some (.error e)
    | .ok diff =>
    match result.assignCol i (diff.div (posEps + negEps)) with
    | .error e => some (.error e)
    | .ok result1 =>
      finiteDifferenceJacobianOfProjectionIntoClampsMatrixLoop calls
        forFiniteDifferencingDefault s wrt before v originalP_c fuel n (i + 1) world2 result1

/-- The routine `BackpropSnapshot::finiteDifferenceJacobianOfProjectionIntoClampsMatrix`:
the world as the routine leaves it and the matrix returned, `none` when a
`while (true)` loop has not left after `fuel` passes. The Ridders routine it
hands over to is the parameter `ridders`. -/
def finiteDifferenceJacobianOfProjectionIntoClampsMatrix {σ : Type} (calls : WorldCalls σ)
    (ridders : σ → Except Failure (σ × Mat)) (forFiniteDifferencingDefault : Bool)
    (fuel : Nat) (s : BackpropSnapshot) (world : σ) (v : Vec) (wrt : WithRespectTo)
    (useRidders : Bool) : Option (Except Failure (σ × Mat)) :=
  if useRidders then some (ridders world)
  else
    let snapshot := RestorableSnapshot.record calls world
    let innerDim := calls.wrtDim wrt world
    let before := calls.wrtGet wrt world
    let original := (calls.getProjectionIntoClampsMatrix s world true).mulVec v
    let originalP_c := calls.getProjectionIntoClampsMatrix s world true
    let result := Mat.zero original.length innerDim
    match finiteDifferenceJacobianOfProjectionIntoClampsMatrixLoop calls
        forFiniteDifferencingDefault s wrt before v originalP_c fuel innerDim 0 world
        result with
    | none => none
    | some (.error e) => some (.error e)
    | some (.ok (world1, result1)) =>
      some (.ok (snapshot.restoreTo calls (calls.wrtSet wrt world1 before), result1))

/-! ### Ridders extrapolation of the position Jacobian -/

/-- The sampling statements of `finiteDifferenceRiddersPosJacobianWrt`, which
stand before the loop over the step sizes (lines 3636-3657) and again in each
of its passes (lines 3664-3685): the two forward passes at `stepSize` and the
assignment `tab[0][0] = (posPlus - posMinus) / (2 * stepSize);`. -/
def finiteDifferenceRiddersPosJacobianWrtSample {σ : Type} (calls : WorldCalls σ)
    (s : BackpropSnapshot) (wrt : WithRespectTo) (originalWrt : Vec) (i : Nat) (stepSize : ℚ)
    (world : σ) (tab : Tableau) : Except Failure (σ × Tableau) :=
  let world1 := rewindWith calls s world
  let perturbedPlus := Vec.addAt originalWrt i stepSize
  let world2 := calls.wrtSet wrt world1 perturbedPlus
  let snapshotPlus := calls.forwardPass world2
  let posPlus := snapshotPlus.mPostStepPosition
  let world3 := rewindWith calls s world2
  let perturbedMinus := Vec.addAt originalWrt i (-stepSize)
  let world4 := calls.wrtSet wrt world3 perturbedMinus
  let snapshotMinus := calls.forwardPass world4
  let posMinus := snapshotMinus.mPostStepPosition
  match Vec.subSized posPlus posMinus with
  | .error e => .error e
  | .ok d => .ok (world4, tab.assign 0 0 (d.div (2 * stepSize)))

/-- The loop `for (int iTab = 1; iTab < tabSize; iTab++)` of
`finiteDifferenceRiddersPosJacobianWrt` (lines 3660-3710); the first argument
counts the passes left. -/
def finiteDifferenceRiddersPosJacobianWrtStepSizes {σ : Type} (calls : WorldCalls σ)
    (s : BackpropSnapshot) (wrt : WithRespectTo) (originalWrt : Vec) (i : Nat) :
    Nat → Nat → ℚ → σ → Tableau → ℚ → Mat → Except Failure (σ × Mat)
  | 0, _, _, world, _, _, J => .ok (world, J)
  | n + 1, iTab, stepSize, world, tab, bestError, J =>
    let con : ℚ := 14 / 10
    let con2 : ℚ := con * con
    let safeThreshold : ℚ := 2
    let stepSize1 := stepSize / con
    match finiteDifferenceRiddersPosJacobianWrtSample calls s wrt originalWrt i stepSize1 world
        tab with
    | .error e => .error e
    | .ok (world1, tab1) =>
    match riddersExtrapolate con2 i iTab iTab 1 con2 tab1 bestError J with
    | .error e => .error e
    | .ok (tab2, bestError2, J2) =>
    match riddersQuitEarly safeThreshold iTab tab2 bestError2 with
    | .error e => .error e
    | .ok quit =>
      if quit then .ok (world1, J2)
      else finiteDifferenceRiddersPosJacobianWrtStepSizes calls s wrt originalWrt i n (iTab + 1)
        stepSize1 world1 tab2 bestError2 J2

/-- The loop over the columns of `finiteDifferenceRiddersPosJacobianWrt` (lines
3626-3711); the first argument counts the columns left. -/
def finiteDifferenceRiddersPosJacobianWrtColumns {σ : Type} (calls : WorldCalls σ)
    (s : BackpropSnapshot) (snapshot : RestorableSnapshot) (wrt : WithRespectTo)
    (originalWrt : Vec) : Nat → Nat → σ → Mat → Except Failure (σ × Mat)
  | 0, _, world, J => .ok (world, J)
  | n + 1, i, world, J =>
    let originalStepSize : ℚ := 1 / 1000
    let tabSize : Nat := 10
    let stepSize := originalStepSize
    let bestError := maxDouble
    let tab := Tableau.fresh
    let world1 := snapshot.restoreTo calls world
    match finiteDifferenceRiddersPosJacobianWrtSample calls s wrt originalWrt i stepSize world1
        tab with
    | .error e => .error e
    | .ok (world2, tab1) =>
    match finiteDifferenceRiddersPosJacobianWrtStepSizes calls s wrt originalWrt i (tabSize - 1)
        1 stepSize world2 tab1 bestError J with
    | .error e => .error e
    | .ok (world3, J1) =>
      finiteDifferenceRiddersPosJacobianWrtColumns calls s snapshot wrt originalWrt n (i + 1)
        world3 J1

/-- The routine `BackpropSnapshot::finiteDifferenceRiddersPosJacobianWrt`: the
world as the routine leaves it and the matrix returned. -/
def finiteDifferenceRiddersPosJacobianWrt {σ : Type} (calls : WorldCalls σ)
    (uninitialised : Nat → ℚ) (s : BackpropSnapshot) (world : σ) (wrt : WithRespectTo) :
    Except Failure (σ × Mat) :=
  let snapshot := RestorableSnapshot.record calls world
  let wrtDim := calls.wrtDim wrt world
  let J := Mat.declared s.mNumDOFs wrtDim uninitialised
  let originalWrt := calls.wrtGet wrt world
  let world1 := calls.step (rewindWith calls s world)
  match finiteDifferenceRiddersPosJacobianWrtColumns calls s snapshot wrt originalWrt wrtDim 0
      world1 J with
  | .error e => .error e
  | .ok (world2, J1) => .ok (snapshot.restoreTo calls world2, J1)

/-! ## The linearised step model `scratch` -/

/-- The call `v.squaredNorm()`. -/
def Vec.squaredNorm (v : Vec) : ℚ := (v.map (fun x => x * x)).sum

/-- The call `a.cwiseProduct(b)`. -/
def Vec.cwiseProduct (a b : Vec) : Vec :=
  (List.range a.length).map (fun i => coeffAt a i * coeffAt b i)

/-- Negation `-a` of a vector. -/
def Vec.neg (a : Vec) : Vec := a.map (fun x => -x)

/-- The loop `result.col(i) = constraint->getConstraintForces(world)
+ constraint->getConstraintForcesJacobian(world) * posDiff` of
`estimateClampingConstraintMatrixAt` and `estimateUpperBoundConstraintMatrixAt`.
The call `constraint->getConstraintForces(world)` is the parameter
`getConstraintForces`. -/
def estimateConstraintColumns (ext : External)
    (getConstraintForces : DifferentiableContactConstraint → World → Vec) (world : World)
    (posDiff : Vec) : List DifferentiableContactConstraint → Nat → Mat → Mat
  | [], _, result => result
  | constraint :: rest, i, result =>
    estimateConstraintColumns ext getConstraintForces world posDiff rest (i + 1)
      (result.setCol i
        (Vec.add (getConstraintForces constraint world)
          ((ext.getConstraintForcesJacobian constraint world).mulVec posDiff)))

/-- The routine `BackpropSnapshot::estimateClampingConstraintMatrixAt`. -/
def estimateClampingConstraintMatrixAt (ext : External)
    (getConstraintForces : DifferentiableContactConstraint → World → Vec)
    (s : BackpropSnapshot) (world : World) (pos : Vec) : Except Failure Mat :=
  let posDiff := Vec.sub pos s.mPreStepPosition
  if posDiff.squaredNorm = 0 then getClampingConstraintMatrix s world
  else
    let world1 := world.setPositions s.mPreStepPosition
    match getClampingConstraints s with
    | .error e => .error e
    | .ok clampingConstraints =>
      .ok (estimateConstraintColumns ext getConstraintForces world1 posDiff clampingConstraints 0
        (Mat.zero s.mNumDOFs s.mNumClamping))

/-- The routine `BackpropSnapshot::estimateUpperBoundConstraintMatrixAt`. -/
def estimateUpperBoundConstraintMatrixAt (ext : External)
    (getConstraintForces : DifferentiableContactConstraint → World → Vec)
    (s : BackpropSnapshot) (world : World) (pos : Vec) : Except Failure Mat :=
  let posDiff := Vec.sub pos s.mPreStepPosition
  if posDiff.squaredNorm = 0 then getUpperBoundConstraintMatrix s world
  else
    let world1 := world.setPositions s.mPreStepPosition
    .ok (estimateConstraintColumns ext getConstraintForces world1 posDiff
      (getUpperBoundConstraints s) 0 (Mat.zero s.mNumDOFs s.mNumUpperBound))

/-- The routine `BackpropSnapshot::computeLCPConstraintMatrixClampingSubset`:
the value it leaves in `Q`. -/
def computeLCPConstraintMatrixClampingSubset (ext : External) (s : BackpropSnapshot)
    (world : World) (A_c A_ub E : Mat) : Mat :=
  if A_ub.cols > 0 then
    (A_c.transpose.mul (assembleBlockDiagonalMatrix ext s world .INV_MASS true)).mul
      (A_c.add (A_ub.mul E))
  else
    (A_c.transpose.mul (assembleBlockDiagonalMatrix ext s world .INV_MASS true)).mul A_c

/-- The routine `BackpropSnapshot::computeLCPOffsetClampingSubset`: the value
it leaves in `b`. The skeleton products of `implicitMultiplyByInvMassMatrix`
are calls of `calls`. -/
def computeLCPOffsetClampingSubset (ext : External) (calls : WorldCalls World)
    (s : BackpropSnapshot) (world : World) (A_c : Mat) : Except Failure Vec :=
  match getBounceDiagonals ext s with
  | .error e => .error e
  | .ok bounce =>
    .ok (Vec.neg (bounce.cwiseProduct
      (A_c.transpose.mulVec
        (Vec.add world.getVelocities
          (Vec.scale world.timeStep
            (implicitMultiplyByInvMassMatrix calls world
              (Vec.sub world.getExternalForces
                (ext.coriolisAndGravityAndExternalForces world))))))))

/-- The routine `BackpropSnapshot::scratch`: the next velocity `nextV` of the
linearised step model at the state of the world. -/
def scratch (ext : External) (calls : WorldCalls World)
    (getConstraintForces : DifferentiableContactConstraint → World → Vec)
    (s : BackpropSnapshot) (world : World) : Except Failure Vec :=
  match estimateClampingConstraintMatrixAt ext getConstraintForces s world
      world.getPositions with
  | .error e => .error e
  | .ok A_c =>
  match estimateUpperBoundConstraintMatrixAt ext getConstraintForces s world
      world.getPositions with
  | .error e => .error e
  | .ok A_ub =>
  let E := getUpperBoundMappingMatrix s
  let A_c_ub_E := A_c.add (A_ub.mul E)
  let Minv := ext.worldInvMassMatrix world
  match computeLCPOffsetClampingSubset ext calls s world A_c with
  | .error e => .error e
  | .ok b =>
  let Q := computeLCPConstraintMatrixClampingSubset ext s world A_c A_ub E
  let f_c := ext.solve Q b
  let tau := world.getExternalForces
  let C := ext.coriolisAndGravityAndExternalForces world
  let dt := world.timeStep
  .ok (Vec.add world.getVelocities
    (Minv.mulVec (Vec.add (Vec.scale dt (Vec.sub tau C)) (A_c_ub_E.mulVec f_c))))

/-! ## Specification-side definitions -/

/-- The clipping rule in the words of the spec: a gradient component is zeroed
exactly when the state sits on its lower bound and the component is positive,
or sits on its upper bound and the component is negative. -/
def clippedValue (x lower upper g : ℚ) : ℚ :=
  if (x = lower ∧ g > 0) ∨ (x = upper ∧ g < 0) then 0 else g

/-- Component `i` of a vector after the clipping loop has run over `dofs` with
its cursor starting at `c`: the clipping rule for the DOF met at index `i`,
the input component where no DOF is met. `sel` reads the state and the two
limits that the rule compares. -/
def clipComponentAt (dofs : List DegreeOfFreedom) (c : Nat)
    (sel : DegreeOfFreedom → ℚ × ℚ × ℚ) (g : Vec) (i : Nat) : ℚ :=
  if c ≤ i then
    match dofs[i - c]? with
    | some d => clippedValue (sel d).1 (sel d).2.1 (sel d).2.2 (coeffAt g i)
    | none => coeffAt g i
  else coeffAt g i

/-- State and limits read by the position test. -/
def selPosition (d : DegreeOfFreedom) : ℚ × ℚ × ℚ :=
  (d.position, d.positionLowerLimit, d.positionUpperLimit)

/-- State and limits read by the velocity test. -/
def selVelocity (d : DegreeOfFreedom) : ℚ × ℚ × ℚ :=
  (d.velocity, d.velocityLowerLimit, d.velocityUpperLimit)

/-- State and limits read by the force test. -/
def selForce (d : DegreeOfFreedom) : ℚ × ℚ × ℚ :=
  (d.force, d.forceLowerLimit, d.forceUpperLimit)

/-- DOF count of the skeleton that a group names, `0` for a name that the world
does not know. -/
def namedDofs (world : World) (name : String) : Nat :=
  match world.getSkeleton name with
  | some skel => skel.getNumDofs
  | none => 0

/-- The group row offset of the `k`-th skeleton of a group: the sum of the DOF
counts of the group's earlier skeletons. -/
def groupRowOffset (world : World) (names : List String) (k : Nat) : Nat :=
  ((names.take k).map (namedDofs world)).sum

/-- The column offset of group `i`: the sum of the column counts of the
matrices of the earlier groups. -/
def columnOffset (whichMatrix : MatrixToAssemble)
    (groups : List ConstrainedGroupGradientMatrices) (i : Nat) : Nat :=
  ((groups.take i).map (fun g => (groupMatrixToAssemble g whichMatrix).cols)).sum

/-- The cursor of the per-DOF branch of `assembleVector` when it reaches the
`k`-th skeleton name of a group: the sum of the recorded DOF counts of the
earlier names. -/
def recordedRowOffset (s : BackpropSnapshot) (names : List String) (k : Nat) : Nat :=
  ((names.take k).map s.mSkeletonDofs).sum

/-- The group data agrees on its counts: as many clamping constraints and
clamping impulses as clamping columns, as many upper-bound constraints as
upper-bound columns. The assertions of `getClampingConstraints`,
`getJacobianOfClampingConstraints` and `getJacobianOfUpperBoundConstraints`
test these equalities. -/
def constraintCountsAgree (s : BackpropSnapshot) : Prop :=
  (s.mGradientMatrices.map (fun g => g.clampingConstraints.length)).sum = s.mNumClamping
  ∧ (s.mGradientMatrices.map (fun g => g.clampingConstraintImpulses.length)).sum = s.mNumClamping
  ∧ (s.mGradientMatrices.map (fun g => g.upperBoundConstraints.length)).sum
      = (s.mGradientMatrices.map (fun g => g.upperBoundConstraintMatrix.cols)).sum
  ∧ (s.mGradientMatrices.map (fun g => g.upperBoundConstraints.length)).sum = s.mNumUpperBound

/-- The snapshot with its Jacobian caches dropped and all dirty flags set: two
snapshots with the same `resetCaches` differ in their caches only. -/
def BackpropSnapshot.resetCaches (s : BackpropSnapshot) : BackpropSnapshot :=
  { s with
    mCachedPosPosDirty := true
    mCachedVelPosDirty := true
    mCachedBounceApproximationDirty := true
    mCachedPosVelDirty := true
    mCachedVelVelDirty := true
    mCachedForcePosDirty := true
    mCachedForceVelDirty := true
    mCachedMassVelDirty := true
    mCachedPosPos := Mat.zero 0 0
    mCachedVelPos := Mat.zero 0 0
    mCachedBounceApproximation := Mat.zero 0 0
    mCachedPosVel := Mat.zero 0 0
    mCachedVelVel := Mat.zero 0 0
    mCachedForceVel := Mat.zero 0 0
    mCachedMassVel := Mat.zero 0 0 }

/-- Every cache whose dirty flag is cleared in `s` still has its flag cleared
in `s1` and holds the same matrix there. -/
def cleanCachesKept (s s1 : BackpropSnapshot) : Prop :=
  (s.mCachedPosPosDirty = false →
      s1.mCachedPosPosDirty = false ∧ s1.mCachedPosPos = s.mCachedPosPos)
  ∧ (s.mCachedVelPosDirty = false →
      s1.mCachedVelPosDirty = false ∧ s1.mCachedVelPos = s.mCachedVelPos)
  ∧ (s.mCachedBounceApproximationDirty = false →
      s1.mCachedBounceApproximationDirty = false
      ∧ s1.mCachedBounceApproximation = s.mCachedBounceApproximation)
  ∧ (s.mCachedPosVelDirty = false →
      s1.mCachedPosVelDirty = false ∧ s1.mCachedPosVel = s.mCachedPosVel)
  ∧ (s.mCachedVelVelDirty = false →
      s1.mCachedVelVelDirty = false ∧ s1.mCachedVelVel = s.mCachedVelVel)
  ∧ (s.mCachedForceVelDirty = false →
      s1.mCachedForceVelDirty = false ∧ s1.mCachedForceVel = s.mCachedForceVel)
  ∧ (s.mCachedMassVelDirty = false →
      s1.mCachedMassVelDirty = false ∧ s1.mCachedMassVel = s.mCachedMassVel)
  ∧ (s.mCachedForcePosDirty = false → s1.mCachedForcePosDirty = false)

/-- From `s` to `s1` nothing but caches changed, and no clean cache changed. -/
def cachesKept (s s1 : BackpropSnapshot) : Prop :=
  s1.resetCaches = s.resetCaches ∧ cleanCachesKept s s1

/-- Squared residual `|M x - b|^2` of a linear system. -/
def residualSq (M : Mat) (b x : Vec) : ℚ :=
  sumTo M.rows (fun i => (sumTo M.cols (fun k => M.coeff i k * coeffAt x k) - coeffAt b i) ^ 2)

/-- Squared norm `|x|^2` of the first `n` coefficients of a vector. -/
def normSq (n : Nat) (x : Vec) : ℚ := sumTo n (fun k => coeffAt x k ^ 2)

/-- The documented result of the dense solve
`M.completeOrthogonalDecomposition().solve(b)` of the linear-algebra library:
`x` has one coefficient per column of `M`, minimises the squared residual
`|M x - b|^2`, and has the least norm among the minimisers. -/
def IsMinNormLeastSquares (M : Mat) (b x : Vec) : Prop :=
  x.length = M.cols
  ∧ (∀ y : Vec, y.length = M.cols → residualSq M b x ≤ residualSq M b y)
  ∧ (∀ y : Vec, y.length = M.cols → residualSq M b y = residualSq M b x →
      normSq M.cols x ≤ normSq M.cols y)

/-- Column `j` of a dense matrix (`M.col(j)`). -/
def Mat.col (M : Mat) (j : Nat) : Vec := (List.range M.rows).map (fun i => M.coeff i j)

/-- The block `M.block(r0, c0, nr, nc)` of a dense matrix. -/
def Mat.block (M : Mat) (r0 c0 nr nc : Nat) : Mat :=
  ⟨nr, nc, fun i j => M.coeff (r0 + i) (c0 + j)⟩

/-- The documented result of the dense solve
`Q.completeOrthogonalDecomposition().solve(B)` for a matrix right-hand side:
`X` has one row per column of `Q` and one column per column of `B`, and each
column of `X` is the minimum-norm least-squares solution for that column of
`B`. -/
def IsMinNormLeastSquaresMatrix (Q B X : Mat) : Prop :=
  X.rows = Q.cols ∧ X.cols = B.cols
  ∧ ∀ j, j < B.cols → IsMinNormLeastSquares Q (B.col j) (X.col j)

/-- The operations of a constructed snapshot that write its members, apart
from `benchmarkJacobians`: the seven caching getters, the two routines that
call them (`backprop`, `getPosJacobianWrt`) and the two setters. Every other
routine of the class leaves the members alone. -/
inductive SnapshotOperation where
  | getPosPosJacobian (world : World)
  | getPosVelJacobian (world : World)
  | getVelPosJacobian (world : World)
  | getVelVelJacobian (world : World)
  | getForceVelJacobian (world : World)
  | getMassVelJacobian (world : World)
  | getBounceApproximationJacobian (world : World)
  | getPosJacobianWrt (world : World) (wrt : WithRespectTo)
  | backprop (world : World) (nextTimestepLoss : LossGradient) (exploreAlternateStrategies : Bool)
  | setUseFDOverride (fdOverride : Bool)
  | setSlowDebugResultsAgainstFD (slowDebug : Bool)

/-- The snapshot that an operation leaves when it returns. -/
def SnapshotOperation.run (ext : External) :
    SnapshotOperation → BackpropSnapshot → Except Failure BackpropSnapshot
  | .getPosPosJacobian world, s => dart.neural.getPosPosJacobian ext s world
  | .getPosVelJacobian world, s => dart.neural.getPosVelJacobian ext s world
  | .getVelPosJacobian world, s => dart.neural.getVelPosJacobian ext s world
  | .getVelVelJacobian world, s => dart.neural.getVelVelJacobian ext s world
  | .getForceVelJacobian world, s => dart.neural.getForceVelJacobian ext s world
  | .getMassVelJacobian world, s => dart.neural.getMassVelJacobian ext s world
  | .getBounceApproximationJacobian world, s =>
    dart.neural.getBounceApproximationJacobian ext s world
  | .getPosJacobianWrt world wrt, s =>
    match dart.neural.getPosJacobianWrt ext s world wrt with
    | .error e => .error e
    | .ok (s1, _) => .ok s1
  | .backprop world next explore, s =>
    match dart.neural.backprop ext s world next explore with
    | .error e => .error e
    | .ok (s1, _) => .ok s1
  | .setUseFDOverride b, s => .ok (dart.neural.setUseFDOverride s b)
  | .setSlowDebugResultsAgainstFD b, s => .ok (dart.neural.setSlowDebugResultsAgainstFD s b)

/-- A sequence of operations on one snapshot; fails when one of them fails. -/
def runOperations (ext : External) :
    List SnapshotOperation → BackpropSnapshot → Except Failure BackpropSnapshot
  | [], s => .ok s
  | op :: rest, s =>
    match op.run ext s with
    | .error e => .error e
    | .ok s1 => runOperations ext rest s1

/-! ## Example inputs -/

/-- A DOF resting on its position lower limit, strictly inside its velocity
limits, and on its force upper limit. -/
def exampleDofA : DegreeOfFreedom :=
  { position := 0, positionLowerLimit := 0, positionUpperLimit := 1
    velocity := 0, velocityLowerLimit := -1, velocityUpperLimit := 1
    force := 2, forceLowerLimit := -2, forceUpperLimit := 2 }

/-- A DOF strictly inside all of its limits. -/
def exampleDofB : DegreeOfFreedom :=
  { position := 1, positionLowerLimit := 0, positionUpperLimit := 3
    velocity := 0, velocityLowerLimit := -1, velocityUpperLimit := 1
    force := 0, forceLowerLimit := -2, forceUpperLimit := 2 }

/-- A world of two skeletons without constraint groups: `"a"` with the DOFs
`exampleDofA, exampleDofB` and `"b"` with the DOF `exampleDofA`. -/
def exampleWorld : World :=
  { skeletons :=
      [ { name := "a", dofs := [exampleDofA, exampleDofB],
          gradientConstraintMatrices := none, mobile := true },
        { name := "b", dofs := [exampleDofA],
          gradientConstraintMatrices := none, mobile := true } ]
    timeStep := 1 / 100
    useFDOverride := false
    slowDebugResultsAgainstFD := false
    cachedLCPSolution := [] }

/-- Three gradient vectors of length 3. -/
def exampleGradients : ClippedGradients :=
  { lossWrtPos := [5, -1, -4], lossWrtVel := [1, 2, 3], lossWrtForce := [-7, 1, 6] }

/-- A dense matrix given by its rows, for writing examples. -/
def Mat.ofRows (cols : Nat) (rows : List (List ℚ)) : Mat :=
  ⟨rows.length, cols, fun i j => coeffAt (rows.getD i []) j⟩

/-- A group spanning the skeletons `"c"` (1 DOF) and `"a"` (2 DOFs), in that
order, with two clamping constraints, one upper-bound constraint and no
bouncing constraint. -/
def exampleGroupOne : ConstrainedGroupGradientMatrices :=
  { ptr := 1
    skeletons := ["c", "a"]
    clampingConstraints := [⟨11, 0, false⟩, ⟨12, 0, false⟩]
    upperBoundConstraints := [⟨13, 0, false⟩]
    numDOFs := 3
    numConstraintDim := 3
    clampingConstraintMatrix := Mat.ofRows 2 [[11, 12], [21, 22], [31, 32]]
    massedClampingConstraintMatrix := Mat.ofRows 2 [[1, 2], [3, 4], [5, 6]]
    upperBoundConstraintMatrix := Mat.ofRows 1 [[7], [8], [9]]
    massedUpperBoundConstraintMatrix := Mat.ofRows 1 [[1], [1], [1]]
    bouncingConstraintMatrix := Mat.ofRows 0 [[], [], []]
    upperBoundMappingMatrix := Mat.ofRows 2 [[1 / 2, 0]]
    bounceDiagonals := [1, 1]
    restitutionDiagonals := []
    contactConstraintImpluses := [3, 4, 5]
    contactConstraintMappings := [-1, -1, 0]
    penetrationCorrectionVelocities := [0, 0, 0]
    clampingConstraintImpulses := [3, 4]
    clampingConstraintRelativeVels := [6, 7]
    velocityDueToIllegalImpulses := [100, 200, 300]
    preStepVelocity := [10, 20, 30]
    preStepTorques := [1, 2, 3]
    preLCPVelocity := [4, 5, 6] }

/-- A group spanning the skeleton `"b"` (1 DOF), with one clamping constraint
that also bounces. -/
def exampleGroupTwo : ConstrainedGroupGradientMatrices :=
  { ptr := 2
    skeletons := ["b"]
    clampingConstraints := [⟨21, 0, false⟩]
    upperBoundConstraints := []
    numDOFs := 1
    numConstraintDim := 1
    clampingConstraintMatrix := Mat.ofRows 1 [[41]]
    massedClampingConstraintMatrix := Mat.ofRows 1 [[1]]
    upperBoundConstraintMatrix := Mat.ofRows 0 [[]]
    massedUpperBoundConstraintMatrix := Mat.ofRows 0 [[]]
    bouncingConstraintMatrix := Mat.ofRows 1 [[41]]
    upperBoundMappingMatrix := Mat.ofRows 1 []
    bounceDiagonals := [3 / 2]
    restitutionDiagonals := [1 / 2]
    contactConstraintImpluses := [9]
    contactConstraintMappings := [-1]
    penetrationCorrectionVelocities := [0]
    clampingConstraintImpulses := [9]
    clampingConstraintRelativeVels := [8]
    velocityDueToIllegalImpulses := [400]
    preStepVelocity := [40]
    preStepTorques := [4]
    preLCPVelocity := [7] }

/-- A world of four skeletons `"a"` (2 DOFs), `"b"`, `"c"`, `"d"` (1 DOF
each): `"a"` and `"c"` share `exampleGroupOne`, `"b"` has `exampleGroupTwo`,
`"d"` has no constraint group. -/
def exampleGroupWorld : World :=
  { skeletons :=
      [ { name := "a", dofs := [exampleDofA, exampleDofB],
          gradientConstraintMatrices := some exampleGroupOne, mobile := true },
        { name := "b", dofs := [exampleDofB],
          gradientConstraintMatrices := some exampleGroupTwo, mobile := true },
        { name := "c", dofs := [exampleDofB],
          gradientConstraintMatrices := some exampleGroupOne, mobile := true },
        { name := "d", dofs := [exampleDofA],
          gradientConstraintMatrices := none, mobile := true } ]
    timeStep := 1 / 100
    useFDOverride := false
    slowDebugResultsAgainstFD := false
    cachedLCPSolution := [] }

/-- Collaborators that return empty or zero results; the differentiation
variables have dimension 0. -/
def exampleExternal : External :=
  { worldInvMassMatrix := fun w => Mat.identity w.getNumDofs w.getNumDofs
    worldPosPosJacobian := fun w => Mat.identity w.getNumDofs w.getNumDofs
    worldVelPosJacobian := fun w => Mat.scale w.timeStep (Mat.identity w.getNumDofs w.getNumDofs)
    coriolisAndGravityAndExternalForces := fun w => Vec.zero w.getNumDofs
    massDims := fun _ => 0
    wrtDim := fun _ _ => 0
    forFiniteDifferencingDefault := false
    skelMassMatrix := fun skel => Mat.identity skel.getNumDofs skel.getNumDofs
    skelInvMassMatrix := fun skel => Mat.identity skel.getNumDofs skel.getNumDofs
    skelPosCJacobian := fun skel => Mat.zero skel.getNumDofs skel.getNumDofs
    skelVelCJacobian := fun skel => Mat.zero skel.getNumDofs skel.getNumDofs
    skelUnconstrainedVelJacobianWrtPosition := fun skel _ =>
      Mat.zero skel.getNumDofs skel.getNumDofs
    groupBackprop := fun _ _ thisLoss _ _ => thisLoss
    solve := fun _ b => b
    uninitialised := fun _ => 0
    areResultsStandardized := fun _ => true
    finiteDifferenceForceVelJacobian := fun s _ => Mat.zero s.mNumDOFs s.mNumDOFs
    finiteDifferenceMassVelJacobian := fun s _ => Mat.zero s.mNumDOFs 0
    finiteDifferenceVelVelJacobian := fun s _ => Mat.zero s.mNumDOFs s.mNumDOFs
    finiteDifferencePosVelJacobian := fun s _ => Mat.zero s.mNumDOFs s.mNumDOFs
    finiteDifferencePosPosJacobian := fun s _ => Mat.zero s.mNumDOFs s.mNumDOFs
    finiteDifferenceVelPosJacobian := fun s _ => Mat.zero s.mNumDOFs s.mNumDOFs
    getJacobianOfMinv := fun s _ _ _ => Mat.zero s.mNumDOFs 0
    getJacobianOfC := fun s _ _ => Mat.zero s.mNumDOFs 0
    pseudoInverse := fun _ _ _ => 0
    getConstraintForcesJacobian := fun _ w => Mat.zero w.getNumDofs w.getNumDofs
    solveMatrix := fun Q B => Mat.zero Q.cols B.cols }

/-- A world with the single mobile skeleton `"a"` of one DOF, `exampleDofA`,
and no constraint group. -/
def exampleSingleWorld : World :=
  { skeletons :=
      [ { name := "a", dofs := [exampleDofA],
          gradientConstraintMatrices := none, mobile := true } ]
    timeStep := 1 / 100
    useFDOverride := false
    slowDebugResultsAgainstFD := false
    cachedLCPSolution := [] }

/-- The snapshot of `exampleSingleWorld` whose pre-step state is the state of
`exampleDofA`: position 0 (its lower limit), velocity 0, force 2 (its upper
limit). -/
def exampleSingleSnapshot : BackpropSnapshot :=
  BackpropSnapshot.create exampleSingleWorld [0] [0] [2] [0] []

/-- The snapshot `exampleSingleSnapshot` with its six Jacobian caches filled. -/
def exampleCachedSnapshot : BackpropSnapshot :=
  { exampleSingleSnapshot with
    mCachedPosPosDirty := false
    mCachedVelPosDirty := false
    mCachedBounceApproximationDirty := false
    mCachedPosVelDirty := false
    mCachedVelVelDirty := false
    mCachedForceVelDirty := false
    mCachedMassVelDirty := false
    mCachedPosPos := Mat.ofRows 1 [[1]]
    mCachedVelPos := Mat.ofRows 1 [[1 / 100]]
    mCachedBounceApproximation := Mat.ofRows 1 [[1]]
    mCachedPosVel := Mat.ofRows 1 [[2]]
    mCachedVelVel := Mat.ofRows 1 [[1]]
    mCachedForceVel := Mat.ofRows 1 [[1 / 100]]
    mCachedMassVel := Mat.ofRows 0 [[]] }

/-- A next-step loss gradient for one DOF. -/
def exampleNextLoss : LossGradient :=
  { lossWrtPosition := [3], lossWrtVelocity := [5], lossWrtTorque := [], lossWrtMass := [] }

/-- Collaborators for which the force has one dimension per DOF and the
dense solve returns a fixed matrix with `1/2` on its diagonal. -/
def exampleForceExternal : External :=
  { exampleExternal with
    wrtDim := fun _ w => w.getNumDofs
    solveMatrix := fun Q B => ⟨Q.cols, B.cols, fun i j => if i = j then 1 / 2 else 0⟩ }

/-- Collaborators as in `exampleForceExternal`, with the Jacobian of the
Coriolis force equal to twice the identity. -/
def exampleVelocityExternal : External :=
  { exampleForceExternal with
    getJacobianOfC := fun s _ _ => ⟨s.mNumDOFs, s.mNumDOFs, fun i j => if i = j then 2 else 0⟩ }

/-- Collaborators as in `exampleVelocityExternal`, where the force Jacobian of
the constraint at world offset `k` is `(k + 1) I`. -/
def examplePositionExternal : External :=
  { exampleVelocityExternal with
    getConstraintForcesJacobian := fun constraint w =>
      ⟨w.getNumDofs, w.getNumDofs, fun i j =>
        if i = j then (constraint.offsetIntoWorld : ℚ) + 1 else 0⟩ }

/-- Collaborators as in `exampleExternal`, where every skeleton has the
identity as velocity Jacobian of its Coriolis force. -/
def exampleCoriolisExternal : External :=
  { exampleExternal with
    skelVelCJacobian := fun skel => Mat.identity skel.getNumDofs skel.getNumDofs }

/-- The minimum-norm solution `(b_0 / |w|^2) w` of a system with the single row
`w`, used as the dense solve in examples with one bouncing constraint. -/
def minNormSolveRow (M : Mat) (b : Vec) : Vec :=
  (List.range M.cols).map
    (fun k => coeffAt b 0 / sumTo M.cols (fun j => M.coeff 0 j ^ 2) * M.coeff 0 k)

/-- A group spanning the skeleton `"a"` (2 DOFs) with a single bouncing
constraint of column `(1, 1)` and restitution coefficient `1/2`. -/
def exampleBounceGroup : ConstrainedGroupGradientMatrices :=
  { ptr := 3
    skeletons := ["a"]
    clampingConstraints := []
    upperBoundConstraints := []
    numDOFs := 2
    numConstraintDim := 1
    clampingConstraintMatrix := Mat.ofRows 0 [[], []]
    massedClampingConstraintMatrix := Mat.ofRows 0 [[], []]
    upperBoundConstraintMatrix := Mat.ofRows 0 [[], []]
    massedUpperBoundConstraintMatrix := Mat.ofRows 0 [[], []]
    bouncingConstraintMatrix := Mat.ofRows 1 [[1], [1]]
    upperBoundMappingMatrix := Mat.ofRows 0 []
    bounceDiagonals := []
    restitutionDiagonals := [1 / 2]
    contactConstraintImpluses := [0]
    contactConstraintMappings := [-1]
    penetrationCorrectionVelocities := [0]
    clampingConstraintImpulses := []
    clampingConstraintRelativeVels := []
    velocityDueToIllegalImpulses := [0, 0]
    preStepVelocity := [0, 0]
    preStepTorques := [0, 0]
    preLCPVelocity := [0, 0] }

/-- A world with the single skeleton `"a"` of two DOFs, in `exampleBounceGroup`. -/
def exampleBounceWorld : World :=
  { skeletons :=
      [ { name := "a", dofs := [exampleDofA, exampleDofB],
          gradientConstraintMatrices := some exampleBounceGroup, mobile := true } ]
    timeStep := 1 / 100
    useFDOverride := false
    slowDebugResultsAgainstFD := false
    cachedLCPSolution := [] }

/-- The snapshot of `exampleBounceWorld`. -/
def exampleBounceSnapshot : BackpropSnapshot :=
  BackpropSnapshot.create exampleBounceWorld [] [] [] [] []

/-- Collaborators as in `exampleExternal`, with the minimum-norm row solver as
dense solve. -/
def exampleBounceExternal : External :=
  { exampleExternal with solve := minNormSolveRow }

/-- The world `exampleSingleWorld` after it has moved: position `1/4` and
velocity `1/2` in its single DOF. -/
def exampleMovedWorld : World :=
  (exampleSingleWorld.setPositions [1 / 4]).setVelocities [1 / 2]

/-- A second group that names the skeleton `"c"`, which `exampleGroupOne`
names as well. -/
def exampleGroupOverlap : ConstrainedGroupGradientMatrices :=
  { exampleGroupTwo with ptr := 4, skeletons := ["c"] }

/-- A world of two skeletons whose groups overlap: `"a"` has
`exampleGroupOne`, which spans `"c"` and `"a"`, and `"c"` has
`exampleGroupOverlap`, which spans `"c"`. -/
def exampleOverlapWorld : World :=
  { skeletons :=
      [ { name := "a", dofs := [exampleDofA, exampleDofB],
          gradientConstraintMatrices := some exampleGroupOne, mobile := true },
        { name := "c", dofs := [exampleDofB],
          gradientConstraintMatrices := some exampleGroupOverlap, mobile := true } ]
    timeStep := 1 / 100
    useFDOverride := false
    slowDebugResultsAgainstFD := false
    cachedLCPSolution := [] }

/-- A group spanning the skeletons `"a"` and `"b"` (1 DOF each) with a single
clamping constraint of column `(1, -1)`, no upper-bound constraint and bounce
diagonal `1`. -/
def exampleContactGroup : ConstrainedGroupGradientMatrices :=
  { ptr := 5
    skeletons := ["a", "b"]
    clampingConstraints := [⟨51, 0, false⟩]
    upperBoundConstraints := []
    numDOFs := 2
    numConstraintDim := 1
    clampingConstraintMatrix := Mat.ofRows 1 [[1], [-1]]
    massedClampingConstraintMatrix := Mat.ofRows 1 [[2], [-3]]
    upperBoundConstraintMatrix := Mat.ofRows 0 [[], []]
    massedUpperBoundConstraintMatrix := Mat.ofRows 0 [[], []]
    bouncingConstraintMatrix := Mat.ofRows 0 [[], []]
    upperBoundMappingMatrix := Mat.ofRows 1 []
    bounceDiagonals := [1]
    restitutionDiagonals := []
    contactConstraintImpluses := [1]
    contactConstraintMappings := [-1]
    penetrationCorrectionVelocities := [0]
    clampingConstraintImpulses := [1]
    clampingConstraintRelativeVels := [0]
    velocityDueToIllegalImpulses := [0, 0]
    preStepVelocity := [0, 0]
    preStepTorques := [0, 0]
    preLCPVelocity := [0, 0] }

/-- A world of the two skeletons `"a"` and `"b"` (1 DOF each) in contact:
both carry `exampleContactGroup`. -/
def exampleContactWorld : World :=
  { skeletons :=
      [ { name := "a", dofs := [exampleDofB],
          gradientConstraintMatrices := some exampleContactGroup, mobile := true },
        { name := "b", dofs := [exampleDofB],
          gradientConstraintMatrices := some exampleContactGroup, mobile := true } ]
    timeStep := 1 / 100
    useFDOverride := false
    slowDebugResultsAgainstFD := false
    cachedLCPSolution := [] }

/-- The snapshot of `exampleContactWorld`. -/
def exampleContactSnapshot : BackpropSnapshot :=
  BackpropSnapshot.create exampleContactWorld [] [] [] [] []

/-- Collaborators for the two skeletons in contact: inverse mass `2` for `"a"`
and `3` for `"b"`, the world's inverse mass matrix with these on its diagonal,
a force of one dimension per DOF, and the minimum-norm row solver applied to
each column as dense solve. -/
def exampleContactExternal : External :=
  { exampleExternal with
    wrtDim := fun _ w => w.getNumDofs
    skelInvMassMatrix := fun skel =>
      Mat.scale (if skel.name = "a" then 2 else 3)
        (Mat.identity skel.getNumDofs skel.getNumDofs)
    worldInvMassMatrix := fun w =>
      ⟨w.getNumDofs, w.getNumDofs, fun i j => if i = j then (if i = 0 then 2 else 3) else 0⟩
    solveMatrix := fun Q B =>
      ⟨Q.cols, B.cols, fun i j => coeffAt (minNormSolveRow Q (B.col j)) i⟩ }

/-- A group spanning the skeletons `"a"` and `"b"` (1 DOF each) with one
clamping constraint of column `(1, -1)`, one upper-bound constraint of column
`(0, 1)` tied to it with ratio `1/2`, bounce diagonal `1` and relative
velocity `7` at the clamping constraint. -/
def exampleUpperBoundGroup : ConstrainedGroupGradientMatrices :=
  { ptr := 6
    skeletons := ["a", "b"]
    clampingConstraints := [⟨61, 0, false⟩]
    upperBoundConstraints := [⟨62, 0, true⟩]
    numDOFs := 2
    numConstraintDim := 2
    clampingConstraintMatrix := Mat.ofRows 1 [[1], [-1]]
    massedClampingConstraintMatrix := Mat.ofRows 1 [[2], [-3]]
    upperBoundConstraintMatrix := Mat.ofRows 1 [[0], [1]]
    massedUpperBoundConstraintMatrix := Mat.ofRows 1 [[0], [3]]
    bouncingConstraintMatrix := Mat.ofRows 0 [[], []]
    upperBoundMappingMatrix := Mat.ofRows 1 [[1 / 2]]
    bounceDiagonals := [1]
    restitutionDiagonals := []
    contactConstraintImpluses := [1, 1 / 2]
    contactConstraintMappings := [-1, 0]
    penetrationCorrectionVelocities := [0, 0]
    clampingConstraintImpulses := [1]
    clampingConstraintRelativeVels := [7]
    velocityDueToIllegalImpulses := [0, 0]
    preStepVelocity := [0, 0]
    preStepTorques := [1, 1]
    preLCPVelocity := [0, 0] }

/-- A world of the two skeletons `"a"` and `"b"` (1 DOF each), both carrying
`exampleUpperBoundGroup`. -/
def exampleUpperBoundWorld : World :=
  { skeletons :=
      [ { name := "a", dofs := [exampleDofB],
          gradientConstraintMatrices := some exampleUpperBoundGroup, mobile := true },
        { name := "b", dofs := [exampleDofB],
          gradientConstraintMatrices := some exampleUpperBoundGroup, mobile := true } ]
    timeStep := 1 / 100
    useFDOverride := false
    slowDebugResultsAgainstFD := false
    cachedLCPSolution := [] }

/-- The snapshot of `exampleUpperBoundWorld` with pre-step torques `(1, 1)`. -/
def exampleUpperBoundSnapshot : BackpropSnapshot :=
  BackpropSnapshot.create exampleUpperBoundWorld [0, 0] [0, 0] [1, 1] [0, 0] []

/-- Collaborators as in `exampleContactExternal` for a system `Q` of one row
and one column: the pseudo-inverse is `1 / Q`, the dense solve divides by `Q`,
every constraint has the identity as force Jacobian, and the Jacobian of
`Minv * v` is the diagonal matrix of `v`. -/
def exampleInvertibleExternal : External :=
  { exampleContactExternal with
    pseudoInverse := fun Q i j => if i = 0 ∧ j = 0 then 1 / Q.coeff 0 0 else 0
    solve := fun Q b => minNormSolveRow Q b
    getConstraintForcesJacobian := fun _ w => Mat.identity w.getNumDofs w.getNumDofs
    getJacobianOfMinv := fun s _ v _ =>
      ⟨s.mNumDOFs, s.mNumDOFs, fun i j => if i = j then coeffAt v i else 0⟩ }

/-- A group spanning the skeletons `"a"` and `"b"` (1 DOF each) as
`exampleContactGroup`, with relative velocity `7` at the clamping constraint
and pre-step torques `(1, 1)`: one clamping constraint of column `(1, -1)`,
no upper-bound constraint, bounce diagonal `1`. -/
def exampleMassGroup : ConstrainedGroupGradientMatrices :=
  { exampleContactGroup with
    ptr := 7
    clampingConstraints := [⟨71, 0, false⟩]
    clampingConstraintRelativeVels := [7]
    preStepTorques := [1, 1] }

/-- A world of the two skeletons `"a"` and `"b"` (1 DOF each), both carrying
`exampleMassGroup`. -/
def exampleMassWorld : World :=
  { skeletons :=
      [ { name := "a", dofs := [exampleDofB],
          gradientConstraintMatrices := some exampleMassGroup, mobile := true },
        { name := "b", dofs := [exampleDofB],
          gradientConstraintMatrices := some exampleMassGroup, mobile := true } ]
    timeStep := 1 / 100
    useFDOverride := false
    slowDebugResultsAgainstFD := false
    cachedLCPSolution := [] }

/-- The snapshot of `exampleMassWorld` with pre-step torques `(1, 1)`. -/
def exampleMassSnapshot : BackpropSnapshot :=
  BackpropSnapshot.create exampleMassWorld [0, 0] [0, 0] [1, 1] [0, 0] []

/-- A world of two skeletons of one DOF each and no constraint group: `"a"` is
mobile, `"b"` is not. -/
def exampleImmobileWorld : World :=
  { skeletons :=
      [ { name := "a", dofs := [exampleDofA],
          gradientConstraintMatrices := none, mobile := true },
        { name := "b", dofs := [exampleDofB],
          gradientConstraintMatrices := none, mobile := false } ]
    timeStep := 1 / 100
    useFDOverride := false
    slowDebugResultsAgainstFD := false
    cachedLCPSolution := [] }

/-- The snapshot of `exampleImmobileWorld` whose pre-step state is the state of
its DOFs. -/
def exampleImmobileSnapshot : BackpropSnapshot :=
  BackpropSnapshot.create exampleImmobileWorld [0, 1] [0, 0] [2, 0] [0, 0] []

/-- A next-step loss gradient for two DOFs. -/
def exampleNextLossTwo : LossGradient :=
  { lossWrtPosition := [3, 4], lossWrtVelocity := [5, 6], lossWrtTorque := [], lossWrtMass := [] }

/-- A world of one DOF whose state is its position: the Coriolis force is the
cube of the position, and the single skeleton multiplies by the fourth power
of the position. -/
def examplePolynomialCalls : WorldCalls ℚ :=
  { getPositions := fun w => [w]
    getVelocities := fun _ => [0]
    getExternalForces := fun _ => [0]
    getCachedLCPSolution := fun _ => []
    setPositions := fun _ v => coeffAt v 0
    setVelocities := fun w _ => w
    setExternalForces := fun w _ => w
    setCachedLCPSolution := fun w _ => w
    getTimeStep := fun _ => 1 / 100
    setTimeStep := fun w _ => w
    getNumDofs := fun _ => 1
    step := fun w => w
    forwardPass := fun _ => exampleSingleSnapshot
    wrtDim := fun _ _ => 1
    wrtGet := fun _ w => [w]
    wrtSet := fun _ _ v => coeffAt v 0
    getCoriolisAndGravityAndExternalForces := fun w => [w ^ 3]
    skeletonDofs := fun _ => [1]
    multiplyByImplicitInvMassMatrix := fun w _ x => [w ^ 4 * coeffAt x 0]
    getProjectionIntoClampsMatrix := fun _ _ _ => Mat.zero 0 1 }

/-- A set `inv` of world states that the setters of the world and its step do
not leave. -/
def WorldCalls.Preserves {σ : Type} (calls : WorldCalls σ) (inv : σ → Prop) : Prop :=
  (∀ w v, inv w → inv (calls.setPositions w v))
  ∧ (∀ w v, inv w → inv (calls.setVelocities w v))
  ∧ (∀ w v, inv w → inv (calls.setExternalForces w v))
  ∧ (∀ w v, inv w → inv (calls.setCachedLCPSolution w v))
  ∧ (∀ w, inv w → inv (calls.step w))

/-- The state of a world of one DOF driven through `WorldCalls`: a body above
the ground at height `position`. -/
structure ExampleBody where
  position : ℚ
  velocity : ℚ
  force : ℚ
  mass : ℚ
  timeStep : ℚ
  lcpCache : Vec

/-- One step of the example body: the velocity gains
`timeStep * force * mass^2`, and the position becomes
`position^2 + timeStep * velocity` for the new velocity. -/
def ExampleBody.step (w : ExampleBody) : ExampleBody :=
  { w with
    velocity := w.velocity + w.timeStep * w.force * w.mass ^ 2
    position := w.position ^ 2 + w.timeStep * (w.velocity + w.timeStep * w.force * w.mass ^ 2) }

/-- The number of clamping contacts of the example body: one when it is at or
below the ground and does not move upwards, none otherwise. -/
def ExampleBody.numClamping (w : ExampleBody) : Nat :=
  if w.position ≤ 0 ∧ w.velocity ≤ 0 then 1 else 0

/-- The snapshot of one step of the example body. -/
def ExampleBody.forwardPass (w : ExampleBody) : BackpropSnapshot :=
  { exampleSingleSnapshot with
    mTimeStep := w.timeStep
    mNumDOFs := 1
    mNumClamping := w.numClamping
    mNumUpperBound := 0
    mPreStepPosition := [w.position]
    mPreStepVelocity := [w.velocity]
    mPreStepTorques := [w.force]
    mPreStepLCPCache := w.lcpCache
    mPostStepPosition := [w.step.position]
    mPostStepVelocity := [w.step.velocity] }

/-- The calls on the example body. Its Coriolis force is
`velocity * position^3`, and the projection into the clamps of a snapshot has
one row for each clamping contact of the snapshot. -/
def exampleBodyCalls : WorldCalls ExampleBody :=
  { getPositions := fun w => [w.position]
    getVelocities := fun w => [w.velocity]
    getExternalForces := fun w => [w.force]
    getCachedLCPSolution := fun w => w.lcpCache
    setPositions := fun w v => { w with position := coeffAt v 0 }
    setVelocities := fun w v => { w with velocity := coeffAt v 0 }
    setExternalForces := fun w v => { w with force := coeffAt v 0 }
    setCachedLCPSolution := fun w v => { w with lcpCache := v }
    getTimeStep := fun w => w.timeStep
    setTimeStep := fun w t => { w with timeStep := t }
    getNumDofs := fun _ => 1
    step := ExampleBody.step
    forwardPass := ExampleBody.forwardPass
    wrtDim := fun _ _ => 1
    wrtGet := fun wrt w =>
      match wrt with
      | .POSITION => [w.position]
      | .VELOCITY => [w.velocity]
      | .FORCE => [w.force]
      | .MASS => [w.mass]
    wrtSet := fun wrt w v =>
      match wrt with
      | .POSITION => { w with position := coeffAt v 0 }
      | .VELOCITY => { w with velocity := coeffAt v 0 }
      | .FORCE => { w with force := coeffAt v 0 }
      | .MASS => { w with mass := coeffAt v 0 }
    getCoriolisAndGravityAndExternalForces := fun w => [w.velocity * w.position ^ 3]
    skeletonDofs := fun _ => [1]
    multiplyByImplicitInvMassMatrix := fun w _ x => [coeffAt x 0 * w.mass ^ 2]
    getProjectionIntoClampsMatrix := fun snapshot _ _ => Mat.zero snapshot.mNumClamping 1 }

/-- The example body at height 2, moving upwards at 1 under the force 3, with
mass 1 and time step `1/10`. -/
def exampleBody : ExampleBody :=
  { position := 2, velocity := 1, force := 3, mass := 1, timeStep := 1 / 10, lcpCache := [] }

/-- The snapshot of one step of `exampleBody`. -/
def exampleBodySnapshot : BackpropSnapshot := exampleBody.forwardPass

/-- The example body at rest on the ground: at height 0 with velocity 0, so in
contact, while any upward velocity takes it out of contact. -/
def exampleRestingBody : ExampleBody :=
  { position := 0, velocity := 0, force := 0, mass := 1, timeStep := 1 / 10, lcpCache := [] }

/-- The snapshot of one step of `exampleRestingBody`; it has one clamping
contact. -/
def exampleRestingSnapshot : BackpropSnapshot := exampleRestingBody.forwardPass

/-- The example body below the ground and moving downwards, so in contact
whatever force acts on it. -/
def exampleSunkBody : ExampleBody :=
  { position := -1, velocity := -1, force := 0, mass := 1, timeStep := 1 / 10, lcpCache := [] }

/-- The snapshot of `exampleContactWorld` whose pre-step state is the state of
the world: positions `(1, 1)`, velocities and forces zero. -/
def exampleContactStateSnapshot : BackpropSnapshot :=
  BackpropSnapshot.create exampleContactWorld [1, 1] [0, 0] [0, 0] [0, 0] []

/-- The calls on a world of skeletons as in `exampleContactExternal`: the
first skeleton has inverse mass `2`, the others `3`; a step leaves the world
as it is. -/
def exampleContactCalls : WorldCalls World :=
  { getPositions := World.getPositions
    getVelocities := World.getVelocities
    getExternalForces := World.getExternalForces
    getCachedLCPSolution := fun w => w.cachedLCPSolution
    setPositions := World.setPositions
    setVelocities := World.setVelocities
    setExternalForces := World.setExternalForces
    setCachedLCPSolution := World.setCachedLCPSolution
    getTimeStep := fun w => w.timeStep
    setTimeStep := fun w t => { w with timeStep := t }
    getNumDofs := World.getNumDofs
    step := fun w => w
    forwardPass := fun _ => exampleContactStateSnapshot
    wrtDim := fun _ w => w.getNumDofs
    wrtGet := fun _ w => w.getExternalForces
    wrtSet := fun _ w v => w.setExternalForces v
    getCoriolisAndGravityAndExternalForces := fun w => Vec.zero w.getNumDofs
    skeletonDofs := fun w => w.skeletons.map Skeleton.getNumDofs
    multiplyByImplicitInvMassMatrix := fun _ i x => Vec.scale (if i = 0 then 2 else 3) x
    getProjectionIntoClampsMatrix := fun _ _ _ => Mat.zero 0 0 }

/-- The inverse mass matrix of `exampleContactExternal`: diagonal, `2` for the
first DOF and `3` for the others. -/
def exampleContactInvMass (n : Nat) : Matrix (Fin n) (Fin n) ℚ :=
  fun i j => if (i : Nat) = j then (if (i : Nat) = 0 then 2 else 3) else 0

/-- The reciprocal of each coefficient: the pseudo-inverse of a system of one
row and one column. -/
def exampleReciprocal (k : Nat) (Q : Matrix (Fin k) (Fin k) ℚ) : Matrix (Fin k) (Fin k) ℚ :=
  fun i j => 1 / Q i j

/-! # Theorems -/

/-! ## Dense vectors -/

theorem coeffAt_of_le {α : Type} [Zero α] (v : List α) (i : Nat) (h : v.length ≤ i) :
    coeffAt v i = 0 := by
  simp [coeffAt, List.getElem?_eq_none h]

theorem coeffAt_of_lt {α : Type} [Zero α] (v : List α) (i : Nat) (h : i < v.length) :
    coeffAt v i = v[i] := by
  simp [coeffAt, h]

theorem coeffAt_map_range {α : Type} [Zero α] (n : Nat) (f : Nat → α) (i : Nat) :
    coeffAt ((List.range n).map f) i = if i < n then f i else 0 := by
  by_cases h : i < n
  · rw [coeffAt_of_lt _ _ (by simpa using h)]
    simp [h]
  · rw [coeffAt_of_le _ _ (by simpa using h)]
    simp [h]

theorem coeffAt_set {α : Type} [Zero α] (v : List α) (c : Nat) (x : α) (i : Nat) :
    coeffAt (v.set c x) i = if i = c ∧ c < v.length then x else coeffAt v i := by
  by_cases h2 : i < v.length
  · rw [coeffAt_of_lt _ _ (by simpa using h2), coeffAt_of_lt _ _ h2]
    by_cases h : i = c
    · subst h; simp [h2]
    · have h' : c ≠ i := fun e => h e.symm
      simp [h, List.getElem_set_ne h']
  · rw [coeffAt_of_le _ _ (by simpa using h2), coeffAt_of_le _ _ (by simpa using h2)]
    have : ¬ (i = c ∧ c < v.length) := by
      rintro ⟨rfl, h⟩; exact h2 h
    simp [this]

theorem list_ext_coeffAt {α : Type} [Zero α] (a b : List α) (hl : a.length = b.length)
    (h : ∀ i, i < a.length → coeffAt a i = coeffAt b i) : a = b := by
  apply List.ext_getElem hl
  intro i h1 h2
  have := h i h1
  rwa [coeffAt_of_lt _ _ h1, coeffAt_of_lt _ _ h2] at this

theorem length_writeSegment {α : Type} [Zero α] (v : List α) (start n : Nat) (src : List α) :
    (writeSegment v start n src).length = v.length := by
  simp [writeSegment]

theorem coeffAt_writeSegment {α : Type} [Zero α] (v : List α) (start n : Nat) (src : List α)
    (i : Nat) :
    coeffAt (writeSegment v start n src) i =
      if start ≤ i ∧ i < start + n ∧ i < v.length then coeffAt src (i - start) else coeffAt v i := by
  unfold writeSegment
  rw [coeffAt_map_range]
  by_cases h : i < v.length
  · by_cases h2 : start ≤ i ∧ i < start + n
    · have h3 : start ≤ i ∧ i < start + n ∧ i < v.length := ⟨h2.1, h2.2, h⟩
      simp [h, h2, h3]
    · have h3 : ¬ (start ≤ i ∧ i < start + n ∧ i < v.length) := fun h4 => h2 ⟨h4.1, h4.2.1⟩
      simp [h, h2, h3]
  · have h3 : ¬ (start ≤ i ∧ i < start + n ∧ i < v.length) := fun h4 => h h4.2.2
    simp [h, h3, coeffAt_of_le v i (Nat.le_of_not_lt h)]

theorem length_segmentOf {α : Type} [Zero α] (v : List α) (start n : Nat) :
    (segmentOf v start n).length = n := by
  simp [segmentOf]

theorem coeffAt_segmentOf {α : Type} [Zero α] (v : List α) (start n i : Nat) :
    coeffAt (segmentOf v start n) i = if i < n then coeffAt v (start + i) else 0 := by
  unfold segmentOf
  rw [coeffAt_map_range]

/-! ## Gradient clipping -/

theorem length_clipAtLower (x lower : ℚ) (g : Vec) (c : Nat) :
    (clipAtLower x lower g c).length = g.length := by
  unfold clipAtLower
  split <;> simp

theorem length_clipAtUpper (x upper : ℚ) (g : Vec) (c : Nat) :
    (clipAtUpper x upper g c).length = g.length := by
  unfold clipAtUpper
  split <;> simp

theorem coeffAt_clipAtLower (x lower : ℚ) (g : Vec) (c i : Nat) :
    coeffAt (clipAtLower x lower g c) i
      = if i = c ∧ x = lower ∧ coeffAt g c > 0 then 0 else coeffAt g i := by
  unfold clipAtLower
  by_cases h : x = lower ∧ coeffAt g c > 0
  · rw [if_pos h, coeffAt_set]
    by_cases hi : i = c
    · subst hi
      have hlt : i < g.length := by
        by_contra hge
        rw [coeffAt_of_le g i (Nat.le_of_not_lt hge)] at h
        exact lt_irrefl _ h.2
      simp [hlt, h]
    · simp [hi]
  · rw [if_neg h]
    have : ¬ (i = c ∧ x = lower ∧ coeffAt g c > 0) := fun h2 => h h2.2
    rw [if_neg this]

theorem coeffAt_clipAtUpper (x upper : ℚ) (g : Vec) (c i : Nat) :
    coeffAt (clipAtUpper x upper g c) i
      = if i = c ∧ x = upper ∧ coeffAt g c < 0 then 0 else coeffAt g i := by
  unfold clipAtUpper
  by_cases h : x = upper ∧ coeffAt g c < 0
  · rw [if_pos h, coeffAt_set]
    by_cases hi : i = c
    · subst hi
      have hlt : i < g.length := by
        by_contra hge
        rw [coeffAt_of_le g i (Nat.le_of_not_lt hge)] at h
        exact lt_irrefl _ h.2
      simp [hlt, h]
    · simp [hi]
  · rw [if_neg h]
    have : ¬ (i = c ∧ x = upper ∧ coeffAt g c < 0) := fun h2 => h h2.2
    rw [if_neg this]

/-- The two tests of the loop body, lower bound first, realise the rule of the spec. -/
theorem coeffAt_clip_both (x lower upper : ℚ) (g : Vec) (c i : Nat) :
    coeffAt (clipAtUpper x upper (clipAtLower x lower g c) c) i
      = if i = c then clippedValue x lower upper (coeffAt g c) else coeffAt g i := by
  rw [coeffAt_clipAtUpper, coeffAt_clipAtLower, coeffAt_clipAtLower]
  unfold clippedValue
  by_cases hi : i = c
  · subst hi
    simp only [true_and, if_true]
    by_cases h1 : x = lower ∧ coeffAt g i > 0
    · rw [if_pos h1, if_pos (Or.inl h1), if_neg (fun h => lt_irrefl (0 : ℚ) h.2)]
    · rw [if_neg h1]
      by_cases h3 : x = upper ∧ coeffAt g i < 0
      · rw [if_pos h3, if_pos (Or.inr h3)]
      · rw [if_neg h3, if_neg (fun h => h.elim h1 h3)]
  · simp [hi]

theorem clipDofs_append (a b : List DegreeOfFreedom) (c : Nat) (g : ClippedGradients) :
    clipDofs (a ++ b) c g = clipDofs b (clipDofs a c g).1 (clipDofs a c g).2 := by
  induction a generalizing c g with
  | nil => simp [clipDofs]
  | cons d ds ih => simp [clipDofs, ih]

theorem clipSkeletons_eq_clipDofs (skels : List Skeleton) (c : Nat) (g : ClippedGradients) :
    clipSkeletons skels c g = clipDofs (skels.map (fun skel => skel.dofs)).flatten c g := by
  induction skels generalizing c g with
  | nil => simp [clipSkeletons, clipDofs]
  | cons skel rest ih =>
    simp only [clipSkeletons, List.map_cons, List.flatten_cons, clipDofs_append]
    exact ih _ _

theorem clipLossGradientsToBounds_eq (world : World) (g : ClippedGradients) :
    clipLossGradientsToBounds world g = (clipDofs world.allDofs 0 g).2 := by
  simp [clipLossGradientsToBounds, World.allDofs, clipSkeletons_eq_clipDofs]

theorem clipComponentAt_cons (d : DegreeOfFreedom) (ds : List DegreeOfFreedom) (c : Nat)
    (sel : DegreeOfFreedom → ℚ × ℚ × ℚ) (g g1 : Vec)
    (h : ∀ i, coeffAt g1 i
      = if i = c then clippedValue (sel d).1 (sel d).2.1 (sel d).2.2 (coeffAt g c) else coeffAt g i)
    (i : Nat) :
    clipComponentAt ds (c + 1) sel g1 i = clipComponentAt (d :: ds) c sel g i := by
  unfold clipComponentAt
  rcases Nat.lt_trichotomy i c with hlt | heq | hgt
  · have h1 : ¬ c + 1 ≤ i := by omega
    have h2 : ¬ c ≤ i := by omega
    have h3 : i ≠ c := by omega
    rw [if_neg h1, if_neg h2, h i, if_neg h3]
  · subst heq
    have h1 : ¬ i + 1 ≤ i := by omega
    rw [if_neg h1, if_pos (Nat.le_refl i), h i]
    simp
  · have h1 : c + 1 ≤ i := by omega
    have h2 : c ≤ i := by omega
    have h3 : i ≠ c := by omega
    have h4 : i - c = (i - (c + 1)) + 1 := by omega
    rw [if_pos h1, if_pos h2, h i, if_neg h3, h4, List.getElem?_cons_succ]

theorem clipDofs_spec (ds : List DegreeOfFreedom) (c : Nat) (g : ClippedGradients) :
    ((clipDofs ds c g).2.lossWrtPos.length = g.lossWrtPos.length
      ∧ (clipDofs ds c g).2.lossWrtVel.length = g.lossWrtVel.length
      ∧ (clipDofs ds c g).2.lossWrtForce.length = g.lossWrtForce.length)
    ∧ ∀ i,
      coeffAt (clipDofs ds c g).2.lossWrtPos i = clipComponentAt ds c selPosition g.lossWrtPos i
      ∧ coeffAt (clipDofs ds c g).2.lossWrtVel i = clipComponentAt ds c selVelocity g.lossWrtVel i
      ∧ coeffAt (clipDofs ds c g).2.lossWrtForce i
          = clipComponentAt ds c selForce g.lossWrtForce i := by
  induction ds generalizing c g with
  | nil =>
    refine ⟨⟨rfl, rfl, rfl⟩, fun i => ?_⟩
    simp [clipDofs, clipComponentAt]
  | cons d ds ih =>
    obtain ⟨⟨l1, l2, l3⟩, hc⟩ := ih (c + 1) (clipDof d c g)
    refine ⟨⟨?_, ?_, ?_⟩, fun i => ⟨?_, ?_, ?_⟩⟩
    · simp only [clipDofs]
      rw [l1]; simp [clipDof, length_clipAtUpper, length_clipAtLower]
    · simp only [clipDofs]
      rw [l2]; simp [clipDof, length_clipAtUpper, length_clipAtLower]
    · simp only [clipDofs]
      rw [l3]; simp [clipDof, length_clipAtUpper, length_clipAtLower]
    · simp only [clipDofs]
      rw [(hc i).1]
      exact clipComponentAt_cons d ds c selPosition _ _
        (fun j => coeffAt_clip_both d.position d.positionLowerLimit d.positionUpperLimit _ c j) i
    · simp only [clipDofs]
      rw [(hc i).2.1]
      exact clipComponentAt_cons d ds c selVelocity _ _
        (fun j => coeffAt_clip_both d.velocity d.velocityLowerLimit d.velocityUpperLimit _ c j) i
    · simp only [clipDofs]
      rw [(hc i).2.2]
      exact clipComponentAt_cons d ds c selForce _ _
        (fun j => coeffAt_clip_both d.force d.forceLowerLimit d.forceUpperLimit _ c j) i

theorem clippedValue_idem (x lower upper g : ℚ) :
    clippedValue x lower upper (clippedValue x lower upper g) = clippedValue x lower upper g := by
  unfold clippedValue
  by_cases h : (x = lower ∧ g > 0) ∨ (x = upper ∧ g < 0)
  · rw [if_pos h]
    have : ¬ ((x = lower ∧ (0 : ℚ) > 0) ∨ (x = upper ∧ (0 : ℚ) < 0)) := by
      rintro (h1 | h1) <;> exact lt_irrefl _ h1.2
    rw [if_neg this]
  · rw [if_neg h, if_neg h]

theorem clipComponentAt_idem (ds : List DegreeOfFreedom) (c : Nat)
    (sel : DegreeOfFreedom → ℚ × ℚ × ℚ) (g g1 : Vec) (i : Nat)
    (h : coeffAt g1 i = clipComponentAt ds c sel g i) :
    clipComponentAt ds c sel g1 i = clipComponentAt ds c sel g i := by
  unfold clipComponentAt at h ⊢
  by_cases hc : c ≤ i
  · simp only [if_pos hc] at h ⊢
    cases hd : ds[i - c]? with
    | none => rw [hd] at h; simpa using h
    | some d =>
      rw [hd] at h
      simp only [h]
      exact clippedValue_idem _ _ _ _
  · simp only [if_neg hc] at h ⊢
    exact h

theorem ClippedGradients.ext_fields (a b : ClippedGradients)
    (h1 : a.lossWrtPos = b.lossWrtPos) (h2 : a.lossWrtVel = b.lossWrtVel)
    (h3 : a.lossWrtForce = b.lossWrtForce) : a = b := by
  cases a; cases b; simp_all

theorem clipComponentAt_zero_some (dofs : List DegreeOfFreedom) (sel : DegreeOfFreedom → ℚ × ℚ × ℚ)
    (g : Vec) (i : Nat) (d : DegreeOfFreedom) (hd : dofs[i]? = some d) :
    clipComponentAt dofs 0 sel g i = clippedValue (sel d).1 (sel d).2.1 (sel d).2.2 (coeffAt g i) := by
  simp [clipComponentAt, hd]

/-- C2. For the DOF `d` met at world index `i` (skeletons in world order, DOFs
in skeleton order), `clipLossGradientsToBounds` sets component `i` of the
position gradient to `0` exactly when the position equals its lower limit and
the component is positive, or equals its upper limit and the component is
negative, and otherwise leaves it equal to its input; likewise the velocity
gradient against velocity and velocity limits and the force gradient against
force and force limits. The three vectors keep their lengths. -/
theorem clipLossGradientsToBounds_rule (world : World) (g : ClippedGradients) (i : Nat)
    (d : DegreeOfFreedom) (hd : world.allDofs[i]? = some d) :
    coeffAt (clipLossGradientsToBounds world g).lossWrtPos i
        = (if (d.position = d.positionLowerLimit ∧ coeffAt g.lossWrtPos i > 0)
              ∨ (d.position = d.positionUpperLimit ∧ coeffAt g.lossWrtPos i < 0)
            then 0 else coeffAt g.lossWrtPos i)
    ∧ coeffAt (clipLossGradientsToBounds world g).lossWrtVel i
        = (if (d.velocity = d.velocityLowerLimit ∧ coeffAt g.lossWrtVel i > 0)
              ∨ (d.velocity = d.velocityUpperLimit ∧ coeffAt g.lossWrtVel i < 0)
            then 0 else coeffAt g.lossWrtVel i)
    ∧ coeffAt (clipLossGradientsToBounds world g).lossWrtForce i
        = (if (d.force = d.forceLowerLimit ∧ coeffAt g.lossWrtForce i > 0)
              ∨ (d.force = d.forceUpperLimit ∧ coeffAt g.lossWrtForce i < 0)
            then 0 else coeffAt g.lossWrtForce i)
    ∧ (clipLossGradientsToBounds world g).lossWrtPos.length = g.lossWrtPos.length
    ∧ (clipLossGradientsToBounds world g).lossWrtVel.length = g.lossWrtVel.length
    ∧ (clipLossGradientsToBounds world g).lossWrtForce.length = g.lossWrtForce.length := by
  rw [clipLossGradientsToBounds_eq]
  obtain ⟨⟨l1, l2, l3⟩, hc⟩ := clipDofs_spec world.allDofs 0 g
  obtain ⟨c1, c2, c3⟩ := hc i
  refine ⟨?_, ?_, ?_, l1, l2, l3⟩
  · rw [c1, clipComponentAt_zero_some _ _ _ _ d hd]; rfl
  · rw [c2, clipComponentAt_zero_some _ _ _ _ d hd]; rfl
  · rw [c3, clipComponentAt_zero_some _ _ _ _ d hd]; rfl

/-- Witness of C2: in the example world the DOF at index 0 rests on its
position lower limit and on its force upper limit. -/
theorem clipLossGradientsToBounds_rule_witness :
    exampleWorld.allDofs[0]? = some exampleDofA
    ∧ coeffAt (clipLossGradientsToBounds exampleWorld exampleGradients).lossWrtPos 0 = 0
    ∧ coeffAt (clipLossGradientsToBounds exampleWorld exampleGradients).lossWrtVel 0 = 1
    ∧ coeffAt (clipLossGradientsToBounds exampleWorld exampleGradients).lossWrtForce 0 = 0 := by
  have h := clipLossGradientsToBounds_rule exampleWorld exampleGradients 0 exampleDofA (by rfl)
  refine ⟨by rfl, ?_, ?_, ?_⟩
  · rw [h.1]; norm_num [exampleDofA, exampleGradients, coeffAt]
  · rw [h.2.1]; norm_num [exampleDofA, exampleGradients, coeffAt]
  · rw [h.2.2.1]; norm_num [exampleDofA, exampleGradients, coeffAt]

/-- C3. For every world state and every triple of gradient vectors, applying
`clipLossGradientsToBounds` twice (world unchanged in between) gives the same
three vectors as applying it once. -/
theorem clipLossGradientsToBounds_idempotent (world : World) (g : ClippedGradients) :
    clipLossGradientsToBounds world (clipLossGradientsToBounds world g)
      = clipLossGradientsToBounds world g := by
  rw [clipLossGradientsToBounds_eq, clipLossGradientsToBounds_eq]
  obtain ⟨⟨l1, l2, l3⟩, hc⟩ := clipDofs_spec world.allDofs 0 g
  obtain ⟨⟨m1, m2, m3⟩, hd⟩ := clipDofs_spec world.allDofs 0 (clipDofs world.allDofs 0 g).2
  apply ClippedGradients.ext_fields
  · apply list_ext_coeffAt _ _ m1
    intro i _
    rw [(hd i).1, (hc i).1]
    exact clipComponentAt_idem _ _ _ _ _ _ (hc i).1
  · apply list_ext_coeffAt _ _ m2
    intro i _
    rw [(hd i).2.1, (hc i).2.1]
    exact clipComponentAt_idem _ _ _ _ _ _ (hc i).2.1
  · apply list_ext_coeffAt _ _ m3
    intro i _
    rw [(hd i).2.2, (hc i).2.2]
    exact clipComponentAt_idem _ _ _ _ _ _ (hc i).2.2

/-! ## Prefix sums of DOF counts -/

theorem sum_take_succ_of_getElem? (l : List Nat) (i d : Nat) (h : l[i]? = some d) :
    (l.take (i + 1)).sum = (l.take i).sum + d := by
  induction l generalizing i with
  | nil => simp at h
  | cons a l ih =>
    cases i with
    | zero => simp at h; simp [h]
    | succ i =>
      simp at h
      simp [List.take_succ_cons, ih i h]
      omega

theorem sum_take_le_sum (l : List Nat) (i : Nat) : (l.take i).sum ≤ l.sum := by
  induction l generalizing i with
  | nil => simp
  | cons a l ih =>
    cases i with
    | zero => simp
    | succ i => simp [List.take_succ_cons]; exact ih i

theorem sum_take_mono (l : List Nat) (i j : Nat) (h : i ≤ j) :
    (l.take i).sum ≤ (l.take j).sum := by
  induction l generalizing i j with
  | nil => simp
  | cons a l ih =>
    cases i with
    | zero => simp
    | succ i =>
      cases j with
      | zero => omega
      | succ j =>
        simp [List.take_succ_cons]
        exact ih i j (by omega)

theorem exists_index_of_lt_sum (l : List Nat) (x : Nat) (hx : x < l.sum) :
    ∃ i d, l[i]? = some d ∧ (l.take i).sum ≤ x ∧ x < (l.take i).sum + d := by
  induction l generalizing x with
  | nil => simp at hx
  | cons a l ih =>
    by_cases h : x < a
    · exact ⟨0, a, by simp, by simp, by simpa using h⟩
    · have hx' : x - a < l.sum := by simp at hx; omega
      obtain ⟨i, d, h1, h2, h3⟩ := ih (x - a) hx'
      refine ⟨i + 1, d, by simpa using h1, ?_, ?_⟩
      · simp [List.take_succ_cons]; omega
      · simp [List.take_succ_cons]; omega

/-! ## The world setters keep the skeleton list's shape -/

theorem length_setDofs (upd : DegreeOfFreedom → ℚ → DegreeOfFreedom) (ds : List DegreeOfFreedom)
    (c : Nat) (v : Vec) : (setDofs upd ds c v).length = ds.length := by
  induction ds generalizing c with
  | nil => simp [setDofs]
  | cons d ds ih => simp [setDofs, ih]

theorem collectSkeleton_setDofs (s : BackpropSnapshot) (skel : Skeleton)
    (upd : DegreeOfFreedom → ℚ → DegreeOfFreedom) (c : Nat) (v : Vec) :
    collectSkeleton s { skel with dofs := setDofs upd skel.dofs c v } = collectSkeleton s skel := by
  simp [collectSkeleton, Skeleton.getNumDofs, length_setDofs]

theorem foldl_collectSkeleton_setSkeletons (upd : DegreeOfFreedom → ℚ → DegreeOfFreedom)
    (skels : List Skeleton) (c : Nat) (v : Vec) (s : BackpropSnapshot) :
    (setSkeletons upd skels c v).foldl collectSkeleton s = skels.foldl collectSkeleton s := by
  induction skels generalizing c s with
  | nil => simp [setSkeletons]
  | cons skel rest ih =>
    simp only [setSkeletons, List.foldl_cons, collectSkeleton_setDofs]
    exact ih _ _

/-- The constructor sees the same names, DOF counts and groups in the rewound
world as in the world it was given. -/
theorem create_eq_foldl (world : World) (p v t c l : Vec) :
    BackpropSnapshot.create world p v t c l
      = world.skeletons.foldl collectSkeleton (BackpropSnapshot.init world p v t c l) := by
  simp [BackpropSnapshot.create, World.setPositions, World.setVelocities,
    World.setExternalForces, World.setCachedLCPSolution, foldl_collectSkeleton_setSkeletons]

/-! ## The skeleton loop of the constructor -/

theorem collectSkeleton_mNumDOFs (s : BackpropSnapshot) (skel : Skeleton) :
    (collectSkeleton s skel).mNumDOFs = s.mNumDOFs + skel.getNumDofs := by
  unfold collectSkeleton
  cases skel.gradientConstraintMatrices with
  | none => rfl
  | some g =>
    dsimp only
    split <;> rfl

theorem collectSkeleton_mSkeletonOffset (s : BackpropSnapshot) (skel : Skeleton) :
    (collectSkeleton s skel).mSkeletonOffset
      = Function.update s.mSkeletonOffset skel.name s.mNumDOFs := by
  unfold collectSkeleton
  cases skel.gradientConstraintMatrices with
  | none => rfl
  | some g =>
    dsimp only
    split <;> rfl

theorem collectSkeleton_mSkeletonDofs (s : BackpropSnapshot) (skel : Skeleton) :
    (collectSkeleton s skel).mSkeletonDofs
      = Function.update s.mSkeletonDofs skel.name skel.getNumDofs := by
  unfold collectSkeleton
  cases skel.gradientConstraintMatrices with
  | none => rfl
  | some g =>
    dsimp only
    split <;> rfl

theorem foldl_collectSkeleton_mNumDOFs (skels : List Skeleton) (s : BackpropSnapshot) :
    (skels.foldl collectSkeleton s).mNumDOFs = s.mNumDOFs + (skels.map Skeleton.getNumDofs).sum := by
  induction skels generalizing s with
  | nil => simp
  | cons skel rest ih =>
    simp only [List.foldl_cons, List.map_cons, List.sum_cons]
    rw [ih, collectSkeleton_mNumDOFs]
    omega

theorem foldl_collectSkeleton_notin (skels : List Skeleton) (s : BackpropSnapshot) (name : String)
    (h : name ∉ skels.map (fun skel => skel.name)) :
    (skels.foldl collectSkeleton s).mSkeletonOffset name = s.mSkeletonOffset name
    ∧ (skels.foldl collectSkeleton s).mSkeletonDofs name = s.mSkeletonDofs name := by
  induction skels generalizing s with
  | nil => simp
  | cons skel rest ih =>
    simp only [List.map_cons, List.mem_cons, not_or] at h
    simp only [List.foldl_cons]
    obtain ⟨h1, h2⟩ := ih (collectSkeleton s skel) h.2
    rw [h1, h2, collectSkeleton_mSkeletonOffset, collectSkeleton_mSkeletonDofs]
    exact ⟨Function.update_noteq h.1 _ _, Function.update_noteq h.1 _ _⟩

theorem foldl_collectSkeleton_layout (skels : List Skeleton) (s : BackpropSnapshot)
    (hnames : (skels.map (fun skel => skel.name)).Nodup) (i : Nat) (skel : Skeleton)
    (hi : skels[i]? = some skel) :
    (skels.foldl collectSkeleton s).mSkeletonOffset skel.name
        = s.mNumDOFs + ((skels.take i).map Skeleton.getNumDofs).sum
    ∧ (skels.foldl collectSkeleton s).mSkeletonDofs skel.name = skel.getNumDofs := by
  induction skels generalizing s i with
  | nil => simp at hi
  | cons first rest ih =>
    simp only [List.map_cons, List.nodup_cons] at hnames
    simp only [List.foldl_cons]
    cases i with
    | zero =>
      simp only [List.getElem?_cons_zero, Option.some.injEq] at hi
      subst hi
      obtain ⟨h1, h2⟩ := foldl_collectSkeleton_notin rest (collectSkeleton s first) first.name hnames.1
      rw [h1, h2, collectSkeleton_mSkeletonOffset, collectSkeleton_mSkeletonDofs]
      simp
    | succ i =>
      simp only [List.getElem?_cons_succ] at hi
      obtain ⟨h1, h2⟩ := ih (collectSkeleton s first) hnames.2 i hi
      rw [h1, h2, collectSkeleton_mNumDOFs]
      simp only [List.take_succ_cons, List.map_cons, List.sum_cons]
      exact ⟨by omega, trivial⟩

theorem create_mNumDOFs (world : World) (p v t c l : Vec) :
    (BackpropSnapshot.create world p v t c l).mNumDOFs
      = (world.skeletons.map Skeleton.getNumDofs).sum := by
  rw [create_eq_foldl, foldl_collectSkeleton_mNumDOFs]
  simp [BackpropSnapshot.init]

theorem create_offset_dofs (world : World) (p v t c l : Vec)
    (hnames : (world.skeletons.map (fun skel => skel.name)).Nodup) (i : Nat) (skel : Skeleton)
    (hi : world.skeletons[i]? = some skel) :
    (BackpropSnapshot.create world p v t c l).mSkeletonOffset skel.name
        = ((world.skeletons.take i).map Skeleton.getNumDofs).sum
    ∧ (BackpropSnapshot.create world p v t c l).mSkeletonDofs skel.name = skel.getNumDofs := by
  rw [create_eq_foldl]
  obtain ⟨h1, h2⟩ := foldl_collectSkeleton_layout world.skeletons
    (BackpropSnapshot.init world p v t c l) hnames i skel hi
  rw [h1, h2]
  simp [BackpropSnapshot.init]

theorem create_range_end (world : World) (p v t c l : Vec)
    (hnames : (world.skeletons.map (fun skel => skel.name)).Nodup) (i : Nat) (skel : Skeleton)
    (hi : world.skeletons[i]? = some skel) :
    (BackpropSnapshot.create world p v t c l).mSkeletonOffset skel.name
        + (BackpropSnapshot.create world p v t c l).mSkeletonDofs skel.name
      = ((world.skeletons.take (i + 1)).map Skeleton.getNumDofs).sum := by
  obtain ⟨h1, h2⟩ := create_offset_dofs world p v t c l hnames i skel hi
  rw [h1, h2, List.map_take, List.map_take]
  symm
  apply sum_take_succ_of_getElem?
  simp [hi]

theorem create_ranges_ordered (world : World) (p v t c l : Vec)
    (hnames : (world.skeletons.map (fun skel => skel.name)).Nodup) (i j : Nat)
    (si sj : Skeleton) (hij : i < j)
    (hi : world.skeletons[i]? = some si) (hj : world.skeletons[j]? = some sj) :
    (BackpropSnapshot.create world p v t c l).mSkeletonOffset si.name
        + (BackpropSnapshot.create world p v t c l).mSkeletonDofs si.name
      ≤ (BackpropSnapshot.create world p v t c l).mSkeletonOffset sj.name := by
  rw [create_range_end world p v t c l hnames i si hi,
    (create_offset_dofs world p v t c l hnames j sj hj).1, List.map_take, List.map_take]
  exact sum_take_mono _ _ _ hij

/-- C9. After construction over a world whose skeletons have pairwise distinct
names: `numDOFs` is the sum of all skeleton DOF counts; the recorded offset of
skeleton `i` is the sum of the DOF counts of skeletons `0..i-1` and its
recorded DOF count is its own; the index ranges `[offset_i, offset_i + dofs_i)`
are pairwise disjoint and their union is `[0, numDOFs)`. -/
theorem create_world_layout (world : World) (p v t c l : Vec)
    (hnames : (world.skeletons.map (fun skel => skel.name)).Nodup) :
    (BackpropSnapshot.create world p v t c l).mNumDOFs
        = (world.skeletons.map Skeleton.getNumDofs).sum
    ∧ (∀ (i : Nat) (skel : Skeleton), world.skeletons[i]? = some skel →
        (BackpropSnapshot.create world p v t c l).mSkeletonOffset skel.name
            = ((world.skeletons.take i).map Skeleton.getNumDofs).sum
        ∧ (BackpropSnapshot.create world p v t c l).mSkeletonDofs skel.name = skel.getNumDofs)
    ∧ (∀ (i j : Nat) (si sj : Skeleton), i ≠ j → world.skeletons[i]? = some si → world.skeletons[j]? = some sj →
        ∀ x,
          ¬ ((BackpropSnapshot.create world p v t c l).mSkeletonOffset si.name ≤ x
            ∧ x < (BackpropSnapshot.create world p v t c l).mSkeletonOffset si.name
                + (BackpropSnapshot.create world p v t c l).mSkeletonDofs si.name
            ∧ (BackpropSnapshot.create world p v t c l).mSkeletonOffset sj.name ≤ x
            ∧ x < (BackpropSnapshot.create world p v t c l).mSkeletonOffset sj.name
                + (BackpropSnapshot.create world p v t c l).mSkeletonDofs sj.name))
    ∧ (∀ x, x < (BackpropSnapshot.create world p v t c l).mNumDOFs ↔
        ∃ (i : Nat) (skel : Skeleton), world.skeletons[i]? = some skel
          ∧ (BackpropSnapshot.create world p v t c l).mSkeletonOffset skel.name ≤ x
          ∧ x < (BackpropSnapshot.create world p v t c l).mSkeletonOffset skel.name
              + (BackpropSnapshot.create world p v t c l).mSkeletonDofs skel.name) := by
  refine ⟨create_mNumDOFs world p v t c l,
    fun i skel hi => create_offset_dofs world p v t c l hnames i skel hi, ?_, ?_⟩
  · intro i j si sj hij hi hj x ⟨a1, a2, b1, b2⟩
    rcases Nat.lt_or_gt_of_ne hij with h | h
    · have := create_ranges_ordered world p v t c l hnames i j si sj h hi hj
      omega
    · have := create_ranges_ordered world p v t c l hnames j i sj si h hj hi
      omega
  · intro x
    constructor
    · intro hx
      rw [create_mNumDOFs] at hx
      obtain ⟨i, d, h1, h2, h3⟩ := exists_index_of_lt_sum _ x hx
      rw [List.getElem?_map] at h1
      cases hs : world.skeletons[i]? with
      | none => rw [hs] at h1; simp at h1
      | some skel =>
        rw [hs] at h1
        simp only [Option.map_some', Option.some.injEq] at h1
        obtain ⟨o1, o2⟩ := create_offset_dofs world p v t c l hnames i skel hs
        refine ⟨i, skel, hs, ?_, ?_⟩
        · rw [o1, List.map_take]; exact h2
        · rw [o1, o2, List.map_take, h1]; exact h3
    · rintro ⟨i, skel, hs, h1, h2⟩
      rw [create_range_end world p v t c l hnames i skel hs, List.map_take] at h2
      rw [create_mNumDOFs]
      exact lt_of_lt_of_le h2 (sum_take_le_sum _ _)

/-- Witness of C9: the example world has the distinct names `"a"`, `"b"` with
2 and 1 DOFs; its snapshot records 3 DOFs, offset 0 for `"a"` and 2 for `"b"`. -/
theorem create_world_layout_witness :
    (exampleWorld.skeletons.map (fun skel => skel.name)).Nodup
    ∧ (BackpropSnapshot.create exampleWorld [] [] [] [] []).mNumDOFs = 3
    ∧ (BackpropSnapshot.create exampleWorld [] [] [] [] []).mSkeletonOffset "a" = 0
    ∧ (BackpropSnapshot.create exampleWorld [] [] [] [] []).mSkeletonOffset "b" = 2
    ∧ (BackpropSnapshot.create exampleWorld [] [] [] [] []).mSkeletonDofs "b" = 1 := by
  have hn : (exampleWorld.skeletons.map (fun skel => skel.name)).Nodup := by decide
  have h := create_world_layout exampleWorld [] [] [] [] [] hn
  refine ⟨hn, ?_, ?_, ?_, ?_⟩
  · rw [h.1]; rfl
  · exact (h.2.1 0 _ rfl).1
  · exact (h.2.1 1 _ rfl).1
  · exact (h.2.1 1 _ rfl).2

/-! ## The groups and counts collected by the constructor -/

theorem foldl_collectSkeleton_induction (P : BackpropSnapshot → Prop) (skels : List Skeleton)
    (s : BackpropSnapshot) (h0 : P s)
    (hstep : ∀ s skel, skel ∈ skels → P s → P (collectSkeleton s skel)) :
    P (skels.foldl collectSkeleton s) := by
  induction skels generalizing s with
  | nil => simpa using h0
  | cons skel rest ih =>
    simp only [List.foldl_cons]
    apply ih
    · exact hstep s skel (List.mem_cons_self _ _) h0
    · intro s1 skel1 hmem hP
      exact hstep s1 skel1 (List.mem_cons_of_mem _ hmem) hP

theorem containsGroup_iff (groups : List ConstrainedGroupGradientMatrices)
    (g : ConstrainedGroupGradientMatrices) :
    containsGroup groups g = true ↔ g.ptr ∈ groups.map (fun h => h.ptr) := by
  simp only [containsGroup, List.any_eq_true, decide_eq_true_eq, List.mem_map]

/-- What one iteration of the skeleton loop does to the group list and the counts. -/
theorem collectSkeleton_groups (s : BackpropSnapshot) (skel : Skeleton) :
    (collectSkeleton s skel).mGradientMatrices = s.mGradientMatrices
        ∧ (collectSkeleton s skel).mNumClamping = s.mNumClamping
        ∧ (collectSkeleton s skel).mNumUpperBound = s.mNumUpperBound
        ∧ (collectSkeleton s skel).mNumBouncing = s.mNumBouncing
        ∧ (∀ g, skel.gradientConstraintMatrices = some g →
            g.ptr ∈ s.mGradientMatrices.map (fun h => h.ptr))
    ∨ ∃ g, skel.gradientConstraintMatrices = some g
        ∧ g.ptr ∉ s.mGradientMatrices.map (fun h => h.ptr)
        ∧ (collectSkeleton s skel).mGradientMatrices = s.mGradientMatrices ++ [g]
        ∧ (collectSkeleton s skel).mNumClamping
            = s.mNumClamping + g.clampingConstraintMatrix.cols
        ∧ (collectSkeleton s skel).mNumUpperBound
            = s.mNumUpperBound + g.upperBoundConstraintMatrix.cols
        ∧ (collectSkeleton s skel).mNumBouncing
            = s.mNumBouncing + g.bouncingConstraintMatrix.cols := by
  unfold collectSkeleton
  cases hg : skel.gradientConstraintMatrices with
  | none => left; simp
  | some g =>
    dsimp only
    by_cases hc : containsGroup s.mGradientMatrices g = true
    · left
      rw [if_pos hc]
      refine ⟨rfl, rfl, rfl, rfl, ?_⟩
      intro g1 hg1
      simp only [Option.some.injEq] at hg1
      subst hg1
      exact (containsGroup_iff _ _).1 hc
    · right
      rw [if_neg hc]
      exact ⟨g, rfl, fun h => hc ((containsGroup_iff _ _).2 h), rfl, rfl, rfl, rfl⟩

/-- Invariant of the skeleton loop: the counts are the column sums over the
collected groups, the collected groups have distinct addresses, and each is
the group of some skeleton already met. -/
theorem create_groups (world : World) (p v t c l : Vec) :
    (BackpropSnapshot.create world p v t c l).mNumClamping
        = ((BackpropSnapshot.create world p v t c l).mGradientMatrices.map
            (fun g => g.clampingConstraintMatrix.cols)).sum
    ∧ (BackpropSnapshot.create world p v t c l).mNumUpperBound
        = ((BackpropSnapshot.create world p v t c l).mGradientMatrices.map
            (fun g => g.upperBoundConstraintMatrix.cols)).sum
    ∧ (BackpropSnapshot.create world p v t c l).mNumBouncing
        = ((BackpropSnapshot.create world p v t c l).mGradientMatrices.map
            (fun g => g.bouncingConstraintMatrix.cols)).sum
    ∧ ((BackpropSnapshot.create world p v t c l).mGradientMatrices.map (fun g => g.ptr)).Nodup
    ∧ (∀ g ∈ (BackpropSnapshot.create world p v t c l).mGradientMatrices,
        ∃ skel ∈ world.skeletons, skel.gradientConstraintMatrices = some g) := by
  rw [create_eq_foldl]
  apply foldl_collectSkeleton_induction
    (fun s => s.mNumClamping = (s.mGradientMatrices.map (fun g => g.clampingConstraintMatrix.cols)).sum
      ∧ s.mNumUpperBound = (s.mGradientMatrices.map (fun g => g.upperBoundConstraintMatrix.cols)).sum
      ∧ s.mNumBouncing = (s.mGradientMatrices.map (fun g => g.bouncingConstraintMatrix.cols)).sum
      ∧ (s.mGradientMatrices.map (fun g => g.ptr)).Nodup
      ∧ (∀ g ∈ s.mGradientMatrices, ∃ skel ∈ world.skeletons, skel.gradientConstraintMatrices = some g))
  · simp [BackpropSnapshot.init]
  · intro s skel hmem ⟨h1, h2, h3, h4, h5⟩
    rcases collectSkeleton_groups s skel with ⟨e0, e1, e2, e3, _⟩ | ⟨g, hg, hnew, e0, e1, e2, e3⟩
    · rw [e0, e1, e2, e3]
      exact ⟨h1, h2, h3, h4, h5⟩
    · rw [e0, e1, e2, e3]
      refine ⟨by simp [h1], by simp [h2], by simp [h3], ?_, ?_⟩
      · rw [List.map_append, List.nodup_append]
        refine ⟨h4, by simp, ?_⟩
        intro a ha hb
        simp only [List.map_cons, List.map_nil, List.mem_singleton] at hb
        subst hb
        exact hnew ha
      · intro g1 hg1
        rw [List.mem_append] at hg1
        rcases hg1 with hg1 | hg1
        · exact h5 g1 hg1
        · simp only [List.mem_singleton] at hg1
          subst hg1
          exact ⟨skel, hmem, hg⟩

/-! ## `assembleMatrix` -/

theorem getSkeleton_some (world : World) (name : String) (skel : Skeleton)
    (h : world.getSkeleton name = some skel) : skel ∈ world.skeletons ∧ skel.name = name := by
  unfold World.getSkeleton at h
  refine ⟨List.mem_of_find?_eq_some h, ?_⟩
  have := List.find?_some h
  simpa using this

theorem groupRowOffset_zero (world : World) (names : List String) :
    groupRowOffset world names 0 = 0 := by
  simp [groupRowOffset]

theorem groupRowOffset_cons_succ (world : World) (name : String) (rest : List String) (k : Nat)
    (skel : Skeleton) (h : world.getSkeleton name = some skel) :
    groupRowOffset world (name :: rest) (k + 1) = skel.getNumDofs + groupRowOffset world rest k := by
  simp [groupRowOffset, namedDofs, h]

/-- The inner loop of `assembleMatrix`: it succeeds when every name is a
skeleton of the world, keeps the dimensions, leaves alone every entry outside
the blocks it writes, and the block of a skeleton whose rows no later skeleton
of the list overlaps holds the rows of the group matrix. -/
theorem assembleGroupRows_spec (s : BackpropSnapshot) (world : World) (gm : Mat) (cc : Nat)
    (names : List String) (dg : Nat) (M : Mat)
    (hres : ∀ name ∈ names, (world.getSkeleton name).isSome) :
    ∃ M1, assembleGroupRows s world gm cc names dg M = .ok M1
      ∧ M1.rows = M.rows ∧ M1.cols = M.cols
      ∧ (∀ x y,
          (∀ (k : Nat) (name : String) (skel : Skeleton), names[k]? = some name →
            world.getSkeleton name = some skel →
            ¬ (s.mSkeletonOffset skel.name ≤ x ∧ x < s.mSkeletonOffset skel.name + skel.getNumDofs
              ∧ cc ≤ y ∧ y < cc + gm.cols)) →
          M1.coeff x y = M.coeff x y)
      ∧ (∀ (k : Nat) (name : String) (skel : Skeleton), names[k]? = some name →
          world.getSkeleton name = some skel →
          (∀ (k1 : Nat) (name1 : String) (skel1 : Skeleton), k < k1 → names[k1]? = some name1 →
            world.getSkeleton name1 = some skel1 →
            s.mSkeletonOffset skel.name + skel.getNumDofs ≤ s.mSkeletonOffset skel1.name
            ∨ s.mSkeletonOffset skel1.name + skel1.getNumDofs ≤ s.mSkeletonOffset skel.name) →
          ∀ r c, r < skel.getNumDofs → c < gm.cols →
            M1.coeff (s.mSkeletonOffset skel.name + r) (cc + c)
              = gm.coeff (dg + groupRowOffset world names k + r) c) := by
  induction names generalizing dg M with
  | nil =>
    refine ⟨M, rfl, rfl, rfl, fun _ _ _ => rfl, ?_⟩
    intro k name skel hk
    simp at hk
  | cons name rest ih =>
    have h0 := hres name (List.mem_cons_self _ _)
    obtain ⟨skel0, hs0⟩ := Option.isSome_iff_exists.1 h0
    obtain ⟨M1, hM1, hr, hc, hout, hin⟩ :=
      ih (dg + skel0.getNumDofs)
        (M.setBlock (s.mSkeletonOffset skel0.name) cc skel0.getNumDofs gm.cols gm dg 0)
        (fun n hn => hres n (List.mem_cons_of_mem _ hn))
    refine ⟨M1, ?_, ?_, ?_, ?_, ?_⟩
    · simp only [assembleGroupRows, hs0]
      exact hM1
    · rw [hr]; rfl
    · rw [hc]; rfl
    · intro x y hxy
      rw [hout x y (fun k n sk hk hsk => hxy (k + 1) n sk (by simpa using hk) hsk)]
      have h1 := hxy 0 name skel0 (by simp) hs0
      simp only [Mat.setBlock]
      rw [if_neg h1]
    · intro k n sk hk hsk hlater r c hr1 hc1
      cases k with
      | zero =>
        simp only [List.getElem?_cons_zero, Option.some.injEq] at hk
        subst hk
        rw [hs0] at hsk
        simp only [Option.some.injEq] at hsk
        subst hsk
        rw [hout]
        · simp only [Mat.setBlock]
          have hcov : s.mSkeletonOffset skel0.name ≤ s.mSkeletonOffset skel0.name + r
              ∧ s.mSkeletonOffset skel0.name + r < s.mSkeletonOffset skel0.name + skel0.getNumDofs
              ∧ cc ≤ cc + c ∧ cc + c < cc + gm.cols := by omega
          rw [if_pos hcov, groupRowOffset_zero]
          congr 1 <;> omega
        · intro k1 n1 sk1 hk1 hsk1 hcov
          have := hlater (k1 + 1) n1 sk1 (by omega) (by simpa using hk1) hsk1
          omega
      | succ k =>
        simp only [List.getElem?_cons_succ] at hk
        rw [hin k n sk hk hsk
          (fun k1 n1 sk1 hlt hk1 hsk1 =>
            hlater (k1 + 1) n1 sk1 (by omega) (by simpa using hk1) hsk1) r c hr1 hc1,
          groupRowOffset_cons_succ world name rest k skel0 hs0]
        congr 1
        omega

theorem columnOffset_zero (whichMatrix : MatrixToAssemble)
    (groups : List ConstrainedGroupGradientMatrices) : columnOffset whichMatrix groups 0 = 0 := by
  simp [columnOffset]

theorem columnOffset_cons_succ (whichMatrix : MatrixToAssemble)
    (g : ConstrainedGroupGradientMatrices) (rest : List ConstrainedGroupGradientMatrices)
    (i : Nat) :
    columnOffset whichMatrix (g :: rest) (i + 1)
      = (groupMatrixToAssemble g whichMatrix).cols + columnOffset whichMatrix rest i := by
  simp [columnOffset]

/-- The outer loop of `assembleMatrix`, started at column `cc`. -/
theorem assembleGroups_spec (s : BackpropSnapshot) (world : World) (whichMatrix : MatrixToAssemble)
    (groups : List ConstrainedGroupGradientMatrices) (cc : Nat) (M : Mat)
    (hres : ∀ g ∈ groups, ∀ name ∈ g.skeletons, (world.getSkeleton name).isSome) :
    ∃ M1, assembleGroups s world whichMatrix groups cc M = .ok M1
      ∧ M1.rows = M.rows ∧ M1.cols = M.cols
      ∧ (∀ x y, y < cc → M1.coeff x y = M.coeff x y)
      ∧ (∀ x y,
          (∀ (i : Nat) (g : ConstrainedGroupGradientMatrices) (k : Nat) (name : String)
            (skel : Skeleton), groups[i]? = some g → g.skeletons[k]? = some name →
            world.getSkeleton name = some skel →
            ¬ (s.mSkeletonOffset skel.name ≤ x ∧ x < s.mSkeletonOffset skel.name + skel.getNumDofs
              ∧ cc + columnOffset whichMatrix groups i ≤ y
              ∧ y < cc + columnOffset whichMatrix groups i
                  + (groupMatrixToAssemble g whichMatrix).cols)) →
          M1.coeff x y = M.coeff x y)
      ∧ (∀ (i : Nat) (g : ConstrainedGroupGradientMatrices) (k : Nat) (name : String)
          (skel : Skeleton), groups[i]? = some g → g.skeletons[k]? = some name →
          world.getSkeleton name = some skel →
          (∀ (k1 : Nat) (name1 : String) (skel1 : Skeleton), k < k1 →
            g.skeletons[k1]? = some name1 → world.getSkeleton name1 = some skel1 →
            s.mSkeletonOffset skel.name + skel.getNumDofs ≤ s.mSkeletonOffset skel1.name
            ∨ s.mSkeletonOffset skel1.name + skel1.getNumDofs ≤ s.mSkeletonOffset skel.name) →
          ∀ r c, r < skel.getNumDofs → c < (groupMatrixToAssemble g whichMatrix).cols →
            M1.coeff (s.mSkeletonOffset skel.name + r) (cc + columnOffset whichMatrix groups i + c)
              = (groupMatrixToAssemble g whichMatrix).coeff
                  (groupRowOffset world g.skeletons k + r) c) := by
  induction groups generalizing cc M with
  | nil =>
    refine ⟨M, rfl, rfl, rfl, fun _ _ _ => rfl, fun _ _ _ => rfl, ?_⟩
    intro i g k name skel hi
    simp at hi
  | cons g rest ih =>
    obtain ⟨Mr, hMr, rr, rc, rout, rin⟩ :=
      assembleGroupRows_spec s world (groupMatrixToAssemble g whichMatrix) cc g.skeletons 0 M
        (hres g (List.mem_cons_self _ _))
    obtain ⟨M1, hM1, hr, hc, hleft, hout, hin⟩ :=
      ih (cc + (groupMatrixToAssemble g whichMatrix).cols) Mr
        (fun h hh => hres h (List.mem_cons_of_mem _ hh))
    refine ⟨M1, ?_, by rw [hr, rr], by rw [hc, rc], ?_, ?_, ?_⟩
    · simp only [assembleGroups, hMr]
      exact hM1
    · intro x y hy
      rw [hleft x y (by omega), rout x y]
      intro k name skel _ _ hcov
      omega
    · intro x y hxy
      rw [hout x y, rout x y]
      · intro k name skel hk hsk hcov
        have := hxy 0 g k name skel (by simp) hk hsk
        rw [columnOffset_zero] at this
        exact this (by omega)
      · intro i h k name skel hi hk hsk hcov
        have := hxy (i + 1) h k name skel (by simpa using hi) hk hsk
        rw [columnOffset_cons_succ] at this
        exact this (by omega)
    · intro i h k name skel hi hk hsk hlater r c hr1 hc1
      cases i with
      | zero =>
        simp only [List.getElem?_cons_zero, Option.some.injEq] at hi
        subst hi
        rw [columnOffset_zero, hleft _ _ (by omega)]
        have := rin k name skel hk hsk hlater r c hr1 hc1
        simpa using this
      | succ i =>
        simp only [List.getElem?_cons_succ] at hi
        have := hin i h k name skel hi hk hsk hlater r c hr1 hc1
        rw [columnOffset_cons_succ]
        rw [← this]
        congr 1
        omega

/-- Invariant of the skeleton loop on names: every recorded range ends at or
before `mNumDOFs`, and the recorded ranges of two different names do not
overlap. -/
theorem create_named_ranges (world : World) (p v t c l : Vec) :
    (∀ n, (BackpropSnapshot.create world p v t c l).mSkeletonOffset n
        + (BackpropSnapshot.create world p v t c l).mSkeletonDofs n
      ≤ (BackpropSnapshot.create world p v t c l).mNumDOFs)
    ∧ (∀ n n1, n ≠ n1 →
        (BackpropSnapshot.create world p v t c l).mSkeletonOffset n
            + (BackpropSnapshot.create world p v t c l).mSkeletonDofs n
          ≤ (BackpropSnapshot.create world p v t c l).mSkeletonOffset n1
        ∨ (BackpropSnapshot.create world p v t c l).mSkeletonOffset n1
            + (BackpropSnapshot.create world p v t c l).mSkeletonDofs n1
          ≤ (BackpropSnapshot.create world p v t c l).mSkeletonOffset n) := by
  rw [create_eq_foldl]
  apply foldl_collectSkeleton_induction
    (fun s => (∀ n, s.mSkeletonOffset n + s.mSkeletonDofs n ≤ s.mNumDOFs)
      ∧ (∀ n n1, n ≠ n1 →
          s.mSkeletonOffset n + s.mSkeletonDofs n ≤ s.mSkeletonOffset n1
          ∨ s.mSkeletonOffset n1 + s.mSkeletonDofs n1 ≤ s.mSkeletonOffset n))
  · simp [BackpropSnapshot.init]
  · intro s skel _ ⟨h1, h2⟩
    rw [collectSkeleton_mSkeletonOffset, collectSkeleton_mSkeletonDofs, collectSkeleton_mNumDOFs]
    constructor
    · intro n
      by_cases hn : n = skel.name
      · subst hn; simp
      · rw [Function.update_noteq hn, Function.update_noteq hn]
        have := h1 n
        omega
    · intro n n1 hne
      by_cases hn : n = skel.name
      · subst hn
        have hn1 : n1 ≠ skel.name := fun e => hne e.symm
        rw [Function.update_same, Function.update_same, Function.update_noteq hn1,
          Function.update_noteq hn1]
        right
        exact h1 n1
      · by_cases hn1 : n1 = skel.name
        · subst hn1
          rw [Function.update_same, Function.update_same, Function.update_noteq hn,
            Function.update_noteq hn]
          left
          exact h1 n
        · rw [Function.update_noteq hn, Function.update_noteq hn, Function.update_noteq hn1,
            Function.update_noteq hn1]
          exact h2 n n1 hne

/-- With distinct skeleton names, the DOF count recorded under a name is the
DOF count of the skeleton that `getSkeleton` returns for it. -/
theorem create_mSkeletonDofs_getSkeleton (world : World) (p v t c l : Vec)
    (hnames : (world.skeletons.map (fun skel => skel.name)).Nodup) (name : String)
    (skel : Skeleton) (h : world.getSkeleton name = some skel) :
    (BackpropSnapshot.create world p v t c l).mSkeletonDofs skel.name = skel.getNumDofs := by
  obtain ⟨hmem, _⟩ := getSkeleton_some world name skel h
  obtain ⟨i, hi⟩ := List.getElem?_of_mem hmem
  exact (create_offset_dofs world p v t c l hnames i skel hi).2

/-- With distinct skeleton names, the row blocks of two different names of a
group do not overlap. -/
theorem create_blocks_disjoint (world : World) (p v t c l : Vec)
    (hnames : (world.skeletons.map (fun skel => skel.name)).Nodup) (name name1 : String)
    (skel skel1 : Skeleton) (hne : name ≠ name1) (h : world.getSkeleton name = some skel)
    (h1 : world.getSkeleton name1 = some skel1) :
    (BackpropSnapshot.create world p v t c l).mSkeletonOffset skel.name + skel.getNumDofs
        ≤ (BackpropSnapshot.create world p v t c l).mSkeletonOffset skel1.name
    ∨ (BackpropSnapshot.create world p v t c l).mSkeletonOffset skel1.name + skel1.getNumDofs
        ≤ (BackpropSnapshot.create world p v t c l).mSkeletonOffset skel.name := by
  have e := create_mSkeletonDofs_getSkeleton world p v t c l hnames name skel h
  have e1 := create_mSkeletonDofs_getSkeleton world p v t c l hnames name1 skel1 h1
  have hn : skel.name ≠ skel1.name := by
    rw [(getSkeleton_some world name skel h).2, (getSkeleton_some world name1 skel1 h1).2]
    exact hne
  have := (create_named_ranges world p v t c l).2 skel.name skel1.name hn
  rw [e, e1] at this
  exact this

theorem nodup_getElem?_ne {α : Type} (xs : List α) (hx : xs.Nodup) (k k1 : Nat) (a b : α)
    (hlt : k < k1) (hk : xs[k]? = some a) (hk1 : xs[k1]? = some b) : a ≠ b := by
  intro hab
  subst hab
  have hlen : k < xs.length := by
    by_contra hge
    rw [List.getElem?_eq_none (Nat.le_of_not_lt hge)] at hk
    simp at hk
  have := List.getElem?_inj hlen hx (hk.trans hk1.symm)
  omega

/-- The groups collected by the constructor inherit what holds for the group
of every skeleton of the world. -/
theorem create_groups_of_world (world : World) (p v t c l : Vec)
    (P : ConstrainedGroupGradientMatrices → Prop)
    (h : ∀ skel ∈ world.skeletons, ∀ g, skel.gradientConstraintMatrices = some g → P g) :
    ∀ g ∈ (BackpropSnapshot.create world p v t c l).mGradientMatrices, P g := by
  intro g hg
  obtain ⟨skel, hs, hsg⟩ := (create_groups world p v t c l).2.2.2.2 g hg
  exact h skel hs g hsg

/-- C5. `assembleMatrix` places every group's local matrix into the world
matrix by blocks. For a snapshot constructed over a world with distinct
skeleton names whose groups list world skeletons, each at most once: for group
`i` with local matrix `M_i` and column offset `c_i` (the sum of the column
counts of the earlier groups' matrices), and for the `k`-th skeleton of the
group with group row offset `g` (the sum of the DOF counts of the group's
earlier skeletons), the world entry `(offset + r, c_i + c)` equals
`M_i(g + r, c)` for all `r < dofs`, `c < cols(M_i)`; every world entry not
covered by such a block is zero. -/
theorem assembleMatrix_blocks (world : World) (p v t c l : Vec) (whichMatrix : MatrixToAssemble)
    (hnames : (world.skeletons.map (fun skel => skel.name)).Nodup)
    (hgroups : ∀ skel ∈ world.skeletons, ∀ g, skel.gradientConstraintMatrices = some g →
      g.skeletons.Nodup ∧ ∀ name ∈ g.skeletons, (world.getSkeleton name).isSome) :
    ∃ M, assembleMatrix (BackpropSnapshot.create world p v t c l) world whichMatrix = .ok M
      ∧ (∀ (i : Nat) (g : ConstrainedGroupGradientMatrices) (k : Nat) (name : String)
          (skel : Skeleton),
          (BackpropSnapshot.create world p v t c l).mGradientMatrices[i]? = some g →
          g.skeletons[k]? = some name → world.getSkeleton name = some skel →
          ∀ r col, r < skel.getNumDofs → col < (groupMatrixToAssemble g whichMatrix).cols →
            M.coeff ((BackpropSnapshot.create world p v t c l).mSkeletonOffset skel.name + r)
                (columnOffset whichMatrix
                  (BackpropSnapshot.create world p v t c l).mGradientMatrices i + col)
              = (groupMatrixToAssemble g whichMatrix).coeff
                  (groupRowOffset world g.skeletons k + r) col)
      ∧ (∀ x y,
          (∀ (i : Nat) (g : ConstrainedGroupGradientMatrices) (k : Nat) (name : String)
            (skel : Skeleton),
            (BackpropSnapshot.create world p v t c l).mGradientMatrices[i]? = some g →
            g.skeletons[k]? = some name → world.getSkeleton name = some skel →
            ¬ ((BackpropSnapshot.create world p v t c l).mSkeletonOffset skel.name ≤ x
              ∧ x < (BackpropSnapshot.create world p v t c l).mSkeletonOffset skel.name
                  + skel.getNumDofs
              ∧ columnOffset whichMatrix
                  (BackpropSnapshot.create world p v t c l).mGradientMatrices i ≤ y
              ∧ y < columnOffset whichMatrix
                    (BackpropSnapshot.create world p v t c l).mGradientMatrices i
                  + (groupMatrixToAssemble g whichMatrix).cols)) →
          M.coeff x y = 0) := by
  have hg := create_groups_of_world world p v t c l
    (fun g => g.skeletons.Nodup ∧ ∀ name ∈ g.skeletons, (world.getSkeleton name).isSome) hgroups
  obtain ⟨M, hM, _, _, _, hout, hin⟩ :=
    assembleGroups_spec (BackpropSnapshot.create world p v t c l) world whichMatrix
      (BackpropSnapshot.create world p v t c l).mGradientMatrices 0
      (Mat.zero (BackpropSnapshot.create world p v t c l).mNumDOFs
        (assembleNumCols (BackpropSnapshot.create world p v t c l) whichMatrix))
      (fun g hgm => (hg g hgm).2)
  refine ⟨M, hM, ?_, ?_⟩
  · intro i g k name skel hi hk hsk r col hr hc
    have hgi : g ∈ (BackpropSnapshot.create world p v t c l).mGradientMatrices :=
      List.getElem?_mem hi
    have := hin i g k name skel hi hk hsk
      (fun k1 name1 skel1 hlt hk1 hsk1 =>
        create_blocks_disjoint world p v t c l hnames name name1 skel skel1
          (nodup_getElem?_ne g.skeletons (hg g hgi).1 k k1 name name1 hlt hk hk1) hsk hsk1)
      r col hr hc
    simpa using this
  · intro x y hxy
    rw [hout x y]
    · rfl
    · intro i g k name skel hi hk hsk hcov
      exact hxy i g k name skel hi hk hsk (by simpa using hcov)

/-- Witness of C5: in the example world with two groups the clamping matrix
is assembled, the block of skeleton `"c"` (first in group one, world offset 3)
holds row 0 of the group matrix, and the block of `"a"` (second in group one,
world offset 0) holds rows 1 and 2. -/
theorem assembleMatrix_blocks_witness :
    (exampleGroupWorld.skeletons.map (fun skel => skel.name)).Nodup
    ∧ ∃ M, assembleMatrix (BackpropSnapshot.create exampleGroupWorld [] [] [] [] [])
          exampleGroupWorld .CLAMPING = .ok M
        ∧ M.coeff 3 0 = 11 ∧ M.coeff 3 1 = 12 ∧ M.coeff 0 0 = 21 ∧ M.coeff 1 1 = 32
        ∧ M.coeff 2 2 = 41 ∧ M.coeff 2 0 = 0 ∧ M.coeff 4 1 = 0 := by
  have hn : (exampleGroupWorld.skeletons.map (fun skel => skel.name)).Nodup := by decide
  have hg : ∀ skel ∈ exampleGroupWorld.skeletons, ∀ g,
      skel.gradientConstraintMatrices = some g →
      g.skeletons.Nodup ∧ ∀ name ∈ g.skeletons, (exampleGroupWorld.getSkeleton name).isSome := by
    intro skel hs g hsg
    simp only [exampleGroupWorld, List.mem_cons, List.mem_singleton, List.not_mem_nil,
      or_false] at hs
    rcases hs with rfl | rfl | rfl | rfl <;> simp only [Option.some.injEq] at hsg
    · subst hsg; exact ⟨by decide, by decide⟩
    · subst hsg; exact ⟨by decide, by decide⟩
    · subst hsg; exact ⟨by decide, by decide⟩
    · exact absurd hsg (by simp)
  obtain ⟨M, hM, hin, hout⟩ :=
    assembleMatrix_blocks exampleGroupWorld [] [] [] [] [] .CLAMPING hn hg
  have h20 : (match assembleMatrix (BackpropSnapshot.create exampleGroupWorld [] [] [] [] [])
      exampleGroupWorld .CLAMPING with
      | .ok M0 => M0.coeff 2 0
      | .error _ => 1) = 0 := rfl
  have h41 : (match assembleMatrix (BackpropSnapshot.create exampleGroupWorld [] [] [] [] [])
      exampleGroupWorld .CLAMPING with
      | .ok M0 => M0.coeff 4 1
      | .error _ => 1) = 0 := rfl
  rw [hM] at h20 h41
  refine ⟨hn, M, hM, ?_, ?_, ?_, ?_, ?_, ?_, ?_⟩
  · exact hin 0 exampleGroupOne 0 "c" _ rfl rfl rfl 0 0 (by decide) (by decide)
  · exact hin 0 exampleGroupOne 0 "c" _ rfl rfl rfl 0 1 (by decide) (by decide)
  · exact hin 0 exampleGroupOne 1 "a" _ rfl rfl rfl 0 0 (by decide) (by decide)
  · exact hin 0 exampleGroupOne 1 "a" _ rfl rfl rfl 1 1 (by decide) (by decide)
  · exact hin 1 exampleGroupTwo 0 "b" _ rfl rfl rfl 0 0 (by decide) (by decide)
  · exact h20
  · exact h41

theorem assembleMatrix_dims (s : BackpropSnapshot) (world : World) (whichMatrix : MatrixToAssemble)
    (hres : ∀ g ∈ s.mGradientMatrices, ∀ name ∈ g.skeletons, (world.getSkeleton name).isSome) :
    ∃ M, assembleMatrix s world whichMatrix = .ok M
      ∧ M.rows = s.mNumDOFs ∧ M.cols = assembleNumCols s whichMatrix := by
  obtain ⟨M, hM, hr, hc, _⟩ :=
    assembleGroups_spec s world whichMatrix s.mGradientMatrices 0
      (Mat.zero s.mNumDOFs (assembleNumCols s whichMatrix)) hres
  exact ⟨M, hM, hr, hc⟩

/-- C6. After construction, the clamping, upper-bound and bouncing counts of
the snapshot are the sums, over the collected constraint groups (which have
pairwise distinct addresses), of the column counts of each group's clamping,
upper-bound and bouncing matrix; when the groups list skeletons of the world,
the assembled clamping, upper-bound and bouncing matrices have `mNumDOFs` rows
and that many columns; with zero groups all three have zero columns. -/
theorem create_counts (world : World) (p v t c l : Vec)
    (hres : ∀ skel ∈ world.skeletons, ∀ g, skel.gradientConstraintMatrices = some g →
      ∀ name ∈ g.skeletons, (world.getSkeleton name).isSome) :
    ((BackpropSnapshot.create world p v t c l).mGradientMatrices.map (fun g => g.ptr)).Nodup
    ∧ (BackpropSnapshot.create world p v t c l).mNumClamping
        = ((BackpropSnapshot.create world p v t c l).mGradientMatrices.map
            (fun g => g.clampingConstraintMatrix.cols)).sum
    ∧ (BackpropSnapshot.create world p v t c l).mNumUpperBound
        = ((BackpropSnapshot.create world p v t c l).mGradientMatrices.map
            (fun g => g.upperBoundConstraintMatrix.cols)).sum
    ∧ (BackpropSnapshot.create world p v t c l).mNumBouncing
        = ((BackpropSnapshot.create world p v t c l).mGradientMatrices.map
            (fun g => g.bouncingConstraintMatrix.cols)).sum
    ∧ ∃ A_c A_ub A_b,
        getClampingConstraintMatrix (BackpropSnapshot.create world p v t c l) world = .ok A_c
        ∧ getUpperBoundConstraintMatrix (BackpropSnapshot.create world p v t c l) world = .ok A_ub
        ∧ getBouncingConstraintMatrix (BackpropSnapshot.create world p v t c l) world = .ok A_b
        ∧ A_c.rows = (BackpropSnapshot.create world p v t c l).mNumDOFs
        ∧ A_c.cols = (BackpropSnapshot.create world p v t c l).mNumClamping
        ∧ A_ub.rows = (BackpropSnapshot.create world p v t c l).mNumDOFs
        ∧ A_ub.cols = (BackpropSnapshot.create world p v t c l).mNumUpperBound
        ∧ A_b.rows = (BackpropSnapshot.create world p v t c l).mNumDOFs
        ∧ A_b.cols = (BackpropSnapshot.create world p v t c l).mNumBouncing
        ∧ ((BackpropSnapshot.create world p v t c l).mGradientMatrices = [] →
            A_c.cols = 0 ∧ A_ub.cols = 0 ∧ A_b.cols = 0) := by
  obtain ⟨h1, h2, h3, h4, _⟩ := create_groups world p v t c l
  have hg := create_groups_of_world world p v t c l
    (fun g => ∀ name ∈ g.skeletons, (world.getSkeleton name).isSome) hres
  obtain ⟨A_c, e1, r1, c1⟩ :=
    assembleMatrix_dims (BackpropSnapshot.create world p v t c l) world .CLAMPING hg
  obtain ⟨A_ub, e2, r2, c2⟩ :=
    assembleMatrix_dims (BackpropSnapshot.create world p v t c l) world .UPPER_BOUND hg
  obtain ⟨A_b, e3, r3, c3⟩ :=
    assembleMatrix_dims (BackpropSnapshot.create world p v t c l) world .BOUNCING hg
  refine ⟨h4, h1, h2, h3, A_c, A_ub, A_b, e1, e2, e3, r1, c1, r2, c2, r3, c3, ?_⟩
  intro hnil
  rw [c1, c2, c3]
  simp only [assembleNumCols]
  rw [h1, h2, h3, hnil]
  simp

/-- Witness of C6: the example world with two groups, whose snapshot counts
3 clamping, 1 upper-bound and 1 bouncing column and assembles a `5 x 3`
clamping matrix; and the example world without groups, whose three assembled
matrices have zero columns. -/
theorem create_counts_witness :
    (∀ skel ∈ exampleGroupWorld.skeletons, ∀ g, skel.gradientConstraintMatrices = some g →
      ∀ name ∈ g.skeletons, (exampleGroupWorld.getSkeleton name).isSome)
    ∧ (BackpropSnapshot.create exampleGroupWorld [] [] [] [] []).mNumClamping = 3
    ∧ (BackpropSnapshot.create exampleGroupWorld [] [] [] [] []).mNumUpperBound = 1
    ∧ (BackpropSnapshot.create exampleGroupWorld [] [] [] [] []).mNumBouncing = 1
    ∧ (∃ A_c, getClampingConstraintMatrix (BackpropSnapshot.create exampleGroupWorld [] [] [] [] [])
          exampleGroupWorld = .ok A_c
        ∧ A_c.rows = 5 ∧ A_c.cols = 3)
    ∧ ∃ A_c A_ub A_b,
        getClampingConstraintMatrix (BackpropSnapshot.create exampleWorld [] [] [] [] [])
          exampleWorld = .ok A_c
        ∧ getUpperBoundConstraintMatrix (BackpropSnapshot.create exampleWorld [] [] [] [] [])
          exampleWorld = .ok A_ub
        ∧ getBouncingConstraintMatrix (BackpropSnapshot.create exampleWorld [] [] [] [] [])
          exampleWorld = .ok A_b
        ∧ A_c.cols = 0 ∧ A_ub.cols = 0 ∧ A_b.cols = 0 := by
  have hg : ∀ skel ∈ exampleGroupWorld.skeletons, ∀ g,
      skel.gradientConstraintMatrices = some g →
      ∀ name ∈ g.skeletons, (exampleGroupWorld.getSkeleton name).isSome := by
    intro skel hs g hsg
    simp only [exampleGroupWorld, List.mem_cons, List.mem_singleton, List.not_mem_nil,
      or_false] at hs
    rcases hs with rfl | rfl | rfl | rfl <;> simp only [Option.some.injEq] at hsg
    · subst hsg; decide
    · subst hsg; decide
    · subst hsg; decide
    · exact absurd hsg (by simp)
  have hg0 : ∀ skel ∈ exampleWorld.skeletons, ∀ g,
      skel.gradientConstraintMatrices = some g →
      ∀ name ∈ g.skeletons, (exampleWorld.getSkeleton name).isSome := by
    intro skel hs g hsg
    simp only [exampleWorld, List.mem_cons, List.mem_singleton, List.not_mem_nil,
      or_false] at hs
    rcases hs with rfl | rfl <;> exact absurd hsg (by simp)
  obtain ⟨_, h1, h2, h3, A_c, _, _, e1, _, _, r1, c1, _⟩ :=
    create_counts exampleGroupWorld [] [] [] [] [] hg
  obtain ⟨_, _, _, _, B_c, B_ub, B_b, f1, f2, f3, _, _, _, _, _, _, hzero⟩ :=
    create_counts exampleWorld [] [] [] [] [] hg0
  refine ⟨hg, ?_, ?_, ?_, ⟨A_c, e1, ?_, ?_⟩, B_c, B_ub, B_b, f1, f2, f3, hzero rfl⟩
  · rw [h1]; rfl
  · rw [h2]; rfl
  · rw [h3]; rfl
  · rw [r1]; rfl
  · rw [c1, h1]; rfl

/-! ## `assembleVector`, per-constraint vectors -/

theorem coeffAt_append {α : Type} [Zero α] (a b : List α) (i : Nat) :
    coeffAt (a ++ b) i = if i < a.length then coeffAt a i else coeffAt b (i - a.length) := by
  unfold coeffAt
  by_cases h : i < a.length
  · simp [h, List.getElem?_append_left h]
  · simp [h, List.getElem?_append_right (Nat.le_of_not_lt h)]

theorem assembledSize_spec {α : Type} (get : ConstrainedGroupGradientMatrices → Except Failure (List α))
    (vecs : ConstrainedGroupGradientMatrices → List α)
    (groups : List ConstrainedGroupGradientMatrices) (size : Nat)
    (hget : ∀ g ∈ groups, get g = .ok (vecs g)) :
    assembledSize get groups size = .ok (size + (groups.map (fun g => (vecs g).length)).sum) := by
  induction groups generalizing size with
  | nil => simp [assembledSize]
  | cons g rest ih =>
    simp only [assembledSize, hget g (List.mem_cons_self _ _)]
    rw [ih _ (fun h hh => hget h (List.mem_cons_of_mem _ hh))]
    simp only [List.map_cons, List.sum_cons]
    congr 1
    omega

theorem length_flatten_map {α : Type} (vecs : ConstrainedGroupGradientMatrices → List α)
    (groups : List ConstrainedGroupGradientMatrices) :
    ((groups.map vecs).flatten).length = (groups.map (fun g => (vecs g).length)).sum := by
  induction groups with
  | nil => simp
  | cons g rest ih => simp [ih]

/-- The copying loop of the per-constraint branch writes the concatenation of
the groups' vectors at the cursor. -/
theorem collectSegments_spec {α : Type} [Zero α]
    (get : ConstrainedGroupGradientMatrices → Except Failure (List α))
    (vecs : ConstrainedGroupGradientMatrices → List α)
    (groups : List ConstrainedGroupGradientMatrices) (cursor : Nat) (collected : List α)
    (hget : ∀ g ∈ groups, get g = .ok (vecs g)) :
    ∃ r, collectSegments get groups cursor collected = .ok r
      ∧ r.length = collected.length
      ∧ ∀ i, coeffAt r i
          = if cursor ≤ i ∧ i < cursor + ((groups.map vecs).flatten).length
                ∧ i < collected.length
            then coeffAt ((groups.map vecs).flatten) (i - cursor) else coeffAt collected i := by
  induction groups generalizing cursor collected with
  | nil =>
    refine ⟨collected, rfl, rfl, fun i => ?_⟩
    have : ¬ (cursor ≤ i ∧ i < cursor + (([] : List ConstrainedGroupGradientMatrices).map
        vecs).flatten.length ∧ i < collected.length) := by
      simp only [List.map_nil, List.flatten_nil, List.length_nil]
      omega
    rw [if_neg this]
  | cons g rest ih =>
    obtain ⟨r, hr, hl, hc⟩ :=
      ih (cursor + (vecs g).length) (writeSegment collected cursor (vecs g).length (vecs g))
        (fun h hh => hget h (List.mem_cons_of_mem _ hh))
    refine ⟨r, ?_, ?_, ?_⟩
    · simp only [collectSegments, hget g (List.mem_cons_self _ _)]
      exact hr
    · rw [hl, length_writeSegment]
    · intro i
      rw [hc i, coeffAt_writeSegment, length_writeSegment]
      simp only [List.map_cons, List.flatten_cons, List.length_append]
      rw [coeffAt_append]
      by_cases h1 : cursor + (vecs g).length ≤ i
          ∧ i < cursor + (vecs g).length + ((rest.map vecs).flatten).length
          ∧ i < collected.length
      · have h2 : cursor ≤ i ∧ i < cursor + ((vecs g).length + ((rest.map vecs).flatten).length)
            ∧ i < collected.length := by omega
        have h3 : ¬ i - cursor < (vecs g).length := by omega
        rw [if_pos h1, if_pos h2, if_neg h3]
        congr 1
        omega
      · rw [if_neg h1]
        by_cases h4 : cursor ≤ i ∧ i < cursor + (vecs g).length ∧ i < collected.length
        · have h2 : cursor ≤ i ∧ i < cursor + ((vecs g).length + ((rest.map vecs).flatten).length)
              ∧ i < collected.length := by omega
          have h3 : i - cursor < (vecs g).length := by omega
          rw [if_pos h4, if_pos h2, if_pos h3]
        · have h2 : ¬ (cursor ≤ i
              ∧ i < cursor + ((vecs g).length + ((rest.map vecs).flatten).length)
              ∧ i < collected.length) := by omega
          rw [if_neg h4, if_neg h2]

/-- The per-constraint branch of `assembleVector` returns the concatenation of
the groups' vectors, whatever the uninitialised storage holds. -/
theorem assembleVector_perConstraint {α : Type} [Zero α] (s : BackpropSnapshot)
    (get : ConstrainedGroupGradientMatrices → VectorToAssemble → Except Failure (List α))
    (uninit : Nat → α) (whichVector : VectorToAssemble)
    (vecs : ConstrainedGroupGradientMatrices → List α)
    (hper : isPerConstraint whichVector = true)
    (hget : ∀ g ∈ s.mGradientMatrices, get g whichVector = .ok (vecs g)) :
    assembleVector s get uninit whichVector = .ok ((s.mGradientMatrices.map vecs).flatten) := by
  unfold assembleVector
  rw [if_pos hper]
  have general : ∀ groups : List ConstrainedGroupGradientMatrices,
      (∀ g ∈ groups, get g whichVector = .ok (vecs g)) →
      (match assembledSize (fun g => get g whichVector) groups 0 with
        | .error e => (Except.error e : Except Failure (List α))
        | .ok size =>
          collectSegments (fun g => get g whichVector) groups 0 ((List.range size).map uninit))
        = .ok ((groups.map vecs).flatten) := by
    intro groups hg
    rw [assembledSize_spec (fun g => get g whichVector) vecs groups 0 hg]
    obtain ⟨r, hr, hl, hc⟩ :=
      collectSegments_spec (fun g => get g whichVector) vecs groups 0
        ((List.range (0 + (groups.map (fun g => (vecs g).length)).sum)).map uninit) hg
    simp only [hr]
    congr 1
    have hlen : r.length = ((groups.map vecs).flatten).length := by
      rw [hl, length_flatten_map]
      simp
    apply list_ext_coeffAt _ _ hlen
    intro i hi
    rw [hc i]
    have : 0 ≤ i ∧ i < 0 + ((groups.map vecs).flatten).length
        ∧ i < ((List.range (0 + (groups.map (fun g => (vecs g).length)).sum)).map uninit).length := by
      rw [hlen] at hi
      rw [length_flatten_map] at hi ⊢
      simp
      omega
    rw [if_pos this]
    simp
  match hgm : s.mGradientMatrices with
  | [] => simpa using general [] (by simp)
  | [g] =>
    simp only [List.map_cons, List.map_nil, List.flatten_cons, List.flatten_nil, List.append_nil]
    exact hget g (by rw [hgm]; simp)
  | g :: g1 :: rest =>
    exact general (g :: g1 :: rest) (by rw [← hgm]; exact hget)

theorem coeffAt_flatten_segment {α : Type} [Zero α]
    (vecs : ConstrainedGroupGradientMatrices → List α)
    (groups : List ConstrainedGroupGradientMatrices) (i : Nat)
    (g : ConstrainedGroupGradientMatrices) (h : groups[i]? = some g) (j : Nat)
    (hj : j < (vecs g).length) :
    coeffAt ((groups.map vecs).flatten)
        (((groups.take i).map (fun h => (vecs h).length)).sum + j)
      = coeffAt (vecs g) j := by
  induction groups generalizing i with
  | nil => simp at h
  | cons g0 rest ih =>
    simp only [List.map_cons, List.flatten_cons]
    rw [coeffAt_append]
    cases i with
    | zero =>
      simp only [List.getElem?_cons_zero, Option.some.injEq] at h
      subst h
      simp [hj]
    | succ i =>
      simp only [List.getElem?_cons_succ] at h
      simp only [List.take_succ_cons, List.map_cons, List.sum_cons]
      have h1 : ¬ (vecs g0).length + ((rest.take i).map (fun h => (vecs h).length)).sum + j
          < (vecs g0).length := by omega
      rw [if_neg h1, ← ih i h]
      congr 1
      omega

theorem segmentOf_flatten {α : Type} [Zero α]
    (vecs : ConstrainedGroupGradientMatrices → List α)
    (groups : List ConstrainedGroupGradientMatrices) (i : Nat)
    (g : ConstrainedGroupGradientMatrices) (h : groups[i]? = some g) :
    segmentOf ((groups.map vecs).flatten)
        (((groups.take i).map (fun h => (vecs h).length)).sum) (vecs g).length
      = vecs g := by
  apply list_ext_coeffAt _ _ (length_segmentOf _ _ _)
  intro j hj
  rw [length_segmentOf] at hj
  rw [coeffAt_segmentOf, if_pos hj]
  exact coeffAt_flatten_segment vecs groups i g h j hj

/-- C7. For every per-constraint vector kind, `assembleVector` returns the
concatenation of the groups' vectors in group-iteration order: its length is
the sum of the groups' vector lengths (the empty vector with no groups) and,
for every group `i`, the segment starting at the sum of the lengths of groups
`0..i-1` equals group `i`'s vector. The double-valued kinds are assembled by
the `Eigen::VectorXd` instance, the contact mappings by the `Eigen::VectorXi`
instance; the result does not depend on the uninitialised storage. -/
theorem assembleVector_concatenates (s : BackpropSnapshot) (uninitXd : Nat → ℚ)
    (uninitXi : Nat → ℤ) (whichVector : VectorToAssemble)
    (hper : isPerConstraint whichVector = true) :
    (whichVector ≠ .CONTACT_CONSTRAINT_MAPPINGS →
      ∃ vecs : ConstrainedGroupGradientMatrices → List ℚ,
        (∀ g, getVectorToAssembleXd g whichVector = .ok (vecs g))
        ∧ assembleVector s getVectorToAssembleXd uninitXd whichVector
            = .ok ((s.mGradientMatrices.map vecs).flatten)
        ∧ ((s.mGradientMatrices.map vecs).flatten).length
            = (s.mGradientMatrices.map (fun g => (vecs g).length)).sum
        ∧ (s.mGradientMatrices = [] → (s.mGradientMatrices.map vecs).flatten = [])
        ∧ ∀ (i : Nat) (g : ConstrainedGroupGradientMatrices), s.mGradientMatrices[i]? = some g →
            segmentOf ((s.mGradientMatrices.map vecs).flatten)
                (((s.mGradientMatrices.take i).map (fun h => (vecs h).length)).sum)
                (vecs g).length
              = vecs g)
    ∧ (whichVector = .CONTACT_CONSTRAINT_MAPPINGS →
      assembleVector s getVectorToAssembleXi uninitXi whichVector
          = .ok ((s.mGradientMatrices.map (fun g => g.contactConstraintMappings)).flatten)
      ∧ ((s.mGradientMatrices.map (fun g => g.contactConstraintMappings)).flatten).length
          = (s.mGradientMatrices.map (fun g => g.contactConstraintMappings.length)).sum
      ∧ (s.mGradientMatrices = [] →
          (s.mGradientMatrices.map (fun g => g.contactConstraintMappings)).flatten = [])
      ∧ ∀ (i : Nat) (g : ConstrainedGroupGradientMatrices), s.mGradientMatrices[i]? = some g →
          segmentOf ((s.mGradientMatrices.map (fun g => g.contactConstraintMappings)).flatten)
              (((s.mGradientMatrices.take i).map
                (fun h => h.contactConstraintMappings.length)).sum)
              g.contactConstraintMappings.length
            = g.contactConstraintMappings) := by
  constructor
  · intro hne
    have key : ∀ vecs : ConstrainedGroupGradientMatrices → List ℚ,
        (∀ g, getVectorToAssembleXd g whichVector = .ok (vecs g)) →
        ∃ vecs : ConstrainedGroupGradientMatrices → List ℚ,
        (∀ g, getVectorToAssembleXd g whichVector = .ok (vecs g))
        ∧ assembleVector s getVectorToAssembleXd uninitXd whichVector
            = .ok ((s.mGradientMatrices.map vecs).flatten)
        ∧ ((s.mGradientMatrices.map vecs).flatten).length
            = (s.mGradientMatrices.map (fun g => (vecs g).length)).sum
        ∧ (s.mGradientMatrices = [] → (s.mGradientMatrices.map vecs).flatten = [])
        ∧ ∀ (i : Nat) (g : ConstrainedGroupGradientMatrices), s.mGradientMatrices[i]? = some g →
            segmentOf ((s.mGradientMatrices.map vecs).flatten)
                (((s.mGradientMatrices.take i).map (fun h => (vecs h).length)).sum)
                (vecs g).length
              = vecs g := by
      intro vecs hv
      refine ⟨vecs, hv, ?_, length_flatten_map vecs _, ?_, ?_⟩
      · exact assembleVector_perConstraint s getVectorToAssembleXd uninitXd whichVector vecs hper
          (fun g _ => hv g)
      · intro hnil; rw [hnil]; rfl
      · intro i g hi
        exact segmentOf_flatten vecs _ i g hi
    cases whichVector with
    | BOUNCE_DIAGONALS => exact key (fun g => g.bounceDiagonals) (fun _ => rfl)
    | RESTITUTION_DIAGONALS => exact key (fun g => g.restitutionDiagonals) (fun _ => rfl)
    | CONTACT_CONSTRAINT_IMPULSES => exact key (fun g => g.contactConstraintImpluses) (fun _ => rfl)
    | CONTACT_CONSTRAINT_MAPPINGS => exact absurd rfl hne
    | PENETRATION_VELOCITY_HACK =>
      exact key (fun g => g.penetrationCorrectionVelocities) (fun _ => rfl)
    | CLAMPING_CONSTRAINT_IMPULSES =>
      exact key (fun g => g.clampingConstraintImpulses) (fun _ => rfl)
    | CLAMPING_CONSTRAINT_RELATIVE_VELS =>
      exact key (fun g => g.clampingConstraintRelativeVels) (fun _ => rfl)
    | VEL_DUE_TO_ILLEGAL => simp [isPerConstraint] at hper
    | PRE_STEP_VEL => simp [isPerConstraint] at hper
    | PRE_STEP_TAU => simp [isPerConstraint] at hper
    | PRE_LCP_VEL => simp [isPerConstraint] at hper
  · intro he
    subst he
    refine ⟨?_, length_flatten_map _ _, ?_, ?_⟩
    · exact assembleVector_perConstraint s getVectorToAssembleXi uninitXi _
        (fun g => g.contactConstraintMappings) hper (fun g _ => rfl)
    · intro hnil; rw [hnil]; rfl
    · intro i g hi
      exact segmentOf_flatten (fun g => g.contactConstraintMappings) _ i g hi

/-- Witness of C7: the clamping impulses of the two example groups, `[3, 4]`
and `[9]`, are assembled into `[3, 4, 9]`. -/
theorem assembleVector_concatenates_witness :
    isPerConstraint .CLAMPING_CONSTRAINT_IMPULSES = true
    ∧ assembleVector (BackpropSnapshot.create exampleGroupWorld [] [] [] [] [])
        getVectorToAssembleXd (fun _ => 77) .CLAMPING_CONSTRAINT_IMPULSES = .ok [3, 4, 9] := by
  obtain ⟨vecs, hv, hr, _⟩ :=
    (assembleVector_concatenates (BackpropSnapshot.create exampleGroupWorld [] [] [] [] [])
      (fun _ => 77) (fun _ => 0) .CLAMPING_CONSTRAINT_IMPULSES rfl).1 (by decide)
  refine ⟨rfl, ?_⟩
  rw [hr]
  have hv1 := hv exampleGroupOne
  have hv2 := hv exampleGroupTwo
  simp only [getVectorToAssembleXd, Except.ok.injEq] at hv1 hv2
  have hgm : (BackpropSnapshot.create exampleGroupWorld [] [] [] [] []).mGradientMatrices
      = [exampleGroupOne, exampleGroupTwo] := rfl
  rw [hgm]
  simp only [List.map_cons, List.map_nil, List.flatten_cons, List.flatten_nil, ← hv1, ← hv2]
  rfl

/-! ## `assembleVector`, per-DOF vectors -/

/-- The inner loop of the per-DOF branch, for a duplicate-free name list and
recorded ranges that do not overlap. -/
theorem scatterGroup_spec {α : Type} [Zero α] (s : BackpropSnapshot) (vec : List α)
    (names : List String) (gc : Nat) (collected : List α) (hnd : names.Nodup)
    (hdisj : ∀ n n1, n ≠ n1 →
      s.mSkeletonOffset n + s.mSkeletonDofs n ≤ s.mSkeletonOffset n1
      ∨ s.mSkeletonOffset n1 + s.mSkeletonDofs n1 ≤ s.mSkeletonOffset n) :
    (scatterGroup s vec names gc collected).length = collected.length
    ∧ (∀ x, (∀ n ∈ names, ¬ (s.mSkeletonOffset n ≤ x ∧ x < s.mSkeletonOffset n + s.mSkeletonDofs n)) →
        coeffAt (scatterGroup s vec names gc collected) x = coeffAt collected x)
    ∧ (∀ (k : Nat) (n : String), names[k]? = some n → ∀ j, j < s.mSkeletonDofs n →
        s.mSkeletonOffset n + j < collected.length →
        coeffAt (scatterGroup s vec names gc collected) (s.mSkeletonOffset n + j)
          = coeffAt vec (gc + recordedRowOffset s names k + j)) := by
  induction names generalizing gc collected with
  | nil =>
    refine ⟨rfl, fun _ _ => rfl, ?_⟩
    intro k n hk
    simp at hk
  | cons n0 rest ih =>
    simp only [List.nodup_cons] at hnd
    obtain ⟨hl, hout, hin⟩ :=
      ih (gc + s.mSkeletonDofs n0)
        (writeSegment collected (s.mSkeletonOffset n0) (s.mSkeletonDofs n0)
          (segmentOf vec gc (s.mSkeletonDofs n0))) hnd.2
    refine ⟨?_, ?_, ?_⟩
    · simp only [scatterGroup]
      rw [hl, length_writeSegment]
    · intro x hx
      simp only [scatterGroup]
      rw [hout x (fun n hn => hx n (List.mem_cons_of_mem _ hn)), coeffAt_writeSegment]
      have := hx n0 (List.mem_cons_self _ _)
      rw [if_neg (fun h => this ⟨h.1, h.2.1⟩)]
    · intro k n hk j hj hlen
      simp only [scatterGroup]
      cases k with
      | zero =>
        simp only [List.getElem?_cons_zero, Option.some.injEq] at hk
        subst hk
        rw [hout, coeffAt_writeSegment, if_pos ⟨by omega, by omega, hlen⟩, coeffAt_segmentOf,
          if_pos (by omega)]
        · simp only [recordedRowOffset, List.take_zero, List.map_nil, List.sum_nil]
          congr 1
          omega
        · intro n1 hn1 hcov
          have hne : n0 ≠ n1 := fun e => hnd.1 (e ▸ hn1)
          have := hdisj n0 n1 hne
          omega
      | succ k =>
        simp only [List.getElem?_cons_succ] at hk
        rw [hin k n hk j hj (by rw [length_writeSegment]; exact hlen)]
        simp only [recordedRowOffset, List.take_succ_cons, List.map_cons, List.sum_cons]
        congr 1
        omega

/-- The outer loop of the per-DOF branch, when no name occurs twice in the
groups' skeleton lists. -/
theorem scatterGroups_spec {α : Type} [Zero α] (s : BackpropSnapshot)
    (get : ConstrainedGroupGradientMatrices → Except Failure (List α))
    (vecs : ConstrainedGroupGradientMatrices → List α)
    (groups : List ConstrainedGroupGradientMatrices) (collected : List α)
    (hget : ∀ g ∈ groups, get g = .ok (vecs g))
    (hnd : ((groups.map (fun g => g.skeletons)).flatten).Nodup)
    (hdisj : ∀ n n1, n ≠ n1 →
      s.mSkeletonOffset n + s.mSkeletonDofs n ≤ s.mSkeletonOffset n1
      ∨ s.mSkeletonOffset n1 + s.mSkeletonDofs n1 ≤ s.mSkeletonOffset n) :
    ∃ r, scatterGroups s get groups collected = .ok r
      ∧ r.length = collected.length
      ∧ (∀ x, (∀ g ∈ groups, ∀ n ∈ g.skeletons,
            ¬ (s.mSkeletonOffset n ≤ x ∧ x < s.mSkeletonOffset n + s.mSkeletonDofs n)) →
          coeffAt r x = coeffAt collected x)
      ∧ (∀ g ∈ groups, ∀ (k : Nat) (n : String), g.skeletons[k]? = some n →
          ∀ j, j < s.mSkeletonDofs n → s.mSkeletonOffset n + j < collected.length →
          coeffAt r (s.mSkeletonOffset n + j)
            = coeffAt (vecs g) (recordedRowOffset s g.skeletons k + j)) := by
  induction groups generalizing collected with
  | nil =>
    refine ⟨collected, rfl, rfl, fun _ _ => rfl, ?_⟩
    intro g hg
    simp at hg
  | cons g0 rest ih =>
    simp only [List.map_cons, List.flatten_cons, List.nodup_append] at hnd
    obtain ⟨hnd0, hndr, hcross⟩ := hnd
    obtain ⟨il, iout, iin⟩ := scatterGroup_spec s (vecs g0) g0.skeletons 0 collected hnd0 hdisj
    obtain ⟨r, hr, hl, hout, hin⟩ :=
      ih (scatterGroup s (vecs g0) g0.skeletons 0 collected)
        (fun h hh => hget h (List.mem_cons_of_mem _ hh)) hndr
    refine ⟨r, ?_, by rw [hl, il], ?_, ?_⟩
    · simp only [scatterGroups, hget g0 (List.mem_cons_self _ _)]
      exact hr
    · intro x hx
      rw [hout x (fun g hg => hx g (List.mem_cons_of_mem _ hg)),
        iout x (hx g0 (List.mem_cons_self _ _))]
    · intro g hg k n hk j hj hlen
      have hnmem : n ∈ g.skeletons := List.getElem?_mem hk
      by_cases hrest : g ∈ rest
      · exact hin g hrest k n hk j hj (by rw [il]; exact hlen)
      · have hg0 : g = g0 := by
          rcases List.mem_cons.1 hg with h | h
          · exact h
          · exact absurd h hrest
        subst hg0
        rw [hout, iin k n hk j hj hlen]
        · simp
        · intro g1 hg1 n1 hn1 hcov
          have hmem1 : n1 ∈ (rest.map (fun g => g.skeletons)).flatten := by
            simp only [List.mem_flatten, List.mem_map]
            exact ⟨g1.skeletons, ⟨g1, hg1, rfl⟩, hn1⟩
          have hne : n ≠ n1 := fun e => hcross hnmem (e ▸ hmem1)
          have := hdisj n n1 hne
          omega

theorem coeffAt_replicate_zero {α : Type} [Zero α] (n x : Nat) :
    coeffAt (List.replicate n (0 : α)) x = 0 := by
  by_cases h : x < n
  · rw [coeffAt_of_lt _ _ (by simpa using h)]
    simp
  · rw [coeffAt_of_le _ _ (by simpa using h)]

/-- The per-DOF branch of `assembleVector` for any snapshot whose recorded
ranges do not overlap and whose groups name no skeleton twice. -/
theorem assembleVector_perDof {α : Type} [Zero α] (s : BackpropSnapshot)
    (get : ConstrainedGroupGradientMatrices → VectorToAssemble → Except Failure (List α))
    (uninit : Nat → α) (whichVector : VectorToAssemble)
    (vecs : ConstrainedGroupGradientMatrices → List α)
    (hdof : isPerConstraint whichVector = false)
    (hget : ∀ g ∈ s.mGradientMatrices, get g whichVector = .ok (vecs g))
    (hnd : ((s.mGradientMatrices.map (fun g => g.skeletons)).flatten).Nodup)
    (hdisj : ∀ n n1, n ≠ n1 →
      s.mSkeletonOffset n + s.mSkeletonDofs n ≤ s.mSkeletonOffset n1
      ∨ s.mSkeletonOffset n1 + s.mSkeletonDofs n1 ≤ s.mSkeletonOffset n) :
    ∃ r, assembleVector s get uninit whichVector = .ok r
      ∧ r.length = s.mNumDOFs
      ∧ (∀ x, (∀ g ∈ s.mGradientMatrices, ∀ n ∈ g.skeletons,
            ¬ (s.mSkeletonOffset n ≤ x ∧ x < s.mSkeletonOffset n + s.mSkeletonDofs n)) →
          coeffAt r x = 0)
      ∧ (∀ g ∈ s.mGradientMatrices, ∀ (k : Nat) (n : String), g.skeletons[k]? = some n →
          ∀ j, j < s.mSkeletonDofs n → s.mSkeletonOffset n + j < s.mNumDOFs →
          coeffAt r (s.mSkeletonOffset n + j)
            = coeffAt (vecs g) (recordedRowOffset s g.skeletons k + j)) := by
  obtain ⟨r, hr, hl, hout, hin⟩ :=
    scatterGroups_spec s (fun g => get g whichVector) vecs s.mGradientMatrices
      (List.replicate s.mNumDOFs 0) hget hnd hdisj
  refine ⟨r, ?_, by simpa using hl, ?_, ?_⟩
  · unfold assembleVector
    rw [hdof]
    simpa using hr
  · intro x hx
    rw [hout x hx, coeffAt_replicate_zero]
  · intro g hg k n hk j hj hlen
    exact hin g hg k n hk j hj (by simpa using hlen)

/-- C8. For every per-DOF vector kind, on a snapshot whose groups name no
skeleton twice, `assembleVector` returns a vector of length `mNumDOFs` whose
segment at the world offset of each skeleton that a group spans equals that
skeleton's segment of its group's vector (whatever the group's clamping
column count), and which is zero on the DOFs of every skeleton in no group;
the result is the same for every permutation of the group list. -/
theorem assembleVector_scatters (world : World) (p v t c l : Vec) (uninit : Nat → ℚ)
    (whichVector : VectorToAssemble) (hdof : isPerConstraint whichVector = false)
    (hpart : (((BackpropSnapshot.create world p v t c l).mGradientMatrices.map
      (fun g => g.skeletons)).flatten).Nodup) :
    ∃ (vecs : ConstrainedGroupGradientMatrices → Vec) (r : Vec),
      (∀ g, getVectorToAssembleXd g whichVector = .ok (vecs g))
      ∧ assembleVector (BackpropSnapshot.create world p v t c l) getVectorToAssembleXd uninit
          whichVector = .ok r
      ∧ r.length = (BackpropSnapshot.create world p v t c l).mNumDOFs
      ∧ (∀ g ∈ (BackpropSnapshot.create world p v t c l).mGradientMatrices,
          ∀ (k : Nat) (n : String), g.skeletons[k]? = some n →
          segmentOf r ((BackpropSnapshot.create world p v t c l).mSkeletonOffset n)
              ((BackpropSnapshot.create world p v t c l).mSkeletonDofs n)
            = segmentOf (vecs g)
                (recordedRowOffset (BackpropSnapshot.create world p v t c l) g.skeletons k)
                ((BackpropSnapshot.create world p v t c l).mSkeletonDofs n))
      ∧ (∀ skel ∈ world.skeletons,
          (∀ g ∈ (BackpropSnapshot.create world p v t c l).mGradientMatrices,
            skel.name ∉ g.skeletons) →
          ∀ x, (BackpropSnapshot.create world p v t c l).mSkeletonOffset skel.name ≤ x →
            x < (BackpropSnapshot.create world p v t c l).mSkeletonOffset skel.name
                + (BackpropSnapshot.create world p v t c l).mSkeletonDofs skel.name →
            coeffAt r x = 0)
      ∧ (∀ perm, perm.Perm (BackpropSnapshot.create world p v t c l).mGradientMatrices →
          assembleVector
              { (BackpropSnapshot.create world p v t c l) with mGradientMatrices := perm }
              getVectorToAssembleXd uninit whichVector
            = .ok r) := by
  obtain ⟨hend, hdisj⟩ := create_named_ranges world p v t c l
  have key : ∀ vecs : ConstrainedGroupGradientMatrices → Vec,
      (∀ g, getVectorToAssembleXd g whichVector = .ok (vecs g)) →
      ∃ (vecs : ConstrainedGroupGradientMatrices → Vec) (r : Vec),
      (∀ g, getVectorToAssembleXd g whichVector = .ok (vecs g))
      ∧ assembleVector (BackpropSnapshot.create world p v t c l) getVectorToAssembleXd uninit
          whichVector = .ok r
      ∧ r.length = (BackpropSnapshot.create world p v t c l).mNumDOFs
      ∧ (∀ g ∈ (BackpropSnapshot.create world p v t c l).mGradientMatrices,
          ∀ (k : Nat) (n : String), g.skeletons[k]? = some n →
          segmentOf r ((BackpropSnapshot.create world p v t c l).mSkeletonOffset n)
              ((BackpropSnapshot.create world p v t c l).mSkeletonDofs n)
            = segmentOf (vecs g)
                (recordedRowOffset (BackpropSnapshot.create world p v t c l) g.skeletons k)
                ((BackpropSnapshot.create world p v t c l).mSkeletonDofs n))
      ∧ (∀ skel ∈ world.skeletons,
          (∀ g ∈ (BackpropSnapshot.create world p v t c l).mGradientMatrices,
            skel.name ∉ g.skeletons) →
          ∀ x, (BackpropSnapshot.create world p v t c l).mSkeletonOffset skel.name ≤ x →
            x < (BackpropSnapshot.create world p v t c l).mSkeletonOffset skel.name
                + (BackpropSnapshot.create world p v t c l).mSkeletonDofs skel.name →
            coeffAt r x = 0)
      ∧ (∀ perm, perm.Perm (BackpropSnapshot.create world p v t c l).mGradientMatrices →
          assembleVector
              { (BackpropSnapshot.create world p v t c l) with mGradientMatrices := perm }
              getVectorToAssembleXd uninit whichVector
            = .ok r) := by
    intro vecs hv
    obtain ⟨r, hr, hl, hout, hin⟩ :=
      assembleVector_perDof (BackpropSnapshot.create world p v t c l) getVectorToAssembleXd
        uninit whichVector vecs hdof (fun g _ => hv g) hpart hdisj
    refine ⟨vecs, r, hv, hr, hl, ?_, ?_, ?_⟩
    · intro g hg k n hk
      apply list_ext_coeffAt _ _ (by rw [length_segmentOf, length_segmentOf])
      intro j hj
      rw [length_segmentOf] at hj
      rw [coeffAt_segmentOf, coeffAt_segmentOf, if_pos hj, if_pos hj]
      have := hend n
      exact hin g hg k n hk j hj (by omega)
    · intro skel _ hno x hx1 hx2
      apply hout
      intro g hg n hn hcov
      have hne : skel.name ≠ n := fun e => hno g hg (e ▸ hn)
      have := hdisj skel.name n hne
      omega
    · intro perm hperm
      have hpart1 : ((perm.map (fun g => g.skeletons)).flatten).Nodup :=
        ((hperm.map (fun g => g.skeletons)).flatten.nodup_iff).2 hpart
      obtain ⟨r1, hr1, hl1, hout1, hin1⟩ :=
        assembleVector_perDof
          { (BackpropSnapshot.create world p v t c l) with mGradientMatrices := perm }
          getVectorToAssembleXd uninit whichVector vecs hdof (fun g _ => hv g) hpart1 hdisj
      have hl2 : r1.length = (BackpropSnapshot.create world p v t c l).mNumDOFs := hl1
      have hout2 : ∀ x, (∀ g ∈ perm, ∀ n ∈ g.skeletons,
          ¬ ((BackpropSnapshot.create world p v t c l).mSkeletonOffset n ≤ x
            ∧ x < (BackpropSnapshot.create world p v t c l).mSkeletonOffset n
                + (BackpropSnapshot.create world p v t c l).mSkeletonDofs n)) →
          coeffAt r1 x = 0 := hout1
      have hin2 : ∀ g ∈ perm, ∀ (k : Nat) (n : String), g.skeletons[k]? = some n →
          ∀ j, j < (BackpropSnapshot.create world p v t c l).mSkeletonDofs n →
          (BackpropSnapshot.create world p v t c l).mSkeletonOffset n + j
            < (BackpropSnapshot.create world p v t c l).mNumDOFs →
          coeffAt r1 ((BackpropSnapshot.create world p v t c l).mSkeletonOffset n + j)
            = coeffAt (vecs g)
                (recordedRowOffset (BackpropSnapshot.create world p v t c l) g.skeletons k + j) :=
        hin1
      rw [hr1]
      congr 1
      apply list_ext_coeffAt _ _ (by rw [hl2, hl])
      intro x _
      by_cases hx : ∃ g ∈ (BackpropSnapshot.create world p v t c l).mGradientMatrices,
          ∃ n ∈ g.skeletons,
            (BackpropSnapshot.create world p v t c l).mSkeletonOffset n ≤ x
            ∧ x < (BackpropSnapshot.create world p v t c l).mSkeletonOffset n
                + (BackpropSnapshot.create world p v t c l).mSkeletonDofs n
      · obtain ⟨g, hg, n, hn, hx1, hx2⟩ := hx
        obtain ⟨k, hk⟩ := List.getElem?_of_mem hn
        have hend1 := hend n
        have e : x = (BackpropSnapshot.create world p v t c l).mSkeletonOffset n
            + (x - (BackpropSnapshot.create world p v t c l).mSkeletonOffset n) := by omega
        rw [e, hin g hg k n hk _ (by omega) (by omega)]
        exact hin2 g (hperm.mem_iff.2 hg) k n hk _ (by omega) (by omega)
      · have hx0 : ∀ g ∈ (BackpropSnapshot.create world p v t c l).mGradientMatrices,
            ∀ n ∈ g.skeletons,
            ¬ ((BackpropSnapshot.create world p v t c l).mSkeletonOffset n ≤ x
              ∧ x < (BackpropSnapshot.create world p v t c l).mSkeletonOffset n
                  + (BackpropSnapshot.create world p v t c l).mSkeletonDofs n) :=
          fun g hg n hn hcov => hx ⟨g, hg, n, hn, hcov⟩
        rw [hout x hx0]
        exact hout2 x (fun g hg n hn => hx0 g (hperm.mem_iff.1 hg) n hn)
  cases whichVector with
  | VEL_DUE_TO_ILLEGAL => exact key (fun g => g.velocityDueToIllegalImpulses) (fun _ => rfl)
  | PRE_STEP_VEL => exact key (fun g => g.preStepVelocity) (fun _ => rfl)
  | PRE_STEP_TAU => exact key (fun g => g.preStepTorques) (fun _ => rfl)
  | PRE_LCP_VEL => exact key (fun g => g.preLCPVelocity) (fun _ => rfl)
  | BOUNCE_DIAGONALS => simp [isPerConstraint] at hdof
  | RESTITUTION_DIAGONALS => simp [isPerConstraint] at hdof
  | CONTACT_CONSTRAINT_IMPULSES => simp [isPerConstraint] at hdof
  | CONTACT_CONSTRAINT_MAPPINGS => simp [isPerConstraint] at hdof
  | PENETRATION_VELOCITY_HACK => simp [isPerConstraint] at hdof
  | CLAMPING_CONSTRAINT_IMPULSES => simp [isPerConstraint] at hdof
  | CLAMPING_CONSTRAINT_RELATIVE_VELS => simp [isPerConstraint] at hdof

/-- Witness of C8: in the example world no skeleton is named by two groups;
the pre-step velocities `[10, 20, 30]` of group one (skeletons `"c"`, `"a"`)
and `[40]` of group two (skeleton `"b"`) are scattered to the world layout
`a, b, c, d`, and the DOF of `"d"`, which is in no group, is zero. -/
theorem assembleVector_scatters_witness :
    isPerConstraint .PRE_STEP_VEL = false
    ∧ (((BackpropSnapshot.create exampleGroupWorld [] [] [] [] []).mGradientMatrices.map
        (fun g => g.skeletons)).flatten).Nodup
    ∧ ∃ r, assembleVector (BackpropSnapshot.create exampleGroupWorld [] [] [] [] [])
          getVectorToAssembleXd (fun _ => 0) .PRE_STEP_VEL = .ok r
        ∧ r = [20, 30, 40, 10, 0] := by
  have hgm : (BackpropSnapshot.create exampleGroupWorld [] [] [] [] []).mGradientMatrices
      = [exampleGroupOne, exampleGroupTwo] := rfl
  have hp : (((BackpropSnapshot.create exampleGroupWorld [] [] [] [] []).mGradientMatrices.map
      (fun g => g.skeletons)).flatten).Nodup := by
    rw [hgm]; decide
  obtain ⟨vecs, r, _, hr, _⟩ :=
    assembleVector_scatters exampleGroupWorld [] [] [] [] [] (fun _ => 0) .PRE_STEP_VEL rfl hp
  refine ⟨rfl, hp, r, hr, ?_⟩
  have h0 : assembleVector (BackpropSnapshot.create exampleGroupWorld [] [] [] [] [])
      getVectorToAssembleXd (fun _ => 0) .PRE_STEP_VEL = .ok [20, 30, 40, 10, 0] := rfl
  rw [hr] at h0
  exact Except.ok.inj h0

/-! ## Dense products as matrix algebra -/

theorem sumTo_eq_sum (n : Nat) (f : Nat → ℚ) : sumTo n f = ∑ i : Fin n, f i := by
  induction n with
  | zero => simp [sumTo]
  | succ k ih => rw [sumTo, ih, Fin.sum_univ_castSucc]; simp

theorem length_mulVec (A : Mat) (v : Vec) : (A.mulVec v).length = A.rows := by
  simp [Mat.mulVec]

theorem length_vecAdd (a b : Vec) : (Vec.add a b).length = a.length := by
  simp [Vec.add]

/-- The dense product `A.transpose() * v` is the matrix-vector product of the
transpose of `A`. -/
theorem toFun_transpose_mulVec (A : Mat) (v : Vec) (n m : Nat) (hr : A.rows = n)
    (hc : A.cols = m) :
    Vec.toFun (A.transpose.mulVec v) m = Matrix.mulVec (A.toMatrix n m).transpose (v.toFun n) := by
  funext i
  simp only [Vec.toFun, Mat.mulVec, Mat.transpose, coeffAt_map_range, hc, hr, i.isLt, if_true,
    sumTo_eq_sum, Matrix.mulVec, Matrix.dotProduct, Matrix.transpose_apply, Mat.toMatrix]

theorem toFun_vecAdd (a b : Vec) (n : Nat) (ha : a.length = n) :
    Vec.toFun (Vec.add a b) n = Vec.toFun a n + Vec.toFun b n := by
  funext i
  simp only [Vec.toFun, Vec.add, coeffAt_map_range, ha, i.isLt, if_true, Pi.add_apply]

/-! ## The state that the world setters leave in the DOFs -/

theorem setDofs_append (upd : DegreeOfFreedom → ℚ → DegreeOfFreedom) (a b : List DegreeOfFreedom)
    (c : Nat) (v : Vec) :
    setDofs upd (a ++ b) c v = setDofs upd a c v ++ setDofs upd b (c + a.length) v := by
  induction a generalizing c with
  | nil => simp [setDofs]
  | cons d ds ih =>
    have e : c + 1 + ds.length = c + (ds.length + 1) := by omega
    show setDofs upd (d :: (ds ++ b)) c v
      = setDofs upd (d :: ds) c v ++ setDofs upd b (c + (ds.length + 1)) v
    rw [setDofs, setDofs, ih (c + 1), e, List.cons_append]

theorem flatten_setSkeletons (upd : DegreeOfFreedom → ℚ → DegreeOfFreedom) (skels : List Skeleton)
    (c : Nat) (v : Vec) :
    ((setSkeletons upd skels c v).map (fun skel => skel.dofs)).flatten
      = setDofs upd ((skels.map (fun skel => skel.dofs)).flatten) c v := by
  induction skels generalizing c with
  | nil => simp [setSkeletons, setDofs]
  | cons skel rest ih =>
    simp only [setSkeletons, List.map_cons, List.flatten_cons, setDofs_append, ih]
    rfl

theorem getElem?_setDofs (upd : DegreeOfFreedom → ℚ → DegreeOfFreedom) (ds : List DegreeOfFreedom)
    (c : Nat) (v : Vec) (i : Nat) :
    (setDofs upd ds c v)[i]? = (ds[i]?).map (fun d => upd d (coeffAt v (c + i))) := by
  induction ds generalizing c i with
  | nil => simp [setDofs]
  | cons d ds ih =>
    cases i with
    | zero => simp [setDofs]
    | succ i =>
      simp only [setDofs, List.getElem?_cons_succ, ih]
      congr 2
      funext d
      congr 2
      omega

/-- In the world that `backprop` sets to the pre-step state, DOF `i` holds
coefficient `i` of the pre-step position, velocity and force, and keeps its
limits. -/
theorem allDofs_preStepWorld (s : BackpropSnapshot) (world : World) (i : Nat) :
    (preStepWorld s world).allDofs[i]?
      = (world.allDofs[i]?).map (fun d =>
          { d with
            position := coeffAt s.mPreStepPosition i
            velocity := coeffAt s.mPreStepVelocity i
            force := coeffAt s.mPreStepTorques i }) := by
  simp only [preStepWorld, World.allDofs, World.setPositions, World.setVelocities,
    World.setExternalForces, flatten_setSkeletons, getElem?_setDofs, Option.map_map]
  congr 1
  funext d
  simp

/-- Components of the clipped vectors, in terms of the clipping rule. -/
theorem clipLossGradientsToBounds_coeff (world : World) (g : ClippedGradients) (i : Nat)
    (d : DegreeOfFreedom) (hd : world.allDofs[i]? = some d) :
    coeffAt (clipLossGradientsToBounds world g).lossWrtPos i
        = clippedValue d.position d.positionLowerLimit d.positionUpperLimit
            (coeffAt g.lossWrtPos i)
    ∧ coeffAt (clipLossGradientsToBounds world g).lossWrtVel i
        = clippedValue d.velocity d.velocityLowerLimit d.velocityUpperLimit
            (coeffAt g.lossWrtVel i)
    ∧ coeffAt (clipLossGradientsToBounds world g).lossWrtForce i
        = clippedValue d.force d.forceLowerLimit d.forceUpperLimit
            (coeffAt g.lossWrtForce i) := by
  rw [clipLossGradientsToBounds_eq]
  obtain ⟨_, hc⟩ := clipDofs_spec world.allDofs 0 g
  obtain ⟨c1, c2, c3⟩ := hc i
  refine ⟨?_, ?_, ?_⟩
  · rw [c1, clipComponentAt_zero_some _ _ _ _ d hd]; rfl
  · rw [c2, clipComponentAt_zero_some _ _ _ _ d hd]; rfl
  · rw [c3, clipComponentAt_zero_some _ _ _ _ d hd]; rfl

theorem clippedValue_at_lower (x lower upper g : ℚ) (h : x = lower) :
    clippedValue x lower upper g ≤ 0 := by
  unfold clippedValue
  split
  · exact le_refl 0
  · rename_i hn
    by_contra hpos
    exact hn (Or.inl ⟨h, lt_of_not_le hpos⟩)

theorem clippedValue_at_upper (x lower upper g : ℚ) (h : x = upper) :
    0 ≤ clippedValue x lower upper g := by
  unfold clippedValue
  split
  · exact le_refl 0
  · rename_i hn
    by_contra hneg
    exact hn (Or.inr ⟨h, lt_of_not_le hneg⟩)

/-! ## What the chained branch of `backprop` returns -/

/-- What `backprop` returns in chained mode, read off its definition. -/
theorem backprop_chained_result (ext : External) (s : BackpropSnapshot) (world : World)
    (next : LossGradient) (s1 : BackpropSnapshot) (r : LossGradient)
    (h : backprop ext s world next false = .ok (s1, r)) :
    r.lossWrtPosition
        = (clipLossGradientsToBounds (preStepWorld s world)
            ⟨(chainedLoss s1 next).lossWrtPosition, (chainedLoss s1 next).lossWrtVelocity,
              (chainedLoss s1 next).lossWrtTorque⟩).lossWrtPos
    ∧ r.lossWrtVelocity
        = (clipLossGradientsToBounds (preStepWorld s world)
            ⟨(chainedLoss s1 next).lossWrtPosition, (chainedLoss s1 next).lossWrtVelocity,
              (chainedLoss s1 next).lossWrtTorque⟩).lossWrtVel
    ∧ r.lossWrtTorque
        = (clipLossGradientsToBounds (preStepWorld s world)
            ⟨(chainedLoss s1 next).lossWrtPosition, (chainedLoss s1 next).lossWrtVelocity,
              (chainedLoss s1 next).lossWrtTorque⟩).lossWrtForce := by
  unfold backprop at h
  simp only [if_true] at h
  cases hg : getSixJacobians ext s (preStepWorld s world) with
  | error e => rw [hg] at h; simp at h
  | ok s2 =>
    rw [hg] at h
    simp only [Except.ok.injEq, Prod.mk.injEq] at h
    obtain ⟨h1, h2⟩ := h
    subst h1
    subst h2
    exact ⟨rfl, rfl, rfl⟩

theorem toMatrix_mul (A B : Mat) (n k m : Nat) (hA : A.cols = k) :
    (A.mul B).toMatrix n m = A.toMatrix n k * B.toMatrix k m := by
  funext i j
  simp only [Mat.toMatrix, Mat.mul, hA, sumTo_eq_sum, Matrix.mul_apply]

theorem toMatrix_add (A B : Mat) (n m : Nat) :
    (A.add B).toMatrix n m = A.toMatrix n m + B.toMatrix n m := by
  funext i j
  simp only [Mat.toMatrix, Mat.add, Matrix.add_apply]

theorem toMatrix_sub (A B : Mat) (n m : Nat) :
    (A.sub B).toMatrix n m = A.toMatrix n m - B.toMatrix n m := by
  funext i j
  simp only [Mat.toMatrix, Mat.sub, Matrix.sub_apply]

theorem toMatrix_scale (c : ℚ) (A : Mat) (n m : Nat) :
    (Mat.scale c A).toMatrix n m = c • A.toMatrix n m := by
  funext i j
  simp only [Mat.toMatrix, Mat.scale, Matrix.smul_apply, smul_eq_mul]

theorem toMatrix_identity (r c n : Nat) :
    (Mat.identity r c).toMatrix n n = (1 : Matrix (Fin n) (Fin n) ℚ) := by
  funext i j
  simp only [Mat.toMatrix, Mat.identity, Matrix.one_apply, Fin.ext_iff]

theorem toMatrix_transpose (A : Mat) (n m : Nat) :
    A.transpose.toMatrix n m = (A.toMatrix m n).transpose := by
  funext i j
  simp only [Mat.toMatrix, Mat.transpose, Matrix.transpose_apply]

theorem toMatrix_zero (r c n m : Nat) :
    (Mat.zero r c).toMatrix n m = (0 : Matrix (Fin n) (Fin m) ℚ) := by
  funext i j
  simp only [Mat.toMatrix, Mat.zero, Matrix.zero_apply]

/-! ## `assembleMatrix` does not depend on the state of the world -/

theorem find?_setSkeletons (upd : DegreeOfFreedom → ℚ → DegreeOfFreedom) (skels : List Skeleton)
    (c : Nat) (v : Vec) (name : String) :
    (∀ skel, skels.find? (fun skel => skel.name = name) = some skel →
      ∃ skel1, (setSkeletons upd skels c v).find? (fun skel => skel.name = name) = some skel1
        ∧ skel1.name = skel.name ∧ skel1.getNumDofs = skel.getNumDofs)
    ∧ (skels.find? (fun skel => skel.name = name) = none →
      (setSkeletons upd skels c v).find? (fun skel => skel.name = name) = none) := by
  induction skels generalizing c with
  | nil => simp [setSkeletons]
  | cons first rest ih =>
    by_cases hn : first.name = name
    · constructor
      · intro skel hs
        simp only [List.find?_cons, hn, decide_True] at hs
        simp only [Option.some.injEq] at hs
        subst hs
        refine ⟨{ first with dofs := setDofs upd first.dofs c v }, ?_, rfl, ?_⟩
        · simp [setSkeletons, List.find?_cons, hn]
        · simp [Skeleton.getNumDofs, length_setDofs]
      · intro hs
        simp [List.find?_cons, hn] at hs
    · have e1 : (first :: rest).find? (fun skel => skel.name = name)
          = rest.find? (fun skel => skel.name = name) := by
        simp [List.find?_cons, hn]
      have e2 : (setSkeletons upd (first :: rest) c v).find? (fun skel => skel.name = name)
          = (setSkeletons upd rest (c + first.getNumDofs) v).find?
              (fun skel => skel.name = name) := by
        simp [setSkeletons, List.find?_cons, hn]
      rw [e1, e2]
      exact ih (c + first.getNumDofs)

theorem assembleGroupRows_congr (s : BackpropSnapshot) (w w1 : World) (gm : Mat) (cc : Nat)
    (names : List String) (dg : Nat) (M : Mat)
    (hrel : ∀ name,
      (∀ skel, w.getSkeleton name = some skel →
        ∃ skel1, w1.getSkeleton name = some skel1
          ∧ skel1.name = skel.name ∧ skel1.getNumDofs = skel.getNumDofs)
      ∧ (w.getSkeleton name = none → w1.getSkeleton name = none)) :
    assembleGroupRows s w1 gm cc names dg M = assembleGroupRows s w gm cc names dg M := by
  induction names generalizing dg M with
  | nil => rfl
  | cons name rest ih =>
    cases hs : w.getSkeleton name with
    | none =>
      simp only [assembleGroupRows, hs, (hrel name).2 hs]
    | some skel =>
      obtain ⟨skel1, h1, hn, hd⟩ := (hrel name).1 skel hs
      simp only [assembleGroupRows, hs, h1, hn, hd]
      exact ih _ _

theorem assembleMatrix_congr (s : BackpropSnapshot) (w w1 : World) (whichMatrix : MatrixToAssemble)
    (hrel : ∀ name,
      (∀ skel, w.getSkeleton name = some skel →
        ∃ skel1, w1.getSkeleton name = some skel1
          ∧ skel1.name = skel.name ∧ skel1.getNumDofs = skel.getNumDofs)
      ∧ (w.getSkeleton name = none → w1.getSkeleton name = none)) :
    assembleMatrix s w1 whichMatrix = assembleMatrix s w whichMatrix := by
  unfold assembleMatrix
  generalize Mat.zero s.mNumDOFs (assembleNumCols s whichMatrix) = M
  generalize (0 : Nat) = cc
  induction s.mGradientMatrices generalizing cc M with
  | nil => rfl
  | cons g rest ih =>
    simp only [assembleGroups, assembleGroupRows_congr s w w1 _ _ _ _ _ hrel]
    cases assembleGroupRows s w (groupMatrixToAssemble g whichMatrix) cc g.skeletons 0 M with
    | error e => rfl
    | ok M1 => exact ih _ _

theorem assembleMatrix_setPositions (s : BackpropSnapshot) (w : World) (v : Vec)
    (whichMatrix : MatrixToAssemble) :
    assembleMatrix s (w.setPositions v) whichMatrix = assembleMatrix s w whichMatrix :=
  assembleMatrix_congr s w _ whichMatrix (fun name => find?_setSkeletons _ w.skeletons 0 v name)

theorem assembleMatrix_setVelocities (s : BackpropSnapshot) (w : World) (v : Vec)
    (whichMatrix : MatrixToAssemble) :
    assembleMatrix s (w.setVelocities v) whichMatrix = assembleMatrix s w whichMatrix :=
  assembleMatrix_congr s w _ whichMatrix (fun name => find?_setSkeletons _ w.skeletons 0 v name)

theorem assembleMatrix_setExternalForces (s : BackpropSnapshot) (w : World) (v : Vec)
    (whichMatrix : MatrixToAssemble) :
    assembleMatrix s (w.setExternalForces v) whichMatrix = assembleMatrix s w whichMatrix :=
  assembleMatrix_congr s w _ whichMatrix (fun name => find?_setSkeletons _ w.skeletons 0 v name)

theorem assembleMatrix_setCachedLCPSolution (s : BackpropSnapshot) (w : World) (v : Vec)
    (whichMatrix : MatrixToAssemble) :
    assembleMatrix s (w.setCachedLCPSolution v) whichMatrix = assembleMatrix s w whichMatrix :=
  assembleMatrix_congr s w _ whichMatrix
    (fun _ => ⟨fun skel hs => ⟨skel, hs, rfl, rfl⟩, fun hs => hs⟩)

/-- The assembled matrices are the same in the rewound world. -/
theorem assembleMatrix_rewind (s : BackpropSnapshot) (world : World)
    (whichMatrix : MatrixToAssemble) :
    assembleMatrix s (rewind s world) whichMatrix = assembleMatrix s world whichMatrix := by
  unfold rewind
  rw [assembleMatrix_setCachedLCPSolution, assembleMatrix_setExternalForces,
    assembleMatrix_setVelocities, assembleMatrix_setPositions]

theorem getNumDofs_setSkeletons (upd : DegreeOfFreedom → ℚ → DegreeOfFreedom)
    (skels : List Skeleton) (c : Nat) (v : Vec) :
    ((setSkeletons upd skels c v).map Skeleton.getNumDofs).sum
      = (skels.map Skeleton.getNumDofs).sum := by
  induction skels generalizing c with
  | nil => simp [setSkeletons]
  | cons skel rest ih =>
    simp only [setSkeletons, List.map_cons, List.sum_cons, ih]
    simp [Skeleton.getNumDofs, length_setDofs]

/-! ## The force-velocity Jacobian -/

theorem getClampingConstraintImpulses_ok (ext : External) (s : BackpropSnapshot) :
    getClampingConstraintImpulses ext s
      = .ok ((s.mGradientMatrices.map (fun g => g.clampingConstraintImpulses)).flatten) :=
  assembleVector_perConstraint s getVectorToAssembleXd ext.uninitialised
    .CLAMPING_CONSTRAINT_IMPULSES (fun g => g.clampingConstraintImpulses) rfl (fun _ _ => rfl)

theorem getNumDofs_rewind (s : BackpropSnapshot) (world : World) :
    (rewind s world).getNumDofs = world.getNumDofs := by
  simp [rewind, World.getNumDofs, World.setPositions, World.setVelocities,
    World.setExternalForces, World.setCachedLCPSolution, getNumDofs_setSkeletons]

theorem timeStep_rewind (s : BackpropSnapshot) (world : World) :
    (rewind s world).timeStep = world.timeStep := rfl

theorem isSome_find?_setSkeletons (upd : DegreeOfFreedom → ℚ → DegreeOfFreedom)
    (skels : List Skeleton) (v : Vec) (name : String)
    (h : (skels.find? (fun skel => skel.name = name)).isSome) :
    ((setSkeletons upd skels 0 v).find? (fun skel => skel.name = name)).isSome := by
  obtain ⟨skel, hs⟩ := Option.isSome_iff_exists.1 h
  obtain ⟨skel1, h1, _⟩ := (find?_setSkeletons upd skels 0 v name).1 skel hs
  rw [h1]; rfl

theorem isSome_getSkeleton_preStepWorld (s : BackpropSnapshot) (world : World) (name : String)
    (h : (world.getSkeleton name).isSome) : ((preStepWorld s world).getSkeleton name).isSome := by
  unfold preStepWorld World.setExternalForces World.setVelocities World.setPositions
  unfold World.getSkeleton at h ⊢
  exact isSome_find?_setSkeletons _ _ _ _
    (isSome_find?_setSkeletons _ _ _ _ (isSome_find?_setSkeletons _ _ _ _ h))

theorem isSome_getSkeleton_rewind (s : BackpropSnapshot) (world : World) (name : String)
    (h : (world.getSkeleton name).isSome) : ((rewind s world).getSkeleton name).isSome := by
  unfold rewind World.setCachedLCPSolution World.setExternalForces World.setVelocities
    World.setPositions
  unfold World.getSkeleton at h ⊢
  exact isSome_find?_setSkeletons _ _ _ _
    (isSome_find?_setSkeletons _ _ _ _ (isSome_find?_setSkeletons _ _ _ _ h))

/-! ## The constraint-force Jacobian returns -/

theorem getClampingConstraintMatrix_rewind (s : BackpropSnapshot) (world : World) :
    getClampingConstraintMatrix s (rewind s world) = getClampingConstraintMatrix s world := by
  unfold getClampingConstraintMatrix
  rw [assembleMatrix_rewind]

theorem getUpperBoundConstraintMatrix_rewind (s : BackpropSnapshot) (world : World) :
    getUpperBoundConstraintMatrix s (rewind s world) = getUpperBoundConstraintMatrix s world := by
  unfold getUpperBoundConstraintMatrix
  rw [assembleMatrix_rewind]

theorem getBouncingConstraintMatrix_rewind (s : BackpropSnapshot) (world : World) :
    getBouncingConstraintMatrix s (rewind s world) = getBouncingConstraintMatrix s world := by
  unfold getBouncingConstraintMatrix
  rw [assembleMatrix_rewind]

theorem getBounceDiagonals_ok (ext : External) (s : BackpropSnapshot) :
    getBounceDiagonals ext s
      = .ok ((s.mGradientMatrices.map (fun g => g.bounceDiagonals)).flatten) :=
  assembleVector_perConstraint s getVectorToAssembleXd ext.uninitialised
    .BOUNCE_DIAGONALS (fun g => g.bounceDiagonals) rfl (fun _ _ => rfl)

theorem getClampingConstraintRelativeVels_ok (ext : External) (s : BackpropSnapshot) :
    getClampingConstraintRelativeVels ext s
      = .ok ((s.mGradientMatrices.map (fun g => g.clampingConstraintRelativeVels)).flatten) :=
  assembleVector_perConstraint s getVectorToAssembleXd ext.uninitialised
    .CLAMPING_CONSTRAINT_RELATIVE_VELS (fun g => g.clampingConstraintRelativeVels) rfl
    (fun _ _ => rfl)

theorem length_collectConstraints (ub : Bool) (cs vec : List DifferentiableContactConstraint) :
    (collectConstraints ub cs vec).length = vec.length + cs.length := by
  induction cs generalizing vec with
  | nil => simp [collectConstraints]
  | cons c rest ih =>
    simp only [collectConstraints, ih, List.length_append, List.length_cons, List.length_nil]
    omega

theorem length_foldl_collectConstraints (ub : Bool)
    (sel : ConstrainedGroupGradientMatrices → List DifferentiableContactConstraint)
    (groups : List ConstrainedGroupGradientMatrices) (vec : List DifferentiableContactConstraint) :
    (groups.foldl (fun vec g => collectConstraints ub (sel g) vec) vec).length
      = vec.length + (groups.map (fun g => (sel g).length)).sum := by
  induction groups generalizing vec with
  | nil => simp
  | cons g rest ih =>
    simp only [List.foldl_cons, ih, length_collectConstraints, List.map_cons, List.sum_cons]
    omega

theorem getClampingConstraints_ok (s : BackpropSnapshot)
    (h : (s.mGradientMatrices.map (fun g => g.clampingConstraints.length)).sum = s.mNumClamping) :
    ∃ cs, getClampingConstraints s = .ok cs ∧ cs.length = s.mNumClamping := by
  have hl := length_foldl_collectConstraints false (fun g => g.clampingConstraints)
    s.mGradientMatrices []
  simp only [List.length_nil, Nat.zero_add] at hl
  refine ⟨_, ?_, hl.trans h⟩
  unfold getClampingConstraints
  simp only [hl, h, if_true]

theorem length_getUpperBoundConstraints (s : BackpropSnapshot) :
    (getUpperBoundConstraints s).length
      = (s.mGradientMatrices.map (fun g => g.upperBoundConstraints.length)).sum := by
  have hl := length_foldl_collectConstraints true (fun g => g.upperBoundConstraints)
    s.mGradientMatrices []
  simpa [getUpperBoundConstraints] using hl

theorem getJacobianOfLCPOffsetClampingSubset_ok (ext : External) (s : BackpropSnapshot)
    (world : World) (wrt : WithRespectTo)
    (hres : ∀ g ∈ s.mGradientMatrices, ∀ name ∈ g.skeletons, (world.getSkeleton name).isSome)
    (hcc : wrt = .POSITION →
      (s.mGradientMatrices.map (fun g => g.clampingConstraints.length)).sum = s.mNumClamping) :
    ∃ dB, getJacobianOfLCPOffsetClampingSubset ext s world wrt = .ok dB := by
  obtain ⟨A_c, hAc, _, _⟩ := assembleMatrix_dims s world .CLAMPING hres
  have hAc1 : getClampingConstraintMatrix s (rewind s world) = .ok A_c := by
    rw [getClampingConstraintMatrix_rewind]; exact hAc
  unfold getJacobianOfLCPOffsetClampingSubset
  simp only [hAc1, getBounceDiagonals_ok]
  cases wrt
  · obtain ⟨cs, hcs, hlen⟩ := getClampingConstraints_ok s (hcc rfl)
    simp [getJacobianOfClampingConstraintsTranspose, hcs, hlen]
  · simp
  · simp
  · simp

theorem rows_mappingBlocks (groups : List ConstrainedGroupGradientMatrices) (a b : Nat)
    (M : Mat) : (mappingBlocks groups a b M).rows = M.rows := by
  induction groups generalizing a b M with
  | nil => rfl
  | cons g rest ih => simp only [mappingBlocks, ih, Mat.setBlock]

theorem rows_getUpperBoundMappingMatrix (s : BackpropSnapshot) :
    (getUpperBoundMappingMatrix s).rows
      = (s.mGradientMatrices.map (fun g => g.upperBoundConstraintMatrix.cols)).sum := by
  simp only [getUpperBoundMappingMatrix, rows_mappingBlocks, Mat.zero]

theorem getJacobianOfClampingConstraints_ok (ext : External) (s : BackpropSnapshot)
    (world : World) (f0 : Vec)
    (hcc : (s.mGradientMatrices.map (fun g => g.clampingConstraints.length)).sum
      = s.mNumClamping)
    (hf : f0.length = s.mNumClamping) :
    ∃ dA_c, getJacobianOfClampingConstraints ext s world f0 = .ok dA_c := by
  obtain ⟨cs, hcs, hlen⟩ := getClampingConstraints_ok s hcc
  unfold getJacobianOfClampingConstraints
  simp [hcs, hlen, hf]

theorem getJacobianOfUpperBoundConstraints_ok (ext : External) (s : BackpropSnapshot)
    (world : World) (E_f0 : Vec)
    (hf : E_f0.length
      = (s.mGradientMatrices.map (fun g => g.upperBoundConstraints.length)).sum) :
    ∃ dA_ub, getJacobianOfUpperBoundConstraints ext s world E_f0 = .ok dA_ub := by
  unfold getJacobianOfUpperBoundConstraints
  simp [length_getUpperBoundConstraints, hf]

theorem getJacobianOfClampingConstraintsTranspose_ok (ext : External) (s : BackpropSnapshot)
    (world : World) (v0 : Vec)
    (hcc : (s.mGradientMatrices.map (fun g => g.clampingConstraints.length)).sum
      = s.mNumClamping) :
    ∃ M, getJacobianOfClampingConstraintsTranspose ext s world v0 = .ok M := by
  obtain ⟨cs, hcs, hlen⟩ := getClampingConstraints_ok s hcc
  unfold getJacobianOfClampingConstraintsTranspose
  simp [hcs, hlen]

theorem getJacobianOfUpperBoundConstraintsTranspose_ok (ext : External) (s : BackpropSnapshot)
    (world : World) (v0 : Vec)
    (hub : (s.mGradientMatrices.map (fun g => g.upperBoundConstraints.length)).sum
      = s.mNumUpperBound) :
    ∃ M, getJacobianOfUpperBoundConstraintsTranspose ext s world v0 = .ok M := by
  unfold getJacobianOfUpperBoundConstraintsTranspose
  simp [length_getUpperBoundConstraints, hub]

theorem dQ_ub_ok (ext : External) (s : BackpropSnapshot) (world : World) (wrt : WithRespectTo)
    (A_c A_c_ub_E Minv : Mat) (rhs : Vec) (hwf : constraintCountsAgree s)
    (hlen : rhs.length = s.mNumClamping) :
    ∃ M, dQ_ub ext s world wrt A_c A_c_ub_E (getUpperBoundMappingMatrix s) Minv rhs = .ok M := by
  obtain ⟨h1, _, h3, _⟩ := hwf
  obtain ⟨M1, hM1⟩ := getJacobianOfClampingConstraintsTranspose_ok ext s world
    ((Minv.mul A_c_ub_E).mulVec rhs) h1
  obtain ⟨M2, hM2⟩ := getJacobianOfClampingConstraints_ok ext s world rhs h1 hlen
  obtain ⟨M3, hM3⟩ := getJacobianOfUpperBoundConstraints_ok ext s world
    ((getUpperBoundMappingMatrix s).mulVec rhs)
    (by rw [length_mulVec, rows_getUpperBoundMappingMatrix, h3])
  unfold dQ_ub
  simp only [hM1, hM2, hM3]
  exact ⟨_, rfl⟩

theorem dQT_ub_ok (ext : External) (s : BackpropSnapshot) (world : World) (wrt : WithRespectTo)
    (A_c A_ub E Minv : Mat) (rhs : Vec) (hwf : constraintCountsAgree s)
    (hlen : rhs.length = s.mNumClamping) :
    ∃ M, dQT_ub ext s world wrt A_c A_ub E Minv rhs = .ok M := by
  obtain ⟨h1, _, _, h4⟩ := hwf
  obtain ⟨M1, hM1⟩ := getJacobianOfClampingConstraintsTranspose_ok ext s world
    ((Minv.mul A_c).mulVec rhs) h1
  obtain ⟨M2, hM2⟩ := getJacobianOfClampingConstraints_ok ext s world rhs h1 hlen
  obtain ⟨M3, hM3⟩ := getJacobianOfUpperBoundConstraintsTranspose_ok ext s world
    ((Minv.mul A_c).mulVec rhs) h4
  unfold dQT_ub
  simp only [hM1, hM2, hM3]
  exact ⟨_, rfl⟩

theorem dQ_c_ok (ext : External) (s : BackpropSnapshot) (world : World) (wrt : WithRespectTo)
    (A_c Minv : Mat) (rhs : Vec) (hwf : constraintCountsAgree s)
    (hlen : rhs.length = s.mNumClamping) :
    ∃ M, dQ_c ext s world wrt A_c Minv rhs = .ok M := by
  obtain ⟨h1, _, _, _⟩ := hwf
  obtain ⟨M1, hM1⟩ := getJacobianOfClampingConstraintsTranspose_ok ext s world
    ((Minv.mul A_c).mulVec rhs) h1
  obtain ⟨M2, hM2⟩ := getJacobianOfClampingConstraints_ok ext s world rhs h1 hlen
  unfold dQ_c
  simp only [hM1, hM2]
  exact ⟨_, rfl⟩

theorem pseudoInverseJacobian_ok (dQ dQT : Vec → Except Failure Mat) (Q Qinv : Mat) (b : Vec)
    (n : Nat) (hQr : Q.rows = n) (hQir : Qinv.rows = n) (hQic : Qinv.cols = n)
    (hdQ : ∀ rhs : Vec, rhs.length = n → ∃ M, dQ rhs = .ok M)
    (hdQT : ∀ rhs : Vec, rhs.length = n → ∃ M, dQT rhs = .ok M) :
    ∃ M, pseudoInverseJacobian dQ dQT Q Qinv b = .ok M := by
  obtain ⟨d1, h1⟩ := hdQ (Qinv.mulVec b) (by rw [length_mulVec, hQir])
  obtain ⟨d2, h2⟩ := hdQT (((Mat.identity Q.rows Q.cols).sub (Q.mul Qinv)).mulVec b)
    (by rw [length_mulVec]; simpa [Mat.sub, Mat.identity] using hQr)
  obtain ⟨d3, h3⟩ := hdQT ((Qinv.transpose.mul Qinv).mulVec b)
    (by rw [length_mulVec]; simpa [Mat.mul, Mat.transpose] using hQic)
  unfold pseudoInverseJacobian plainInverseJacobian pseudoInverseDerivative
  simp only [h1, h2, h3]
  split <;> exact ⟨_, rfl⟩

theorem getJacobianOfLCPConstraintMatrixClampingSubset_ok (ext : External)
    (s : BackpropSnapshot) (world : World) (b : Vec) (wrt : WithRespectTo)
    (hres : ∀ g ∈ s.mGradientMatrices, ∀ name ∈ g.skeletons, (world.getSkeleton name).isSome)
    (hwf : wrt = .POSITION → constraintCountsAgree s) :
    ∃ M, getJacobianOfLCPConstraintMatrixClampingSubset ext s world b wrt = .ok M := by
  obtain ⟨A_c, hAc, _, hcols⟩ := assembleMatrix_dims s world .CLAMPING hres
  obtain ⟨A_ub, hAub, _, _⟩ := assembleMatrix_dims s world .UPPER_BOUND hres
  have hAc2 : getClampingConstraintMatrix s world = .ok A_c := hAc
  have hAub1 : getUpperBoundConstraintMatrix s (rewind s world) = .ok A_ub := by
    rw [getUpperBoundConstraintMatrix_rewind]; exact hAub
  have hcols1 : A_c.cols = s.mNumClamping := hcols
  unfold getJacobianOfLCPConstraintMatrixClampingSubset
  simp only [hAc2, hAub1]
  by_cases hc : A_c.cols = 0
  · rw [if_pos hc]; exact ⟨_, rfl⟩
  rw [if_neg hc]
  by_cases hvf : wrt = .VELOCITY ∨ wrt = .FORCE
  · rw [if_pos hvf]; exact ⟨_, rfl⟩
  rw [if_neg hvf]
  by_cases hp : wrt = .POSITION
  · rw [if_pos hp]
    have hwf1 := hwf hp
    split
    · exact pseudoInverseJacobian_ok _ _ _ _ b s.mNumClamping
        (by simpa [Mat.mul, Mat.transpose] using hcols1)
        (by simpa [Mat.mul, Mat.add] using hcols1)
        (by simpa [Mat.mul, Mat.transpose] using hcols1)
        (fun rhs hl => dQ_ub_ok ext s world wrt A_c _ _ rhs hwf1 hl)
        (fun rhs hl => dQT_ub_ok ext s world wrt A_c A_ub _ _ rhs hwf1 hl)
    · exact pseudoInverseJacobian_ok _ _ _ _ b s.mNumClamping
        (by simpa [Mat.mul, Mat.transpose] using hcols1)
        (by simpa [Mat.mul, Mat.add] using hcols1)
        (by simpa [Mat.mul, Mat.transpose] using hcols1)
        (fun rhs hl => dQ_c_ok ext s world wrt A_c _ rhs hwf1 hl)
        (fun rhs hl => dQ_c_ok ext s world wrt A_c _ rhs hwf1 hl)
  · rw [if_neg hp]; exact ⟨_, rfl⟩

theorem getJacobianOfConstraintForce_ok (ext : External) (s : BackpropSnapshot)
    (world : World) (wrt : WithRespectTo)
    (hres : ∀ g ∈ s.mGradientMatrices, ∀ name ∈ g.skeletons, (world.getSkeleton name).isSome)
    (hwf : wrt = .POSITION → constraintCountsAgree s) :
    ∃ dF_c, getJacobianOfConstraintForce ext s world wrt = .ok dF_c := by
  obtain ⟨A_c, hAc, _, _⟩ := assembleMatrix_dims s world .CLAMPING hres
  obtain ⟨A_ub, hAub, _, _⟩ := assembleMatrix_dims s world .UPPER_BOUND hres
  have hAc2 : getClampingConstraintMatrix s world = .ok A_c := hAc
  have hAub2 : getUpperBoundConstraintMatrix s world = .ok A_ub := hAub
  obtain ⟨dB, hdB⟩ := getJacobianOfLCPOffsetClampingSubset_ok ext s (rewind s world) wrt
    (fun g hg name hn => isSome_getSkeleton_rewind s world name (hres g hg name hn))
    (fun h => (hwf h).1)
  obtain ⟨dQ_b, hdQ⟩ := getJacobianOfLCPConstraintMatrixClampingSubset_ok ext s
    (rewind s world)
    ((s.mGradientMatrices.map (fun g => g.clampingConstraintRelativeVels)).flatten) wrt
    (fun g hg name hn => isSome_getSkeleton_rewind s world name (hres g hg name hn)) hwf
  unfold getJacobianOfConstraintForce
  simp only [hAc2, hAub2, hdB, getClampingConstraintRelativeVels_ok, hdQ]
  by_cases hc : A_c.cols = 0
  · simp [hc]
  · cases wrt <;> simp [hc]

/-- C10. For `wrt = force` of dimension `> 0`, on a snapshot whose groups list
skeletons of the world and for an inverse mass matrix with `numDofs` columns,
`getVelJacobianWrt` returns `Minv * (A * dF_c + dt * I)` with
`A = A_c + A_ub * E` built from the assembled clamping, upper-bound and
mapping matrices, `dF_c = getJacobianOfConstraintForce(force)`, `Minv` the
world's inverse mass matrix at the pre-step state, `dt` the time step and `I`
the `numDofs` identity. In analytic mode, on first access and with a non-empty
clamping matrix, `getForceVelJacobian` caches exactly this matrix and clears
its dirty flag; it fails only through the slow-debug comparison. -/
theorem getVelJacobianWrt_force (ext : External) (s : BackpropSnapshot) (world : World)
    (hdim : ext.wrtDim .FORCE world ≠ 0)
    (hres : ∀ g ∈ s.mGradientMatrices, ∀ name ∈ g.skeletons, (world.getSkeleton name).isSome)
    (hMinv : (ext.worldInvMassMatrix (rewind s world)).cols = world.getNumDofs) :
    ∃ A_c A_ub dF_c J,
      getClampingConstraintMatrix s world = .ok A_c
      ∧ getUpperBoundConstraintMatrix s world = .ok A_ub
      ∧ getJacobianOfConstraintForce ext s (rewind s world) .FORCE = .ok dF_c
      ∧ getVelJacobianWrt ext s world .FORCE = .ok J
      ∧ J.rows = (ext.worldInvMassMatrix (rewind s world)).rows
      ∧ J.cols = dF_c.cols
      ∧ J.toMatrix world.getNumDofs world.getNumDofs
          = (ext.worldInvMassMatrix (rewind s world)).toMatrix world.getNumDofs world.getNumDofs
            * ((A_c.toMatrix world.getNumDofs s.mNumClamping
                  + A_ub.toMatrix world.getNumDofs s.mNumUpperBound
                    * (getUpperBoundMappingMatrix s).toMatrix s.mNumUpperBound s.mNumClamping)
                * dF_c.toMatrix s.mNumClamping world.getNumDofs
              + world.timeStep • (1 : Matrix (Fin world.getNumDofs) (Fin world.getNumDofs) ℚ))
      ∧ (s.mCachedForceVelDirty = true → s.mUseFDOverride = false → A_c.size ≠ 0 →
          (s.mSlowDebugResultsAgainstFD = false →
            getForceVelJacobian ext s world
              = .ok { s with mCachedForceVel := J, mCachedForceVelDirty := false })
          ∧ (∀ s1, getForceVelJacobian ext s world = .ok s1 →
              s1.mCachedForceVel = J ∧ s1.mCachedForceVelDirty = false)
          ∧ (∀ e, getForceVelJacobian ext s world = .error e → e = .exitOne)) := by
  obtain ⟨A_c, hAc, _, cAc⟩ := assembleMatrix_dims s world .CLAMPING hres
  obtain ⟨A_ub, hAub, _, cAub⟩ := assembleMatrix_dims s world .UPPER_BOUND hres
  have hAc1 : getClampingConstraintMatrix s (rewind s world) = .ok A_c := by
    unfold getClampingConstraintMatrix
    rw [assembleMatrix_rewind, hAc]
  have hAub1 : getUpperBoundConstraintMatrix s (rewind s world) = .ok A_ub := by
    unfold getUpperBoundConstraintMatrix
    rw [assembleMatrix_rewind, hAub]
  obtain ⟨dF_c, hdF⟩ := getJacobianOfConstraintForce_ok ext s (rewind s world) .FORCE
    (fun g hg name hn => isSome_getSkeleton_rewind s world name (hres g hg name hn))
    (fun h => by cases h)
  have hJ : ∃ J, getVelJacobianWrt ext s world .FORCE = .ok J
      ∧ J = (ext.worldInvMassMatrix (rewind s world)).mul
          (((A_c.add (A_ub.mul (getUpperBoundMappingMatrix s))).mul dF_c).add
            (Mat.scale (rewind s world).timeStep
              (Mat.identity world.getNumDofs world.getNumDofs))) := by
    refine ⟨_, ?_, rfl⟩
    unfold getVelJacobianWrt
    rw [if_neg hdim]
    simp only [hAc1, hAub1, getClampingConstraintImpulses_ok, hdF, if_true]
  obtain ⟨J, hJ, hJdef⟩ := hJ
  refine ⟨A_c, A_ub, dF_c, J, hAc, hAub, hdF, hJ, by rw [hJdef]; rfl, by rw [hJdef]; rfl,
    ?_, ?_⟩
  · rw [hJdef, toMatrix_mul _ _ _ world.getNumDofs _ hMinv, toMatrix_add,
      toMatrix_mul _ _ _ s.mNumClamping _ (by simpa [Mat.add] using cAc), toMatrix_add,
      toMatrix_mul _ _ _ s.mNumUpperBound _ (by simpa using cAub), toMatrix_scale,
      toMatrix_identity, timeStep_rewind]
  · intro hdirty hfd hsize
    have hcomp : getForceVelJacobian ext s world
        = (match slowDebugCheck ext { s with mCachedForceVel := J } J
              (ext.finiteDifferenceForceVelJacobian { s with mCachedForceVel := J } world) with
          | .error e => .error e
          | .ok _ => .ok { s with mCachedForceVel := J, mCachedForceVelDirty := false }) := by
      have hfd1 : ¬ (s.mUseFDOverride = true) := by simp [hfd]
      have hAc2 : getClampingConstraintMatrix s world = .ok A_c := hAc
      unfold getForceVelJacobian
      rw [if_pos hdirty, if_neg hfd1]
      simp only [hAc2, if_neg hsize, hJ]
    refine ⟨?_, ?_, ?_⟩
    · intro hslow
      rw [hcomp]
      simp [slowDebugCheck, hslow]
    · intro s1 hs1
      rw [hcomp] at hs1
      split at hs1
      · simp at hs1
      · simp only [Except.ok.injEq] at hs1
        subst hs1
        exact ⟨rfl, rfl⟩
    · intro e he
      rw [hcomp] at he
      split at he
      · rename_i e1 hsd
        simp only [Except.error.injEq] at he
        subst he
        unfold slowDebugCheck at hsd
        split at hsd
        · split at hsd
          · simp at hsd
          · simp only [Except.error.injEq] at hsd
            exact hsd.symm
        · simp at hsd
      · simp at he

/-- Witness of C10: the example world with two groups, a force of dimension 5
and the identity as inverse mass matrix; the entry `(0, 0)` of the Jacobian is
`(21 + 8 * 1/2) * 1/2 + 1/100`, and the first call of `getForceVelJacobian`
caches this matrix and clears the dirty flag. -/
theorem getVelJacobianWrt_force_witness :
    exampleForceExternal.wrtDim .FORCE exampleGroupWorld ≠ 0
    ∧ ∃ J s1, getVelJacobianWrt exampleForceExternal
          (BackpropSnapshot.create exampleGroupWorld [] [] [] [] []) exampleGroupWorld .FORCE
          = .ok J
        ∧ J.rows = 5 ∧ J.cols = 5 ∧ J.coeff 0 0 = 1251 / 100
        ∧ getForceVelJacobian exampleForceExternal
            (BackpropSnapshot.create exampleGroupWorld [] [] [] [] []) exampleGroupWorld = .ok s1
        ∧ s1.mCachedForceVel = J ∧ s1.mCachedForceVelDirty = false := by
  have hgm : (BackpropSnapshot.create exampleGroupWorld [] [] [] [] []).mGradientMatrices
      = [exampleGroupOne, exampleGroupTwo] := rfl
  have hdim : exampleForceExternal.wrtDim .FORCE exampleGroupWorld ≠ 0 := by decide
  have hres : ∀ g ∈ (BackpropSnapshot.create exampleGroupWorld [] [] [] [] []).mGradientMatrices,
      ∀ name ∈ g.skeletons, (exampleGroupWorld.getSkeleton name).isSome := by
    rw [hgm]; decide
  obtain ⟨A_c, A_ub, dF_c, J, hAc, _, hdF, hJ, hr, hc, _, hcache⟩ :=
    getVelJacobianWrt_force exampleForceExternal
      (BackpropSnapshot.create exampleGroupWorld [] [] [] [] []) exampleGroupWorld hdim hres
      (getNumDofs_rewind _ _)
  have h00 : (match getVelJacobianWrt exampleForceExternal
      (BackpropSnapshot.create exampleGroupWorld [] [] [] [] []) exampleGroupWorld .FORCE with
      | .ok J0 => J0.coeff 0 0
      | .error _ => 0) = 1251 / 100 := by
    with_unfolding_all rfl
  rw [hJ] at h00
  have hsize : (match getClampingConstraintMatrix
      (BackpropSnapshot.create exampleGroupWorld [] [] [] [] []) exampleGroupWorld with
      | .ok M0 => M0.size
      | .error _ => 0) = 15 := rfl
  rw [hAc] at hsize
  have hsz : A_c.size ≠ 0 := by
    have e : A_c.size = 15 := hsize
    rw [e]; decide
  obtain ⟨hok, _, _⟩ := hcache rfl rfl hsz
  refine ⟨hdim, J, _, hJ, ?_, ?_, h00, hok rfl, rfl, rfl⟩
  · rw [hr]; exact getNumDofs_rewind _ _
  · rw [hc]
    have hcols : (match getJacobianOfConstraintForce exampleForceExternal
        (BackpropSnapshot.create exampleGroupWorld [] [] [] [] [])
        (rewind (BackpropSnapshot.create exampleGroupWorld [] [] [] [] []) exampleGroupWorld)
        .FORCE with
        | .ok M0 => M0.cols
        | .error _ => 0) = 5 := rfl
    rw [hdF] at hcols
    exact hcols

/-! ## The getters return when the slow-debug comparison is off -/

theorem getVelJacobianWrt_ok (ext : External) (s : BackpropSnapshot) (world : World)
    (wrt : WithRespectTo)
    (hres : ∀ g ∈ s.mGradientMatrices, ∀ name ∈ g.skeletons, (world.getSkeleton name).isSome)
    (hwf : wrt = .POSITION → constraintCountsAgree s) :
    ∃ J, getVelJacobianWrt ext s world wrt = .ok J := by
  obtain ⟨A_c, hAc, _, _⟩ := assembleMatrix_dims s world .CLAMPING hres
  obtain ⟨A_ub, hAub, _, _⟩ := assembleMatrix_dims s world .UPPER_BOUND hres
  have hAc1 : getClampingConstraintMatrix s (rewind s world) = .ok A_c := by
    unfold getClampingConstraintMatrix
    rw [assembleMatrix_rewind, hAc]
  have hAub1 : getUpperBoundConstraintMatrix s (rewind s world) = .ok A_ub := by
    unfold getUpperBoundConstraintMatrix
    rw [assembleMatrix_rewind, hAub]
  obtain ⟨dF_c, hdF⟩ := getJacobianOfConstraintForce_ok ext s (rewind s world) wrt
    (fun g hg name hn => isSome_getSkeleton_rewind s world name (hres g hg name hn))
    hwf
  unfold getVelJacobianWrt
  by_cases hdim : ext.wrtDim wrt world = 0
  · rw [if_pos hdim]; exact ⟨_, rfl⟩
  · rw [if_neg hdim]
    simp only [hAc1, hAub1, getClampingConstraintImpulses_ok, hdF]
    cases wrt
    · obtain ⟨h1, h2, h3, _⟩ := hwf rfl
      obtain ⟨dA_c, hdA⟩ := getJacobianOfClampingConstraints_ok ext s (rewind s world)
        ((s.mGradientMatrices.map (fun g => g.clampingConstraintImpulses)).flatten) h1
        (by rw [length_flatten_map]; exact h2)
      obtain ⟨dA_ub, hdAub⟩ := getJacobianOfUpperBoundConstraints_ok ext s (rewind s world)
        ((getUpperBoundMappingMatrix s).mulVec
          ((s.mGradientMatrices.map (fun g => g.clampingConstraintImpulses)).flatten))
        (by rw [length_mulVec, rows_getUpperBoundMappingMatrix, h3])
      simp [hdA, hdAub]
    · simp
    · simp
    · simp

theorem slowDebugCheck_off (ext : External) (s : BackpropSnapshot) (a b : Mat)
    (h : s.mSlowDebugResultsAgainstFD = false) : slowDebugCheck ext s a b = .ok () := by
  simp [slowDebugCheck, h]

/-- The part of a snapshot that the getters never change. -/
theorem getForceVelJacobian_ok (ext : External) (s : BackpropSnapshot) (world : World)
    (hslow : s.mSlowDebugResultsAgainstFD = false)
    (hres : ∀ g ∈ s.mGradientMatrices, ∀ name ∈ g.skeletons, (world.getSkeleton name).isSome) :
    ∃ s1, getForceVelJacobian ext s world = .ok s1
      ∧ s1.mSlowDebugResultsAgainstFD = false
      ∧ s1.mGradientMatrices = s.mGradientMatrices
      ∧ s1.mNumClamping = s.mNumClamping := by
  obtain ⟨A_c, hAc, _, _⟩ := assembleMatrix_dims s world .CLAMPING hres
  have hAc2 : getClampingConstraintMatrix s world = .ok A_c := hAc
  obtain ⟨J, hJ⟩ := getVelJacobianWrt_ok ext s world .FORCE hres (fun h => by cases h)
  unfold getForceVelJacobian
  by_cases hd : s.mCachedForceVelDirty = true <;> by_cases hfd : s.mUseFDOverride = true <;>
    by_cases hsz : A_c.size = 0 <;>
    simp [hd, hfd, hsz, hAc2, hJ, slowDebugCheck, hslow]

theorem getMassVelJacobian_ok (ext : External) (s : BackpropSnapshot) (world : World)
    (hslow : s.mSlowDebugResultsAgainstFD = false)
    (hres : ∀ g ∈ s.mGradientMatrices, ∀ name ∈ g.skeletons, (world.getSkeleton name).isSome) :
    ∃ s1, getMassVelJacobian ext s world = .ok s1
      ∧ s1.mSlowDebugResultsAgainstFD = false
      ∧ s1.mGradientMatrices = s.mGradientMatrices
      ∧ s1.mNumClamping = s.mNumClamping := by
  obtain ⟨J, hJ⟩ := getVelJacobianWrt_ok ext s world .MASS hres (fun h => by cases h)
  unfold getMassVelJacobian
  by_cases hd : s.mCachedMassVelDirty = true <;> by_cases hfd : s.mUseFDOverride = true <;>
    simp [hd, hfd, hJ, slowDebugCheck, hslow]

theorem getPosVelJacobian_ok (ext : External) (s : BackpropSnapshot) (world : World)
    (hslow : s.mSlowDebugResultsAgainstFD = false)
    (hres : ∀ g ∈ s.mGradientMatrices, ∀ name ∈ g.skeletons, (world.getSkeleton name).isSome)
    (hwf : constraintCountsAgree s) :
    ∃ s1, getPosVelJacobian ext s world = .ok s1
      ∧ s1.mSlowDebugResultsAgainstFD = false
      ∧ s1.mGradientMatrices = s.mGradientMatrices
      ∧ s1.mNumClamping = s.mNumClamping := by
  obtain ⟨J, hJ⟩ := getVelJacobianWrt_ok ext s world .POSITION hres (fun _ => hwf)
  unfold getPosVelJacobian
  by_cases hd : s.mCachedPosVelDirty = true <;> by_cases hfd : s.mUseFDOverride = true <;>
    simp [hd, hfd, hJ, slowDebugCheck, hslow]

theorem getVelVelJacobian_ok (ext : External) (s : BackpropSnapshot) (world : World)
    (hslow : s.mSlowDebugResultsAgainstFD = false)
    (hres : ∀ g ∈ s.mGradientMatrices, ∀ name ∈ g.skeletons, (world.getSkeleton name).isSome) :
    ∃ s1, getVelVelJacobian ext s world = .ok s1
      ∧ s1.mSlowDebugResultsAgainstFD = false
      ∧ s1.mGradientMatrices = s.mGradientMatrices
      ∧ s1.mNumClamping = s.mNumClamping := by
  obtain ⟨A_c, hAc, _, _⟩ := assembleMatrix_dims s world .CLAMPING hres
  have hAc2 : getClampingConstraintMatrix s world = .ok A_c := hAc
  obtain ⟨J, hJ⟩ := getVelJacobianWrt_ok ext s world .VELOCITY hres (fun h => by cases h)
  obtain ⟨s0, hs0, hslow0, hgm0, hnc0⟩ := getForceVelJacobian_ok ext s world hslow hres
  unfold getVelVelJacobian
  by_cases hd : s.mCachedVelVelDirty = true <;> by_cases hfd : s.mUseFDOverride = true <;>
    by_cases hsz : A_c.size = 0 <;>
    simp [hd, hfd, hsz, hAc2, hJ, hs0, hslow0, hgm0, hnc0, slowDebugCheck, hslow]

theorem getBounceApproximationJacobian_ok (ext : External) (s : BackpropSnapshot) (world : World)
    (hslow : s.mSlowDebugResultsAgainstFD = false)
    (hres : ∀ g ∈ s.mGradientMatrices, ∀ name ∈ g.skeletons, (world.getSkeleton name).isSome) :
    ∃ s1, getBounceApproximationJacobian ext s world = .ok s1
      ∧ s1.mSlowDebugResultsAgainstFD = false
      ∧ s1.mGradientMatrices = s.mGradientMatrices
      ∧ s1.mNumClamping = s.mNumClamping := by
  obtain ⟨A_b, hAb, _, _⟩ := assembleMatrix_dims s world .BOUNCING hres
  have hAb1 : getBouncingConstraintMatrix s (rewind s world) = .ok A_b := by
    unfold getBouncingConstraintMatrix
    rw [assembleMatrix_rewind, hAb]
  have hrest : getRestitutionDiagonals ext s
      = .ok ((s.mGradientMatrices.map (fun g => g.restitutionDiagonals)).flatten) :=
    assembleVector_perConstraint s getVectorToAssembleXd ext.uninitialised
      .RESTITUTION_DIAGONALS (fun g => g.restitutionDiagonals) rfl (fun _ _ => rfl)
  unfold getBounceApproximationJacobian
  by_cases hd : s.mCachedBounceApproximationDirty = true <;> by_cases hsz : A_b.size = 0 <;>
    simp [hd, hsz, hAb1, hrest, hslow]

theorem getPosPosJacobian_ok (ext : External) (s : BackpropSnapshot) (world : World)
    (hslow : s.mSlowDebugResultsAgainstFD = false)
    (hres : ∀ g ∈ s.mGradientMatrices, ∀ name ∈ g.skeletons, (world.getSkeleton name).isSome) :
    ∃ s1, getPosPosJacobian ext s world = .ok s1
      ∧ s1.mSlowDebugResultsAgainstFD = false
      ∧ s1.mGradientMatrices = s.mGradientMatrices
      ∧ s1.mNumClamping = s.mNumClamping := by
  obtain ⟨s0, hs0, hslow0, hgm0, hnc0⟩ :=
    getBounceApproximationJacobian_ok ext s (rewind s world) hslow
      (fun g hg name hn => isSome_getSkeleton_rewind s world name (hres g hg name hn))
  unfold getPosPosJacobian
  by_cases hd : s.mCachedPosPosDirty = true <;> by_cases hfd : s.mUseFDOverride = true <;>
    simp [hd, hfd, hs0, hslow0, hgm0, hnc0, slowDebugCheck, hslow]

theorem getVelPosJacobian_ok (ext : External) (s : BackpropSnapshot) (world : World)
    (hslow : s.mSlowDebugResultsAgainstFD = false)
    (hres : ∀ g ∈ s.mGradientMatrices, ∀ name ∈ g.skeletons, (world.getSkeleton name).isSome) :
    ∃ s1, getVelPosJacobian ext s world = .ok s1
      ∧ s1.mSlowDebugResultsAgainstFD = false
      ∧ s1.mGradientMatrices = s.mGradientMatrices
      ∧ s1.mNumClamping = s.mNumClamping := by
  obtain ⟨s0, hs0, hslow0, hgm0, hnc0⟩ := getBounceApproximationJacobian_ok ext s world hslow hres
  unfold getVelPosJacobian
  by_cases hd : s.mCachedVelPosDirty = true <;> by_cases hfd : s.mUseFDOverride = true <;>
    simp [hd, hfd, hs0, hslow0, hgm0, hnc0, slowDebugCheck, hslow]

theorem getBounceApproximationJacobian_numUpperBound (ext : External)
    (s s1 : BackpropSnapshot) (world : World)
    (h : getBounceApproximationJacobian ext s world = .ok s1) :
    s1.mNumUpperBound = s.mNumUpperBound := by
  unfold getBounceApproximationJacobian at h
  by_cases hd : s.mCachedBounceApproximationDirty = true
  · rw [if_pos hd] at h
    dsimp only at h
    repeat' (split at h <;> try dsimp only at h)
    all_goals first
      | (simp only [Except.ok.injEq] at h
         subst h
         rfl)
      | simp at h
  · rw [if_neg hd] at h
    simp only [Except.ok.injEq] at h
    subst h
    rfl

theorem getPosPosJacobian_numUpperBound (ext : External) (s s1 : BackpropSnapshot)
    (world : World) (h : getPosPosJacobian ext s world = .ok s1) :
    s1.mNumUpperBound = s.mNumUpperBound := by
  unfold getPosPosJacobian at h
  by_cases hd : s.mCachedPosPosDirty = true
  · rw [if_pos hd] at h
    dsimp only at h
    split at h
    · simp at h
    · rename_i t J heq
      try dsimp only at h
      split at h
      · simp at h
      · simp only [Except.ok.injEq] at h
        subst h
        cases hfv : getBounceApproximationJacobian ext s (rewind s world) with
        | error e =>
          simp only [hfv] at heq
          repeat' (split at heq <;> try dsimp only at heq)
          all_goals cases heq
          all_goals rfl
        | ok s0 =>
          have hk := getBounceApproximationJacobian_numUpperBound ext s s0 (rewind s world) hfv
          simp only [hfv] at heq
          repeat' (split at heq <;> try dsimp only at heq)
          all_goals cases heq
          all_goals first | exact hk | rfl
  · rw [if_neg hd] at h
    simp only [Except.ok.injEq] at h
    subst h
    rfl

/-- With the slow-debug comparison off, groups that list skeletons of the
world and group data whose counts agree, the six getter calls of the chained
branch all return. -/
theorem getSixJacobians_ok (ext : External) (s : BackpropSnapshot) (world : World)
    (hslow : s.mSlowDebugResultsAgainstFD = false)
    (hres : ∀ g ∈ s.mGradientMatrices, ∀ name ∈ g.skeletons, (world.getSkeleton name).isSome)
    (hwf : constraintCountsAgree s) :
    ∃ s1, getSixJacobians ext s world = .ok s1 := by
  obtain ⟨s1, h1, l1, g1, n1⟩ := getPosPosJacobian_ok ext s world hslow hres
  obtain ⟨s2, h2, l2, g2, _⟩ := getPosVelJacobian_ok ext s1 world l1 (by rw [g1]; exact hres)
    (by
      unfold constraintCountsAgree at hwf ⊢
      rw [g1, n1, getPosPosJacobian_numUpperBound ext s s1 world h1]
      exact hwf)
  obtain ⟨s3, h3, l3, g3, _⟩ := getVelPosJacobian_ok ext s2 world l2 (by rw [g2, g1]; exact hres)
  obtain ⟨s4, h4, l4, g4, _⟩ :=
    getVelVelJacobian_ok ext s3 world l3 (by rw [g3, g2, g1]; exact hres)
  obtain ⟨s5, h5, l5, g5, _⟩ :=
    getForceVelJacobian_ok ext s4 world l4 (by rw [g4, g3, g2, g1]; exact hres)
  obtain ⟨s6, h6, _, _⟩ :=
    getMassVelJacobian_ok ext s5 world l5 (by rw [g5, g4, g3, g2, g1]; exact hres)
  exact ⟨s6, by simp only [getSixJacobians, h1, h2, h3, h4, h5, h6]⟩

/-! ## Backward propagation, chained mode -/

/-- C1. With `exploreAlternateStrategies = false`, `backprop` fails exactly
when one of the six Jacobian getters fails (none does when the slow-debug
comparison is off, the groups list skeletons of the world and the counts of
the group data agree), and otherwise
returns
`clipLossGradientsToBounds` applied once to the position, velocity and torque
vectors of the chain rule, and the mass vector of the chain rule unclipped.
The chain rule is, for cached Jacobians of `n` rows (`massVel` with `m`
columns) and next-step gradients `gP`, `gV` of length `n`:
`posPos^T * gP + posVel^T * gV`, `velPos^T * gP + velVel^T * gV`,
`forceVel^T * gV` and `massVel^T * gV`. -/
theorem backprop_chained (ext : External) (s : BackpropSnapshot) (world : World)
    (next : LossGradient) :
    backprop ext s world next false
        = (match getSixJacobians ext s (preStepWorld s world) with
          | .error e => .error e
          | .ok s1 =>
            .ok (s1,
              { lossWrtPosition :=
                  (clipLossGradientsToBounds (preStepWorld s world)
                    ⟨(chainedLoss s1 next).lossWrtPosition, (chainedLoss s1 next).lossWrtVelocity,
                      (chainedLoss s1 next).lossWrtTorque⟩).lossWrtPos
                lossWrtVelocity :=
                  (clipLossGradientsToBounds (preStepWorld s world)
                    ⟨(chainedLoss s1 next).lossWrtPosition, (chainedLoss s1 next).lossWrtVelocity,
                      (chainedLoss s1 next).lossWrtTorque⟩).lossWrtVel
                lossWrtTorque :=
                  (clipLossGradientsToBounds (preStepWorld s world)
                    ⟨(chainedLoss s1 next).lossWrtPosition, (chainedLoss s1 next).lossWrtVelocity,
                      (chainedLoss s1 next).lossWrtTorque⟩).lossWrtForce
                lossWrtMass := (chainedLoss s1 next).lossWrtMass }))
    ∧ (∀ (s1 : BackpropSnapshot) (n m : Nat),
        s1.mCachedPosPos.rows = n → s1.mCachedPosPos.cols = n →
        s1.mCachedPosVel.rows = n → s1.mCachedPosVel.cols = n →
        s1.mCachedVelPos.rows = n → s1.mCachedVelPos.cols = n →
        s1.mCachedVelVel.rows = n → s1.mCachedVelVel.cols = n →
        s1.mCachedForceVel.rows = n → s1.mCachedForceVel.cols = n →
        s1.mCachedMassVel.rows = n → s1.mCachedMassVel.cols = m →
        ((chainedLoss s1 next).lossWrtPosition.length = n
          ∧ (chainedLoss s1 next).lossWrtVelocity.length = n
          ∧ (chainedLoss s1 next).lossWrtTorque.length = n
          ∧ (chainedLoss s1 next).lossWrtMass.length = m)
        ∧ Vec.toFun (chainedLoss s1 next).lossWrtPosition n
            = Matrix.mulVec (s1.mCachedPosPos.toMatrix n n).transpose
                (Vec.toFun next.lossWrtPosition n)
              + Matrix.mulVec (s1.mCachedPosVel.toMatrix n n).transpose
                (Vec.toFun next.lossWrtVelocity n)
        ∧ Vec.toFun (chainedLoss s1 next).lossWrtVelocity n
            = Matrix.mulVec (s1.mCachedVelPos.toMatrix n n).transpose
                (Vec.toFun next.lossWrtPosition n)
              + Matrix.mulVec (s1.mCachedVelVel.toMatrix n n).transpose
                (Vec.toFun next.lossWrtVelocity n)
        ∧ Vec.toFun (chainedLoss s1 next).lossWrtTorque n
            = Matrix.mulVec (s1.mCachedForceVel.toMatrix n n).transpose
                (Vec.toFun next.lossWrtVelocity n)
        ∧ Vec.toFun (chainedLoss s1 next).lossWrtMass m
            = Matrix.mulVec (s1.mCachedMassVel.toMatrix n m).transpose
                (Vec.toFun next.lossWrtVelocity n))
    ∧ (s.mSlowDebugResultsAgainstFD = false →
        (∀ g ∈ s.mGradientMatrices, ∀ name ∈ g.skeletons, (world.getSkeleton name).isSome) →
        constraintCountsAgree s →
        ∃ s1 r, backprop ext s world next false = .ok (s1, r)) := by
  refine ⟨?_, ?_, ?_⟩
  · unfold backprop
    simp only [if_true]
  rotate_left
  · intro hslow hres hwf
    obtain ⟨s1, h1⟩ := getSixJacobians_ok ext s (preStepWorld s world) hslow
      (fun g hg name hn => isSome_getSkeleton_preStepWorld s world name (hres g hg name hn)) hwf
    unfold backprop
    simp only [if_true, h1]
    exact ⟨_, _, rfl⟩
  · intro s1 n m r1 c1 r2 c2 r3 c3 r4 c4 r5 c5 r6 c6
    refine ⟨⟨?_, ?_, ?_, ?_⟩, ?_, ?_, ?_, ?_⟩
    · simp [chainedLoss, length_vecAdd, length_mulVec, Mat.transpose, c1]
    · simp [chainedLoss, length_vecAdd, length_mulVec, Mat.transpose, c3]
    · simp [chainedLoss, length_mulVec, Mat.transpose, c5]
    · simp [chainedLoss, length_mulVec, Mat.transpose, c6]
    · simp only [chainedLoss]
      rw [toFun_vecAdd _ _ n (by simp [length_mulVec, Mat.transpose, c1]),
        toFun_transpose_mulVec _ _ n n r1 c1, toFun_transpose_mulVec _ _ n n r2 c2]
    · simp only [chainedLoss]
      rw [toFun_vecAdd _ _ n (by simp [length_mulVec, Mat.transpose, c3]),
        toFun_transpose_mulVec _ _ n n r3 c3, toFun_transpose_mulVec _ _ n n r4 c4]
    · simp only [chainedLoss]
      rw [toFun_transpose_mulVec _ _ n n r5 c5]
    · simp only [chainedLoss]
      rw [toFun_transpose_mulVec _ _ n m r6 c6]

/-- Witness of C1: on the one-DOF example with its caches filled, the chain
rule is the stated matrix expression, the call returns, and it returns the
clipped vectors: the position component `1*3 + 2*5 = 13` is zeroed (the
position rests on its lower limit), the velocity component `3/100 + 5` and the
torque component `5/100` are kept, the mass vector is empty. -/
theorem backprop_chained_witness :
    Vec.toFun (chainedLoss exampleCachedSnapshot exampleNextLoss).lossWrtPosition 1
        = Matrix.mulVec (exampleCachedSnapshot.mCachedPosPos.toMatrix 1 1).transpose
            (Vec.toFun exampleNextLoss.lossWrtPosition 1)
          + Matrix.mulVec (exampleCachedSnapshot.mCachedPosVel.toMatrix 1 1).transpose
            (Vec.toFun exampleNextLoss.lossWrtVelocity 1)
    ∧ (∃ s1 r,
        backprop exampleExternal exampleCachedSnapshot exampleSingleWorld exampleNextLoss false
          = .ok (s1, r))
    ∧ backprop exampleExternal exampleCachedSnapshot exampleSingleWorld exampleNextLoss false
        = .ok (exampleCachedSnapshot,
            { lossWrtPosition := [0], lossWrtVelocity := [503 / 100], lossWrtTorque := [1 / 20],
              lossWrtMass := [] }) := by
  have h := backprop_chained exampleExternal exampleCachedSnapshot exampleSingleWorld
    exampleNextLoss
  have hgm : exampleCachedSnapshot.mGradientMatrices = [] := rfl
  refine ⟨(h.2.1 exampleCachedSnapshot 1 0 rfl rfl rfl rfl rfl rfl rfl rfl rfl rfl rfl rfl).2.1,
    h.2.2 rfl (by rw [hgm]; simp) (by unfold constraintCountsAgree; rw [hgm]; decide), ?_⟩
  rw [h.1]
  with_unfolding_all rfl


/-! ## Backward propagation and saturated bounds -/

/-- C4, as amended. With `exploreAlternateStrategies = false`, the gradients
returned by `backprop` never push past a saturated bound: for the DOF at world
index `i`, if the pre-step position equals its lower limit then
`lossWrtPosition_i <= 0`, if it equals its upper limit then
`lossWrtPosition_i >= 0`, and likewise for the pre-step velocity with
`lossWrtVelocity` and the pre-step force with `lossWrtTorque`; and the call
returns when the slow-debug comparison is off, the groups list skeletons of
the world and the counts of the group data agree. -/
theorem backprop_chained_respects_bounds (ext : External) (s : BackpropSnapshot) (world : World)
    (next : LossGradient) :
    (∀ (s1 : BackpropSnapshot) (r : LossGradient),
      backprop ext s world next false = .ok (s1, r) →
      ∀ (i : Nat) (d : DegreeOfFreedom), world.allDofs[i]? = some d →
        (coeffAt s.mPreStepPosition i = d.positionLowerLimit → coeffAt r.lossWrtPosition i ≤ 0)
        ∧ (coeffAt s.mPreStepPosition i = d.positionUpperLimit → 0 ≤ coeffAt r.lossWrtPosition i)
        ∧ (coeffAt s.mPreStepVelocity i = d.velocityLowerLimit → coeffAt r.lossWrtVelocity i ≤ 0)
        ∧ (coeffAt s.mPreStepVelocity i = d.velocityUpperLimit → 0 ≤ coeffAt r.lossWrtVelocity i)
        ∧ (coeffAt s.mPreStepTorques i = d.forceLowerLimit → coeffAt r.lossWrtTorque i ≤ 0)
        ∧ (coeffAt s.mPreStepTorques i = d.forceUpperLimit → 0 ≤ coeffAt r.lossWrtTorque i))
    ∧ (s.mSlowDebugResultsAgainstFD = false →
        (∀ g ∈ s.mGradientMatrices, ∀ name ∈ g.skeletons, (world.getSkeleton name).isSome) →
        constraintCountsAgree s →
        ∃ s1 r, backprop ext s world next false = .ok (s1, r)) := by
  refine ⟨?_, ?_⟩
  · intro s1 r h i d hd
    obtain ⟨e1, e2, e3⟩ := backprop_chained_result ext s world next s1 r h
    have hd1 : (preStepWorld s world).allDofs[i]?
        = some { d with
            position := coeffAt s.mPreStepPosition i
            velocity := coeffAt s.mPreStepVelocity i
            force := coeffAt s.mPreStepTorques i } := by
      rw [allDofs_preStepWorld, hd]; rfl
    obtain ⟨c1, c2, c3⟩ := clipLossGradientsToBounds_coeff (preStepWorld s world)
      ⟨(chainedLoss s1 next).lossWrtPosition, (chainedLoss s1 next).lossWrtVelocity,
        (chainedLoss s1 next).lossWrtTorque⟩ i _ hd1
    rw [e1, e2, e3, c1, c2, c3]
    exact ⟨clippedValue_at_lower _ _ _ _, clippedValue_at_upper _ _ _ _,
      clippedValue_at_lower _ _ _ _, clippedValue_at_upper _ _ _ _,
      clippedValue_at_lower _ _ _ _, clippedValue_at_upper _ _ _ _⟩
  · intro hslow hres hwf
    obtain ⟨s1, h1⟩ := getSixJacobians_ok ext s (preStepWorld s world) hslow
      (fun g hg name hn => isSome_getSkeleton_preStepWorld s world name (hres g hg name hn)) hwf
    unfold backprop
    simp only [if_true, h1]
    exact ⟨_, _, rfl⟩

/-- Witness of the amended C4: the chained call on the one-DOF example returns,
and its position component is not positive although the chain rule gives 13. -/
theorem backprop_chained_respects_bounds_witness :
    (∃ s1 r,
      backprop exampleExternal exampleCachedSnapshot exampleSingleWorld exampleNextLoss false
        = .ok (s1, r))
    ∧ backprop exampleExternal exampleCachedSnapshot exampleSingleWorld exampleNextLoss false
        = .ok (exampleCachedSnapshot,
            { lossWrtPosition := [0], lossWrtVelocity := [503 / 100], lossWrtTorque := [1 / 20],
              lossWrtMass := [] })
    ∧ exampleSingleWorld.allDofs[0]? = some exampleDofA
    ∧ coeffAt exampleCachedSnapshot.mPreStepPosition 0 = exampleDofA.positionLowerLimit
    ∧ coeffAt ([0] : Vec) 0 ≤ 0 := by
  have h : backprop exampleExternal exampleCachedSnapshot exampleSingleWorld exampleNextLoss false
      = .ok (exampleCachedSnapshot,
          { lossWrtPosition := [0], lossWrtVelocity := [503 / 100], lossWrtTorque := [1 / 20],
            lossWrtMass := [] }) := by
    with_unfolding_all rfl
  have hl : coeffAt exampleCachedSnapshot.mPreStepPosition 0 = exampleDofA.positionLowerLimit := by
    with_unfolding_all rfl
  have hgm : exampleCachedSnapshot.mGradientMatrices = [] := rfl
  have hthm := backprop_chained_respects_bounds exampleExternal exampleCachedSnapshot
    exampleSingleWorld exampleNextLoss
  exact ⟨hthm.2 rfl (by rw [hgm]; simp) (by unfold constraintCountsAgree; rw [hgm]; decide),
    h, rfl, hl, (hthm.1 _ _ h 0 exampleDofA rfl).1 hl⟩

/-- Counterexample to C4 as stated: with `exploreAlternateStrategies = true`,
on a world of one mobile skeleton in no constraint group whose single DOF has
its pre-step position on its lower limit, `backprop` returns
`lossWrtPosition_0 = 3 > 0`: the per-group branch never clips. -/
theorem backprop_perGroup_pushes_past_bound :
    ∃ s1 r,
      backprop exampleExternal exampleSingleSnapshot exampleSingleWorld exampleNextLoss true
        = .ok (s1, r)
      ∧ exampleSingleWorld.allDofs[0]? = some exampleDofA
      ∧ coeffAt exampleSingleSnapshot.mPreStepPosition 0 = exampleDofA.positionLowerLimit
      ∧ coeffAt r.lossWrtPosition 0 = 3
      ∧ ¬ (coeffAt r.lossWrtPosition 0 ≤ 0) := by
  refine ⟨_, _, rfl, rfl, ?_, ?_, ?_⟩
  · with_unfolding_all rfl
  · with_unfolding_all rfl
  · with_unfolding_all decide

/-! ## The velocity-velocity Jacobian -/

/-- C11. For `wrt = velocity` of dimension `> 0`, on a snapshot whose groups
list skeletons of the world and for an inverse mass matrix with `numDofs`
columns, `getVelJacobianWrt` returns `I + Minv * (A * dF_c - dt * dC)` with
`A = A_c + A_ub * E`, `dF_c = getJacobianOfConstraintForce(velocity)`,
`dC = getJacobianOfC(velocity)`, `Minv` the world's inverse mass matrix at the
pre-step state, `dt` the time step and `I` the `numDofs` identity. In analytic
mode, on first access and with a non-empty clamping matrix,
`getVelVelJacobian` caches exactly this matrix and clears its dirty flag; it
fails only through the slow-debug comparison. -/
theorem getVelJacobianWrt_velocity (ext : External) (s : BackpropSnapshot) (world : World)
    (hdim : ext.wrtDim .VELOCITY world ≠ 0)
    (hres : ∀ g ∈ s.mGradientMatrices, ∀ name ∈ g.skeletons, (world.getSkeleton name).isSome)
    (hMinv : (ext.worldInvMassMatrix (rewind s world)).cols = world.getNumDofs) :
    ∃ A_c A_ub dF_c J,
      getClampingConstraintMatrix s world = .ok A_c
      ∧ getUpperBoundConstraintMatrix s world = .ok A_ub
      ∧ getJacobianOfConstraintForce ext s (rewind s world) .VELOCITY = .ok dF_c
      ∧ getVelJacobianWrt ext s world .VELOCITY = .ok J
      ∧ J.rows = world.getNumDofs
      ∧ J.cols = world.getNumDofs
      ∧ J.toMatrix world.getNumDofs world.getNumDofs
          = (1 : Matrix (Fin world.getNumDofs) (Fin world.getNumDofs) ℚ)
            + (ext.worldInvMassMatrix (rewind s world)).toMatrix world.getNumDofs
                world.getNumDofs
              * ((A_c.toMatrix world.getNumDofs s.mNumClamping
                    + A_ub.toMatrix world.getNumDofs s.mNumUpperBound
                      * (getUpperBoundMappingMatrix s).toMatrix s.mNumUpperBound s.mNumClamping)
                  * dF_c.toMatrix s.mNumClamping world.getNumDofs
                - world.timeStep
                  • (ext.getJacobianOfC s (rewind s world) .VELOCITY).toMatrix
                      world.getNumDofs world.getNumDofs)
      ∧ (s.mCachedVelVelDirty = true → s.mUseFDOverride = false → A_c.size ≠ 0 →
          (s.mSlowDebugResultsAgainstFD = false →
            getVelVelJacobian ext s world
              = .ok { s with mCachedVelVel := J, mCachedVelVelDirty := false })
          ∧ (∀ s1, getVelVelJacobian ext s world = .ok s1 →
              s1.mCachedVelVel = J ∧ s1.mCachedVelVelDirty = false)
          ∧ (∀ e, getVelVelJacobian ext s world = .error e → e = .exitOne)) := by
  obtain ⟨A_c, hAc, _, cAc⟩ := assembleMatrix_dims s world .CLAMPING hres
  obtain ⟨A_ub, hAub, _, cAub⟩ := assembleMatrix_dims s world .UPPER_BOUND hres
  have hAc1 : getClampingConstraintMatrix s (rewind s world) = .ok A_c := by
    rw [getClampingConstraintMatrix_rewind]; exact hAc
  have hAub1 : getUpperBoundConstraintMatrix s (rewind s world) = .ok A_ub := by
    rw [getUpperBoundConstraintMatrix_rewind]; exact hAub
  obtain ⟨dF_c, hdF⟩ := getJacobianOfConstraintForce_ok ext s (rewind s world) .VELOCITY
    (fun g hg name hn => isSome_getSkeleton_rewind s world name (hres g hg name hn))
    (fun h => by cases h)
  have hJ : ∃ J, getVelJacobianWrt ext s world .VELOCITY = .ok J
      ∧ J = (Mat.identity world.getNumDofs world.getNumDofs).add
          ((ext.worldInvMassMatrix (rewind s world)).mul
            (((A_c.add (A_ub.mul (getUpperBoundMappingMatrix s))).mul dF_c).sub
              (Mat.scale (rewind s world).timeStep
                (ext.getJacobianOfC s (rewind s world) .VELOCITY)))) := by
    refine ⟨_, ?_, rfl⟩
    unfold getVelJacobianWrt
    rw [if_neg hdim]
    simp only [hAc1, hAub1, getClampingConstraintImpulses_ok, hdF]
    simp
  obtain ⟨J, hJ, hJdef⟩ := hJ
  refine ⟨A_c, A_ub, dF_c, J, hAc, hAub, hdF, hJ, by rw [hJdef]; rfl, by rw [hJdef]; rfl,
    ?_, ?_⟩
  · rw [hJdef, toMatrix_add, toMatrix_identity,
      toMatrix_mul _ _ _ world.getNumDofs _ hMinv, toMatrix_sub,
      toMatrix_mul _ _ _ s.mNumClamping _ (by simpa [Mat.add] using cAc), toMatrix_add,
      toMatrix_mul _ _ _ s.mNumUpperBound _ (by simpa using cAub), toMatrix_scale,
      timeStep_rewind]
  · intro hdirty hfd hsize
    have hcomp : getVelVelJacobian ext s world
        = (match slowDebugCheck ext { s with mCachedVelVel := J } J
              (ext.finiteDifferenceVelVelJacobian { s with mCachedVelVel := J } world) with
          | .error e => .error e
          | .ok _ => .ok { s with mCachedVelVel := J, mCachedVelVelDirty := false }) := by
      have hfd1 : ¬ (s.mUseFDOverride = true) := by simp [hfd]
      have hAc2 : getClampingConstraintMatrix s world = .ok A_c := hAc
      unfold getVelVelJacobian
      rw [if_pos hdirty, if_neg hfd1]
      simp only [hAc2, if_neg hsize, hJ]
    refine ⟨?_, ?_, ?_⟩
    · intro hslow
      rw [hcomp]
      simp [slowDebugCheck, hslow]
    · intro s1 hs1
      rw [hcomp] at hs1
      split at hs1
      · simp at hs1
      · simp only [Except.ok.injEq] at hs1
        subst hs1
        exact ⟨rfl, rfl⟩
    · intro e he
      rw [hcomp] at he
      split at he
      · rename_i e1 hsd
        simp only [Except.error.injEq] at he
        subst he
        unfold slowDebugCheck at hsd
        split at hsd
        · split at hsd
          · simp at hsd
          · simp only [Except.error.injEq] at hsd
            exact hsd.symm
        · simp at hsd
      · simp at he

/-- Witness of C11: the example world with two groups, a velocity of dimension
5, the identity as inverse mass matrix and `dC = 2 I`; the entry `(0, 0)` of
the Jacobian is `1 + ((21 + 8 * 1/2) * 1/2 - 2/100)`, and the first call of
`getVelVelJacobian` caches this matrix and clears the dirty flag. -/
theorem getVelJacobianWrt_velocity_witness :
    exampleVelocityExternal.wrtDim .VELOCITY exampleGroupWorld ≠ 0
    ∧ ∃ J s1, getVelJacobianWrt exampleVelocityExternal
          (BackpropSnapshot.create exampleGroupWorld [] [] [] [] []) exampleGroupWorld .VELOCITY
          = .ok J
        ∧ J.rows = 5 ∧ J.cols = 5 ∧ J.coeff 0 0 = 337 / 25
        ∧ getVelVelJacobian exampleVelocityExternal
            (BackpropSnapshot.create exampleGroupWorld [] [] [] [] []) exampleGroupWorld = .ok s1
        ∧ s1.mCachedVelVel = J ∧ s1.mCachedVelVelDirty = false := by
  have hgm : (BackpropSnapshot.create exampleGroupWorld [] [] [] [] []).mGradientMatrices
      = [exampleGroupOne, exampleGroupTwo] := rfl
  have hdim : exampleVelocityExternal.wrtDim .VELOCITY exampleGroupWorld ≠ 0 := by decide
  have hres : ∀ g ∈ (BackpropSnapshot.create exampleGroupWorld [] [] [] [] []).mGradientMatrices,
      ∀ name ∈ g.skeletons, (exampleGroupWorld.getSkeleton name).isSome := by
    rw [hgm]; decide
  obtain ⟨A_c, A_ub, dF_c, J, hAc, _, hdF, hJ, hr, hc, _, hcache⟩ :=
    getVelJacobianWrt_velocity exampleVelocityExternal
      (BackpropSnapshot.create exampleGroupWorld [] [] [] [] []) exampleGroupWorld hdim hres
      (getNumDofs_rewind _ _)
  have h00 : (match getVelJacobianWrt exampleVelocityExternal
      (BackpropSnapshot.create exampleGroupWorld [] [] [] [] []) exampleGroupWorld .VELOCITY with
      | .ok J0 => J0.coeff 0 0
      | .error _ => 0) = 337 / 25 := by
    with_unfolding_all rfl
  rw [hJ] at h00
  have hsize : (match getClampingConstraintMatrix
      (BackpropSnapshot.create exampleGroupWorld [] [] [] [] []) exampleGroupWorld with
      | .ok M0 => M0.size
      | .error _ => 0) = 15 := rfl
  rw [hAc] at hsize
  have hsz : A_c.size ≠ 0 := by
    have e : A_c.size = 15 := hsize
    rw [e]; decide
  obtain ⟨hok, _, _⟩ := hcache rfl rfl hsz
  exact ⟨hdim, J, _, hJ, hr, hc, h00, hok rfl, rfl, rfl⟩

/-! ## The position-velocity and mass-velocity Jacobians -/

theorem sumConstraintForcesJacobians_spec (ext : External) (world : World) (f0 : Vec)
    (cs : List DifferentiableContactConstraint) (k : Nat) (R : Mat) :
    (sumConstraintForcesJacobians ext world f0 cs k R).rows = R.rows
    ∧ (sumConstraintForcesJacobians ext world f0 cs k R).cols = R.cols
    ∧ ∀ r c, (sumConstraintForcesJacobians ext world f0 cs k R).coeff r c
        = R.coeff r c
          + ((cs.enumFrom k).map (fun p =>
              coeffAt f0 p.1 * (ext.getConstraintForcesJacobian p.2 world).coeff r c)).sum := by
  induction cs generalizing k R with
  | nil => simp [sumConstraintForcesJacobians]
  | cons x rest ih =>
    obtain ⟨h1, h2, h3⟩ := ih (k + 1)
      (R.add (Mat.scale (coeffAt f0 k) (ext.getConstraintForcesJacobian x world)))
    refine ⟨by rw [sumConstraintForcesJacobians, h1]; rfl,
      by rw [sumConstraintForcesJacobians, h2]; rfl, ?_⟩
    intro r c
    rw [sumConstraintForcesJacobians, h3]
    simp only [Mat.add, Mat.scale, List.enumFrom_cons, List.map_cons, List.sum_cons]
    ring

/-- The Jacobian `getJacobianOfClampingConstraints(world, f0)` is the linear
combination of the constraints' force Jacobians with the coefficients `f0`. -/
theorem getJacobianOfClampingConstraints_spec (ext : External) (s : BackpropSnapshot)
    (world : World) (f0 : Vec) (dA_c : Mat)
    (h : getJacobianOfClampingConstraints ext s world f0 = .ok dA_c) :
    ∃ cs, getClampingConstraints s = .ok cs ∧ cs.length = f0.length
      ∧ dA_c.rows = world.getNumDofs ∧ dA_c.cols = world.getNumDofs
      ∧ ∀ r c, dA_c.coeff r c
          = ((cs.enum).map (fun p =>
              coeffAt f0 p.1
                * (ext.getConstraintForcesJacobian p.2 (rewind s world)).coeff r c)).sum := by
  unfold getJacobianOfClampingConstraints at h
  cases hcs : getClampingConstraints s with
  | error e => rw [hcs] at h; simp at h
  | ok cs =>
    rw [hcs] at h
    simp only at h
    by_cases hl : cs.length = f0.length
    · rw [if_pos hl] at h
      simp only [Except.ok.injEq] at h
      subst h
      obtain ⟨h1, h2, h3⟩ := sumConstraintForcesJacobians_spec ext (rewind s world) f0 cs 0
        (Mat.zero (rewind s world).getNumDofs (rewind s world).getNumDofs)
      refine ⟨cs, rfl, hl, ?_, ?_, ?_⟩
      · rw [h1]; exact getNumDofs_rewind s world
      · rw [h2]; exact getNumDofs_rewind s world
      · intro r c
        rw [h3]
        simp [Mat.zero, List.enum]
    · rw [if_neg hl] at h
      simp at h

/-- The Jacobian `getJacobianOfUpperBoundConstraints(world, E_f0)` is the
linear combination of the upper-bound constraints' force Jacobians. -/
theorem getJacobianOfUpperBoundConstraints_spec (ext : External) (s : BackpropSnapshot)
    (world : World) (E_f0 : Vec) (dA_ub : Mat)
    (h : getJacobianOfUpperBoundConstraints ext s world E_f0 = .ok dA_ub) :
    (getUpperBoundConstraints s).length = E_f0.length
      ∧ dA_ub.rows = world.getNumDofs ∧ dA_ub.cols = world.getNumDofs
      ∧ ∀ r c, dA_ub.coeff r c
          = (((getUpperBoundConstraints s).enum).map (fun p =>
              coeffAt E_f0 p.1 * (ext.getConstraintForcesJacobian p.2 world).coeff r c)).sum := by
  unfold getJacobianOfUpperBoundConstraints at h
  simp only at h
  by_cases hl : (getUpperBoundConstraints s).length = E_f0.length
  · rw [if_pos hl] at h
    simp only [Except.ok.injEq] at h
    subst h
    obtain ⟨h1, h2, h3⟩ := sumConstraintForcesJacobians_spec ext world E_f0
      (getUpperBoundConstraints s) 0 (Mat.zero world.getNumDofs world.getNumDofs)
    refine ⟨hl, h1, h2, ?_⟩
    intro r c
    rw [h3]
    simp [Mat.zero, List.enum]
  · rw [if_neg hl] at h
    simp at h

/-- C12. On a snapshot whose groups list skeletons of the world and for an
inverse mass matrix with `numDofs` columns, with `A = A_c + A_ub * E`, `f_c`
the clamping impulses, `rhs = dt * (tau - C) + A * f_c` and
`dM = getJacobianOfMinv(rhs)`: for `wrt = position` (of dimension `> 0`, the
counts of the group data agreeing) `getVelJacobianWrt` returns
`dM + Minv * (A * dF_c + dA_c + dA_ub - dt * dC)`, where `dA_c` is the sum of
the clamping constraints' force Jacobians weighted by `f_c` and `dA_ub` the
sum of the upper-bound constraints' force Jacobians weighted by `E * f_c`;
for `wrt = mass` (of dimension `> 0`) it returns
`dM + Minv * (A * dF_c - dt * dC)`. -/
theorem getVelJacobianWrt_position_mass (ext : External) (s : BackpropSnapshot) (world : World)
    (hres : ∀ g ∈ s.mGradientMatrices, ∀ name ∈ g.skeletons, (world.getSkeleton name).isSome)
    (hMinv : (ext.worldInvMassMatrix (rewind s world)).cols = world.getNumDofs) :
    ∃ A_c A_ub f_c,
      getClampingConstraintMatrix s world = .ok A_c
      ∧ getUpperBoundConstraintMatrix s world = .ok A_ub
      ∧ getClampingConstraintImpulses ext s = .ok f_c
      ∧ (ext.wrtDim .POSITION world ≠ 0 → constraintCountsAgree s →
          ∃ dF_c dA_c dA_ub cs J,
            getJacobianOfConstraintForce ext s (rewind s world) .POSITION = .ok dF_c
            ∧ getJacobianOfClampingConstraints ext s (rewind s world) f_c = .ok dA_c
            ∧ getJacobianOfUpperBoundConstraints ext s (rewind s world)
                ((getUpperBoundMappingMatrix s).mulVec f_c) = .ok dA_ub
            ∧ getClampingConstraints s = .ok cs
            ∧ (∀ r c, dA_c.coeff r c
                = ((cs.enum).map (fun p =>
                    coeffAt f_c p.1
                      * (ext.getConstraintForcesJacobian p.2
                          (rewind s (rewind s world))).coeff r c)).sum)
            ∧ (∀ r c, dA_ub.coeff r c
                = (((getUpperBoundConstraints s).enum).map (fun p =>
                    coeffAt ((getUpperBoundMappingMatrix s).mulVec f_c) p.1
                      * (ext.getConstraintForcesJacobian p.2 (rewind s world)).coeff r c)).sum)
            ∧ getVelJacobianWrt ext s world .POSITION = .ok J
            ∧ J.toMatrix world.getNumDofs world.getNumDofs
                = (ext.getJacobianOfMinv s (rewind s world)
                    (Vec.add
                      (Vec.scale (rewind s world).timeStep
                        (Vec.sub (rewind s world).getExternalForces
                          (ext.coriolisAndGravityAndExternalForces (rewind s world))))
                      ((A_c.add (A_ub.mul (getUpperBoundMappingMatrix s))).mulVec f_c))
                    .POSITION).toMatrix world.getNumDofs world.getNumDofs
                  + (ext.worldInvMassMatrix (rewind s world)).toMatrix world.getNumDofs
                      world.getNumDofs
                    * ((A_c.toMatrix world.getNumDofs s.mNumClamping
                          + A_ub.toMatrix world.getNumDofs s.mNumUpperBound
                            * (getUpperBoundMappingMatrix s).toMatrix s.mNumUpperBound
                                s.mNumClamping)
                        * dF_c.toMatrix s.mNumClamping world.getNumDofs
                      + dA_c.toMatrix world.getNumDofs world.getNumDofs
                      + dA_ub.toMatrix world.getNumDofs world.getNumDofs
                      - world.timeStep
                        • (ext.getJacobianOfC s (rewind s world) .POSITION).toMatrix
                            world.getNumDofs world.getNumDofs))
      ∧ (ext.wrtDim .MASS world ≠ 0 →
          ∃ dF_c J,
            getJacobianOfConstraintForce ext s (rewind s world) .MASS = .ok dF_c
            ∧ getVelJacobianWrt ext s world .MASS = .ok J
            ∧ ∀ m : Nat, J.toMatrix world.getNumDofs m
                = (ext.getJacobianOfMinv s (rewind s world)
                    (Vec.add
                      (Vec.scale (rewind s world).timeStep
                        (Vec.sub (rewind s world).getExternalForces
                          (ext.coriolisAndGravityAndExternalForces (rewind s world))))
                      ((A_c.add (A_ub.mul (getUpperBoundMappingMatrix s))).mulVec f_c))
                    .MASS).toMatrix world.getNumDofs m
                  + (ext.worldInvMassMatrix (rewind s world)).toMatrix world.getNumDofs
                      world.getNumDofs
                    * ((A_c.toMatrix world.getNumDofs s.mNumClamping
                          + A_ub.toMatrix world.getNumDofs s.mNumUpperBound
                            * (getUpperBoundMappingMatrix s).toMatrix s.mNumUpperBound
                                s.mNumClamping)
                        * dF_c.toMatrix s.mNumClamping m
                      - world.timeStep
                        • (ext.getJacobianOfC s (rewind s world) .MASS).toMatrix
                            world.getNumDofs m)) := by
  obtain ⟨A_c, hAc, _, cAc⟩ := assembleMatrix_dims s world .CLAMPING hres
  obtain ⟨A_ub, hAub, _, cAub⟩ := assembleMatrix_dims s world .UPPER_BOUND hres
  have hAc1 : getClampingConstraintMatrix s (rewind s world) = .ok A_c := by
    rw [getClampingConstraintMatrix_rewind]; exact hAc
  have hAub1 : getUpperBoundConstraintMatrix s (rewind s world) = .ok A_ub := by
    rw [getUpperBoundConstraintMatrix_rewind]; exact hAub
  have hres1 : ∀ g ∈ s.mGradientMatrices, ∀ name ∈ g.skeletons,
      ((rewind s world).getSkeleton name).isSome :=
    fun g hg name hn => isSome_getSkeleton_rewind s world name (hres g hg name hn)
  refine ⟨A_c, A_ub, _, hAc, hAub, getClampingConstraintImpulses_ok ext s, ?_, ?_⟩
  · intro hdim hwf
    obtain ⟨dF_c, hdF⟩ := getJacobianOfConstraintForce_ok ext s (rewind s world) .POSITION
      hres1 (fun _ => hwf)
    obtain ⟨h1, h2, h3, _⟩ := hwf
    obtain ⟨dA_c, hdA⟩ := getJacobianOfClampingConstraints_ok ext s (rewind s world)
      ((s.mGradientMatrices.map (fun g => g.clampingConstraintImpulses)).flatten) h1
      (by rw [length_flatten_map]; exact h2)
    obtain ⟨dA_ub, hdAub⟩ := getJacobianOfUpperBoundConstraints_ok ext s (rewind s world)
      ((getUpperBoundMappingMatrix s).mulVec
        ((s.mGradientMatrices.map (fun g => g.clampingConstraintImpulses)).flatten))
      (by rw [length_mulVec, rows_getUpperBoundMappingMatrix, h3])
    obtain ⟨cs, hcs, _, _, _, hsumA⟩ :=
      getJacobianOfClampingConstraints_spec ext s (rewind s world) _ dA_c hdA
    obtain ⟨_, _, _, hsumUb⟩ :=
      getJacobianOfUpperBoundConstraints_spec ext s (rewind s world) _ dA_ub hdAub
    have hJ : ∃ J, getVelJacobianWrt ext s world .POSITION = .ok J
        ∧ J = (ext.getJacobianOfMinv s (rewind s world)
                (Vec.add
                  (Vec.scale (rewind s world).timeStep
                    (Vec.sub (rewind s world).getExternalForces
                      (ext.coriolisAndGravityAndExternalForces (rewind s world))))
                  ((A_c.add (A_ub.mul (getUpperBoundMappingMatrix s))).mulVec
                    ((s.mGradientMatrices.map (fun g => g.clampingConstraintImpulses)).flatten)))
                .POSITION).add
              ((ext.worldInvMassMatrix (rewind s world)).mul
                (((((A_c.add (A_ub.mul (getUpperBoundMappingMatrix s))).mul dF_c).add dA_c).add
                    dA_ub).sub
                  (Mat.scale (rewind s world).timeStep
                    (ext.getJacobianOfC s (rewind s world) .POSITION)))) := by
      refine ⟨_, ?_, rfl⟩
      unfold getVelJacobianWrt
      rw [if_neg hdim]
      simp only [hAc1, hAub1, getClampingConstraintImpulses_ok, hdF, hdA, hdAub]
      simp
    obtain ⟨J, hJ, hJdef⟩ := hJ
    refine ⟨dF_c, dA_c, dA_ub, cs, J, hdF, hdA, hdAub, hcs, hsumA, hsumUb, hJ, ?_⟩
    · rw [hJdef, toMatrix_add, toMatrix_mul _ _ _ world.getNumDofs _ hMinv, toMatrix_sub,
        toMatrix_add, toMatrix_add,
        toMatrix_mul _ _ _ s.mNumClamping _ (by simpa [Mat.add] using cAc), toMatrix_add,
        toMatrix_mul _ _ _ s.mNumUpperBound _ (by simpa using cAub), toMatrix_scale,
        timeStep_rewind]
  · intro hdim
    obtain ⟨dF_c, hdF⟩ := getJacobianOfConstraintForce_ok ext s (rewind s world) .MASS
      hres1 (fun h => by cases h)
    have hJ : ∃ J, getVelJacobianWrt ext s world .MASS = .ok J
        ∧ J = (ext.getJacobianOfMinv s (rewind s world)
                (Vec.add
                  (Vec.scale (rewind s world).timeStep
                    (Vec.sub (rewind s world).getExternalForces
                      (ext.coriolisAndGravityAndExternalForces (rewind s world))))
                  ((A_c.add (A_ub.mul (getUpperBoundMappingMatrix s))).mulVec
                    ((s.mGradientMatrices.map (fun g => g.clampingConstraintImpulses)).flatten)))
                .MASS).add
              ((ext.worldInvMassMatrix (rewind s world)).mul
                (((A_c.add (A_ub.mul (getUpperBoundMappingMatrix s))).mul dF_c).sub
                  (Mat.scale (rewind s world).timeStep
                    (ext.getJacobianOfC s (rewind s world) .MASS)))) := by
      refine ⟨_, ?_, rfl⟩
      unfold getVelJacobianWrt
      rw [if_neg hdim]
      simp only [hAc1, hAub1, getClampingConstraintImpulses_ok, hdF]
      simp
    obtain ⟨J, hJ, hJdef⟩ := hJ
    refine ⟨dF_c, J, hdF, hJ, ?_⟩
    · intro m
      rw [hJdef, toMatrix_add, toMatrix_mul _ _ _ world.getNumDofs _ hMinv, toMatrix_sub,
        toMatrix_mul _ _ _ s.mNumClamping _ (by simpa [Mat.add] using cAc), toMatrix_add,
        toMatrix_mul _ _ _ s.mNumUpperBound _ (by simpa using cAub), toMatrix_scale,
        timeStep_rewind]

/-- Witness of C12: the example world with two groups, the identity as inverse
mass matrix, `dM = 0`, `dC = 2 I`, clamping impulses `[3, 4, 9]` and
constraint force Jacobians `I, 2 I, 3 I` (clamping) and `I` (upper bound): the
entry `(0, 0)` of the position Jacobian is
`25/2 + (3 + 8 + 27) + 3/2 - 2/100`, that of the mass Jacobian `-2/100`. -/
theorem getVelJacobianWrt_position_mass_witness :
    examplePositionExternal.wrtDim .POSITION exampleGroupWorld ≠ 0
    ∧ examplePositionExternal.wrtDim .MASS exampleGroupWorld ≠ 0
    ∧ constraintCountsAgree (BackpropSnapshot.create exampleGroupWorld [] [] [] [] [])
    ∧ (∃ J, getVelJacobianWrt examplePositionExternal
          (BackpropSnapshot.create exampleGroupWorld [] [] [] [] []) exampleGroupWorld .POSITION
          = .ok J ∧ J.coeff 0 0 = 2599 / 50)
    ∧ ∃ J, getVelJacobianWrt examplePositionExternal
          (BackpropSnapshot.create exampleGroupWorld [] [] [] [] []) exampleGroupWorld .MASS
          = .ok J ∧ J.coeff 0 0 = -1 / 50 := by
  have hgm : (BackpropSnapshot.create exampleGroupWorld [] [] [] [] []).mGradientMatrices
      = [exampleGroupOne, exampleGroupTwo] := rfl
  have hnc : (BackpropSnapshot.create exampleGroupWorld [] [] [] [] []).mNumClamping = 3 := rfl
  have hdimP : examplePositionExternal.wrtDim .POSITION exampleGroupWorld ≠ 0 := by decide
  have hdimM : examplePositionExternal.wrtDim .MASS exampleGroupWorld ≠ 0 := by decide
  have hres : ∀ g ∈ (BackpropSnapshot.create exampleGroupWorld [] [] [] [] []).mGradientMatrices,
      ∀ name ∈ g.skeletons, (exampleGroupWorld.getSkeleton name).isSome := by
    rw [hgm]; decide
  have hwf : constraintCountsAgree (BackpropSnapshot.create exampleGroupWorld [] [] [] [] []) := by
    unfold constraintCountsAgree
    rw [hgm, hnc]
    decide
  obtain ⟨A_c, A_ub, f_c, _, _, _, hP, hM⟩ :=
    getVelJacobianWrt_position_mass examplePositionExternal
      (BackpropSnapshot.create exampleGroupWorld [] [] [] [] []) exampleGroupWorld hres
      (getNumDofs_rewind _ _)
  obtain ⟨_, _, _, _, JP, _, _, _, _, _, _, hJP, _⟩ := hP hdimP hwf
  obtain ⟨_, JM, _, hJM, _⟩ := hM hdimM
  have hP00 : (match getVelJacobianWrt examplePositionExternal
      (BackpropSnapshot.create exampleGroupWorld [] [] [] [] []) exampleGroupWorld .POSITION with
      | .ok J0 => J0.coeff 0 0
      | .error _ => 0) = 2599 / 50 := by
    set_option maxRecDepth 100000 in with_unfolding_all rfl
  have hM00 : (match getVelJacobianWrt examplePositionExternal
      (BackpropSnapshot.create exampleGroupWorld [] [] [] [] []) exampleGroupWorld .MASS with
      | .ok J0 => J0.coeff 0 0
      | .error _ => 0) = -1 / 50 := by
    set_option maxRecDepth 100000 in with_unfolding_all rfl
  rw [hJP] at hP00
  rw [hJM] at hM00
  exact ⟨hdimP, hdimM, hwf, ⟨JP, hJP, hP00⟩, JM, hJM, hM00⟩

/-! ## The Jacobians without clamping constraints -/

theorem slowDebugCheck_error (ext : External) (s : BackpropSnapshot) (a b : Mat) (e : Failure)
    (h : slowDebugCheck ext s a b = .error e) : e = .exitOne := by
  unfold slowDebugCheck at h
  split at h
  · split at h
    · simp at h
    · simp only [Except.error.injEq] at h
      exact h.symm
  · simp at h

/-- What `getForceVelJacobian` does on first access in analytic mode when the
assembled clamping matrix is empty. -/
theorem getForceVelJacobian_empty (ext : External) (s : BackpropSnapshot) (world : World)
    (A_c : Mat) (hAc : getClampingConstraintMatrix s world = .ok A_c) (hempty : A_c.size = 0)
    (hfd : s.mUseFDOverride = false) (hdirty : s.mCachedForceVelDirty = true) :
    getForceVelJacobian ext s world
      = (match slowDebugCheck ext
            { s with mCachedForceVel := Mat.scale s.mTimeStep (getInvMassMatrix ext s world) }
            (Mat.scale s.mTimeStep (getInvMassMatrix ext s world))
            (ext.finiteDifferenceForceVelJacobian
              { s with mCachedForceVel := Mat.scale s.mTimeStep (getInvMassMatrix ext s world) }
              world) with
        | .error e => .error e
        | .ok _ =>
          .ok { s with
            mCachedForceVel := Mat.scale s.mTimeStep (getInvMassMatrix ext s world)
            mCachedForceVelDirty := false }) := by
  have hfd1 : ¬ (s.mUseFDOverride = true) := by simp [hfd]
  unfold getForceVelJacobian
  rw [if_pos hdirty, if_neg hfd1]
  simp only [hAc, if_pos hempty]

/-- What `getVelVelJacobian` does on first access in analytic mode when the
assembled clamping matrix is empty. -/
theorem getVelVelJacobian_empty (ext : External) (s : BackpropSnapshot) (world : World)
    (A_c : Mat) (hAc : getClampingConstraintMatrix s world = .ok A_c) (hempty : A_c.size = 0)
    (hfd : s.mUseFDOverride = false) (hdirty : s.mCachedVelVelDirty = true) :
    getVelVelJacobian ext s world
      = (match getForceVelJacobian ext s world with
        | .error e => .error e
        | .ok s0 =>
          match slowDebugCheck ext
              { s0 with
                mCachedVelVel :=
                  Mat.sub (Mat.identity s0.mNumDOFs s0.mNumDOFs)
                    (s0.mCachedForceVel.mul (getVelCJacobian ext s0 world)) }
              (Mat.sub (Mat.identity s0.mNumDOFs s0.mNumDOFs)
                (s0.mCachedForceVel.mul (getVelCJacobian ext s0 world)))
              (ext.finiteDifferenceVelVelJacobian
                { s0 with
                  mCachedVelVel :=
                    Mat.sub (Mat.identity s0.mNumDOFs s0.mNumDOFs)
                      (s0.mCachedForceVel.mul (getVelCJacobian ext s0 world)) } world) with
          | .error e => .error e
          | .ok _ =>
            .ok { s0 with
              mCachedVelVel :=
                Mat.sub (Mat.identity s0.mNumDOFs s0.mNumDOFs)
                  (s0.mCachedForceVel.mul (getVelCJacobian ext s0 world))
              mCachedVelVelDirty := false }) := by
  have hfd1 : ¬ (s.mUseFDOverride = true) := by simp [hfd]
  unfold getVelVelJacobian
  rw [if_pos hdirty, if_neg hfd1]
  simp only [hAc, if_pos hempty]
  cases getForceVelJacobian ext s world <;> rfl

/-! ## The getters change caches only, and never a clean one -/

theorem cleanCachesKept_refl (s : BackpropSnapshot) : cleanCachesKept s s :=
  ⟨fun h => ⟨h, rfl⟩, fun h => ⟨h, rfl⟩, fun h => ⟨h, rfl⟩, fun h => ⟨h, rfl⟩,
    fun h => ⟨h, rfl⟩, fun h => ⟨h, rfl⟩, fun h => ⟨h, rfl⟩, fun h => h⟩

theorem cleanCachesKept_trans (s s1 s2 : BackpropSnapshot) (h1 : cleanCachesKept s s1)
    (h2 : cleanCachesKept s1 s2) : cleanCachesKept s s2 := by
  obtain ⟨a1, a2, a3, a4, a5, a6, a7, a8⟩ := h1
  obtain ⟨b1, b2, b3, b4, b5, b6, b7, b8⟩ := h2
  refine ⟨?_, ?_, ?_, ?_, ?_, ?_, ?_, ?_⟩
  · intro h; exact ⟨(b1 (a1 h).1).1, (b1 (a1 h).1).2.trans (a1 h).2⟩
  · intro h; exact ⟨(b2 (a2 h).1).1, (b2 (a2 h).1).2.trans (a2 h).2⟩
  · intro h; exact ⟨(b3 (a3 h).1).1, (b3 (a3 h).1).2.trans (a3 h).2⟩
  · intro h; exact ⟨(b4 (a4 h).1).1, (b4 (a4 h).1).2.trans (a4 h).2⟩
  · intro h; exact ⟨(b5 (a5 h).1).1, (b5 (a5 h).1).2.trans (a5 h).2⟩
  · intro h; exact ⟨(b6 (a6 h).1).1, (b6 (a6 h).1).2.trans (a6 h).2⟩
  · intro h; exact ⟨(b7 (a7 h).1).1, (b7 (a7 h).1).2.trans (a7 h).2⟩
  · intro h; exact b8 (a8 h)

theorem cachesKept_refl (s : BackpropSnapshot) : cachesKept s s :=
  ⟨rfl, cleanCachesKept_refl s⟩

theorem cachesKept_trans (s s1 s2 : BackpropSnapshot) (h1 : cachesKept s s1)
    (h2 : cachesKept s1 s2) : cachesKept s s2 :=
  ⟨h2.1.trans h1.1, cleanCachesKept_trans s s1 s2 h1.2 h2.2⟩

theorem getForceVelJacobian_kept (ext : External) (s s1 : BackpropSnapshot) (world : World)
    (h : getForceVelJacobian ext s world = .ok s1) : cachesKept s s1 := by
  unfold getForceVelJacobian at h
  by_cases hd : s.mCachedForceVelDirty = true
  · rw [if_pos hd] at h
    dsimp only at h
    repeat' (split at h <;> try dsimp only at h)
    all_goals first
      | (simp only [Except.ok.injEq] at h
         subst h
         simp [cachesKept, cleanCachesKept, BackpropSnapshot.resetCaches, hd])
      | simp at h
  · rw [if_neg hd] at h
    simp only [Except.ok.injEq] at h
    subst h
    exact cachesKept_refl s

theorem getMassVelJacobian_kept (ext : External) (s s1 : BackpropSnapshot) (world : World)
    (h : getMassVelJacobian ext s world = .ok s1) : cachesKept s s1 := by
  unfold getMassVelJacobian at h
  by_cases hd : s.mCachedMassVelDirty = true
  · rw [if_pos hd] at h
    dsimp only at h
    repeat' (split at h <;> try dsimp only at h)
    all_goals first
      | (simp only [Except.ok.injEq] at h
         subst h
         simp [cachesKept, cleanCachesKept, BackpropSnapshot.resetCaches, hd])
      | simp at h
  · rw [if_neg hd] at h
    simp only [Except.ok.injEq] at h
    subst h
    exact cachesKept_refl s

theorem getPosVelJacobian_kept (ext : External) (s s1 : BackpropSnapshot) (world : World)
    (h : getPosVelJacobian ext s world = .ok s1) : cachesKept s s1 := by
  unfold getPosVelJacobian at h
  by_cases hd : s.mCachedPosVelDirty = true
  · rw [if_pos hd] at h
    dsimp only at h
    repeat' (split at h <;> try dsimp only at h)
    all_goals first
      | (simp only [Except.ok.injEq] at h
         subst h
         simp [cachesKept, cleanCachesKept, BackpropSnapshot.resetCaches, hd])
      | simp at h
  · rw [if_neg hd] at h
    simp only [Except.ok.injEq] at h
    subst h
    exact cachesKept_refl s

theorem getBounceApproximationJacobian_kept (ext : External) (s s1 : BackpropSnapshot)
    (world : World) (h : getBounceApproximationJacobian ext s world = .ok s1) :
    cachesKept s s1 := by
  unfold getBounceApproximationJacobian at h
  by_cases hd : s.mCachedBounceApproximationDirty = true
  · rw [if_pos hd] at h
    dsimp only at h
    repeat' (split at h <;> try dsimp only at h)
    all_goals first
      | (simp only [Except.ok.injEq] at h
         subst h
         simp [cachesKept, cleanCachesKept, BackpropSnapshot.resetCaches, hd])
      | simp at h
  · rw [if_neg hd] at h
    simp only [Except.ok.injEq] at h
    subst h
    exact cachesKept_refl s

theorem getVelVelJacobian_kept (ext : External) (s s1 : BackpropSnapshot) (world : World)
    (h : getVelVelJacobian ext s world = .ok s1) : cachesKept s s1 := by
  unfold getVelVelJacobian at h
  by_cases hd : s.mCachedVelVelDirty = true
  · rw [if_pos hd] at h
    dsimp only at h
    split at h
    · simp at h
    · rename_i t J heq
      try dsimp only at h
      split at h
      · simp at h
      · simp only [Except.ok.injEq] at h
        subst h
        cases hfv : getForceVelJacobian ext s world with
        | error e =>
          simp only [hfv] at heq
          repeat' (split at heq <;> try dsimp only at heq)
          all_goals cases heq
          all_goals simp [cachesKept, cleanCachesKept, BackpropSnapshot.resetCaches, hd]
        | ok s0 =>
          have hk := getForceVelJacobian_kept ext s s0 world hfv
          simp only [hfv] at heq
          repeat' (split at heq <;> try dsimp only at heq)
          all_goals cases heq
          all_goals simp_all [cachesKept, cleanCachesKept, BackpropSnapshot.resetCaches]
  · rw [if_neg hd] at h
    simp only [Except.ok.injEq] at h
    subst h
    exact cachesKept_refl s

theorem getPosPosJacobian_kept (ext : External) (s s1 : BackpropSnapshot) (world : World)
    (h : getPosPosJacobian ext s world = .ok s1) : cachesKept s s1 := by
  unfold getPosPosJacobian at h
  by_cases hd : s.mCachedPosPosDirty = true
  · rw [if_pos hd] at h
    dsimp only at h
    split at h
    · simp at h
    · rename_i t J heq
      try dsimp only at h
      split at h
      · simp at h
      · simp only [Except.ok.injEq] at h
        subst h
        cases hfv : getBounceApproximationJacobian ext s (rewind s world) with
        | error e =>
          simp only [hfv] at heq
          repeat' (split at heq <;> try dsimp only at heq)
          all_goals cases heq
          all_goals simp [cachesKept, cleanCachesKept, BackpropSnapshot.resetCaches, hd]
        | ok s0 =>
          have hk := getBounceApproximationJacobian_kept ext s s0 (rewind s world) hfv
          simp only [hfv] at heq
          repeat' (split at heq <;> try dsimp only at heq)
          all_goals cases heq
          all_goals simp_all [cachesKept, cleanCachesKept, BackpropSnapshot.resetCaches]
  · rw [if_neg hd] at h
    simp only [Except.ok.injEq] at h
    subst h
    exact cachesKept_refl s

theorem getVelPosJacobian_kept (ext : External) (s s1 : BackpropSnapshot) (world : World)
    (h : getVelPosJacobian ext s world = .ok s1) : cachesKept s s1 := by
  unfold getVelPosJacobian at h
  by_cases hd : s.mCachedVelPosDirty = true
  · rw [if_pos hd] at h
    dsimp only at h
    split at h
    · simp at h
    · rename_i t J heq
      try dsimp only at h
      split at h
      · simp at h
      · simp only [Except.ok.injEq] at h
        subst h
        cases hfv : getBounceApproximationJacobian ext s world with
        | error e =>
          simp only [hfv] at heq
          repeat' (split at heq <;> try dsimp only at heq)
          all_goals cases heq
          all_goals simp [cachesKept, cleanCachesKept, BackpropSnapshot.resetCaches, hd]
        | ok s0 =>
          have hk := getBounceApproximationJacobian_kept ext s s0 world hfv
          simp only [hfv] at heq
          repeat' (split at heq <;> try dsimp only at heq)
          all_goals cases heq
          all_goals simp_all [cachesKept, cleanCachesKept, BackpropSnapshot.resetCaches]
  · rw [if_neg hd] at h
    simp only [Except.ok.injEq] at h
    subst h
    exact cachesKept_refl s

theorem getVelCJacobian_congr (ext : External) (s s0 : BackpropSnapshot) (world : World)
    (h : s0.resetCaches = s.resetCaches) :
    getVelCJacobian ext s0 world = getVelCJacobian ext s world := by
  have h0 : getVelCJacobian ext s0 world = getVelCJacobian ext s0.resetCaches world := rfl
  have h1 : getVelCJacobian ext s world = getVelCJacobian ext s.resetCaches world := rfl
  rw [h0, h1, h]

theorem mNumDOFs_of_resetCaches (s s0 : BackpropSnapshot)
    (h : s0.resetCaches = s.resetCaches) : s0.mNumDOFs = s.mNumDOFs := by
  have h0 : s0.mNumDOFs = s0.resetCaches.mNumDOFs := rfl
  have h1 : s.mNumDOFs = s.resetCaches.mNumDOFs := rfl
  rw [h0, h1, h]

theorem getForceVelJacobian_empty_ok (ext : External) (s : BackpropSnapshot) (world : World)
    (A_c : Mat) (hAc : getClampingConstraintMatrix s world = .ok A_c) (hempty : A_c.size = 0)
    (hfd : s.mUseFDOverride = false) (hslow : s.mSlowDebugResultsAgainstFD = false) :
    ∃ s0, getForceVelJacobian ext s world = .ok s0
      ∧ s0.mSlowDebugResultsAgainstFD = false := by
  by_cases hd : s.mCachedForceVelDirty = true
  · rw [getForceVelJacobian_empty ext s world A_c hAc hempty hfd hd]
    simp [slowDebugCheck, hslow]
  · refine ⟨s, ?_, hslow⟩
    unfold getForceVelJacobian
    rw [if_neg hd]

/-- C13. In analytic mode, when the assembled clamping matrix is empty: on
first access `getForceVelJacobian` caches `dt * Minv`, with `Minv` the
block-diagonal assembly of the skeletons' inverse mass matrices, and on first
access `getVelVelJacobian` caches `I - forceVel * velC`, where `forceVel` is
the matrix that `getForceVelJacobian` returns and `velC` the block-diagonal
assembly of the skeletons' velocity Jacobians of the Coriolis force; both
return when the slow-debug comparison is off. -/
theorem noClamping_forceVel_velVel (ext : External) (s : BackpropSnapshot) (world : World)
    (A_c : Mat) (hAc : getClampingConstraintMatrix s world = .ok A_c) (hempty : A_c.size = 0)
    (hfd : s.mUseFDOverride = false) :
    (s.mCachedForceVelDirty = true →
      (∀ s1, getForceVelJacobian ext s world = .ok s1 →
        s1.mCachedForceVel = Mat.scale s.mTimeStep (getInvMassMatrix ext s world)
        ∧ s1.mCachedForceVelDirty = false)
      ∧ (s.mSlowDebugResultsAgainstFD = false →
          ∃ s1, getForceVelJacobian ext s world = .ok s1))
    ∧ (s.mCachedVelVelDirty = true →
      (∀ s1, getVelVelJacobian ext s world = .ok s1 →
        ∃ s0, getForceVelJacobian ext s world = .ok s0
          ∧ s1.mCachedVelVel
              = Mat.sub (Mat.identity s.mNumDOFs s.mNumDOFs)
                  (s0.mCachedForceVel.mul (getVelCJacobian ext s world))
          ∧ s1.mCachedVelVelDirty = false
          ∧ (s0.mCachedForceVel.cols = s.mNumDOFs →
              s1.mCachedVelVel.toMatrix s.mNumDOFs s.mNumDOFs
                = (1 : Matrix (Fin s.mNumDOFs) (Fin s.mNumDOFs) ℚ)
                  - s0.mCachedForceVel.toMatrix s.mNumDOFs s.mNumDOFs
                    * (getVelCJacobian ext s world).toMatrix s.mNumDOFs s.mNumDOFs))
      ∧ (s.mSlowDebugResultsAgainstFD = false →
          ∃ s1, getVelVelJacobian ext s world = .ok s1)) := by
  refine ⟨?_, ?_⟩
  · intro hd
    rw [getForceVelJacobian_empty ext s world A_c hAc hempty hfd hd]
    refine ⟨?_, ?_⟩
    · intro s1 hs1
      split at hs1
      · simp at hs1
      · simp only [Except.ok.injEq] at hs1
        subst hs1
        exact ⟨rfl, rfl⟩
    · intro hslow
      simp [slowDebugCheck, hslow]
  · intro hd
    rw [getVelVelJacobian_empty ext s world A_c hAc hempty hfd hd]
    refine ⟨?_, ?_⟩
    · intro s1 hs1
      cases hfv : getForceVelJacobian ext s world with
      | error e => rw [hfv] at hs1; simp at hs1
      | ok s0 =>
        rw [hfv] at hs1
        simp only at hs1
        have hk := (getForceVelJacobian_kept ext s s0 world hfv).1
        have hn := mNumDOFs_of_resetCaches s s0 hk
        have hv := getVelCJacobian_congr ext s s0 world hk
        rw [hn, hv] at hs1
        split at hs1
        · simp at hs1
        · simp only [Except.ok.injEq] at hs1
          subst hs1
          refine ⟨s0, rfl, rfl, rfl, ?_⟩
          intro hc
          show (Mat.sub (Mat.identity s.mNumDOFs s.mNumDOFs)
            (s0.mCachedForceVel.mul (getVelCJacobian ext s world))).toMatrix s.mNumDOFs
              s.mNumDOFs = _
          rw [toMatrix_sub, toMatrix_identity, toMatrix_mul _ _ _ s.mNumDOFs _ hc]
    · intro hslow
      obtain ⟨s0, hs0, hslow0⟩ :=
        getForceVelJacobian_empty_ok ext s world A_c hAc hempty hfd hslow
      rw [hs0]
      simp [slowDebugCheck, hslow0]

/-- Witness of C13: the one-DOF example without constraint groups, with the
identity as inverse mass matrix and as velocity Jacobian of the Coriolis force
and `dt = 1/100`: the clamping matrix is `1 x 0`, the cached force-velocity
Jacobian is `[1/100]` and the cached velocity-velocity Jacobian is
`[1 - 1/100]`. -/
theorem noClamping_forceVel_velVel_witness :
    getClampingConstraintMatrix exampleSingleSnapshot exampleSingleWorld = .ok (Mat.zero 1 0)
    ∧ (Mat.zero 1 0).size = 0
    ∧ (∃ s1, getForceVelJacobian exampleCoriolisExternal exampleSingleSnapshot exampleSingleWorld
          = .ok s1
        ∧ s1.mCachedForceVel.coeff 0 0 = 1 / 100 ∧ s1.mCachedForceVelDirty = false)
    ∧ ∃ s1, getVelVelJacobian exampleCoriolisExternal exampleSingleSnapshot exampleSingleWorld
          = .ok s1
        ∧ s1.mCachedVelVel.coeff 0 0 = 99 / 100 ∧ s1.mCachedVelVelDirty = false := by
  have hAc : getClampingConstraintMatrix exampleSingleSnapshot exampleSingleWorld
      = .ok (Mat.zero 1 0) := rfl
  obtain ⟨hF, hV⟩ := noClamping_forceVel_velVel exampleCoriolisExternal exampleSingleSnapshot
    exampleSingleWorld (Mat.zero 1 0) hAc rfl rfl
  obtain ⟨hF1, hF2⟩ := hF rfl
  obtain ⟨hV1, hV2⟩ := hV rfl
  obtain ⟨sF, hsF⟩ := hF2 rfl
  obtain ⟨sV, hsV⟩ := hV2 rfl
  obtain ⟨eF, dF⟩ := hF1 sF hsF
  obtain ⟨s0, hs0, eV, dV, _⟩ := hV1 sV hsV
  have e0 : s0 = sF := by
    rw [hsF] at hs0
    exact (Except.ok.inj hs0).symm
  refine ⟨hAc, rfl, ⟨sF, hsF, ?_, dF⟩, sV, hsV, ?_, dV⟩
  · rw [eF]
    with_unfolding_all rfl
  · rw [eV, e0, eF]
    with_unfolding_all rfl

/-! ## The Jacobians without constraint groups -/

theorem dims_blockDiagonalLoop (ext : External) (whichMatrix : BlockDiagonalMatrixToAssemble)
    (skels : List Skeleton) (cursor : Nat) (J : Mat) :
    (blockDiagonalLoop ext whichMatrix skels cursor J).rows = J.rows
    ∧ (blockDiagonalLoop ext whichMatrix skels cursor J).cols = J.cols := by
  induction skels generalizing cursor J with
  | nil => exact ⟨rfl, rfl⟩
  | cons skel rest ih =>
    simp only [blockDiagonalLoop]
    exact ⟨(ih _ _).1, (ih _ _).2⟩

theorem dims_assembleBlockDiagonalMatrix (ext : External) (s : BackpropSnapshot) (world : World)
    (whichMatrix : BlockDiagonalMatrixToAssemble) (fd : Bool) :
    (assembleBlockDiagonalMatrix ext s world whichMatrix fd).rows = s.mNumDOFs
    ∧ (assembleBlockDiagonalMatrix ext s world whichMatrix fd).cols = s.mNumDOFs := by
  unfold assembleBlockDiagonalMatrix
  exact dims_blockDiagonalLoop ext whichMatrix _ 0 (Mat.zero s.mNumDOFs s.mNumDOFs)

theorem getClampingConstraintMatrix_noGroups (s : BackpropSnapshot) (world : World)
    (hgm : s.mGradientMatrices = []) :
    getClampingConstraintMatrix s world = .ok (Mat.zero s.mNumDOFs s.mNumClamping) := by
  simp [getClampingConstraintMatrix, assembleMatrix, hgm, assembleGroups, assembleNumCols]

/-- C14, as amended. For a snapshot without constraint groups (and a clamping
count of zero), in analytic mode and on first access: `getForceVelJacobian`
caches `dt * Minv` and `getVelVelJacobian` caches the `numDOFs x numDOFs`
matrix `I - (dt * Minv) * velC`, with `Minv` and `velC` the block-diagonal
assemblies of the skeletons' inverse mass matrices and velocity Jacobians of
the Coriolis force; this is the identity when `(dt * Minv) * velC` is zero.
Both getters return when the slow-debug comparison is off. -/
theorem noGroups_forceVel_velVel (ext : External) (s : BackpropSnapshot) (world : World)
    (hgm : s.mGradientMatrices = []) (hnc : s.mNumClamping = 0)
    (hfd : s.mUseFDOverride = false) (hdF : s.mCachedForceVelDirty = true)
    (hdV : s.mCachedVelVelDirty = true) :
    (∀ s1, getForceVelJacobian ext s world = .ok s1 →
      s1.mCachedForceVel = Mat.scale s.mTimeStep (getInvMassMatrix ext s world))
    ∧ (∀ s1, getVelVelJacobian ext s world = .ok s1 →
      s1.mCachedVelVel
          = Mat.sub (Mat.identity s.mNumDOFs s.mNumDOFs)
              ((Mat.scale s.mTimeStep (getInvMassMatrix ext s world)).mul
                (getVelCJacobian ext s world))
      ∧ s1.mCachedVelVel.rows = s.mNumDOFs ∧ s1.mCachedVelVel.cols = s.mNumDOFs
      ∧ s1.mCachedVelVel.toMatrix s.mNumDOFs s.mNumDOFs
          = (1 : Matrix (Fin s.mNumDOFs) (Fin s.mNumDOFs) ℚ)
            - (s.mTimeStep • (getInvMassMatrix ext s world).toMatrix s.mNumDOFs s.mNumDOFs)
              * (getVelCJacobian ext s world).toMatrix s.mNumDOFs s.mNumDOFs
      ∧ ((s.mTimeStep • (getInvMassMatrix ext s world).toMatrix s.mNumDOFs s.mNumDOFs)
            * (getVelCJacobian ext s world).toMatrix s.mNumDOFs s.mNumDOFs = 0 →
          s1.mCachedVelVel.toMatrix s.mNumDOFs s.mNumDOFs
            = (1 : Matrix (Fin s.mNumDOFs) (Fin s.mNumDOFs) ℚ)))
    ∧ (s.mSlowDebugResultsAgainstFD = false →
        (∃ s1, getForceVelJacobian ext s world = .ok s1)
        ∧ ∃ s1, getVelVelJacobian ext s world = .ok s1) := by
  have hAc := getClampingConstraintMatrix_noGroups s world hgm
  have hempty : (Mat.zero s.mNumDOFs s.mNumClamping).size = 0 := by
    simp [Mat.size, Mat.zero, hnc]
  have hF := getForceVelJacobian_empty ext s world _ hAc hempty hfd hdF
  have hFval : ∀ s1, getForceVelJacobian ext s world = .ok s1 →
      s1.mCachedForceVel = Mat.scale s.mTimeStep (getInvMassMatrix ext s world) := by
    intro s1 hs1
    rw [hF] at hs1
    split at hs1
    · simp at hs1
    · simp only [Except.ok.injEq] at hs1
      subst hs1
      rfl
  refine ⟨hFval, ?_, ?_⟩
  · intro s1 hs1
    rw [getVelVelJacobian_empty ext s world _ hAc hempty hfd hdV] at hs1
    cases hfv : getForceVelJacobian ext s world with
    | error e => rw [hfv] at hs1; simp at hs1
    | ok s0 =>
      rw [hfv] at hs1
      simp only at hs1
      have hk := (getForceVelJacobian_kept ext s s0 world hfv).1
      have hn := mNumDOFs_of_resetCaches s s0 hk
      have hv := getVelCJacobian_congr ext s s0 world hk
      rw [hn, hv, hFval s0 hfv] at hs1
      split at hs1
      · simp at hs1
      · simp only [Except.ok.injEq] at hs1
        subst hs1
        have hmat : (Mat.sub (Mat.identity s.mNumDOFs s.mNumDOFs)
            ((Mat.scale s.mTimeStep (getInvMassMatrix ext s world)).mul
              (getVelCJacobian ext s world))).toMatrix s.mNumDOFs s.mNumDOFs
            = (1 : Matrix (Fin s.mNumDOFs) (Fin s.mNumDOFs) ℚ)
              - (s.mTimeStep • (getInvMassMatrix ext s world).toMatrix s.mNumDOFs s.mNumDOFs)
                * (getVelCJacobian ext s world).toMatrix s.mNumDOFs s.mNumDOFs := by
          have hc : (Mat.scale s.mTimeStep (getInvMassMatrix ext s world)).cols = s.mNumDOFs :=
            (dims_assembleBlockDiagonalMatrix ext s world .INV_MASS _).2
          rw [toMatrix_sub, toMatrix_identity, toMatrix_mul _ _ _ s.mNumDOFs _ hc,
            toMatrix_scale]
        refine ⟨rfl, rfl, rfl, hmat, ?_⟩
        intro hz
        show (Mat.sub (Mat.identity s.mNumDOFs s.mNumDOFs)
            ((Mat.scale s.mTimeStep (getInvMassMatrix ext s world)).mul
              (getVelCJacobian ext s world))).toMatrix s.mNumDOFs s.mNumDOFs = _
        rw [hmat, hz, sub_zero]
  · intro hslow
    obtain ⟨s0, hs0, hslow0⟩ :=
      getForceVelJacobian_empty_ok ext s world _ hAc hempty hfd hslow
    refine ⟨⟨s0, hs0⟩, ?_⟩
    rw [getVelVelJacobian_empty ext s world _ hAc hempty hfd hdV, hs0]
    simp [slowDebugCheck, hslow0]

/-- Witness of the amended C14: the one-DOF example without constraint groups
and without velocity-dependent forces (`velC = 0`): both getters return, the
force-velocity Jacobian is `[1/100]` and the velocity-velocity Jacobian is the
`1 x 1` identity. -/
theorem noGroups_forceVel_velVel_witness :
    exampleSingleSnapshot.mGradientMatrices = []
    ∧ exampleSingleSnapshot.mNumClamping = 0
    ∧ (∃ s1, getForceVelJacobian exampleExternal exampleSingleSnapshot exampleSingleWorld = .ok s1
        ∧ s1.mCachedForceVel.coeff 0 0 = 1 / 100)
    ∧ ∃ s1, getVelVelJacobian exampleExternal exampleSingleSnapshot exampleSingleWorld = .ok s1
        ∧ s1.mCachedVelVel.toMatrix 1 1 = (1 : Matrix (Fin 1) (Fin 1) ℚ) := by
  obtain ⟨hF, hV, hok⟩ := noGroups_forceVel_velVel exampleExternal exampleSingleSnapshot
    exampleSingleWorld rfl rfl rfl rfl rfl
  obtain ⟨⟨sF, hsF⟩, sV, hsV⟩ := hok rfl
  refine ⟨rfl, rfl, ⟨sF, hsF, ?_⟩, sV, hsV, ?_⟩
  · rw [hF sF hsF]
    with_unfolding_all rfl
  · have hz : (exampleSingleSnapshot.mTimeStep
          • (getInvMassMatrix exampleExternal exampleSingleSnapshot exampleSingleWorld).toMatrix
              1 1)
        * (getVelCJacobian exampleExternal exampleSingleSnapshot exampleSingleWorld).toMatrix
            1 1 = 0 := by
      funext i j
      have hi : i = 0 := Subsingleton.elim _ _
      have hj : j = 0 := Subsingleton.elim _ _
      subst hi
      subst hj
      simp only [Matrix.mul_apply, Matrix.smul_apply, Mat.toMatrix, Finset.univ_unique,
        Finset.sum_singleton, Matrix.zero_apply]
      with_unfolding_all rfl
    exact (hV sV hsV).2.2.2.2 hz

/-- Counterexample to C14 as stated: a snapshot without constraint groups, in
analytic mode, on a world whose single skeleton has the identity as inverse
mass matrix and as velocity Jacobian of the Coriolis force, with `dt = 1/100`:
`getVelVelJacobian` returns `[99/100]`, not the `1 x 1` identity. -/
theorem getVelVelJacobian_noGroups_not_identity :
    exampleSingleSnapshot.mGradientMatrices = []
    ∧ exampleSingleSnapshot.mUseFDOverride = false
    ∧ ∃ s1, getVelVelJacobian exampleCoriolisExternal exampleSingleSnapshot exampleSingleWorld
          = .ok s1
        ∧ s1.mCachedVelVel.coeff 0 0 = 99 / 100
        ∧ s1.mCachedVelVel.coeff 0 0
            ≠ (Mat.identity exampleSingleSnapshot.mNumDOFs
                exampleSingleSnapshot.mNumDOFs).coeff 0 0 := by
  refine ⟨rfl, rfl, _, rfl, ?_, ?_⟩
  · with_unfolding_all rfl
  · with_unfolding_all decide

/-! ## The position Jacobians without bouncing constraints -/

/-- What `getBounceApproximationJacobian` does when the assembled bouncing
matrix is empty. -/
theorem getBounceApproximationJacobian_empty (ext : External) (s : BackpropSnapshot)
    (world : World) (A_b : Mat) (hAb : getBouncingConstraintMatrix s world = .ok A_b)
    (hempty : A_b.size = 0) :
    getBounceApproximationJacobian ext s world
      = .ok (if s.mCachedBounceApproximationDirty = true then
          { s with
            mCachedBounceApproximation := Mat.identity s.mNumDOFs s.mNumDOFs
            mCachedBounceApproximationDirty := false }
        else s) := by
  have hAb1 : getBouncingConstraintMatrix s (rewind s world) = .ok A_b := by
    rw [getBouncingConstraintMatrix_rewind]; exact hAb
  unfold getBounceApproximationJacobian
  by_cases hd : s.mCachedBounceApproximationDirty = true
  · rw [if_pos hd, if_pos hd]
    simp only [hAb1, if_pos hempty]
  · rw [if_neg hd, if_neg hd]

/-- C15. If the assembled bouncing-constraint matrix has no columns, then
`getBounceApproximationJacobian` returns the `numDOFs` identity (on first
access it caches it; a cache filled under this condition holds it), and in
analytic mode, on first access, `getPosPosJacobian` caches the world's
position-position Jacobian (taken at the pre-step state) times that identity
and `getVelPosJacobian` the world's velocity-position Jacobian times that
identity, which for Jacobians with `numDOFs` columns are those Jacobians
themselves; both return when the slow-debug comparison is off. -/
theorem noBounce_jacobians (ext : External) (s : BackpropSnapshot) (world : World)
    (A_b : Mat) (hAb : getBouncingConstraintMatrix s world = .ok A_b) (hcols : A_b.cols = 0)
    (hcache : s.mCachedBounceApproximationDirty = false →
      s.mCachedBounceApproximation = Mat.identity s.mNumDOFs s.mNumDOFs) :
    (∃ s0, getBounceApproximationJacobian ext s world = .ok s0
      ∧ s0.mCachedBounceApproximation = Mat.identity s.mNumDOFs s.mNumDOFs
      ∧ s0.mCachedBounceApproximationDirty = false)
    ∧ (s.mUseFDOverride = false → s.mCachedPosPosDirty = true →
        (∀ s1, getPosPosJacobian ext s world = .ok s1 →
          s1.mCachedPosPos
              = (ext.worldPosPosJacobian (rewind s world)).mul
                  (Mat.identity s.mNumDOFs s.mNumDOFs)
          ∧ s1.mCachedPosPosDirty = false
          ∧ ∀ k, (ext.worldPosPosJacobian (rewind s world)).cols = s.mNumDOFs →
              s1.mCachedPosPos.toMatrix k s.mNumDOFs
                = (ext.worldPosPosJacobian (rewind s world)).toMatrix k s.mNumDOFs)
        ∧ (s.mSlowDebugResultsAgainstFD = false →
            ∃ s1, getPosPosJacobian ext s world = .ok s1))
    ∧ (s.mUseFDOverride = false → s.mCachedVelPosDirty = true →
        (∀ s1, getVelPosJacobian ext s world = .ok s1 →
          s1.mCachedVelPos
              = (ext.worldVelPosJacobian world).mul (Mat.identity s.mNumDOFs s.mNumDOFs)
          ∧ s1.mCachedVelPosDirty = false
          ∧ ∀ k, (ext.worldVelPosJacobian world).cols = s.mNumDOFs →
              s1.mCachedVelPos.toMatrix k s.mNumDOFs
                = (ext.worldVelPosJacobian world).toMatrix k s.mNumDOFs)
        ∧ (s.mSlowDebugResultsAgainstFD = false →
            ∃ s1, getVelPosJacobian ext s world = .ok s1)) := by
  have hempty : A_b.size = 0 := by simp [Mat.size, hcols]
  have hB := getBounceApproximationJacobian_empty ext s world A_b hAb hempty
  have hB1 := getBounceApproximationJacobian_empty ext s (rewind s world) A_b
    (by rw [getBouncingConstraintMatrix_rewind]; exact hAb) hempty
  have hval : ∀ w s0, getBounceApproximationJacobian ext s w
        = .ok (if s.mCachedBounceApproximationDirty = true then
            { s with
              mCachedBounceApproximation := Mat.identity s.mNumDOFs s.mNumDOFs
              mCachedBounceApproximationDirty := false }
          else s) →
      getBounceApproximationJacobian ext s w = .ok s0 →
      s0.mCachedBounceApproximation = Mat.identity s.mNumDOFs s.mNumDOFs
      ∧ s0.mCachedBounceApproximationDirty = false
      ∧ s0.mNumDOFs = s.mNumDOFs
      ∧ s0.mSlowDebugResultsAgainstFD = s.mSlowDebugResultsAgainstFD := by
    intro w s0 hw hs0
    rw [hw] at hs0
    simp only [Except.ok.injEq] at hs0
    subst hs0
    by_cases hd : s.mCachedBounceApproximationDirty = true
    · rw [if_pos hd]
      exact ⟨rfl, rfl, rfl, rfl⟩
    · rw [if_neg hd]
      have hd1 : s.mCachedBounceApproximationDirty = false := by simpa using hd
      exact ⟨hcache hd1, hd1, rfl, rfl⟩
  refine ⟨?_, ?_, ?_⟩
  · exact ⟨_, hB, (hval world _ hB hB).1, (hval world _ hB hB).2.1⟩
  · intro hfd hd
    have hfd1 : ¬ (s.mUseFDOverride = true) := by simp [hfd]
    obtain ⟨s0, hs0⟩ : ∃ s0, getBounceApproximationJacobian ext s (rewind s world) = .ok s0 :=
      ⟨_, hB1⟩
    obtain ⟨e1, _, e3, e4⟩ := hval (rewind s world) s0 hB1 hs0
    unfold getPosPosJacobian
    rw [if_pos hd, if_neg hfd1]
    simp only [hs0]
    refine ⟨?_, ?_⟩
    · intro s1 hs1
      split at hs1
      · simp at hs1
      · simp only [Except.ok.injEq] at hs1
        subst hs1
        refine ⟨by rw [← e1], rfl, ?_⟩
        intro k hc
        show ((ext.worldPosPosJacobian (rewind s world)).mul
          s0.mCachedBounceApproximation).toMatrix k s.mNumDOFs = _
        rw [e1, toMatrix_mul _ _ _ s.mNumDOFs _ hc, toMatrix_identity, Matrix.mul_one]
    · intro hslow
      simp [slowDebugCheck, e4, hslow]
  · intro hfd hd
    have hfd1 : ¬ (s.mUseFDOverride = true) := by simp [hfd]
    obtain ⟨s0, hs0⟩ : ∃ s0, getBounceApproximationJacobian ext s world = .ok s0 := ⟨_, hB⟩
    obtain ⟨e1, _, e3, e4⟩ := hval world s0 hB hs0
    unfold getVelPosJacobian
    rw [if_pos hd, if_neg hfd1]
    simp only [hs0]
    refine ⟨?_, ?_⟩
    · intro s1 hs1
      split at hs1
      · simp at hs1
      · simp only [Except.ok.injEq] at hs1
        subst hs1
        refine ⟨by rw [← e1], rfl, ?_⟩
        intro k hc
        show ((ext.worldVelPosJacobian world).mul
          s0.mCachedBounceApproximation).toMatrix k s.mNumDOFs = _
        rw [e1, toMatrix_mul _ _ _ s.mNumDOFs _ hc, toMatrix_identity, Matrix.mul_one]
    · intro hslow
      simp [slowDebugCheck, e4, hslow]

/-- Witness of C15: the one-DOF example without constraint groups, where the
world's position-position Jacobian is `[1]` and its velocity-position Jacobian
`[1/100]`: the bouncing matrix is `1 x 0`, the bounce approximation is the
`1 x 1` identity and the two getters cache `[1]` and `[1/100]`. -/
theorem noBounce_jacobians_witness :
    getBouncingConstraintMatrix exampleSingleSnapshot exampleSingleWorld = .ok (Mat.zero 1 0)
    ∧ (∃ s0, getBounceApproximationJacobian exampleExternal exampleSingleSnapshot
          exampleSingleWorld = .ok s0
        ∧ s0.mCachedBounceApproximation = Mat.identity 1 1)
    ∧ (∃ s1, getPosPosJacobian exampleExternal exampleSingleSnapshot exampleSingleWorld = .ok s1
        ∧ s1.mCachedPosPos.coeff 0 0 = 1)
    ∧ ∃ s1, getVelPosJacobian exampleExternal exampleSingleSnapshot exampleSingleWorld = .ok s1
        ∧ s1.mCachedVelPos.coeff 0 0 = 1 / 100 := by
  have hAb : getBouncingConstraintMatrix exampleSingleSnapshot exampleSingleWorld
      = .ok (Mat.zero 1 0) := rfl
  obtain ⟨⟨s0, hs0, e0, _⟩, hP, hV⟩ := noBounce_jacobians exampleExternal exampleSingleSnapshot
    exampleSingleWorld (Mat.zero 1 0) hAb rfl (fun h => absurd h (by decide))
  obtain ⟨hP1, hP2⟩ := hP rfl rfl
  obtain ⟨hV1, hV2⟩ := hV rfl rfl
  obtain ⟨sP, hsP⟩ := hP2 rfl
  obtain ⟨sV, hsV⟩ := hV2 rfl
  refine ⟨hAb, ⟨s0, hs0, e0⟩, ⟨sP, hsP, ?_⟩, sV, hsV, ?_⟩
  · rw [(hP1 sP hsP).1]
    with_unfolding_all rfl
  · rw [(hV1 sV hsV).1]
    with_unfolding_all rfl

/-! ## The bounce approximation with one bouncing constraint -/

theorem sumTo_congr (n : Nat) (f g : Nat → ℚ) (h : ∀ k, k < n → f k = g k) :
    sumTo n f = sumTo n g := by
  induction n with
  | zero => rfl
  | succ k ih =>
    rw [sumTo, sumTo, ih (fun j hj => h j (Nat.lt_succ_of_lt hj)), h k (Nat.lt_succ_self k)]

theorem sumTo_add_index (a b : Nat) (f : Nat → ℚ) :
    sumTo (a + b) f = sumTo a f + sumTo b (fun r => f (a + r)) := by
  induction b with
  | zero => simp [sumTo]
  | succ k ih =>
    rw [← Nat.add_assoc, sumTo, ih, sumTo]
    ring

theorem sumTo_mul_index (m n : Nat) (f : Nat → ℚ) :
    sumTo (m * n) f = sumTo m (fun i => sumTo n (fun r => f (i * n + r))) := by
  induction m with
  | zero => simp [sumTo]
  | succ k ih =>
    rw [Nat.succ_mul, sumTo_add_index, ih, sumTo]

theorem sumTo_add_fun (n : Nat) (f g : Nat → ℚ) :
    sumTo n (fun k => f k + g k) = sumTo n f + sumTo n g := by
  induction n with
  | zero => simp [sumTo]
  | succ k ih => rw [sumTo, sumTo, sumTo, ih]; ring

theorem sumTo_sub_fun (n : Nat) (f g : Nat → ℚ) :
    sumTo n (fun k => f k - g k) = sumTo n f - sumTo n g := by
  induction n with
  | zero => simp [sumTo]
  | succ k ih => rw [sumTo, sumTo, sumTo, ih]; ring

theorem sumTo_mul_left (n : Nat) (c : ℚ) (f : Nat → ℚ) :
    sumTo n (fun k => c * f k) = c * sumTo n f := by
  induction n with
  | zero => simp [sumTo]
  | succ k ih => rw [sumTo, sumTo, ih]; ring

theorem sumTo_mul_right (n : Nat) (c : ℚ) (f : Nat → ℚ) :
    sumTo n (fun k => f k * c) = sumTo n f * c := by
  induction n with
  | zero => simp [sumTo]
  | succ k ih => rw [sumTo, sumTo, ih]; ring

theorem sumTo_nonneg (n : Nat) (f : Nat → ℚ) (h : ∀ k, k < n → 0 ≤ f k) : 0 ≤ sumTo n f := by
  induction n with
  | zero => simp [sumTo]
  | succ k ih =>
    rw [sumTo]
    exact add_nonneg (ih (fun j hj => h j (Nat.lt_succ_of_lt hj))) (h k (Nat.lt_succ_self k))

theorem sumTo_eq_zero_of_nonneg (n : Nat) (f : Nat → ℚ) (h : ∀ k, k < n → 0 ≤ f k)
    (hz : sumTo n f ≤ 0) : ∀ k, k < n → f k = 0 := by
  induction n with
  | zero => intro k hk; exact absurd hk (Nat.not_lt_zero k)
  | succ j ih =>
    rw [sumTo] at hz
    have h1 := sumTo_nonneg j f (fun i hi => h i (Nat.lt_succ_of_lt hi))
    have h2 := h j (Nat.lt_succ_self j)
    intro k hk
    rcases Nat.lt_succ_iff_lt_or_eq.1 hk with hlt | heq
    · exact ih (fun i hi => h i (Nat.lt_succ_of_lt hi)) (by linarith) k hlt
    · subst heq; linarith

theorem sumTo_single (n : Nat) (r : Nat) (hr : r < n) (f : Nat → ℚ) :
    sumTo n (fun i => if i = r then f i else 0) = f r := by
  induction n with
  | zero => exact absurd hr (Nat.not_lt_zero r)
  | succ k ih =>
    rw [sumTo]
    rcases Nat.lt_succ_iff_lt_or_eq.1 hr with hlt | heq
    · rw [ih hlt, if_neg (by omega), add_zero]
    · subst heq
      rw [sumTo_congr r _ (fun _ => 0) (fun j hj => by rw [if_neg (by omega)]), if_pos rfl]
      have hz : sumTo r (fun _ => (0 : ℚ)) = 0 := by
        have := sumTo_mul_left r 0 (fun _ => (0 : ℚ))
        simpa using this
      rw [hz, zero_add]

/-- For a unit-row system `w . y = beta` with `w != 0`, the squared distance of
`y` from `(beta / |w|^2) w` is `|y|^2 - beta^2 / |w|^2`. -/
theorem sumTo_sq_dist_of_dot (n : Nat) (w y : Nat → ℚ) (β : ℚ)
    (hS : sumTo n (fun k => w k ^ 2) ≠ 0) (h : sumTo n (fun k => w k * y k) = β) :
    sumTo n (fun k => (y k - β / sumTo n (fun k => w k ^ 2) * w k) ^ 2)
      = sumTo n (fun k => y k ^ 2) - β ^ 2 / sumTo n (fun k => w k ^ 2) := by
  have e : ∀ k, (y k - β / sumTo n (fun k => w k ^ 2) * w k) ^ 2
      = (y k ^ 2 - 2 * (β / sumTo n (fun k => w k ^ 2)) * (w k * y k))
        + (β / sumTo n (fun k => w k ^ 2)) ^ 2 * w k ^ 2 := by
    intro k; ring
  rw [sumTo_congr n _ _ (fun k _ => e k), sumTo_add_fun, sumTo_sub_fun, sumTo_mul_left,
    sumTo_mul_left, h]
  field_simp
  ring

theorem residualSq_one_row (M : Mat) (b x : Vec) (hr : M.rows = 1) :
    residualSq M b x
      = (sumTo M.cols (fun k => M.coeff 0 k * coeffAt x k) - coeffAt b 0) ^ 2 := by
  simp [residualSq, hr, sumTo]

theorem coeffAt_minNormSolveRow (M : Mat) (b : Vec) (k : Nat) (hk : k < M.cols) :
    coeffAt (minNormSolveRow M b) k
      = coeffAt b 0 / sumTo M.cols (fun j => M.coeff 0 j ^ 2) * M.coeff 0 k := by
  unfold minNormSolveRow
  rw [coeffAt_map_range, if_pos hk]

theorem dot_minNormSolveRow (M : Mat) (b : Vec)
    (hS : sumTo M.cols (fun j => M.coeff 0 j ^ 2) ≠ 0) :
    sumTo M.cols (fun k => M.coeff 0 k * coeffAt (minNormSolveRow M b) k) = coeffAt b 0 := by
  rw [sumTo_congr M.cols _
    (fun k => coeffAt b 0 / sumTo M.cols (fun j => M.coeff 0 j ^ 2) * (M.coeff 0 k ^ 2))
    (fun k hk => by rw [coeffAt_minNormSolveRow M b k hk]; ring), sumTo_mul_left]
  field_simp

theorem normSq_minNormSolveRow (M : Mat) (b : Vec)
    (hS : sumTo M.cols (fun j => M.coeff 0 j ^ 2) ≠ 0) :
    normSq M.cols (minNormSolveRow M b)
      = coeffAt b 0 ^ 2 / sumTo M.cols (fun j => M.coeff 0 j ^ 2) := by
  unfold normSq
  rw [sumTo_congr M.cols _
    (fun k => (coeffAt b 0 / sumTo M.cols (fun j => M.coeff 0 j ^ 2)) ^ 2 * (M.coeff 0 k ^ 2))
    (fun k hk => by rw [coeffAt_minNormSolveRow M b k hk]; ring), sumTo_mul_left]
  field_simp
  ring

/-- The row solver meets the contract of the dense solve. -/
theorem minNormSolveRow_isMinNorm (M : Mat) (b : Vec) (hr : M.rows = 1)
    (hS : sumTo M.cols (fun j => M.coeff 0 j ^ 2) ≠ 0) :
    IsMinNormLeastSquares M b (minNormSolveRow M b) := by
  have hres0 : residualSq M b (minNormSolveRow M b) = 0 := by
    rw [residualSq_one_row M b _ hr, dot_minNormSolveRow M b hS]
    ring
  refine ⟨by simp [minNormSolveRow], ?_, ?_⟩
  · intro y _
    rw [hres0, residualSq_one_row M b y hr]
    positivity
  · intro y _ hy
    rw [hres0, residualSq_one_row M b y hr] at hy
    have hdot : sumTo M.cols (fun k => M.coeff 0 k * coeffAt y k) = coeffAt b 0 := by
      have := pow_eq_zero_iff (two_ne_zero) |>.1 hy
      linarith
    have hid := sumTo_sq_dist_of_dot M.cols (fun k => M.coeff 0 k) (fun k => coeffAt y k)
      (coeffAt b 0) hS hdot
    have hnn : 0 ≤ sumTo M.cols (fun k =>
        (coeffAt y k - coeffAt b 0 / sumTo M.cols (fun k => M.coeff 0 k ^ 2) * M.coeff 0 k) ^ 2) :=
      sumTo_nonneg _ _ (fun k _ => sq_nonneg _)
    rw [normSq_minNormSolveRow M b hS]
    unfold normSq
    linarith

/-- A minimum-norm least-squares solution of a system with a single nonzero
row `w` and right-hand side `beta` is `(beta / |w|^2) w`. -/
theorem isMinNorm_one_row (M : Mat) (b x : Vec) (hr : M.rows = 1)
    (hS : sumTo M.cols (fun j => M.coeff 0 j ^ 2) ≠ 0) (h : IsMinNormLeastSquares M b x) :
    ∀ k, k < M.cols →
      coeffAt x k = coeffAt b 0 / sumTo M.cols (fun j => M.coeff 0 j ^ 2) * M.coeff 0 k := by
  obtain ⟨_, hmin, hnorm⟩ := h
  have hlen0 : (minNormSolveRow M b).length = M.cols := by simp [minNormSolveRow]
  have hres0 : residualSq M b (minNormSolveRow M b) = 0 := by
    rw [residualSq_one_row M b _ hr, dot_minNormSolveRow M b hS]
    ring
  have hresx : residualSq M b x = 0 := by
    have h1 := hmin _ hlen0
    rw [hres0] at h1
    have h2 : 0 ≤ residualSq M b x := by
      rw [residualSq_one_row M b x hr]; positivity
    linarith
  have hdot : sumTo M.cols (fun k => M.coeff 0 k * coeffAt x k) = coeffAt b 0 := by
    rw [residualSq_one_row M b x hr] at hresx
    have := pow_eq_zero_iff (two_ne_zero) |>.1 hresx
    linarith
  have hn := hnorm _ hlen0 (by rw [hres0, hresx])
  rw [normSq_minNormSolveRow M b hS] at hn
  have hid := sumTo_sq_dist_of_dot M.cols (fun k => M.coeff 0 k) (fun k => coeffAt x k)
    (coeffAt b 0) hS hdot
  have hz := sumTo_eq_zero_of_nonneg M.cols
    (fun k => (coeffAt x k
      - coeffAt b 0 / sumTo M.cols (fun k => M.coeff 0 k ^ 2) * M.coeff 0 k) ^ 2)
    (fun k _ => sq_nonneg _)
    (by rw [hid]; unfold normSq at hn; linarith)
  intro k hk
  have := pow_eq_zero_iff (two_ne_zero) |>.1 (hz k hk)
  linarith

theorem sumTo_zero_fun (n : Nat) : sumTo n (fun _ => (0 : ℚ)) = 0 := by
  induction n with
  | zero => rfl
  | succ k ih => rw [sumTo, ih, add_zero]

theorem mul_add_div (i n r : Nat) (hr : r < n) : (i * n + r) / n = i := by
  have hn : 0 < n := Nat.lt_of_le_of_lt (Nat.zero_le r) hr
  rw [Nat.add_comm, Nat.add_mul_div_right _ _ hn, Nat.div_eq_of_lt hr, Nat.zero_add]

theorem mul_add_mod (i n r : Nat) (hr : r < n) : (i * n + r) % n = r := by
  rw [Nat.add_comm, Nat.add_mul_mod_self_right, Nat.mod_eq_of_lt hr]

theorem mul_add_lt (i n r : Nat) (hi : i < n) (hr : r < n) : i * n + r < n * n := by
  calc i * n + r < i * n + n := Nat.add_lt_add_left hr _
    _ = (i + 1) * n := by rw [Nat.succ_mul]
    _ ≤ n * n := Nat.mul_le_mul_right n hi

/-- The single row of `W^T` for one bouncing constraint with column `a`: the
entries `a_i * a_r` at index `i * n + r`. -/
theorem coeff_bounceW_transpose (A_b : Mat) (hcols : A_b.cols = 1) (i r : Nat)
    (hi : i < A_b.rows) (hr : r < A_b.rows) :
    (bounceW A_b).transpose.coeff 0 (i * A_b.rows + r) = A_b.coeff i 0 * A_b.coeff r 0 := by
  simp only [Mat.transpose, bounceW, hcols]
  rw [if_pos ⟨mul_add_lt i A_b.rows r hi hr, Nat.one_pos⟩, mul_add_div i _ r hr,
    mul_add_mod i _ r hr]

theorem sumTo_bounceW_sq (A_b : Mat) (hcols : A_b.cols = 1) :
    sumTo (bounceW A_b).transpose.cols (fun x => (bounceW A_b).transpose.coeff 0 x ^ 2)
      = sumTo A_b.rows (fun i => A_b.coeff i 0 ^ 2) ^ 2 := by
  have hc : (bounceW A_b).transpose.cols = A_b.rows * A_b.rows := rfl
  rw [hc, sumTo_mul_index]
  rw [sumTo_congr A_b.rows _
    (fun i => A_b.coeff i 0 ^ 2 * sumTo A_b.rows (fun r => A_b.coeff r 0 ^ 2))
    (fun i hi => by
      rw [sumTo_congr A_b.rows _ (fun r => A_b.coeff i 0 ^ 2 * A_b.coeff r 0 ^ 2)
        (fun r hr => by rw [coeff_bounceW_transpose A_b hcols i r hi hr]; ring),
        sumTo_mul_left]),
    sumTo_mul_right]
  ring

theorem coeffAt_bounceCenter (n i r : Nat) (hi : i < n) (hr : r < n) :
    coeffAt (bounceCenter n) (i * n + r) = if i = r then 1 else 0 := by
  unfold bounceCenter
  rw [coeffAt_map_range, if_pos (mul_add_lt i n r hi hr), mul_add_div i n r hr,
    mul_add_mod i n r hr]

theorem sumTo_bounceW_center (A_b : Mat) (hcols : A_b.cols = 1) :
    sumTo (bounceW A_b).transpose.cols
        (fun x => (bounceW A_b).transpose.coeff 0 x * coeffAt (bounceCenter A_b.rows) x)
      = sumTo A_b.rows (fun i => A_b.coeff i 0 ^ 2) := by
  have hc : (bounceW A_b).transpose.cols = A_b.rows * A_b.rows := rfl
  rw [hc, sumTo_mul_index]
  apply sumTo_congr
  intro i hi
  rw [sumTo_congr A_b.rows _
    (fun r => if r = i then A_b.coeff i 0 * A_b.coeff r 0 else 0)
    (fun r hr => by
      rw [coeff_bounceW_transpose A_b hcols i r hi hr, coeffAt_bounceCenter _ i r hi hr]
      by_cases h : i = r
      · subst h; simp
      · have h1 : ¬ r = i := fun h1 => h h1.symm
        simp [h, h1]),
    sumTo_single A_b.rows i hi (fun r => A_b.coeff i 0 * A_b.coeff r 0)]
  ring

theorem coeffAt_vecSub (a b : Vec) (x : Nat) (hx : x < a.length) :
    coeffAt (Vec.sub a b) x = coeffAt a x - coeffAt b x := by
  unfold Vec.sub
  rw [coeffAt_map_range, if_pos hx]

theorem length_bounceCenter (n : Nat) : (bounceCenter n).length = n * n := by
  simp [bounceCenter]

theorem coeffAt_bounce_rhs (A_b : Mat) (e : ℚ) (hcols : A_b.cols = 1) :
    coeffAt (Vec.add [e] ((bounceW A_b).transpose.mulVec (bounceCenter A_b.rows))) 0
      = e + sumTo A_b.rows (fun i => A_b.coeff i 0 ^ 2) := by
  have hrows : (bounceW A_b).transpose.rows = 1 := hcols
  unfold Vec.add
  rw [coeffAt_map_range, if_pos (by simp)]
  unfold Mat.mulVec
  rw [coeffAt_map_range, if_pos (by rw [hrows]; exact Nat.one_pos),
    sumTo_bounceW_center A_b hcols]
  rfl

/-- The entry of the vector `q` of `getBounceApproximationJacobian` at index
`i * n + r`, for one bouncing constraint with column `a` and restitution `e`:
`[i = r] - (e + |a|^2) / |a|^4 * a_i * a_r`. -/
theorem coeffAt_bounce_q (ext : External) (A_b : Mat) (e : ℚ) (hcols : A_b.cols = 1)
    (hN : sumTo A_b.rows (fun i => A_b.coeff i 0 ^ 2) ≠ 0)
    (hsolve : IsMinNormLeastSquares (bounceW A_b).transpose
      (Vec.add [e] ((bounceW A_b).transpose.mulVec (bounceCenter A_b.rows)))
      (ext.solve (bounceW A_b).transpose
        (Vec.add [e] ((bounceW A_b).transpose.mulVec (bounceCenter A_b.rows)))))
    (i r : Nat) (hi : i < A_b.rows) (hr : r < A_b.rows) :
    coeffAt (Vec.sub (bounceCenter A_b.rows)
        (ext.solve (bounceW A_b).transpose
          (Vec.add [e] ((bounceW A_b).transpose.mulVec (bounceCenter A_b.rows)))))
        (i * A_b.rows + r)
      = (if i = r then 1 else 0)
        - (e + sumTo A_b.rows (fun i => A_b.coeff i 0 ^ 2))
            / sumTo A_b.rows (fun i => A_b.coeff i 0 ^ 2) ^ 2
          * (A_b.coeff i 0 * A_b.coeff r 0) := by
  have hrows : (bounceW A_b).transpose.rows = 1 := hcols
  have hS : sumTo (bounceW A_b).transpose.cols
      (fun x => (bounceW A_b).transpose.coeff 0 x ^ 2) ≠ 0 := by
    rw [sumTo_bounceW_sq A_b hcols]
    exact pow_ne_zero 2 hN
  have hlt : i * A_b.rows + r < (bounceW A_b).transpose.cols := mul_add_lt i A_b.rows r hi hr
  rw [coeffAt_vecSub _ _ _ (by rw [length_bounceCenter]; exact hlt),
    coeffAt_bounceCenter _ i r hi hr,
    isMinNorm_one_row _ _ _ hrows hS hsolve _ hlt, coeffAt_bounce_rhs A_b e hcols,
    sumTo_bounceW_sq A_b hcols, coeff_bounceW_transpose A_b hcols i r hi hr]

theorem sumTo_sq_ne_zero (n : Nat) (a : Nat → ℚ) (h : ∃ i, i < n ∧ a i ≠ 0) :
    sumTo n (fun i => a i ^ 2) ≠ 0 := by
  obtain ⟨i, hi, hne⟩ := h
  intro hz
  have := sumTo_eq_zero_of_nonneg n (fun i => a i ^ 2) (fun k _ => sq_nonneg _) (le_of_eq hz) i hi
  exact hne (pow_eq_zero_iff (two_ne_zero) |>.1 this)

/-- A matrix with entries `[i = r] - c * (a_i * a_r)` acts on a vector `v` as
`v - (c * (a . v)) a`. -/
theorem mulVec_identity_sub_outer (n : Nat) (X : Matrix (Fin n) (Fin n) ℚ) (a : Fin n → ℚ)
    (c : ℚ) (hX : ∀ r i, X r i = (if i = r then 1 else 0) - c * (a i * a r))
    (v : Fin n → ℚ) :
    X.mulVec v = v - (c * Matrix.dotProduct a v) • a := by
  funext r
  simp only [Matrix.mulVec, Matrix.dotProduct, hX, Pi.sub_apply, Pi.smul_apply, smul_eq_mul]
  have e : ∀ i, ((if i = r then (1 : ℚ) else 0) - c * (a i * a r)) * v i
      = (if i = r then v i else 0) - c * a r * (a i * v i) := by
    intro i
    split_ifs <;> ring
  simp only [e, Finset.sum_sub_distrib, Finset.sum_ite_eq', Finset.mem_univ, if_true,
    ← Finset.mul_sum]
  ring

/-- C16, as amended. With exactly one bouncing constraint whose column `a` is
nonzero and whose restitution coefficient is `e`, and a dense solve that
returns the minimum-norm least-squares solution, the bounce-approximation
matrix `X` cached on first access satisfies `X a = -(e / (a . a)) a`, hence
`a . (X a) = -e`, and `X v = v` for every `v` with `a . v = 0`; for a unit
column, `a . a = 1`, this is `X a = -e a`. -/
theorem bounceApproximation_one_constraint (ext : External) (s : BackpropSnapshot)
    (world : World) (A_b : Mat) (e : ℚ)
    (hres : ∀ g ∈ s.mGradientMatrices, ∀ name ∈ g.skeletons, (world.getSkeleton name).isSome)
    (hAb : getBouncingConstraintMatrix s world = .ok A_b) (hcols : A_b.cols = 1)
    (hrest : getRestitutionDiagonals ext s = .ok [e])
    (ha : ∃ i, i < s.mNumDOFs ∧ A_b.coeff i 0 ≠ 0)
    (hdirty : s.mCachedBounceApproximationDirty = true)
    (hsolve : IsMinNormLeastSquares (bounceW A_b).transpose
      (Vec.add [e] ((bounceW A_b).transpose.mulVec (bounceCenter s.mNumDOFs)))
      (ext.solve (bounceW A_b).transpose
        (Vec.add [e] ((bounceW A_b).transpose.mulVec (bounceCenter s.mNumDOFs))))) :
    ∃ s1, getBounceApproximationJacobian ext s world = .ok s1
      ∧ s1.mCachedBounceApproximationDirty = false
      ∧ s1.mCachedBounceApproximation.rows = s.mNumDOFs
      ∧ s1.mCachedBounceApproximation.cols = s.mNumDOFs
      ∧ (s1.mCachedBounceApproximation.toMatrix s.mNumDOFs s.mNumDOFs).mulVec
            (fun i : Fin s.mNumDOFs => A_b.coeff i 0)
          = (-(e / Matrix.dotProduct (fun i : Fin s.mNumDOFs => A_b.coeff i 0)
                (fun i : Fin s.mNumDOFs => A_b.coeff i 0)))
            • (fun i : Fin s.mNumDOFs => A_b.coeff i 0)
      ∧ Matrix.dotProduct (fun i : Fin s.mNumDOFs => A_b.coeff i 0)
            ((s1.mCachedBounceApproximation.toMatrix s.mNumDOFs s.mNumDOFs).mulVec
              (fun i : Fin s.mNumDOFs => A_b.coeff i 0))
          = -e
      ∧ (∀ v : Fin s.mNumDOFs → ℚ,
          Matrix.dotProduct (fun i : Fin s.mNumDOFs => A_b.coeff i 0) v = 0 →
          (s1.mCachedBounceApproximation.toMatrix s.mNumDOFs s.mNumDOFs).mulVec v = v)
      ∧ (Matrix.dotProduct (fun i : Fin s.mNumDOFs => A_b.coeff i 0)
            (fun i : Fin s.mNumDOFs => A_b.coeff i 0) = 1 →
          (s1.mCachedBounceApproximation.toMatrix s.mNumDOFs s.mNumDOFs).mulVec
              (fun i : Fin s.mNumDOFs => A_b.coeff i 0)
            = (-e) • (fun i : Fin s.mNumDOFs => A_b.coeff i 0)) := by
  have hn : A_b.rows = s.mNumDOFs := by
    obtain ⟨M, hM, hr, _⟩ := assembleMatrix_dims s world .BOUNCING hres
    have hM2 : getBouncingConstraintMatrix s world = .ok M := hM
    rw [hAb] at hM2
    rw [Except.ok.inj hM2]
    exact hr
  have hAb1 : getBouncingConstraintMatrix s (rewind s world) = .ok A_b := by
    rw [getBouncingConstraintMatrix_rewind]; exact hAb
  have hsize : ¬ A_b.size = 0 := by
    obtain ⟨i, hi, _⟩ := ha
    simp only [Mat.size, hcols, hn, Nat.mul_one]
    omega
  rw [← hn] at ha hsolve ⊢
  have hN := sumTo_sq_ne_zero A_b.rows (fun i => A_b.coeff i 0) ha
  have hget : ∃ s1, getBounceApproximationJacobian ext s world = .ok s1
      ∧ s1.mCachedBounceApproximationDirty = false
      ∧ s1.mCachedBounceApproximation.rows = A_b.rows
      ∧ s1.mCachedBounceApproximation.cols = A_b.rows
      ∧ ∀ r i, r < A_b.rows → i < A_b.rows →
          s1.mCachedBounceApproximation.coeff r i
            = coeffAt (Vec.sub (bounceCenter A_b.rows)
                (ext.solve (bounceW A_b).transpose
                  (Vec.add [e] ((bounceW A_b).transpose.mulVec (bounceCenter A_b.rows)))))
                (i * A_b.rows + r) := by
    cases hg : getBounceApproximationJacobian ext s world with
    | error err =>
      exfalso
      unfold getBounceApproximationJacobian at hg
      rw [if_pos hdirty] at hg
      simp only [hAb1, if_neg hsize, hrest] at hg
      cases hg
    | ok s1 =>
      unfold getBounceApproximationJacobian at hg
      rw [if_pos hdirty] at hg
      simp only [hAb1, if_neg hsize, hrest, Except.ok.injEq] at hg
      subst hg
      refine ⟨_, rfl, rfl, hn.symm, hn.symm, ?_⟩
      intro r i hr hi
      simp only [← hn]
      rw [if_pos ⟨hr, hi⟩]
  obtain ⟨s1, hs1, hd1, hr1, hc1, hX⟩ := hget
  have hsum : Matrix.dotProduct (fun i : Fin A_b.rows => A_b.coeff i 0)
      (fun i : Fin A_b.rows => A_b.coeff i 0)
      = sumTo A_b.rows (fun i => A_b.coeff i 0 ^ 2) := by
    rw [sumTo_eq_sum]
    simp only [Matrix.dotProduct, pow_two]
  have hXm : ∀ r i : Fin A_b.rows,
      s1.mCachedBounceApproximation.toMatrix A_b.rows A_b.rows r i
        = (if i = r then 1 else 0)
          - ((e + sumTo A_b.rows (fun i => A_b.coeff i 0 ^ 2))
              / sumTo A_b.rows (fun i => A_b.coeff i 0 ^ 2) ^ 2)
            * (A_b.coeff i 0 * A_b.coeff r 0) := by
    intro r i
    simp only [Mat.toMatrix]
    rw [hX r i r.2 i.2, coeffAt_bounce_q ext A_b e hcols hN hsolve i r i.2 r.2]
    simp only [Fin.ext_iff]
  have key := mulVec_identity_sub_outer A_b.rows _ (fun i : Fin A_b.rows => A_b.coeff i 0) _ hXm
  have hNd : Matrix.dotProduct (fun i : Fin A_b.rows => A_b.coeff i 0)
      (fun i : Fin A_b.rows => A_b.coeff i 0) ≠ 0 := by rw [hsum]; exact hN
  have hXa : (s1.mCachedBounceApproximation.toMatrix A_b.rows A_b.rows).mulVec
        (fun i : Fin A_b.rows => A_b.coeff i 0)
      = (-(e / Matrix.dotProduct (fun i : Fin A_b.rows => A_b.coeff i 0)
            (fun i : Fin A_b.rows => A_b.coeff i 0)))
        • (fun i : Fin A_b.rows => A_b.coeff i 0) := by
    rw [key, ← hsum]
    funext r
    simp only [Pi.sub_apply, Pi.smul_apply, smul_eq_mul]
    field_simp
    ring
  refine ⟨s1, hs1, hd1, hr1, hc1, hXa, ?_, ?_, ?_⟩
  · rw [hXa, Matrix.dotProduct_smul, smul_eq_mul]
    field_simp
  · intro v hv
    rw [key, hv, mul_zero, zero_smul, sub_zero]
  · intro h1
    rw [hXa, h1, div_one]

/-- Witness of the amended C16: one bouncing constraint with column `(1, 1)`
and restitution `1/2` on a two-DOF skeleton, with the minimum-norm row solver:
the getter returns and `a . (X a) = -1/2`. -/
theorem bounceApproximation_one_constraint_witness :
    ∃ A_b s1,
      getBouncingConstraintMatrix exampleBounceSnapshot exampleBounceWorld = .ok A_b
      ∧ A_b.cols = 1 ∧ A_b.coeff 0 0 = 1 ∧ A_b.coeff 1 0 = 1
      ∧ getBounceApproximationJacobian exampleBounceExternal exampleBounceSnapshot
          exampleBounceWorld = .ok s1
      ∧ Matrix.dotProduct (fun i : Fin 2 => A_b.coeff i 0)
          ((s1.mCachedBounceApproximation.toMatrix 2 2).mulVec (fun i : Fin 2 => A_b.coeff i 0))
        = -(1 / 2) := by
  have hgm : exampleBounceSnapshot.mGradientMatrices = [exampleBounceGroup] := rfl
  have hres : ∀ g ∈ exampleBounceSnapshot.mGradientMatrices,
      ∀ name ∈ g.skeletons, (exampleBounceWorld.getSkeleton name).isSome := by
    rw [hgm]; decide
  obtain ⟨A_b, hAb, hr, hc⟩ := assembleMatrix_dims exampleBounceSnapshot exampleBounceWorld
    .BOUNCING hres
  have hAb2 : getBouncingConstraintMatrix exampleBounceSnapshot exampleBounceWorld = .ok A_b :=
    hAb
  have hc1 : A_b.cols = 1 := hc
  have hr2 : A_b.rows = 2 := hr
  have h00 : (match getBouncingConstraintMatrix exampleBounceSnapshot exampleBounceWorld with
      | .ok M0 => M0.coeff 0 0
      | .error _ => 0) = 1 := rfl
  have h10 : (match getBouncingConstraintMatrix exampleBounceSnapshot exampleBounceWorld with
      | .ok M0 => M0.coeff 1 0
      | .error _ => 0) = 1 := rfl
  rw [hAb2] at h00 h10
  have h00 : A_b.coeff 0 0 = 1 := h00
  have ha : ∃ i, i < exampleBounceSnapshot.mNumDOFs ∧ A_b.coeff i 0 ≠ 0 :=
    ⟨0, by decide, by rw [h00]; exact one_ne_zero⟩
  have ha2 : ∃ i, i < A_b.rows ∧ (fun i => A_b.coeff i 0) i ≠ 0 :=
    ⟨0, by rw [hr2]; decide, by show A_b.coeff 0 0 ≠ 0; rw [h00]; exact one_ne_zero⟩
  have hS : sumTo (bounceW A_b).transpose.cols
      (fun x => (bounceW A_b).transpose.coeff 0 x ^ 2) ≠ 0 := by
    rw [sumTo_bounceW_sq A_b hc1]
    exact pow_ne_zero 2 (sumTo_sq_ne_zero A_b.rows (fun i => A_b.coeff i 0) ha2)
  obtain ⟨s1, hs1, _, _, _, _, hdot, _, _⟩ :=
    bounceApproximation_one_constraint exampleBounceExternal exampleBounceSnapshot
      exampleBounceWorld A_b (1 / 2) hres hAb2 hc1 rfl ha rfl
      (minNormSolveRow_isMinNorm _ _ hc1 hS)
  exact ⟨A_b, s1, hAb2, hc1, h00, h10, hs1, hdot⟩

/-- Counterexample to C16 as stated: one bouncing constraint with the nonzero
column `a = (1, 1)` and restitution `e = 1/2`, the dense solve being the
minimum-norm least-squares solution: the cached matrix sends `a` to
`(-1/4, -1/4) = -(e / 2) a`, not to `-e a = (-1/2, -1/2)`. -/
theorem bounceApproximation_not_minus_e :
    ∃ A_b s1,
      getBouncingConstraintMatrix exampleBounceSnapshot exampleBounceWorld = .ok A_b
      ∧ A_b.rows = 2 ∧ A_b.cols = 1 ∧ A_b.coeff 0 0 = 1 ∧ A_b.coeff 1 0 = 1
      ∧ getRestitutionDiagonals exampleBounceExternal exampleBounceSnapshot = .ok [1 / 2]
      ∧ IsMinNormLeastSquares (bounceW A_b).transpose
          (Vec.add [1 / 2] ((bounceW A_b).transpose.mulVec (bounceCenter 2)))
          (exampleBounceExternal.solve (bounceW A_b).transpose
            (Vec.add [1 / 2] ((bounceW A_b).transpose.mulVec (bounceCenter 2))))
      ∧ getBounceApproximationJacobian exampleBounceExternal exampleBounceSnapshot
          exampleBounceWorld = .ok s1
      ∧ s1.mCachedBounceApproximation.mulVec [1, 1] = [-(1 / 4), -(1 / 4)]
      ∧ s1.mCachedBounceApproximation.mulVec [1, 1] ≠ Vec.scale (-(1 / 2)) [1, 1] := by
  refine ⟨_, _, rfl, rfl, rfl, rfl, rfl, rfl, ?_, rfl, ?_, ?_⟩
  · exact minNormSolveRow_isMinNorm _ _ rfl (by with_unfolding_all decide)
  · with_unfolding_all rfl
  · with_unfolding_all decide

/-! ## Caches are filled once -/

theorem getSixJacobians_kept (ext : External) (s s1 : BackpropSnapshot) (world : World)
    (h : getSixJacobians ext s world = .ok s1) : cachesKept s s1 := by
  unfold getSixJacobians at h
  cases h1 : getPosPosJacobian ext s world with
  | error e => rw [h1] at h; cases h
  | ok t1 =>
  rw [h1] at h
  simp only at h
  cases h2 : getPosVelJacobian ext t1 world with
  | error e => rw [h2] at h; cases h
  | ok t2 =>
  rw [h2] at h
  simp only at h
  cases h3 : getVelPosJacobian ext t2 world with
  | error e => rw [h3] at h; cases h
  | ok t3 =>
  rw [h3] at h
  simp only at h
  cases h4 : getVelVelJacobian ext t3 world with
  | error e => rw [h4] at h; cases h
  | ok t4 =>
  rw [h4] at h
  simp only at h
  cases h5 : getForceVelJacobian ext t4 world with
  | error e => rw [h5] at h; cases h
  | ok t5 =>
  rw [h5] at h
  simp only at h
  exact cachesKept_trans _ _ _ (getPosPosJacobian_kept ext s t1 world h1)
    (cachesKept_trans _ _ _ (getPosVelJacobian_kept ext t1 t2 world h2)
      (cachesKept_trans _ _ _ (getVelPosJacobian_kept ext t2 t3 world h3)
        (cachesKept_trans _ _ _ (getVelVelJacobian_kept ext t3 t4 world h4)
          (cachesKept_trans _ _ _ (getForceVelJacobian_kept ext t4 t5 world h5)
            (getMassVelJacobian_kept ext t5 s1 world h)))))

theorem backprop_kept (ext : External) (s s1 : BackpropSnapshot) (world : World)
    (next : LossGradient) (explore : Bool) (r : LossGradient)
    (h : backprop ext s world next explore = .ok (s1, r)) : cachesKept s s1 := by
  unfold backprop at h
  cases explore with
  | false =>
    simp only [if_true] at h
    cases h1 : getSixJacobians ext s (preStepWorld s world) with
    | error e => rw [h1] at h; cases h
    | ok t1 =>
      rw [h1] at h
      simp only [Except.ok.injEq, Prod.mk.injEq] at h
      rw [← h.1]
      exact getSixJacobians_kept ext s t1 _ h1
  | true =>
    simp only [Bool.true_eq_false, if_false] at h
    cases h1 : getMassVelJacobian ext s (preStepWorld s world) with
    | error e => rw [h1] at h; cases h
    | ok t1 =>
      rw [h1] at h
      simp only at h
      split at h
      · cases h
      · simp only [Except.ok.injEq, Prod.mk.injEq] at h
        rw [← h.1]
        exact getMassVelJacobian_kept ext s t1 _ h1

theorem getPosJacobianWrt_kept (ext : External) (s s1 : BackpropSnapshot) (world : World)
    (wrt : WithRespectTo) (J : Mat) (h : getPosJacobianWrt ext s world wrt = .ok (s1, J)) :
    cachesKept s s1 := by
  unfold getPosJacobianWrt at h
  split at h
  · cases h1 : getPosPosJacobian ext s world with
    | error e => rw [h1] at h; cases h
    | ok t1 =>
      rw [h1] at h
      simp only [Except.ok.injEq, Prod.mk.injEq] at h
      rw [← h.1]
      exact getPosPosJacobian_kept ext s t1 world h1
  · split at h
    · cases h1 : getVelPosJacobian ext s world with
      | error e => rw [h1] at h; cases h
      | ok t1 =>
        rw [h1] at h
        simp only [Except.ok.injEq, Prod.mk.injEq] at h
        rw [← h.1]
        exact getVelPosJacobian_kept ext s t1 world h1
    · simp only [Except.ok.injEq, Prod.mk.injEq] at h
      rw [← h.1]
      exact cachesKept_refl s

/-- No operation sets the dirty flag of a filled cache or changes its matrix. -/
theorem run_kept (ext : External) (op : SnapshotOperation) (s s1 : BackpropSnapshot)
    (h : op.run ext s = .ok s1) : cleanCachesKept s s1 := by
  cases op with
  | getPosPosJacobian world => exact (getPosPosJacobian_kept ext s s1 world h).2
  | getPosVelJacobian world => exact (getPosVelJacobian_kept ext s s1 world h).2
  | getVelPosJacobian world => exact (getVelPosJacobian_kept ext s s1 world h).2
  | getVelVelJacobian world => exact (getVelVelJacobian_kept ext s s1 world h).2
  | getForceVelJacobian world => exact (getForceVelJacobian_kept ext s s1 world h).2
  | getMassVelJacobian world => exact (getMassVelJacobian_kept ext s s1 world h).2
  | getBounceApproximationJacobian world =>
    exact (getBounceApproximationJacobian_kept ext s s1 world h).2
  | getPosJacobianWrt world wrt =>
    simp only [SnapshotOperation.run] at h
    cases h1 : getPosJacobianWrt ext s world wrt with
    | error e => rw [h1] at h; cases h
    | ok p =>
      obtain ⟨t, J⟩ := p
      rw [h1] at h
      simp only [Except.ok.injEq] at h
      subst h
      exact (getPosJacobianWrt_kept ext s t world wrt J h1).2
  | backprop world next explore =>
    simp only [SnapshotOperation.run] at h
    cases h1 : backprop ext s world next explore with
    | error e => rw [h1] at h; cases h
    | ok p =>
      obtain ⟨t, r⟩ := p
      rw [h1] at h
      simp only [Except.ok.injEq] at h
      subst h
      exact (backprop_kept ext s t world next explore r h1).2
  | setUseFDOverride b =>
    simp only [SnapshotOperation.run, Except.ok.injEq] at h
    subst h
    exact cleanCachesKept_refl s
  | setSlowDebugResultsAgainstFD b =>
    simp only [SnapshotOperation.run, Except.ok.injEq] at h
    subst h
    exact cleanCachesKept_refl s

theorem runOperations_kept (ext : External) (ops : List SnapshotOperation)
    (s s1 : BackpropSnapshot) (h : runOperations ext ops s = .ok s1) :
    cleanCachesKept s s1 := by
  induction ops generalizing s with
  | nil =>
    simp only [runOperations, Except.ok.injEq] at h
    subst h
    exact cleanCachesKept_refl s
  | cons op rest ih =>
    simp only [runOperations] at h
    cases h1 : op.run ext s with
    | error e => rw [h1] at h; cases h
    | ok t =>
      rw [h1] at h
      exact cleanCachesKept_trans _ _ _ (run_kept ext op s t h1) (ih t h)

theorem getForceVelJacobian_clears (ext : External) (s s1 : BackpropSnapshot) (world : World)
    (h : getForceVelJacobian ext s world = .ok s1) : s1.mCachedForceVelDirty = false := by
  unfold getForceVelJacobian at h
  dsimp only at h
  repeat' (split at h <;> try dsimp only at h)
  all_goals cases h
  all_goals simp_all

theorem getMassVelJacobian_clears (ext : External) (s s1 : BackpropSnapshot) (world : World)
    (h : getMassVelJacobian ext s world = .ok s1) : s1.mCachedMassVelDirty = false := by
  unfold getMassVelJacobian at h
  dsimp only at h
  repeat' (split at h <;> try dsimp only at h)
  all_goals cases h
  all_goals simp_all

theorem getPosVelJacobian_clears (ext : External) (s s1 : BackpropSnapshot) (world : World)
    (h : getPosVelJacobian ext s world = .ok s1) : s1.mCachedPosVelDirty = false := by
  unfold getPosVelJacobian at h
  dsimp only at h
  repeat' (split at h <;> try dsimp only at h)
  all_goals cases h
  all_goals simp_all

theorem getVelVelJacobian_clears (ext : External) (s s1 : BackpropSnapshot) (world : World)
    (h : getVelVelJacobian ext s world = .ok s1) : s1.mCachedVelVelDirty = false := by
  unfold getVelVelJacobian at h
  dsimp only at h
  repeat' (split at h <;> try dsimp only at h)
  all_goals cases h
  all_goals simp_all

theorem getPosPosJacobian_clears (ext : External) (s s1 : BackpropSnapshot) (world : World)
    (h : getPosPosJacobian ext s world = .ok s1) : s1.mCachedPosPosDirty = false := by
  unfold getPosPosJacobian at h
  dsimp only at h
  repeat' (split at h <;> try dsimp only at h)
  all_goals cases h
  all_goals simp_all

theorem getVelPosJacobian_clears (ext : External) (s s1 : BackpropSnapshot) (world : World)
    (h : getVelPosJacobian ext s world = .ok s1) : s1.mCachedVelPosDirty = false := by
  unfold getVelPosJacobian at h
  dsimp only at h
  repeat' (split at h <;> try dsimp only at h)
  all_goals cases h
  all_goals simp_all

theorem getBounceApproximationJacobian_clears (ext : External) (s s1 : BackpropSnapshot)
    (world : World) (h : getBounceApproximationJacobian ext s world = .ok s1) :
    s1.mCachedBounceApproximationDirty = false := by
  unfold getBounceApproximationJacobian at h
  dsimp only at h
  repeat' (split at h <;> try dsimp only at h)
  all_goals cases h
  all_goals simp_all

/-- C17 (amended): each of the six Jacobian getters that returns has cleared
its own dirty flag; through every sequence of the operations of the snapshot
other than construction and `benchmarkJacobians` (the caching getters,
`getPosJacobianWrt`, `backprop` in both modes, `setUseFDOverride`,
`setSlowDebugResultsAgainstFD`) that flag stays cleared, and a later call of
the getter, for any world, returns the snapshot as it is, with the matrix that
the first call cached; and no such sequence sets a cleared dirty flag of any
cache back to dirty or changes the matrix of a cache whose flag is cleared. -/
theorem jacobian_caches_filled_once (ext : External) (s : BackpropSnapshot) :
    (∀ world s1, getPosPosJacobian ext s world = .ok s1 →
      s1.mCachedPosPosDirty = false
      ∧ ∀ ops s2, runOperations ext ops s1 = .ok s2 → ∀ world2,
          getPosPosJacobian ext s2 world2 = .ok s2 ∧ s2.mCachedPosPos = s1.mCachedPosPos)
    ∧ (∀ world s1, getPosVelJacobian ext s world = .ok s1 →
      s1.mCachedPosVelDirty = false
      ∧ ∀ ops s2, runOperations ext ops s1 = .ok s2 → ∀ world2,
          getPosVelJacobian ext s2 world2 = .ok s2 ∧ s2.mCachedPosVel = s1.mCachedPosVel)
    ∧ (∀ world s1, getVelPosJacobian ext s world = .ok s1 →
      s1.mCachedVelPosDirty = false
      ∧ ∀ ops s2, runOperations ext ops s1 = .ok s2 → ∀ world2,
          getVelPosJacobian ext s2 world2 = .ok s2 ∧ s2.mCachedVelPos = s1.mCachedVelPos)
    ∧ (∀ world s1, getVelVelJacobian ext s world = .ok s1 →
      s1.mCachedVelVelDirty = false
      ∧ ∀ ops s2, runOperations ext ops s1 = .ok s2 → ∀ world2,
          getVelVelJacobian ext s2 world2 = .ok s2 ∧ s2.mCachedVelVel = s1.mCachedVelVel)
    ∧ (∀ world s1, getForceVelJacobian ext s world = .ok s1 →
      s1.mCachedForceVelDirty = false
      ∧ ∀ ops s2, runOperations ext ops s1 = .ok s2 → ∀ world2,
          getForceVelJacobian ext s2 world2 = .ok s2
          ∧ s2.mCachedForceVel = s1.mCachedForceVel)
    ∧ (∀ world s1, getMassVelJacobian ext s world = .ok s1 →
      s1.mCachedMassVelDirty = false
      ∧ ∀ ops s2, runOperations ext ops s1 = .ok s2 → ∀ world2,
          getMassVelJacobian ext s2 world2 = .ok s2 ∧ s2.mCachedMassVel = s1.mCachedMassVel)
    ∧ ∀ ops s2, runOperations ext ops s = .ok s2 → cleanCachesKept s s2 := by
  refine ⟨?_, ?_, ?_, ?_, ?_, ?_, fun ops s2 h => runOperations_kept ext ops s s2 h⟩
  · intro world s1 h
    have hc := getPosPosJacobian_clears ext s s1 world h
    refine ⟨hc, fun ops s2 h2 world2 => ?_⟩
    obtain ⟨hf, hm⟩ := (runOperations_kept ext ops s1 s2 h2).1 hc
    exact ⟨by unfold getPosPosJacobian; simp [hf], hm⟩
  · intro world s1 h
    have hc := getPosVelJacobian_clears ext s s1 world h
    refine ⟨hc, fun ops s2 h2 world2 => ?_⟩
    obtain ⟨hf, hm⟩ := (runOperations_kept ext ops s1 s2 h2).2.2.2.1 hc
    exact ⟨by unfold getPosVelJacobian; simp [hf], hm⟩
  · intro world s1 h
    have hc := getVelPosJacobian_clears ext s s1 world h
    refine ⟨hc, fun ops s2 h2 world2 => ?_⟩
    obtain ⟨hf, hm⟩ := (runOperations_kept ext ops s1 s2 h2).2.1 hc
    exact ⟨by unfold getVelPosJacobian; simp [hf], hm⟩
  · intro world s1 h
    have hc := getVelVelJacobian_clears ext s s1 world h
    refine ⟨hc, fun ops s2 h2 world2 => ?_⟩
    obtain ⟨hf, hm⟩ := (runOperations_kept ext ops s1 s2 h2).2.2.2.2.1 hc
    exact ⟨by unfold getVelVelJacobian; simp [hf], hm⟩
  · intro world s1 h
    have hc := getForceVelJacobian_clears ext s s1 world h
    refine ⟨hc, fun ops s2 h2 world2 => ?_⟩
    obtain ⟨hf, hm⟩ := (runOperations_kept ext ops s1 s2 h2).2.2.2.2.2.1 hc
    exact ⟨by unfold getForceVelJacobian; simp [hf], hm⟩
  · intro world s1 h
    have hc := getMassVelJacobian_clears ext s s1 world h
    refine ⟨hc, fun ops s2 h2 world2 => ?_⟩
    obtain ⟨hf, hm⟩ := (runOperations_kept ext ops s1 s2 h2).2.2.2.2.2.2.1 hc
    exact ⟨by unfold getMassVelJacobian; simp [hf], hm⟩

/-- Witness for C17: the first call of `getPosPosJacobian` on the one-DOF
snapshot caches the matrix `(1)`; after the finite-difference override is
switched on and the chained `backprop` and the getter have run, the getter
still returns the cached `(1)`, although a fresh computation would now give
the finite-difference matrix `(0)`. -/
theorem jacobian_caches_filled_once_witness :
    ∃ s1 s2,
      getPosPosJacobian exampleExternal exampleSingleSnapshot exampleSingleWorld = .ok s1
      ∧ s1.mCachedPosPosDirty = false
      ∧ s1.mCachedPosPos.coeff 0 0 = 1
      ∧ runOperations exampleExternal
          [.setUseFDOverride true, .backprop exampleSingleWorld exampleNextLoss false,
            .getPosPosJacobian exampleSingleWorld] s1 = .ok s2
      ∧ s2.mUseFDOverride = true
      ∧ (exampleExternal.finiteDifferencePosPosJacobian s2 exampleSingleWorld).coeff 0 0 = 0
      ∧ getPosPosJacobian exampleExternal s2 exampleSingleWorld = .ok s2
      ∧ s2.mCachedPosPos.coeff 0 0 = 1 := by
  have hres : ∀ g ∈ exampleSingleSnapshot.mGradientMatrices, ∀ name ∈ g.skeletons,
      (exampleSingleWorld.getSkeleton name).isSome := by
    intro g hg
    cases hg
  obtain ⟨s1, hs1, hslow1, hgm1, hnc1⟩ :=
    getPosPosJacobian_ok exampleExternal exampleSingleSnapshot exampleSingleWorld rfl hres
  have hone : (match getPosPosJacobian exampleExternal exampleSingleSnapshot
      exampleSingleWorld with
      | .ok t => t.mCachedPosPos.coeff 0 0
      | .error _ => 0) = 1 := by with_unfolding_all rfl
  rw [hs1] at hone
  obtain ⟨hc, hlater⟩ :=
    (jacobian_caches_filled_once exampleExternal exampleSingleSnapshot).1
      exampleSingleWorld s1 hs1
  have hfd : (match runOperations exampleExternal
      [.setUseFDOverride true, .backprop exampleSingleWorld exampleNextLoss false,
        .getPosPosJacobian exampleSingleWorld]
      (match getPosPosJacobian exampleExternal exampleSingleSnapshot exampleSingleWorld with
        | .ok t => t
        | .error _ => exampleSingleSnapshot) with
      | .ok t => t.mUseFDOverride
      | .error _ => false) = true := by with_unfolding_all rfl
  rw [hs1] at hfd
  cases h2 : runOperations exampleExternal
      [.setUseFDOverride true, .backprop exampleSingleWorld exampleNextLoss false,
        .getPosPosJacobian exampleSingleWorld] s1 with
  | error e => rw [h2] at hfd; cases hfd
  | ok s2 =>
    rw [h2] at hfd
    obtain ⟨hg, hm⟩ := hlater _ s2 h2 exampleSingleWorld
    exact ⟨s1, s2, hs1, hc, hone, h2, hfd, rfl, hg, by rw [hm]; exact hone⟩

/-- Counterexample to C17 as stated: `benchmarkJacobians` is an operation of a
constructed snapshot that sets cleared dirty flags back to dirty. On the
one-DOF snapshot the first call of `getPosPosJacobian` caches `(1)` and clears
the flag; after `setUseFDOverride(true)` and `benchmarkJacobians(world, 1)` the
next call of the getter returns the recomputed finite-difference matrix `(0)`. -/
theorem benchmarkJacobians_recomputes_clean_cache :
    ∃ s1 s3,
      getPosPosJacobian exampleExternal exampleSingleSnapshot exampleSingleWorld = .ok s1
      ∧ s1.mCachedPosPosDirty = false
      ∧ s1.mCachedPosPos.coeff 0 0 = 1
      ∧ benchmarkJacobians exampleExternal (setUseFDOverride s1 true) exampleSingleWorld 1
          = .ok s3
      ∧ getPosPosJacobian exampleExternal s3 exampleSingleWorld = .ok s3
      ∧ s3.mCachedPosPos.coeff 0 0 = 0
      ∧ s3.mCachedPosPos ≠ s1.mCachedPosPos := by
  have hres : ∀ g ∈ exampleSingleSnapshot.mGradientMatrices, ∀ name ∈ g.skeletons,
      (exampleSingleWorld.getSkeleton name).isSome := by
    intro g hg
    cases hg
  obtain ⟨s1, hs1, _, _, _⟩ :=
    getPosPosJacobian_ok exampleExternal exampleSingleSnapshot exampleSingleWorld rfl hres
  have hone : (match getPosPosJacobian exampleExternal exampleSingleSnapshot
      exampleSingleWorld with
      | .ok t => t.mCachedPosPos.coeff 0 0
      | .error _ => 0) = 1 := by with_unfolding_all rfl
  have hb : (match (match getPosPosJacobian exampleExternal exampleSingleSnapshot
        exampleSingleWorld with
        | .ok t => benchmarkJacobians exampleExternal (setUseFDOverride t true)
            exampleSingleWorld 1
        | .error e => .error e) with
      | .ok t => decide (t.mCachedPosPos.coeff 0 0 = 0) && !t.mCachedPosPosDirty
      | .error _ => false) = true := by with_unfolding_all rfl
  rw [hs1] at hone hb
  simp only at hone hb
  cases h3 : benchmarkJacobians exampleExternal (setUseFDOverride s1 true)
      exampleSingleWorld 1 with
  | error e => rw [h3] at hb; cases hb
  | ok s3 =>
    rw [h3] at hb
    simp only [Bool.and_eq_true, decide_eq_true_eq, Bool.not_eq_true'] at hb
    refine ⟨s1, s3, hs1, getPosPosJacobian_clears _ _ _ _ hs1, hone, h3, ?_, hb.1, ?_⟩
    · unfold getPosPosJacobian
      simp [hb.2]
    · intro heq
      rw [heq, hone] at hb
      exact absurd hb.1 (by norm_num)

/-! ## Restoring the world after finite differencing -/

theorem map_setDofs_written (upd : DegreeOfFreedom → ℚ → DegreeOfFreedom)
    (f : DegreeOfFreedom → ℚ) (hf : ∀ d x, f (upd d x) = x) (ds : List DegreeOfFreedom)
    (c : Nat) (v : Vec) :
    (setDofs upd ds c v).map f = (List.range ds.length).map (fun i => coeffAt v (c + i)) := by
  induction ds generalizing c with
  | nil => simp [setDofs]
  | cons d ds ih =>
    simp only [setDofs, List.map_cons, hf, ih, List.length_cons, List.range_succ_eq_map,
      List.map_map, Nat.add_zero]
    congr 1
    apply List.map_congr_left
    intro i _
    simp only [Function.comp]
    congr 1
    omega

theorem map_setDofs_kept (upd : DegreeOfFreedom → ℚ → DegreeOfFreedom)
    (f : DegreeOfFreedom → ℚ) (hf : ∀ d x, f (upd d x) = f d) (ds : List DegreeOfFreedom)
    (c : Nat) (v : Vec) : (setDofs upd ds c v).map f = ds.map f := by
  induction ds generalizing c with
  | nil => simp [setDofs]
  | cons d ds ih => simp only [setDofs, List.map_cons, hf, ih]

theorem map_range_coeffAt (v : Vec) :
    (List.range v.length).map (fun i => coeffAt v (0 + i)) = v := by
  apply List.ext_getElem
  · simp
  · intro i h1 h2
    simp [coeffAt, List.getD, List.getElem?_eq_getElem h2]

theorem allDofs_setPositions (world : World) (v : Vec) :
    (world.setPositions v).allDofs
      = setDofs (fun d x => { d with position := x }) world.allDofs 0 v := by
  simp only [World.setPositions, World.allDofs, flatten_setSkeletons]

theorem allDofs_setVelocities (world : World) (v : Vec) :
    (world.setVelocities v).allDofs
      = setDofs (fun d x => { d with velocity := x }) world.allDofs 0 v := by
  simp only [World.setVelocities, World.allDofs, flatten_setSkeletons]

theorem allDofs_setExternalForces (world : World) (v : Vec) :
    (world.setExternalForces v).allDofs
      = setDofs (fun d x => { d with force := x }) world.allDofs 0 v := by
  simp only [World.setExternalForces, World.allDofs, flatten_setSkeletons]

theorem allDofs_setCachedLCPSolution (world : World) (v : Vec) :
    (world.setCachedLCPSolution v).allDofs = world.allDofs := rfl

theorem length_allDofs (world : World) : world.allDofs.length = world.getNumDofs := by
  simp only [World.allDofs, World.getNumDofs, List.length_flatten, List.map_map]
  rfl

/-- After `snapshot.restore()` the world has the recorded positions, velocities,
external forces and cached LCP solution, when the recorded vectors have one
coefficient per DOF of the world. -/
theorem restore_state (snapshot : RestorableSnapshot) (world : World)
    (hp : snapshot.mPositions.length = world.getNumDofs)
    (hv : snapshot.mVelocities.length = world.getNumDofs)
    (hf : snapshot.mForces.length = world.getNumDofs) :
    (snapshot.restore world).getPositions = snapshot.mPositions
    ∧ (snapshot.restore world).getVelocities = snapshot.mVelocities
    ∧ (snapshot.restore world).getExternalForces = snapshot.mForces
    ∧ (snapshot.restore world).cachedLCPSolution = snapshot.mLCPCache := by
  have hlen := length_allDofs world
  refine ⟨?_, ?_, ?_, rfl⟩
  · simp only [RestorableSnapshot.restore, World.getPositions, allDofs_setCachedLCPSolution,
      allDofs_setExternalForces, allDofs_setVelocities, allDofs_setPositions]
    rw [map_setDofs_kept (fun d x => { d with force := x }) (fun d => d.position)
        (fun _ _ => rfl),
      map_setDofs_kept (fun d x => { d with velocity := x }) (fun d => d.position)
        (fun _ _ => rfl),
      map_setDofs_written (fun d x => { d with position := x }) (fun d => d.position)
        (fun _ _ => rfl), hlen, ← hp]
    exact map_range_coeffAt _
  · simp only [RestorableSnapshot.restore, World.getVelocities, allDofs_setCachedLCPSolution,
      allDofs_setExternalForces, allDofs_setVelocities, allDofs_setPositions]
    rw [map_setDofs_kept (fun d x => { d with force := x }) (fun d => d.velocity)
        (fun _ _ => rfl),
      map_setDofs_written (fun d x => { d with velocity := x }) (fun d => d.velocity)
        (fun _ _ => rfl), length_setDofs, hlen, ← hv]
    exact map_range_coeffAt _
  · simp only [RestorableSnapshot.restore, World.getExternalForces,
      allDofs_setCachedLCPSolution, allDofs_setExternalForces, allDofs_setVelocities,
      allDofs_setPositions]
    rw [map_setDofs_written (fun d x => { d with force := x }) (fun d => d.force)
        (fun _ _ => rfl), length_setDofs, length_setDofs, hlen, ← hf]
    exact map_range_coeffAt _

/-- Without clamping constraints the Ridders routine returns from inside the
test `original.size() == 0`, and the world it leaves is the rewound one. -/
theorem riddersClampingConstraintsTranspose_empty
    (columns : RestorableSnapshot → World → Mat → Except Failure (World × Mat))
    (s : BackpropSnapshot) (world : World) (v0 : Vec) (A_c : Mat)
    (hAc : getClampingConstraintMatrix s (rewind s world) = .ok A_c) (hcols : A_c.cols = 0) :
    finiteDifferenceRiddersJacobianOfClampingConstraintsTranspose columns s world v0
      = .ok (rewind s world, Mat.zero 0 s.mNumDOFs) := by
  unfold finiteDifferenceRiddersJacobianOfClampingConstraintsTranspose
  have hlen : (A_c.transpose.mulVec v0).length = 0 := by
    simp [Mat.mulVec, Mat.transpose, hcols]
  unfold rewind at hAc
  simp only [hAc, hlen, if_true]
  rfl

/-- C18: the early return of
`finiteDifferenceRiddersJacobianOfClampingConstraintsTranspose` leaves the
world rewound. The routine is entered with the one-DOF world at position `1/4`
and velocity `1/2`, on the snapshot whose pre-step position and velocity are
`0` and which has no clamping constraint; it returns the empty Jacobian and
leaves the world at position `0` and velocity `0`, whatever the loop over the
DOFs would have done. -/
theorem riddersClampingConstraintsTranspose_leaves_world_rewound
    (columns : RestorableSnapshot → World → Mat → Except Failure (World × Mat)) :
    ∃ world1 J,
      finiteDifferenceRiddersJacobianOfClampingConstraintsTranspose columns
          exampleSingleSnapshot exampleMovedWorld [1] = .ok (world1, J)
      ∧ J.rows = 0
      ∧ exampleMovedWorld.getPositions = [1 / 4]
      ∧ exampleMovedWorld.getVelocities = [1 / 2]
      ∧ world1.getPositions = [0]
      ∧ world1.getVelocities = [0]
      ∧ world1.getPositions ≠ exampleMovedWorld.getPositions
      ∧ world1.getVelocities ≠ exampleMovedWorld.getVelocities := by
  refine ⟨rewind exampleSingleSnapshot exampleMovedWorld, Mat.zero 0 1, rfl, rfl, rfl, rfl,
    rfl, rfl, ?_, ?_⟩
  · intro h
    have h1 : (rewind exampleSingleSnapshot exampleMovedWorld).getPositions = [0] := rfl
    have h2 : exampleMovedWorld.getPositions = [1 / 4] := rfl
    rw [h1, h2] at h
    simp at h
  · intro h
    have h1 : (rewind exampleSingleSnapshot exampleMovedWorld).getVelocities = [0] := rfl
    have h2 : exampleMovedWorld.getVelocities = [1 / 2] := rfl
    rw [h1, h2] at h
    simp at h

/-- The plain central-difference routine restores the world on its way out: the
positions, velocities, external forces and cached LCP solution are those at
entry, for every loop that keeps the number of DOFs of the world. -/
theorem finiteDifferenceJacobianOfClampingConstraintsTranspose_restores
    (plainColumns riddersColumns :
      RestorableSnapshot → World → Mat → Except Failure (World × Mat))
    (s : BackpropSnapshot) (world world1 : World) (v0 : Vec) (J : Mat)
    (hshape : ∀ snapshot w M w2 M2, plainColumns snapshot w M = .ok (w2, M2) →
      w2.getNumDofs = w.getNumDofs)
    (h : finiteDifferenceJacobianOfClampingConstraintsTranspose plainColumns riddersColumns
      s world v0 false = .ok (world1, J)) :
    world1.getPositions = world.getPositions
    ∧ world1.getVelocities = world.getVelocities
    ∧ world1.getExternalForces = world.getExternalForces
    ∧ world1.cachedLCPSolution = world.cachedLCPSolution := by
  unfold finiteDifferenceJacobianOfClampingConstraintsTranspose at h
  simp only [Bool.false_eq_true, if_false] at h
  split at h
  · cases h
  · rename_i A_c hAc
    split at h
    · cases h
    · rename_i world2 J2 hcol
      simp only [Except.ok.injEq, Prod.mk.injEq] at h
      rw [← h.1]
      have hn : world2.getNumDofs = world.getNumDofs := by
        rw [hshape _ _ _ _ _ hcol]
        exact getNumDofs_rewind s world
      exact restore_state (RestorableSnapshot.create world) world2
        (by simp [RestorableSnapshot.create, World.getPositions, length_allDofs, hn])
        (by simp [RestorableSnapshot.create, World.getVelocities, length_allDofs, hn])
        (by simp [RestorableSnapshot.create, World.getExternalForces, length_allDofs, hn])

/-- With a clamping constraint the Ridders routine reaches its last line and
restores the world as well. -/
theorem riddersClampingConstraintsTranspose_restores
    (columns : RestorableSnapshot → World → Mat → Except Failure (World × Mat))
    (s : BackpropSnapshot) (world world1 : World) (v0 : Vec) (J A_c : Mat)
    (hshape : ∀ snapshot w M w2 M2, columns snapshot w M = .ok (w2, M2) →
      w2.getNumDofs = w.getNumDofs)
    (hAc : getClampingConstraintMatrix s (rewind s world) = .ok A_c) (hcols : A_c.cols ≠ 0)
    (h : finiteDifferenceRiddersJacobianOfClampingConstraintsTranspose columns s world v0
      = .ok (world1, J)) :
    world1.getPositions = world.getPositions
    ∧ world1.getVelocities = world.getVelocities
    ∧ world1.getExternalForces = world.getExternalForces
    ∧ world1.cachedLCPSolution = world.cachedLCPSolution := by
  unfold finiteDifferenceRiddersJacobianOfClampingConstraintsTranspose at h
  have hlen : ¬ (A_c.transpose.mulVec v0).length = 0 := by
    simpa [Mat.mulVec, Mat.transpose] using hcols
  unfold rewind at hAc
  simp only [hAc, hlen, if_false] at h
  split at h
  · cases h
  · rename_i world2 J2 hcol
    simp only [Except.ok.injEq, Prod.mk.injEq] at h
    rw [← h.1]
    have hn : world2.getNumDofs = world.getNumDofs := by
      rw [hshape _ _ _ _ _ hcol]
      exact getNumDofs_rewind s world
    exact restore_state (RestorableSnapshot.create world) world2
      (by simp [RestorableSnapshot.create, World.getPositions, length_allDofs, hn])
      (by simp [RestorableSnapshot.create, World.getVelocities, length_allDofs, hn])
      (by simp [RestorableSnapshot.create, World.getExternalForces, length_allDofs, hn])

/-! ## Backward propagation through the groups: a skeleton is visited once -/

/-- The first inner loop over the skeletons of a group returns exactly when no
name repeats and none was visited before; otherwise it fails the assertion
`!skelAlreadyVisited`. -/
theorem gatherGroupLoss_spec (s : BackpropSnapshot) (world : World) (next : LossGradient)
    (names : List String) (cursor : Nat) (visited : List String) (g : LossGradient)
    (hres : ∀ name ∈ names, (world.getSkeleton name).isSome) :
    ((names.Nodup ∧ ∀ name ∈ names, name ∉ visited) →
      ∃ visited1 g1, gatherGroupLoss s world next names cursor visited g = .ok (visited1, g1)
        ∧ ∀ name, name ∈ visited1 ↔ name ∈ names ∨ name ∈ visited)
    ∧ (¬ (names.Nodup ∧ ∀ name ∈ names, name ∉ visited) →
      gatherGroupLoss s world next names cursor visited g = .error .assertion) := by
  induction names generalizing cursor visited g with
  | nil =>
    refine ⟨fun _ => ⟨visited, g, rfl, fun name => by simp⟩, fun h => ?_⟩
    exact absurd ⟨List.nodup_nil, fun _ hn => absurd hn (List.not_mem_nil _)⟩ h
  | cons name rest ih =>
    have hsome := hres name (List.mem_cons_self _ _)
    obtain ⟨skel, hskel⟩ := Option.isSome_iff_exists.mp hsome
    have hname := (getSkeleton_some world name skel hskel).2
    have hrest : ∀ n ∈ rest, (world.getSkeleton n).isSome :=
      fun n hn => hres n (List.mem_cons_of_mem _ hn)
    simp only [gatherGroupLoss, hskel, hname]
    by_cases hv : name ∈ visited
    · simp only [hv, if_true]
      exact ⟨fun h => absurd hv (h.2 name (List.mem_cons_self _ _)), fun _ => trivial⟩
    · simp only [hv, if_false]
      obtain ⟨ih1, ih2⟩ := ih (cursor + skel.getNumDofs) (name :: visited)
        { g with
          lossWrtPosition :=
            writeSegment g.lossWrtPosition cursor skel.getNumDofs
              (segmentOf next.lossWrtPosition (s.mSkeletonOffset name) skel.getNumDofs)
          lossWrtVelocity :=
            writeSegment g.lossWrtVelocity cursor skel.getNumDofs
              (segmentOf next.lossWrtVelocity (s.mSkeletonOffset name) skel.getNumDofs) }
        hrest
      have hiff : (rest.Nodup ∧ ∀ n ∈ rest, n ∉ name :: visited)
          ↔ ((name :: rest).Nodup ∧ ∀ n ∈ name :: rest, n ∉ visited) := by
        simp only [List.nodup_cons, List.mem_cons, not_or, forall_eq_or_imp]
        constructor
        · rintro ⟨h1, h2⟩
          exact ⟨⟨fun hm => (h2 name hm).1 rfl, h1⟩, hv, fun n hn => (h2 n hn).2⟩
        · rintro ⟨⟨h1, h2⟩, _, h4⟩
          exact ⟨h2, fun n hn => ⟨fun e => h1 (e ▸ hn), h4 n hn⟩⟩
      refine ⟨fun h => ?_, fun h => ih2 (fun h1 => h (hiff.mp h1))⟩
      obtain ⟨visited1, g1, hg, hmem⟩ := ih1 (hiff.mpr h)
      refine ⟨visited1, g1, hg, fun n => ?_⟩
      rw [hmem n]
      simp only [List.mem_cons]
      tauto

/-- The second inner loop returns when the names of the group resolve. -/
theorem scatterGroupLoss_ok (s : BackpropSnapshot) (world : World) (groupThis : LossGradient)
    (names : List String) (cursor : Nat) (this : LossGradient)
    (hres : ∀ name ∈ names, (world.getSkeleton name).isSome) :
    ∃ r, scatterGroupLoss s world groupThis names cursor this = .ok r := by
  induction names generalizing cursor this with
  | nil => exact ⟨this, rfl⟩
  | cons name rest ih =>
    obtain ⟨skel, hskel⟩ := Option.isSome_iff_exists.mp (hres name (List.mem_cons_self _ _))
    simp only [scatterGroupLoss, hskel]
    exact ih _ _ (fun n hn => hres n (List.mem_cons_of_mem _ hn))

/-- The loop over the groups returns exactly when no skeleton name occurs
twice in the skeleton lists of the groups, nor was visited before; otherwise
it fails the assertion. -/
theorem backpropGroups_spec (ext : External) (s : BackpropSnapshot) (world : World)
    (next : LossGradient) (explore : Bool) (groups : List ConstrainedGroupGradientMatrices)
    (visited : List String) (groupThis groupNext this : LossGradient)
    (hres : ∀ g ∈ groups, ∀ name ∈ g.skeletons, (world.getSkeleton name).isSome) :
    (((groups.map (fun g => g.skeletons)).flatten.Nodup
        ∧ ∀ name ∈ (groups.map (fun g => g.skeletons)).flatten, name ∉ visited) →
      ∃ visited1 r, backpropGroups ext s world next explore groups visited groupThis groupNext
        this = .ok (visited1, r))
    ∧ (¬ ((groups.map (fun g => g.skeletons)).flatten.Nodup
        ∧ ∀ name ∈ (groups.map (fun g => g.skeletons)).flatten, name ∉ visited) →
      backpropGroups ext s world next explore groups visited groupThis groupNext this
        = .error .assertion) := by
  induction groups generalizing visited groupThis groupNext this with
  | nil =>
    refine ⟨fun _ => ⟨visited, this, rfl⟩, fun h => ?_⟩
    exact absurd ⟨by simp, fun _ hn => by simp at hn⟩ h
  | cons group rest ih =>
    have hg := hres group (List.mem_cons_self _ _)
    have hrest : ∀ g ∈ rest, ∀ name ∈ g.skeletons, (world.getSkeleton name).isSome :=
      fun g hg1 => hres g (List.mem_cons_of_mem _ hg1)
    obtain ⟨g1, g2⟩ := gatherGroupLoss_spec s world next group.skeletons 0 visited
      { groupNext with
        lossWrtPosition := Vec.zero group.numDOFs
        lossWrtVelocity := Vec.zero group.numDOFs } hg
    simp only [backpropGroups, List.map_cons, List.flatten_cons]
    by_cases hP : group.skeletons.Nodup ∧ ∀ name ∈ group.skeletons, name ∉ visited
    · obtain ⟨visited1, gn1, hgather, hmem⟩ := g1 hP
      simp only [hgather]
      obtain ⟨this1, hscatter⟩ := scatterGroupLoss_ok s world
        (ext.groupBackprop group world
          { groupThis with
            lossWrtPosition := Vec.zero group.numDOFs
            lossWrtVelocity := Vec.zero group.numDOFs
            lossWrtTorque := Vec.zero group.numDOFs } gn1 explore)
        group.skeletons 0 this hg
      simp only [hscatter]
      obtain ⟨ih1, ih2⟩ := ih visited1
        (ext.groupBackprop group world
          { groupThis with
            lossWrtPosition := Vec.zero group.numDOFs
            lossWrtVelocity := Vec.zero group.numDOFs
            lossWrtTorque := Vec.zero group.numDOFs } gn1 explore) gn1 this1 hrest
      have hiff : ((rest.map (fun g => g.skeletons)).flatten.Nodup
            ∧ ∀ name ∈ (rest.map (fun g => g.skeletons)).flatten, name ∉ visited1)
          ↔ ((group.skeletons ++ (rest.map (fun g => g.skeletons)).flatten).Nodup
            ∧ ∀ name ∈ group.skeletons ++ (rest.map (fun g => g.skeletons)).flatten,
                name ∉ visited) := by
        rw [List.nodup_append]
        simp only [List.mem_append, hmem, not_or]
        constructor
        · rintro ⟨h1, h2⟩
          refine ⟨⟨hP.1, h1, ?_⟩, ?_⟩
          · intro a ha hb
            exact (h2 a hb).1 ha
          · rintro n (hn | hn)
            · exact hP.2 n hn
            · exact (h2 n hn).2
        · rintro ⟨⟨_, h1, h2⟩, h3⟩
          exact ⟨h1, fun n hn => ⟨fun hm => h2 hm hn, h3 n (Or.inr hn)⟩⟩
      exact ⟨fun h => ih1 (hiff.mpr h), fun h => ih2 (fun h1 => h (hiff.mp h1))⟩
    · simp only [g2 hP]
      refine ⟨fun h => absurd ?_ hP, fun _ => trivial⟩
      rw [List.nodup_append] at h
      exact ⟨h.1.1, fun n hn => h.2 n (List.mem_append_left _ hn)⟩

/-- C19: with the slow-debug comparison off and groups that list skeletons of
the world, `backprop` with `exploreAlternateStrategies = true` fails the
assertion `!skelAlreadyVisited` whenever a skeleton name occurs twice in the
concatenated skeleton lists of the constraint groups (in two groups, or twice
in one list); and when the lists are duplicate-free and pairwise disjoint the
assertion does not fail and the call returns. -/
theorem backprop_perGroup_visits_once (ext : External) (s : BackpropSnapshot) (world : World)
    (next : LossGradient)
    (hslow : s.mSlowDebugResultsAgainstFD = false)
    (hres : ∀ g ∈ s.mGradientMatrices, ∀ name ∈ g.skeletons, (world.getSkeleton name).isSome) :
    (¬ (s.mGradientMatrices.map (fun g => g.skeletons)).flatten.Nodup →
      backprop ext s world next true = .error .assertion)
    ∧ (((∀ g ∈ s.mGradientMatrices, g.skeletons.Nodup)
        ∧ s.mGradientMatrices.Pairwise (fun g h => List.Disjoint g.skeletons h.skeletons)) →
      ∃ s1 r, backprop ext s world next true = .ok (s1, r))
    ∧ ((s.mGradientMatrices.map (fun g => g.skeletons)).flatten.Nodup
        ↔ (∀ g ∈ s.mGradientMatrices, g.skeletons.Nodup)
          ∧ s.mGradientMatrices.Pairwise (fun g h => List.Disjoint g.skeletons h.skeletons)) := by
  have hiff : (s.mGradientMatrices.map (fun g => g.skeletons)).flatten.Nodup
      ↔ (∀ g ∈ s.mGradientMatrices, g.skeletons.Nodup)
        ∧ s.mGradientMatrices.Pairwise (fun g h => List.Disjoint g.skeletons h.skeletons) := by
    rw [List.nodup_flatten, List.pairwise_map]
    simp only [List.mem_map, forall_exists_index, and_imp, forall_apply_eq_imp_iff₂]
  have hres1 : ∀ g ∈ s.mGradientMatrices, ∀ name ∈ g.skeletons,
      ((preStepWorld s world).getSkeleton name).isSome :=
    fun g hg name hn => isSome_getSkeleton_preStepWorld s world name (hres g hg name hn)
  obtain ⟨s1, h1, _, hgm, _⟩ := getMassVelJacobian_ok ext s (preStepWorld s world) hslow hres1
  obtain ⟨b1, b2⟩ := backpropGroups_spec ext s1 (preStepWorld s world) next true
    s1.mGradientMatrices [] ⟨[], [], [], []⟩ ⟨[], [], [], []⟩
    { lossWrtPosition := Vec.zero s.mNumDOFs
      lossWrtVelocity := Vec.zero s.mNumDOFs
      lossWrtTorque := Vec.zero s.mNumDOFs
      lossWrtMass := s1.mCachedMassVel.transpose.mulVec next.lossWrtVelocity }
    (by rw [hgm]; exact hres1)
  rw [hgm] at b1 b2
  refine ⟨fun hdup => ?_, fun hok => ?_, hiff⟩
  · have hb := b2 (fun h => hdup h.1)
    unfold backprop
    simp only [Bool.true_eq_false, if_false, h1, hgm, hb]
  · obtain ⟨visited1, r, hb⟩ := b1 ⟨hiff.mpr hok, fun _ _ hm => absurd hm (List.not_mem_nil _)⟩
    unfold backprop
    simp only [Bool.true_eq_false, if_false, h1, hgm, hb]
    exact ⟨_, _, rfl⟩

/-- Witness for C19: in `exampleOverlapWorld` the groups of `"a"` and `"c"` both
name `"c"`, and `backprop` fails the assertion; in `exampleGroupWorld` the two
groups name `"c", "a"` and `"b"`, and `backprop` returns. -/
theorem backprop_perGroup_visits_once_witness :
    ((BackpropSnapshot.create exampleOverlapWorld [] [] [] [] []).mGradientMatrices.map
        (fun g => g.skeletons)) = [["c", "a"], ["c"]]
    ∧ backprop exampleExternal (BackpropSnapshot.create exampleOverlapWorld [] [] [] [] [])
        exampleOverlapWorld exampleNextLoss true = .error .assertion
    ∧ ((BackpropSnapshot.create exampleGroupWorld [] [] [] [] []).mGradientMatrices.map
        (fun g => g.skeletons)) = [["c", "a"], ["b"]]
    ∧ ∃ s1 r, backprop exampleExternal (BackpropSnapshot.create exampleGroupWorld [] [] [] [] [])
        exampleGroupWorld exampleNextLoss true = .ok (s1, r) := by
  have hgm1 : (BackpropSnapshot.create exampleOverlapWorld [] [] [] [] []).mGradientMatrices
      = [exampleGroupOne, exampleGroupOverlap] := rfl
  have hgm2 : (BackpropSnapshot.create exampleGroupWorld [] [] [] [] []).mGradientMatrices
      = [exampleGroupOne, exampleGroupTwo] := rfl
  have hres1 : ∀ g ∈ (BackpropSnapshot.create exampleOverlapWorld [] [] [] [] []).mGradientMatrices,
      ∀ name ∈ g.skeletons, (exampleOverlapWorld.getSkeleton name).isSome := by
    rw [hgm1]; decide
  have hres2 : ∀ g ∈ (BackpropSnapshot.create exampleGroupWorld [] [] [] [] []).mGradientMatrices,
      ∀ name ∈ g.skeletons, (exampleGroupWorld.getSkeleton name).isSome := by
    rw [hgm2]; decide
  refine ⟨by rw [hgm1]; rfl, ?_, by rw [hgm2]; rfl, ?_⟩
  · exact (backprop_perGroup_visits_once exampleExternal _ exampleOverlapWorld exampleNextLoss
      rfl hres1).1 (by rw [hgm1]; decide)
  · have h := backprop_perGroup_visits_once exampleExternal _ exampleGroupWorld exampleNextLoss
      rfl hres2
    exact h.2.1 (h.2.2.mp (by rw [hgm2]; decide))

/-! ## Rewinding a rewound world -/

theorem setDofs_rewind_twice (ds : List DegreeOfFreedom) (c : Nat) (p v f : Vec) :
    setDofs (fun d x => { d with force := x })
      (setDofs (fun d x => { d with velocity := x })
        (setDofs (fun d x => { d with position := x })
          (setDofs (fun d x => { d with force := x })
            (setDofs (fun d x => { d with velocity := x })
              (setDofs (fun d x => { d with position := x }) ds c p) c v) c f) c p) c v) c f
      = setDofs (fun d x => { d with force := x })
          (setDofs (fun d x => { d with velocity := x })
            (setDofs (fun d x => { d with position := x }) ds c p) c v) c f := by
  apply List.ext_getElem?
  intro i
  simp only [getElem?_setDofs, Option.map_map]
  rfl

theorem setDofs_rewind_again (ds : List DegreeOfFreedom) (c : Nat) (p v f : Vec) :
    setDofs (fun d x => { d with velocity := x })
      (setDofs (fun d x => { d with position := x })
        (setDofs (fun d x => { d with force := x })
          (setDofs (fun d x => { d with velocity := x })
            (setDofs (fun d x => { d with position := x }) ds c p) c v) c f) c p) c v
      = setDofs (fun d x => { d with force := x })
          (setDofs (fun d x => { d with velocity := x })
            (setDofs (fun d x => { d with position := x }) ds c p) c v) c f := by
  apply List.ext_getElem?
  intro i
  simp only [getElem?_setDofs, Option.map_map]
  rfl

theorem setSkeletons_rewind_twice (skels : List Skeleton) (c : Nat) (p v f : Vec) :
    setSkeletons (fun d x => { d with force := x })
      (setSkeletons (fun d x => { d with velocity := x })
        (setSkeletons (fun d x => { d with position := x })
          (setSkeletons (fun d x => { d with force := x })
            (setSkeletons (fun d x => { d with velocity := x })
              (setSkeletons (fun d x => { d with position := x }) skels c p) c v) c f) c p)
          c v) c f
      = setSkeletons (fun d x => { d with force := x })
          (setSkeletons (fun d x => { d with velocity := x })
            (setSkeletons (fun d x => { d with position := x }) skels c p) c v) c f := by
  induction skels generalizing c with
  | nil => simp [setSkeletons]
  | cons skel rest ih =>
    simp only [setSkeletons, Skeleton.getNumDofs, length_setDofs, ih, setDofs_rewind_twice]

theorem setSkeletons_rewind_again (skels : List Skeleton) (c : Nat) (p v f : Vec) :
    setSkeletons (fun d x => { d with velocity := x })
      (setSkeletons (fun d x => { d with position := x })
        (setSkeletons (fun d x => { d with force := x })
          (setSkeletons (fun d x => { d with velocity := x })
            (setSkeletons (fun d x => { d with position := x }) skels c p) c v) c f) c p) c v
      = setSkeletons (fun d x => { d with force := x })
          (setSkeletons (fun d x => { d with velocity := x })
            (setSkeletons (fun d x => { d with position := x }) skels c p) c v) c f := by
  induction skels generalizing c with
  | nil => simp [setSkeletons]
  | cons skel rest ih =>
    simp only [setSkeletons, Skeleton.getNumDofs, length_setDofs, ih, setDofs_rewind_again]

/-- Rewinding twice is rewinding once. -/
theorem rewind_rewind (s : BackpropSnapshot) (world : World) :
    rewind s (rewind s world) = rewind s world := by
  simp only [rewind, World.setCachedLCPSolution, World.setExternalForces, World.setVelocities,
    World.setPositions, setSkeletons_rewind_twice]

/-- The world in which `assembleBlockDiagonalMatrix` reads the skeletons of a
rewound world has the skeletons of that world. -/
theorem skeletons_assembly_rewind (s : BackpropSnapshot) (world : World) :
    (((rewind s world).setPositions s.mPreStepPosition).setVelocities
      s.mPreStepVelocity).skeletons = (rewind s world).skeletons := by
  simp only [rewind, World.setCachedLCPSolution, World.setExternalForces, World.setVelocities,
    World.setPositions, setSkeletons_rewind_again]

theorem getInvMassMatrix_rewind (ext : External) (s : BackpropSnapshot) (world : World) :
    getInvMassMatrix ext s (rewind s world)
      = blockDiagonalLoop ext .INV_MASS (rewind s world).skeletons 0
          (Mat.zero s.mNumDOFs s.mNumDOFs) := by
  unfold getInvMassMatrix assembleBlockDiagonalMatrix
  by_cases h : ext.forFiniteDifferencingDefault = true
  · simp only [h, if_true]
  · simp only [h, if_false, Bool.false_eq_true, skeletons_assembly_rewind]

/-! ## One clamping contact between two skeletons -/

theorem coeff_blockDiagonalLoop_two (ext : External)
    (whichMatrix : BlockDiagonalMatrixToAssemble) (skel1 skel2 : Skeleton) (n i j : Nat) :
    (blockDiagonalLoop ext whichMatrix [skel1, skel2] 0 (Mat.zero n n)).coeff i j
      = if skel1.getNumDofs ≤ i ∧ i < skel1.getNumDofs + skel2.getNumDofs
            ∧ skel1.getNumDofs ≤ j ∧ j < skel1.getNumDofs + skel2.getNumDofs then
          (skelBlockToAssemble ext skel2 whichMatrix).coeff (i - skel1.getNumDofs)
            (j - skel1.getNumDofs)
        else if i < skel1.getNumDofs ∧ j < skel1.getNumDofs then
          (skelBlockToAssemble ext skel1 whichMatrix).coeff i j
        else 0 := by
  simp [blockDiagonalLoop, Mat.setBlock, Mat.zero]

/-- The quadratic form of a block-diagonal matrix is the sum of the quadratic
forms of its blocks. -/
theorem quadForm_blockDiagonal (a M B1 B2 : Mat) (n1 n2 : Nat)
    (hM : ∀ i j, M.coeff i j
      = if n1 ≤ i ∧ i < n1 + n2 ∧ n1 ≤ j ∧ j < n1 + n2 then B2.coeff (i - n1) (j - n1)
        else if i < n1 ∧ j < n1 then B1.coeff i j else 0) :
    sumTo (n1 + n2) (fun k => sumTo (n1 + n2) (fun i => a.coeff i 0 * M.coeff i k) * a.coeff k 0)
      = sumTo n1 (fun k => sumTo n1 (fun i => a.coeff i 0 * B1.coeff i k) * a.coeff k 0)
        + sumTo n2 (fun k =>
            sumTo n2 (fun i => a.coeff (n1 + i) 0 * B2.coeff i k) * a.coeff (n1 + k) 0) := by
  rw [sumTo_add_index]
  congr 1
  · apply sumTo_congr
    intro k hk
    congr 1
    rw [sumTo_add_index]
    have h2 : sumTo n2 (fun r => a.coeff (n1 + r) 0 * M.coeff (n1 + r) k) = 0 := by
      rw [← sumTo_zero_fun n2]
      apply sumTo_congr
      intro r _
      rw [hM, if_neg (by omega), if_neg (by omega), mul_zero]
    rw [h2, add_zero]
    apply sumTo_congr
    intro i hi
    rw [hM, if_neg (by omega), if_pos ⟨hi, hk⟩]
  · apply sumTo_congr
    intro k hk
    congr 1
    rw [sumTo_add_index]
    have h1 : sumTo n1 (fun i => a.coeff i 0 * M.coeff i (n1 + k)) = 0 := by
      rw [← sumTo_zero_fun n1]
      apply sumTo_congr
      intro i hi
      rw [hM, if_neg (by omega), if_neg (by omega), mul_zero]
    rw [h1, zero_add]
    apply sumTo_congr
    intro i hi
    rw [hM, if_pos (by omega)]
    congr 2 <;> omega

theorem toMatrix_neg (A : Mat) (n m : Nat) : A.neg.toMatrix n m = -A.toMatrix n m := by
  ext i j
  simp [Mat.toMatrix, Mat.neg]

theorem toMatrix_diagonal_one : (Mat.diagonal [1]).toMatrix 1 1 = 1 := by
  ext i j
  fin_cases i
  fin_cases j
  simp [Mat.toMatrix, Mat.diagonal, coeffAt]

/-- For a nonzero `1 x 1` matrix `Q` the dense solve solves the system. -/
theorem solve_one_by_one (Q B X : Mat) (n : Nat) (hr : Q.rows = 1) (hc : Q.cols = 1)
    (hq : Q.coeff 0 0 ≠ 0) (hB : B.rows = 1) (hBc : B.cols = n)
    (h : IsMinNormLeastSquaresMatrix Q B X) :
    Q.toMatrix 1 1 * X.toMatrix 1 n = B.toMatrix 1 n := by
  obtain ⟨hXr, hXc, hcol⟩ := h
  ext i j
  fin_cases i
  have hj : (j : Nat) < B.cols := by rw [hBc]; exact j.isLt
  have hS : sumTo Q.cols (fun k => Q.coeff 0 k ^ 2) ≠ 0 := by
    rw [hc]
    simpa [sumTo] using hq
  have hx := isMinNorm_one_row Q (B.col j) (X.col j) hr hS (hcol j hj) 0 (by rw [hc]; omega)
  have hx0 : coeffAt (X.col j) 0 = X.coeff 0 j := by
    simp [Mat.col, hXr, hc, coeffAt]
  have hb0 : coeffAt (B.col j) 0 = B.coeff 0 j := by
    simp [Mat.col, hB, coeffAt]
  rw [hx0, hb0, hc] at hx
  simp only [Matrix.mul_apply, Mat.toMatrix, Finset.univ_unique, Fin.default_eq_zero,
    Fin.isValue, Finset.sum_singleton, Fin.val_zero, Fin.zero_eta]
  rw [hx]
  simp only [sumTo]
  field_simp
  ring

/-- For a world of two skeletons the quadratic form of the assembled inverse
mass matrix is the sum of the quadratic forms of the two inverse mass
matrices on the two segments of the vector. -/
theorem quadForm_getInvMassMatrix_two (ext : External) (s : BackpropSnapshot) (world : World)
    (skel1 skel2 : Skeleton) (a : Mat)
    (hsk : (rewind s world).skeletons = [skel1, skel2])
    (hn : s.mNumDOFs = skel1.getNumDofs + skel2.getNumDofs) :
    (a.toMatrix s.mNumDOFs 1).transpose
        * (getInvMassMatrix ext s (rewind s world)).toMatrix s.mNumDOFs s.mNumDOFs
        * a.toMatrix s.mNumDOFs 1
      = ((a.block 0 0 skel1.getNumDofs 1).toMatrix skel1.getNumDofs 1).transpose
          * (ext.skelInvMassMatrix skel1).toMatrix skel1.getNumDofs skel1.getNumDofs
          * (a.block 0 0 skel1.getNumDofs 1).toMatrix skel1.getNumDofs 1
        + ((a.block skel1.getNumDofs 0 skel2.getNumDofs 1).toMatrix
              skel2.getNumDofs 1).transpose
          * (ext.skelInvMassMatrix skel2).toMatrix skel2.getNumDofs skel2.getNumDofs
          * (a.block skel1.getNumDofs 0 skel2.getNumDofs 1).toMatrix skel2.getNumDofs 1 := by
  have hM : ∀ i j, (getInvMassMatrix ext s (rewind s world)).coeff i j
      = if skel1.getNumDofs ≤ i ∧ i < skel1.getNumDofs + skel2.getNumDofs
            ∧ skel1.getNumDofs ≤ j ∧ j < skel1.getNumDofs + skel2.getNumDofs then
          (ext.skelInvMassMatrix skel2).coeff (i - skel1.getNumDofs) (j - skel1.getNumDofs)
        else if i < skel1.getNumDofs ∧ j < skel1.getNumDofs then
          (ext.skelInvMassMatrix skel1).coeff i j
        else 0 := by
    intro i j
    rw [getInvMassMatrix_rewind, hsk, coeff_blockDiagonalLoop_two]
    rfl
  have hcoeff := quadForm_blockDiagonal a (getInvMassMatrix ext s (rewind s world))
    (ext.skelInvMassMatrix skel1) (ext.skelInvMassMatrix skel2) skel1.getNumDofs
    skel2.getNumDofs hM
  simp only [sumTo_eq_sum] at hcoeff
  rw [hn]
  ext i j
  fin_cases i
  fin_cases j
  simpa [Matrix.mul_apply, Mat.toMatrix, Mat.block] using hcoeff

/-- C20: one clamping constraint with column `a` between the two skeletons of
the world, no upper-bound constraint and bounce diagonal `1`. The matrix
`Q = A_c^T * Minv * (A_c + A_ub * E)` of `getJacobianOfConstraintForce` is
`1 x 1`, equals `a^T * Minv * a`, and equals
`a1^T * Minv1 * a1 + a2^T * Minv2 * a2` for the segments `a1`, `a2` of `a`
and the inverse mass matrices `Minv1`, `Minv2` of the two skeletons. When
`Q` is nonzero, the dense solve returns the minimum-norm least-squares
solution and the inverse mass matrix of the world is the one assembled from
the skeletons, `getVelJacobianWrt(force)` returns a matrix `J` with
`a^T * J = 0`, and this is the matrix that `getForceVelJacobian` caches. -/
theorem oneContact_forceVel (ext : External) (s : BackpropSnapshot) (world : World)
    (skel1 skel2 : Skeleton)
    (hdim : ext.wrtDim .FORCE world ≠ 0)
    (hres : ∀ g ∈ s.mGradientMatrices, ∀ name ∈ g.skeletons, (world.getSkeleton name).isSome)
    (hsk : (rewind s world).skeletons = [skel1, skel2])
    (hn : s.mNumDOFs = skel1.getNumDofs + skel2.getNumDofs)
    (hc : s.mNumClamping = 1) (hu : s.mNumUpperBound = 0)
    (hb : getBounceDiagonals ext s = .ok [1])
    (hWc : (ext.worldInvMassMatrix (rewind s world)).cols = s.mNumDOFs)
    (hW : (ext.worldInvMassMatrix (rewind s world)).toMatrix s.mNumDOFs s.mNumDOFs
      = (getInvMassMatrix ext s (rewind s world)).toMatrix s.mNumDOFs s.mNumDOFs)
    (hsolve : ∀ Q B, Q.rows = 1 → Q.cols = 1 → Q.coeff 0 0 ≠ 0 →
      IsMinNormLeastSquaresMatrix Q B (ext.solveMatrix Q B)) :
    ∃ a A_ub Q dB,
      getClampingConstraintMatrix s world = .ok a ∧ a.rows = s.mNumDOFs ∧ a.cols = 1
      ∧ getUpperBoundConstraintMatrix s world = .ok A_ub ∧ A_ub.cols = 0
      ∧ Q = (a.transpose.mul (getInvMassMatrix ext s (rewind s world))).mul
          (a.add (A_ub.mul (getUpperBoundMappingMatrix s)))
      ∧ getJacobianOfLCPOffsetClampingSubset ext s (rewind s world) .FORCE = .ok dB
      ∧ getJacobianOfConstraintForce ext s (rewind s world) .FORCE
          = .ok (ext.solveMatrix Q dB)
      ∧ Q.rows = 1 ∧ Q.cols = 1
      ∧ Q.toMatrix 1 1
          = (a.toMatrix s.mNumDOFs 1).transpose
            * (getInvMassMatrix ext s (rewind s world)).toMatrix s.mNumDOFs s.mNumDOFs
            * a.toMatrix s.mNumDOFs 1
      ∧ Q.toMatrix 1 1
          = ((a.block 0 0 skel1.getNumDofs 1).toMatrix skel1.getNumDofs 1).transpose
              * (ext.skelInvMassMatrix skel1).toMatrix skel1.getNumDofs skel1.getNumDofs
              * (a.block 0 0 skel1.getNumDofs 1).toMatrix skel1.getNumDofs 1
            + ((a.block skel1.getNumDofs 0 skel2.getNumDofs 1).toMatrix
                  skel2.getNumDofs 1).transpose
              * (ext.skelInvMassMatrix skel2).toMatrix skel2.getNumDofs skel2.getNumDofs
              * (a.block skel1.getNumDofs 0 skel2.getNumDofs 1).toMatrix skel2.getNumDofs 1
      ∧ (Q.coeff 0 0 ≠ 0 →
          ∃ J, getVelJacobianWrt ext s world .FORCE = .ok J
            ∧ (a.toMatrix s.mNumDOFs 1).transpose * J.toMatrix s.mNumDOFs s.mNumDOFs = 0
            ∧ (s.mCachedForceVelDirty = true → s.mUseFDOverride = false →
                s.mNumDOFs ≠ 0 → s.mSlowDebugResultsAgainstFD = false →
                getForceVelJacobian ext s world
                  = .ok { s with mCachedForceVel := J, mCachedForceVelDirty := false })) := by
  obtain ⟨a, hA, har, hac⟩ := assembleMatrix_dims s world .CLAMPING hres
  obtain ⟨A_ub, hAub, _, huc⟩ := assembleMatrix_dims s world .UPPER_BOUND hres
  have hac1 : a.cols = 1 := by rw [hac]; exact hc
  have huc0 : A_ub.cols = 0 := by rw [huc]; exact hu
  have hA0 : getClampingConstraintMatrix s world = .ok a := hA
  have hAub0 : getUpperBoundConstraintMatrix s world = .ok A_ub := hAub
  have hA1 : getClampingConstraintMatrix s (rewind s world) = .ok a := by
    rw [getClampingConstraintMatrix_rewind]; exact hA
  have hAub1 : getUpperBoundConstraintMatrix s (rewind s world) = .ok A_ub := by
    rw [getUpperBoundConstraintMatrix_rewind]; exact hAub
  have hMc : (getInvMassMatrix ext s (rewind s world)).cols = s.mNumDOFs :=
    (dims_assembleBlockDiagonalMatrix ext s (rewind s world) .INV_MASS _).2
  have hdB : getJacobianOfLCPOffsetClampingSubset ext s (rewind s world) .FORCE
      = .ok ((Mat.scale world.timeStep ((Mat.diagonal [1]).mul a.transpose.neg)).mul
          (getInvMassMatrix ext s (rewind s world))) := by
    unfold getJacobianOfLCPOffsetClampingSubset
    rw [rewind_rewind]
    simp [hA1, hb, timeStep_rewind]
  have hdF : getJacobianOfConstraintForce ext s (rewind s world) .FORCE
      = .ok (ext.solveMatrix
          ((a.transpose.mul (getInvMassMatrix ext s (rewind s world))).mul
            (a.add (A_ub.mul (getUpperBoundMappingMatrix s))))
          ((Mat.scale world.timeStep ((Mat.diagonal [1]).mul a.transpose.neg)).mul
            (getInvMassMatrix ext s (rewind s world)))) := by
    unfold getJacobianOfConstraintForce
    rw [rewind_rewind]
    simp [hA1, hAub1, hdB, hac1]
  have hz : A_ub.toMatrix s.mNumDOFs 0 * (getUpperBoundMappingMatrix s).toMatrix 0 1 = 0 := by
    ext i j
    simp [Matrix.mul_apply]
  have hQm : ((a.transpose.mul (getInvMassMatrix ext s (rewind s world))).mul
        (a.add (A_ub.mul (getUpperBoundMappingMatrix s)))).toMatrix 1 1
      = (a.toMatrix s.mNumDOFs 1).transpose
        * (getInvMassMatrix ext s (rewind s world)).toMatrix s.mNumDOFs s.mNumDOFs
        * a.toMatrix s.mNumDOFs 1 := by
    rw [toMatrix_mul _ _ 1 s.mNumDOFs 1 (by simpa [Mat.mul] using hMc),
      toMatrix_mul _ _ 1 s.mNumDOFs s.mNumDOFs (by simpa [Mat.transpose] using har),
      toMatrix_transpose, toMatrix_add, toMatrix_mul _ _ s.mNumDOFs 0 1 huc0, hz, add_zero]
  refine ⟨a, A_ub, _, _, hA0, har, hac1, hAub0, huc0, rfl, hdB, hdF, ?_, ?_, hQm, ?_, ?_⟩
  · simp [Mat.mul, Mat.transpose, hac1]
  · simp [Mat.mul, Mat.add, hac1]
  · rw [hQm]
    exact quadForm_getInvMassMatrix_two ext s world skel1 skel2 a hsk hn
  · intro hq
    have hQr : ((a.transpose.mul (getInvMassMatrix ext s (rewind s world))).mul
        (a.add (A_ub.mul (getUpperBoundMappingMatrix s)))).rows = 1 := by
      simp [Mat.mul, Mat.transpose, hac1]
    have hQc : ((a.transpose.mul (getInvMassMatrix ext s (rewind s world))).mul
        (a.add (A_ub.mul (getUpperBoundMappingMatrix s)))).cols = 1 := by
      simp [Mat.mul, Mat.add, hac1]
    have hQX := solve_one_by_one _
      ((Mat.scale world.timeStep ((Mat.diagonal [1]).mul a.transpose.neg)).mul
        (getInvMassMatrix ext s (rewind s world))) _ s.mNumDOFs hQr hQc hq
      (by simp [Mat.mul, Mat.scale, Mat.diagonal]) (by simpa [Mat.mul] using hMc)
      (hsolve _ _ hQr hQc hq)
    have hdBm : ((Mat.scale world.timeStep ((Mat.diagonal [1]).mul a.transpose.neg)).mul
        (getInvMassMatrix ext s (rewind s world))).toMatrix 1 s.mNumDOFs
        = -(world.timeStep • ((a.toMatrix s.mNumDOFs 1).transpose
            * (getInvMassMatrix ext s (rewind s world)).toMatrix s.mNumDOFs s.mNumDOFs)) := by
      rw [toMatrix_mul _ _ 1 s.mNumDOFs s.mNumDOFs
          (by simpa [Mat.mul, Mat.scale, Mat.neg, Mat.transpose] using har),
        toMatrix_scale, toMatrix_mul _ _ 1 1 s.mNumDOFs (by simp [Mat.diagonal]),
        toMatrix_diagonal_one, toMatrix_neg, toMatrix_transpose, Matrix.one_mul]
      simp
    have hJ : getVelJacobianWrt ext s world .FORCE
        = .ok ((ext.worldInvMassMatrix (rewind s world)).mul
          (((a.add (A_ub.mul (getUpperBoundMappingMatrix s))).mul
              (ext.solveMatrix
                ((a.transpose.mul (getInvMassMatrix ext s (rewind s world))).mul
                  (a.add (A_ub.mul (getUpperBoundMappingMatrix s))))
                ((Mat.scale world.timeStep ((Mat.diagonal [1]).mul a.transpose.neg)).mul
                  (getInvMassMatrix ext s (rewind s world))))).add
            (Mat.scale (rewind s world).timeStep
              (Mat.identity world.getNumDofs world.getNumDofs)))) := by
      unfold getVelJacobianWrt
      rw [if_neg hdim]
      simp only [hA1, hAub1, getClampingConstraintImpulses_ok, hdF, if_true]
    refine ⟨_, hJ, ?_, ?_⟩
    · rw [toMatrix_mul _ _ s.mNumDOFs s.mNumDOFs s.mNumDOFs hWc, toMatrix_add,
        toMatrix_mul _ _ s.mNumDOFs 1 s.mNumDOFs (by simpa [Mat.add] using hac1), toMatrix_add,
        toMatrix_mul _ _ s.mNumDOFs 0 1 huc0, hz, add_zero, toMatrix_scale, toMatrix_identity,
        hW, timeStep_rewind, ← Matrix.mul_assoc, Matrix.mul_add, ← Matrix.mul_assoc, ← hQm,
        Matrix.mul_assoc, hQX, hdBm]
      simp
    · intro hdirty hfd hn0 hslow
      have hfd1 : ¬ (s.mUseFDOverride = true) := by simp [hfd]
      have hsize : ¬ a.size = 0 := by
        simp [Mat.size, har, hac1, hn0]
      unfold getForceVelJacobian
      rw [if_pos hdirty, if_neg hfd1]
      simp only [hA0, if_neg hsize, hJ]
      simp [slowDebugCheck, hslow]

/-- The dense solve of `exampleContactExternal` returns the minimum-norm
least-squares solution for every system with a single nonzero row. -/
theorem exampleContactExternal_solve (Q B : Mat) (hr : Q.rows = 1) (hc : Q.cols = 1)
    (hq : Q.coeff 0 0 ≠ 0) :
    IsMinNormLeastSquaresMatrix Q B (exampleContactExternal.solveMatrix Q B) := by
  have hS : sumTo Q.cols (fun j => Q.coeff 0 j ^ 2) ≠ 0 := by
    rw [hc]
    simpa [sumTo] using hq
  refine ⟨rfl, rfl, fun j _ => ?_⟩
  have hcol : (exampleContactExternal.solveMatrix Q B).col j = minNormSolveRow Q (B.col j) := by
    have hlen : (minNormSolveRow Q (B.col j)).length = Q.cols := by
      simp [minNormSolveRow]
    have h := map_range_coeffAt (minNormSolveRow Q (B.col j))
    rw [hlen] at h
    simpa [Mat.col, exampleContactExternal] using h
  rw [hcol]
  exact minNormSolveRow_isMinNorm Q (B.col j) hr hS

/-- Witness for C20: the skeletons `"a"` and `"b"` with inverse masses `2` and
`3`, joined by a clamping contact of column `(1, -1)`, time step `1/100`. Then
`Q = 1 * 2 * 1 + (-1) * 3 * (-1) = 5`, every coefficient of the force-velocity
Jacobian is `3/250`, and `a^T * forceVel = 0`. -/
theorem oneContact_forceVel_witness :
    ∃ a Q J : Mat,
      getClampingConstraintMatrix exampleContactSnapshot exampleContactWorld = .ok a
      ∧ a.coeff 0 0 = 1 ∧ a.coeff 1 0 = -1
      ∧ Q.rows = 1 ∧ Q.cols = 1 ∧ Q.coeff 0 0 = 5
      ∧ getVelJacobianWrt exampleContactExternal exampleContactSnapshot exampleContactWorld
          .FORCE = .ok J
      ∧ J.coeff 0 0 = 3 / 250 ∧ J.coeff 1 0 = 3 / 250
      ∧ (a.toMatrix 2 1).transpose * J.toMatrix 2 2 = 0 := by
  have hgm : exampleContactSnapshot.mGradientMatrices = [exampleContactGroup] := rfl
  have hres : ∀ g ∈ exampleContactSnapshot.mGradientMatrices, ∀ name ∈ g.skeletons,
      (exampleContactWorld.getSkeleton name).isSome := by
    rw [hgm]; decide
  have hsk : (rewind exampleContactSnapshot exampleContactWorld).skeletons
      = [ { name := "a"
            dofs := [{ exampleDofB with position := 0, velocity := 0, force := 0 }]
            gradientConstraintMatrices := some exampleContactGroup, mobile := true },
          { name := "b"
            dofs := [{ exampleDofB with position := 0, velocity := 0, force := 0 }]
            gradientConstraintMatrices := some exampleContactGroup, mobile := true } ] := rfl
  have hW : (exampleContactExternal.worldInvMassMatrix
        (rewind exampleContactSnapshot exampleContactWorld)).toMatrix
          exampleContactSnapshot.mNumDOFs exampleContactSnapshot.mNumDOFs
      = (getInvMassMatrix exampleContactExternal exampleContactSnapshot
          (rewind exampleContactSnapshot exampleContactWorld)).toMatrix
            exampleContactSnapshot.mNumDOFs exampleContactSnapshot.mNumDOFs := by
    have h2 : exampleContactSnapshot.mNumDOFs = 2 := rfl
    rw [h2]
    ext i j
    fin_cases i <;> fin_cases j <;> with_unfolding_all rfl
  obtain ⟨a, A_ub, Q, dB, hA, _, _, hAub, _, hQ, _, _, hQr, hQc, _, _, hfinal⟩ :=
    oneContact_forceVel exampleContactExternal exampleContactSnapshot exampleContactWorld _ _
      (by decide) hres hsk rfl rfl rfl (by rw [getBounceDiagonals_ok]; rfl) rfl hW
      exampleContactExternal_solve
  have ha : (match getClampingConstraintMatrix exampleContactSnapshot exampleContactWorld with
      | .ok M => decide (M.coeff 0 0 = 1 ∧ M.coeff 1 0 = -1)
      | .error _ => false) = true := by with_unfolding_all rfl
  have hq5 : (match getClampingConstraintMatrix exampleContactSnapshot exampleContactWorld,
        getUpperBoundConstraintMatrix exampleContactSnapshot exampleContactWorld with
      | .ok M, .ok U =>
        ((M.transpose.mul (getInvMassMatrix exampleContactExternal exampleContactSnapshot
          (rewind exampleContactSnapshot exampleContactWorld))).mul
            (M.add (U.mul (getUpperBoundMappingMatrix exampleContactSnapshot)))).coeff 0 0
      | _, _ => 0) = 5 := by with_unfolding_all rfl
  have hJ00 : (match getVelJacobianWrt exampleContactExternal exampleContactSnapshot
        exampleContactWorld .FORCE with
      | .ok M => decide (M.coeff 0 0 = 3 / 250 ∧ M.coeff 1 0 = 3 / 250)
      | .error _ => false) = true := by with_unfolding_all rfl
  rw [hA] at ha
  rw [hA, hAub] at hq5
  simp only [decide_eq_true_eq] at ha
  simp only at hq5
  rw [← hQ] at hq5
  obtain ⟨J, hJ, hzero, _⟩ := hfinal (by rw [hq5]; norm_num)
  rw [hJ] at hJ00
  simp only [decide_eq_true_eq] at hJ00
  exact ⟨a, Q, J, hA, ha.1, ha.2, hQr, hQc, hq5, hJ, hJ00.1, hJ00.2, hzero⟩

/-! ## The constraint-force Jacobian for velocity and force -/

theorem toMatrix_diagonal (v : Vec) (k : Nat) :
    (Mat.diagonal v).toMatrix k k = Matrix.diagonal (fun i : Fin k => coeffAt v i) := by
  ext i j
  by_cases h : i = j
  · subst h
    simp [Mat.toMatrix, Mat.diagonal]
  · have h1 : (i : Nat) ≠ (j : Nat) := fun e => h (Fin.ext e)
    simp [Mat.toMatrix, Mat.diagonal, h, h1]

/-- C21: for `wrt` velocity or force, on a snapshot whose groups list skeletons
of the world, `getJacobianOfConstraintForce` returns the `0 x dim(wrt)` zero
matrix when the clamping matrix has no column, and otherwise the result
`Q.solve(dB)` of the dense solve with `Q = A_c^T * Minv * (A_c + A_ub * E)`
and `dB = getJacobianOfLCPOffsetClampingSubset(wrt)`, where
`dB(force) = -(diag(bounce) * A_c^T * (dt * Minv))` and
`dB(velocity) = -(diag(bounce) * A_c^T * (I - dt * Minv * dC))`; by the
documented contract of the dense solve this is the minimum-norm least-squares
solution of `Q X = dB`. -/
theorem getJacobianOfConstraintForce_velocity_force (ext : External) (s : BackpropSnapshot)
    (world : World) (wrt : WithRespectTo) (hwrt : wrt = .VELOCITY ∨ wrt = .FORCE)
    (hres : ∀ g ∈ s.mGradientMatrices, ∀ name ∈ g.skeletons, (world.getSkeleton name).isSome) :
    ∃ A_c A_ub bounce,
      getClampingConstraintMatrix s world = .ok A_c
      ∧ getUpperBoundConstraintMatrix s world = .ok A_ub
      ∧ getBounceDiagonals ext s = .ok bounce
      ∧ (A_c.cols = 0 →
          getJacobianOfConstraintForce ext s world wrt = .ok (Mat.zero 0 (ext.wrtDim wrt world)))
      ∧ (A_c.cols ≠ 0 →
          ∃ dB, getJacobianOfLCPOffsetClampingSubset ext s (rewind s world) wrt = .ok dB
            ∧ getJacobianOfConstraintForce ext s world wrt
              = .ok (ext.solveMatrix
                  ((A_c.transpose.mul (getInvMassMatrix ext s (rewind s world))).mul
                    (A_c.add (A_ub.mul (getUpperBoundMappingMatrix s)))) dB)
            ∧ (wrt = .FORCE → bounce.length = s.mNumClamping →
                dB.toMatrix s.mNumClamping s.mNumDOFs
                  = -(Matrix.diagonal (fun i : Fin s.mNumClamping => coeffAt bounce i)
                      * (A_c.toMatrix s.mNumDOFs s.mNumClamping).transpose
                      * (world.timeStep
                          • (getInvMassMatrix ext s (rewind s world)).toMatrix
                              s.mNumDOFs s.mNumDOFs)))
            ∧ (wrt = .VELOCITY → bounce.length = s.mNumClamping →
                dB.toMatrix s.mNumClamping s.mNumDOFs
                  = -(Matrix.diagonal (fun i : Fin s.mNumClamping => coeffAt bounce i)
                      * (A_c.toMatrix s.mNumDOFs s.mNumClamping).transpose
                      * (1 - world.timeStep
                          • ((getInvMassMatrix ext s (rewind s world)).toMatrix
                                s.mNumDOFs s.mNumDOFs
                              * (ext.getJacobianOfC s (rewind s world) .VELOCITY).toMatrix
                                  s.mNumDOFs s.mNumDOFs))))
            ∧ ((∀ B, IsMinNormLeastSquaresMatrix
                  ((A_c.transpose.mul (getInvMassMatrix ext s (rewind s world))).mul
                    (A_c.add (A_ub.mul (getUpperBoundMappingMatrix s)))) B
                  (ext.solveMatrix
                    ((A_c.transpose.mul (getInvMassMatrix ext s (rewind s world))).mul
                      (A_c.add (A_ub.mul (getUpperBoundMappingMatrix s)))) B)) →
                ∃ X, getJacobianOfConstraintForce ext s world wrt = .ok X
                  ∧ IsMinNormLeastSquaresMatrix
                    ((A_c.transpose.mul (getInvMassMatrix ext s (rewind s world))).mul
                      (A_c.add (A_ub.mul (getUpperBoundMappingMatrix s)))) dB X)) := by
  obtain ⟨A_c, hA, har, hac⟩ := assembleMatrix_dims s world .CLAMPING hres
  obtain ⟨A_ub, hAub, _, _⟩ := assembleMatrix_dims s world .UPPER_BOUND hres
  have hA0 : getClampingConstraintMatrix s world = .ok A_c := hA
  have hAub0 : getUpperBoundConstraintMatrix s world = .ok A_ub := hAub
  have hA1 : getClampingConstraintMatrix s (rewind s world) = .ok A_c := by
    rw [getClampingConstraintMatrix_rewind]; exact hA
  have hac1 : A_c.cols = s.mNumClamping := hac
  have hMc : (getInvMassMatrix ext s (rewind s world)).cols = s.mNumDOFs :=
    (dims_assembleBlockDiagonalMatrix ext s (rewind s world) .INV_MASS _).2
  refine ⟨A_c, A_ub, _, hA0, hAub0, getBounceDiagonals_ok ext s, ?_, ?_⟩
  · intro h0
    unfold getJacobianOfConstraintForce
    simp [hA0, h0]
  · intro hne
    have hdB : ∃ dB, getJacobianOfLCPOffsetClampingSubset ext s (rewind s world) wrt = .ok dB
        ∧ dB = (if wrt = .VELOCITY then
            ((Mat.diagonal ((s.mGradientMatrices.map (fun g => g.bounceDiagonals)).flatten)).mul
                A_c.transpose.neg).mul
              ((Mat.identity world.getNumDofs world.getNumDofs).sub
                ((Mat.scale world.timeStep (getInvMassMatrix ext s (rewind s world))).mul
                  (ext.getJacobianOfC s (rewind s world) wrt)))
          else
            (Mat.scale world.timeStep
              ((Mat.diagonal ((s.mGradientMatrices.map (fun g => g.bounceDiagonals)).flatten)).mul
                A_c.transpose.neg)).mul (getInvMassMatrix ext s (rewind s world))) := by
      refine ⟨_, ?_, rfl⟩
      unfold getJacobianOfLCPOffsetClampingSubset
      rw [rewind_rewind]
      rcases hwrt with h | h <;> subst h <;>
        simp [hA1, getBounceDiagonals_ok, timeStep_rewind, getNumDofs_rewind]
    obtain ⟨dB, hdB, hdBdef⟩ := hdB
    have hres1 : getJacobianOfConstraintForce ext s world wrt
        = .ok (ext.solveMatrix
            ((A_c.transpose.mul (getInvMassMatrix ext s (rewind s world))).mul
              (A_c.add (A_ub.mul (getUpperBoundMappingMatrix s)))) dB) := by
      unfold getJacobianOfConstraintForce
      rcases hwrt with h | h <;> subst h <;> simp [hA0, hAub0, hdB, hne]
    refine ⟨dB, hdB, hres1, ?_, ?_, ?_⟩
    · intro hw hbl
      subst hw
      rw [hdBdef, if_neg (by decide),
        toMatrix_mul _ _ _ s.mNumDOFs _
          (by simpa [Mat.mul, Mat.scale, Mat.neg, Mat.transpose] using har),
        toMatrix_scale, toMatrix_mul _ _ _ s.mNumClamping _ (by simpa [Mat.diagonal] using hbl),
        toMatrix_diagonal, toMatrix_neg, toMatrix_transpose]
      simp [Matrix.mul_smul, Matrix.smul_mul, Matrix.mul_neg, Matrix.neg_mul, Matrix.mul_assoc]
    · intro hw hbl
      subst hw
      rw [hdBdef, if_pos rfl,
        toMatrix_mul _ _ _ s.mNumDOFs _
          (by simpa [Mat.mul, Mat.neg, Mat.transpose] using har),
        toMatrix_mul _ _ _ s.mNumClamping _ (by simpa [Mat.diagonal] using hbl),
        toMatrix_diagonal, toMatrix_neg, toMatrix_transpose, toMatrix_sub, toMatrix_identity,
        toMatrix_mul _ _ _ s.mNumDOFs _ (by simpa [Mat.scale] using hMc), toMatrix_scale]
      simp [Matrix.mul_neg, Matrix.neg_mul, Matrix.mul_assoc, Matrix.smul_mul]
    · intro hsolve
      exact ⟨_, hres1, hsolve dB⟩
/-- Witness for C21: the two skeletons with inverse masses `2` and `3` joined by
one clamping contact of column `(1, -1)`, `dt = 1/100`, `wrt` force:
`dB = -(1/100) * (2, -3)`, `Q = 5`, and the routine returns
`dB / 5 = (-1/250, 3/500)`, the minimum-norm least-squares solution. -/
theorem getJacobianOfConstraintForce_velocity_force_witness :
    ∃ A_c A_ub dB X : Mat,
      getClampingConstraintMatrix exampleContactSnapshot exampleContactWorld = .ok A_c
      ∧ getUpperBoundConstraintMatrix exampleContactSnapshot exampleContactWorld = .ok A_ub
      ∧ getJacobianOfLCPOffsetClampingSubset exampleContactExternal exampleContactSnapshot
          (rewind exampleContactSnapshot exampleContactWorld) .FORCE = .ok dB
      ∧ getJacobianOfConstraintForce exampleContactExternal exampleContactSnapshot
          exampleContactWorld .FORCE = .ok X
      ∧ dB.coeff 0 0 = -(1 / 50) ∧ dB.coeff 0 1 = 3 / 100
      ∧ X.coeff 0 0 = -(1 / 250) ∧ X.coeff 0 1 = 3 / 500
      ∧ dB.toMatrix 1 2
          = -(Matrix.diagonal (fun _ : Fin 1 => (1 : ℚ)) * (A_c.toMatrix 2 1).transpose
              * ((1 / 100 : ℚ)
                  • (getInvMassMatrix exampleContactExternal exampleContactSnapshot
                      (rewind exampleContactSnapshot exampleContactWorld)).toMatrix 2 2))
      ∧ IsMinNormLeastSquaresMatrix
          ((A_c.transpose.mul (getInvMassMatrix exampleContactExternal exampleContactSnapshot
              (rewind exampleContactSnapshot exampleContactWorld))).mul
            (A_c.add (A_ub.mul (getUpperBoundMappingMatrix exampleContactSnapshot)))) dB X := by
  have hgm : exampleContactSnapshot.mGradientMatrices = [exampleContactGroup] := rfl
  have hres : ∀ g ∈ exampleContactSnapshot.mGradientMatrices, ∀ name ∈ g.skeletons,
      (exampleContactWorld.getSkeleton name).isSome := by
    rw [hgm]; decide
  obtain ⟨A_c, A_ub, bounce, hA, hAub, hb, _, hne⟩ :=
    getJacobianOfConstraintForce_velocity_force exampleContactExternal exampleContactSnapshot
      exampleContactWorld .FORCE (Or.inr rfl) hres
  have hcols : (match getClampingConstraintMatrix exampleContactSnapshot exampleContactWorld with
      | .ok M => M.cols
      | .error _ => 0) = 1 := rfl
  rw [hA] at hcols
  simp only at hcols
  obtain ⟨dB, hdB, hX, hforce, _, hmin⟩ := hne (by rw [hcols]; decide)
  have hbounce : bounce = [1] := by
    rw [getBounceDiagonals_ok] at hb
    simp only [Except.ok.injEq] at hb
    rw [← hb]
    rfl
  have hq5 : (match getClampingConstraintMatrix exampleContactSnapshot exampleContactWorld,
        getUpperBoundConstraintMatrix exampleContactSnapshot exampleContactWorld with
      | .ok M, .ok U =>
        ((M.transpose.mul (getInvMassMatrix exampleContactExternal exampleContactSnapshot
          (rewind exampleContactSnapshot exampleContactWorld))).mul
            (M.add (U.mul (getUpperBoundMappingMatrix exampleContactSnapshot)))).coeff 0 0
      | _, _ => 0) = 5 := by with_unfolding_all rfl
  rw [hA, hAub] at hq5
  simp only at hq5
  have hB0 : (match getJacobianOfLCPOffsetClampingSubset exampleContactExternal
        exampleContactSnapshot (rewind exampleContactSnapshot exampleContactWorld) .FORCE with
      | .ok B => B.coeff 0 0
      | .error _ => 0) = -(1 / 50) := by with_unfolding_all rfl
  have hB1 : (match getJacobianOfLCPOffsetClampingSubset exampleContactExternal
        exampleContactSnapshot (rewind exampleContactSnapshot exampleContactWorld) .FORCE with
      | .ok B => B.coeff 0 1
      | .error _ => 0) = 3 / 100 := by with_unfolding_all rfl
  have hX0 : (match getJacobianOfConstraintForce exampleContactExternal exampleContactSnapshot
        exampleContactWorld .FORCE with
      | .ok Y => Y.coeff 0 0
      | .error _ => 0) = -(1 / 250) := by with_unfolding_all rfl
  have hX1 : (match getJacobianOfConstraintForce exampleContactExternal exampleContactSnapshot
        exampleContactWorld .FORCE with
      | .ok Y => Y.coeff 0 1
      | .error _ => 0) = 3 / 500 := by with_unfolding_all rfl
  rw [hdB] at hB0 hB1
  rw [hX] at hX0 hX1
  simp only at hB0 hB1 hX0 hX1
  obtain ⟨X, hX2, hXmin⟩ := hmin (fun B => exampleContactExternal_solve _ B
    (by simp [Mat.mul, Mat.transpose, hcols]) (by simp [Mat.mul, Mat.add, hcols])
    (by rw [hq5]; norm_num))
  rw [hX] at hX2
  simp only [Except.ok.injEq] at hX2
  subst hX2
  have hf := hforce rfl (by rw [hbounce]; rfl)
  have h1 : exampleContactSnapshot.mNumClamping = 1 := rfl
  have h2 : exampleContactSnapshot.mNumDOFs = 2 := rfl
  have ht : exampleContactWorld.timeStep = 1 / 100 := rfl
  rw [h1, h2, ht, hbounce] at hf
  refine ⟨A_c, A_ub, dB, _, hA, hAub, hdB, hX, hB0, hB1, hX0, hX1,
    ?_, hXmin⟩
  rw [hf]
  congr 3
  ext i j
  fin_cases i
  fin_cases j
  simp [Matrix.diagonal, coeffAt]

/-! ## The position Jacobian of the LCP constraint matrix -/

theorem cols_getInvMassMatrix (ext : External) (s : BackpropSnapshot) (world : World) :
    (getInvMassMatrix ext s world).cols = s.mNumDOFs := by
  unfold getInvMassMatrix assembleBlockDiagonalMatrix
  exact (dims_blockDiagonalLoop ext _ _ _ _).2

/-- C22. On a snapshot whose counts agree and whose groups list skeletons of
the world, with at least one clamping constraint, `Q = A_c^T Minv (A_c + A_ub E)`
and `Qinv` its pseudo-inverse: `getJacobianOfLCPConstraintMatrixClampingSubset`
for `wrt = position` returns `-Qinv * dQ(Qinv b)` when the squared norm of
`I - Q Qinv` is below `1e-18`, and otherwise
`-Qinv * dQ(Qinv b) + Qinv Qinv^T * dQT((I - Q Qinv) b)
+ (I - Qinv Q) * dQT(Qinv^T Qinv b)`. With upper-bound columns, `dQ(x)` is the
product-rule Jacobian
`dA_c^T[Minv A x] + A_c^T (dMinv[A x] + Minv (dA_c[x] + dA_ub[E x]))` of `Q x`
and `dQT(x)` the product-rule Jacobian
`(dA_c^T[Minv A_c x] + A_c^T (dMinv[A_c x] + Minv dA_c[x]))
+ E^T (dA_ub^T[Minv A_c x] + A_ub^T (dMinv[A_c x] + Minv dA_c[x]))` of `Q^T x`;
without them both are
`dA_c^T[Minv A_c x] + A_c^T (dMinv[A_c x] + Minv dA_c[x])`. -/
theorem getJacobianOfLCPConstraintMatrixClampingSubset_position (ext : External)
    (s : BackpropSnapshot) (world : World) (b : Vec)
    (hres : ∀ g ∈ s.mGradientMatrices, ∀ name ∈ g.skeletons, (world.getSkeleton name).isSome)
    (hwf : constraintCountsAgree s) :
    ∃ A_c A_ub : Mat,
      getClampingConstraintMatrix s world = .ok A_c
      ∧ getUpperBoundConstraintMatrix s (rewind s world) = .ok A_ub
      ∧ ∀ (E Minv A Q Qinv : Mat) (dMinv : Vec → Mat),
          E = getUpperBoundMappingMatrix s →
          Minv = getInvMassMatrix ext s (rewind s world) →
          A = A_c.add (A_ub.mul E) →
          Q = (A_c.transpose.mul Minv).mul A →
          Qinv = ⟨Q.cols, Q.rows, ext.pseudoInverse Q⟩ →
          dMinv = (fun v => ext.getJacobianOfMinv s world v .POSITION) →
          A_c.cols ≠ 0 →
          ∃ dQ dQT : Vec → Mat,
            (0 < A_ub.cols → ∀ x : Vec, x.length = s.mNumClamping →
              ∃ dA_cT dA_c dA_ub dA_cT2 dA_ubT : Mat,
                getJacobianOfClampingConstraintsTranspose ext s world ((Minv.mul A).mulVec x)
                  = .ok dA_cT
                ∧ getJacobianOfClampingConstraints ext s world x = .ok dA_c
                ∧ getJacobianOfUpperBoundConstraints ext s world (E.mulVec x) = .ok dA_ub
                ∧ getJacobianOfClampingConstraintsTranspose ext s world
                    ((Minv.mul A_c).mulVec x) = .ok dA_cT2
                ∧ getJacobianOfUpperBoundConstraintsTranspose ext s world
                    ((Minv.mul A_c).mulVec x) = .ok dA_ubT
                ∧ (dQ x).toMatrix s.mNumClamping s.mNumDOFs
                    = dA_cT.toMatrix s.mNumClamping s.mNumDOFs
                      + (A_c.toMatrix s.mNumDOFs s.mNumClamping).transpose
                        * ((dMinv (A.mulVec x)).toMatrix s.mNumDOFs s.mNumDOFs
                          + Minv.toMatrix s.mNumDOFs s.mNumDOFs
                            * (dA_c.toMatrix s.mNumDOFs s.mNumDOFs
                              + dA_ub.toMatrix s.mNumDOFs s.mNumDOFs))
                ∧ (dQT x).toMatrix s.mNumClamping s.mNumDOFs
                    = (dA_cT2.toMatrix s.mNumClamping s.mNumDOFs
                        + (A_c.toMatrix s.mNumDOFs s.mNumClamping).transpose
                          * ((dMinv (A_c.mulVec x)).toMatrix s.mNumDOFs s.mNumDOFs
                            + Minv.toMatrix s.mNumDOFs s.mNumDOFs
                              * dA_c.toMatrix s.mNumDOFs s.mNumDOFs))
                      + (E.toMatrix s.mNumUpperBound s.mNumClamping).transpose
                        * (dA_ubT.toMatrix s.mNumUpperBound s.mNumDOFs
                          + (A_ub.toMatrix s.mNumDOFs s.mNumUpperBound).transpose
                            * ((dMinv (A_c.mulVec x)).toMatrix s.mNumDOFs s.mNumDOFs
                              + Minv.toMatrix s.mNumDOFs s.mNumDOFs
                                * dA_c.toMatrix s.mNumDOFs s.mNumDOFs)))
            ∧ (¬ 0 < A_ub.cols → ∀ x : Vec, x.length = s.mNumClamping →
              ∃ dA_cT dA_c : Mat,
                getJacobianOfClampingConstraintsTranspose ext s world
                    ((Minv.mul A_c).mulVec x) = .ok dA_cT
                ∧ getJacobianOfClampingConstraints ext s world x = .ok dA_c
                ∧ (dQ x).toMatrix s.mNumClamping s.mNumDOFs
                    = dA_cT.toMatrix s.mNumClamping s.mNumDOFs
                      + (A_c.toMatrix s.mNumDOFs s.mNumClamping).transpose
                        * ((dMinv (A_c.mulVec x)).toMatrix s.mNumDOFs s.mNumDOFs
                          + Minv.toMatrix s.mNumDOFs s.mNumDOFs
                            * dA_c.toMatrix s.mNumDOFs s.mNumDOFs)
                ∧ dQT x = dQ x)
            ∧ ∃ J : Mat,
                getJacobianOfLCPConstraintMatrixClampingSubset ext s world b .POSITION = .ok J
                ∧ (((Mat.identity Q.rows Q.cols).sub (Q.mul Qinv)).squaredNorm < 1 / 10 ^ 18 →
                    J.toMatrix s.mNumClamping s.mNumDOFs
                      = -Qinv.toMatrix s.mNumClamping s.mNumClamping
                          * (dQ (Qinv.mulVec b)).toMatrix s.mNumClamping s.mNumDOFs)
                ∧ (¬ ((Mat.identity Q.rows Q.cols).sub (Q.mul Qinv)).squaredNorm < 1 / 10 ^ 18 →
                    J.toMatrix s.mNumClamping s.mNumDOFs
                      = -Qinv.toMatrix s.mNumClamping s.mNumClamping
                          * (dQ (Qinv.mulVec b)).toMatrix s.mNumClamping s.mNumDOFs
                        + Qinv.toMatrix s.mNumClamping s.mNumClamping
                          * (Qinv.toMatrix s.mNumClamping s.mNumClamping).transpose
                          * (dQT (((Mat.identity Q.rows Q.cols).sub (Q.mul Qinv)).mulVec b)).toMatrix
                              s.mNumClamping s.mNumDOFs
                        + (1 - Qinv.toMatrix s.mNumClamping s.mNumClamping
                              * Q.toMatrix s.mNumClamping s.mNumClamping)
                          * (dQT ((Qinv.transpose.mul Qinv).mulVec b)).toMatrix
                              s.mNumClamping s.mNumDOFs) := by
  obtain ⟨A_c, hAc, hrows, hcols⟩ := assembleMatrix_dims s world .CLAMPING hres
  obtain ⟨A_ub, hAub, hrowsU, hcolsU⟩ := assembleMatrix_dims s world .UPPER_BOUND hres
  have hAc2 : getClampingConstraintMatrix s world = .ok A_c := hAc
  have hAub1 : getUpperBoundConstraintMatrix s (rewind s world) = .ok A_ub := by
    rw [getUpperBoundConstraintMatrix_rewind]; exact hAub
  have hcols1 : A_c.cols = s.mNumClamping := hcols
  have hcolsU1 : A_ub.cols = s.mNumUpperBound := hcolsU
  refine ⟨A_c, A_ub, hAc2, hAub1, ?_⟩
  intro E Minv A Q Qinv dMinv hE hM hA hQ hQi hdM hc
  have hMc : Minv.cols = s.mNumDOFs := by rw [hM]; exact cols_getInvMassMatrix ext s _
  have hEr : E.rows = s.mNumUpperBound := by
    rw [hE, rows_getUpperBoundMappingMatrix, ← hwf.2.2.1, hwf.2.2.2]
  have hQr : Q.rows = s.mNumClamping := by rw [hQ]; simpa [Mat.mul, Mat.transpose] using hcols1
  have hQc : Q.cols = s.mNumClamping := by rw [hQ, hA]; simpa [Mat.mul, Mat.add] using hcols1
  have hQir : Qinv.rows = s.mNumClamping := by rw [hQi]; exact hQc
  have hQic : Qinv.cols = s.mNumClamping := by rw [hQi]; exact hQr
  subst hdM
  -- the macros of the branch taken, as total functions
  refine ⟨fun x => match (if 0 < A_ub.cols then dQ_ub ext s world .POSITION A_c A E Minv x
      else dQ_c ext s world .POSITION A_c Minv x) with
      | .ok M => M
      | .error _ => Mat.zero 0 0,
    fun x => match (if 0 < A_ub.cols then dQT_ub ext s world .POSITION A_c A_ub E Minv x
      else dQ_c ext s world .POSITION A_c Minv x) with
      | .ok M => M
      | .error _ => Mat.zero 0 0, ?_, ?_, ?_⟩
  · intro hub x hx
    obtain ⟨dA_cT, h1⟩ := getJacobianOfClampingConstraintsTranspose_ok ext s world
      ((Minv.mul A).mulVec x) hwf.1
    obtain ⟨dA_c, h2⟩ := getJacobianOfClampingConstraints_ok ext s world x hwf.1 hx
    obtain ⟨dA_ub, h3⟩ := getJacobianOfUpperBoundConstraints_ok ext s world (E.mulVec x)
      (by rw [length_mulVec, hE, rows_getUpperBoundMappingMatrix, hwf.2.2.1])
    obtain ⟨dA_cT2, h4⟩ := getJacobianOfClampingConstraintsTranspose_ok ext s world
      ((Minv.mul A_c).mulVec x) hwf.1
    obtain ⟨dA_ubT, h5⟩ := getJacobianOfUpperBoundConstraintsTranspose_ok ext s world
      ((Minv.mul A_c).mulVec x) hwf.2.2.2
    refine ⟨dA_cT, dA_c, dA_ub, dA_cT2, dA_ubT, h1, h2, h3, h4, h5, ?_, ?_⟩
    · simp only [if_pos hub, dQ_ub, h1, h2, h3]
      rw [toMatrix_add, toMatrix_mul _ _ _ s.mNumDOFs _ (by simpa [Mat.transpose] using hrows),
        toMatrix_add, toMatrix_mul _ _ _ s.mNumDOFs _ hMc, toMatrix_add, toMatrix_transpose]
    · simp only [if_pos hub, dQT_ub, h4, h2, h5]
      rw [toMatrix_add, toMatrix_add,
        toMatrix_mul _ _ _ s.mNumDOFs _ (by simpa [Mat.transpose] using hrows),
        toMatrix_add, toMatrix_mul _ _ _ s.mNumDOFs _ hMc,
        toMatrix_mul _ _ _ s.mNumUpperBound _ (by simpa [Mat.transpose] using hEr),
        toMatrix_add, toMatrix_mul _ _ _ s.mNumDOFs _ (by simpa [Mat.transpose] using hrowsU),
        toMatrix_add, toMatrix_mul _ _ _ s.mNumDOFs _ hMc,
        toMatrix_transpose, toMatrix_transpose, toMatrix_transpose]
  · intro hub x hx
    obtain ⟨dA_cT, h1⟩ := getJacobianOfClampingConstraintsTranspose_ok ext s world
      ((Minv.mul A_c).mulVec x) hwf.1
    obtain ⟨dA_c, h2⟩ := getJacobianOfClampingConstraints_ok ext s world x hwf.1 hx
    refine ⟨dA_cT, dA_c, h1, h2, ?_, ?_⟩
    · simp only [if_neg hub, dQ_c, h1, h2]
      rw [toMatrix_add, toMatrix_mul _ _ _ s.mNumDOFs _ (by simpa [Mat.transpose] using hrows),
        toMatrix_add, toMatrix_mul _ _ _ s.mNumDOFs _ hMc, toMatrix_transpose]
    · simp only [if_neg hub]
  · have hdQ : ∀ x : Vec, x.length = s.mNumClamping →
        ∃ M, (if 0 < A_ub.cols then dQ_ub ext s world .POSITION A_c A E Minv x
          else dQ_c ext s world .POSITION A_c Minv x) = .ok M := by
      intro x hx
      split
      · rw [hE]; exact dQ_ub_ok ext s world _ A_c A Minv x hwf hx
      · exact dQ_c_ok ext s world _ A_c Minv x hwf hx
    have hdQT : ∀ x : Vec, x.length = s.mNumClamping →
        ∃ M, (if 0 < A_ub.cols then dQT_ub ext s world .POSITION A_c A_ub E Minv x
          else dQ_c ext s world .POSITION A_c Minv x) = .ok M := by
      intro x hx
      split
      · exact dQT_ub_ok ext s world _ A_c A_ub E Minv x hwf hx
      · exact dQ_c_ok ext s world _ A_c Minv x hwf hx
    obtain ⟨d1, hd1⟩ := hdQ (Qinv.mulVec b) (by rw [length_mulVec, hQir])
    obtain ⟨d2, hd2⟩ := hdQT (((Mat.identity Q.rows Q.cols).sub (Q.mul Qinv)).mulVec b)
      (by rw [length_mulVec]; simpa [Mat.sub, Mat.identity] using hQr)
    obtain ⟨d3, hd3⟩ := hdQT ((Qinv.transpose.mul Qinv).mulVec b)
      (by rw [length_mulVec]; simpa [Mat.mul, Mat.transpose] using hQic)
    have hrun : getJacobianOfLCPConstraintMatrixClampingSubset ext s world b .POSITION
        = pseudoInverseJacobian
            (fun x => if 0 < A_ub.cols then dQ_ub ext s world .POSITION A_c A E Minv x
              else dQ_c ext s world .POSITION A_c Minv x)
            (fun x => if 0 < A_ub.cols then dQT_ub ext s world .POSITION A_c A_ub E Minv x
              else dQ_c ext s world .POSITION A_c Minv x) Q Qinv b := by
      unfold getJacobianOfLCPConstraintMatrixClampingSubset
      simp only [hAc2, hAub1, if_neg hc]
      rw [if_neg (by simp), if_pos trivial]
      subst hQi hQ hA hM hE
      split <;> rfl
    rw [hrun]
    unfold pseudoInverseJacobian plainInverseJacobian pseudoInverseDerivative
    simp only [hd1, hd2, hd3]
    by_cases hsmall : ((Mat.identity Q.rows Q.cols).sub (Q.mul Qinv)).squaredNorm < 1 / 10 ^ 18
    · rw [if_pos hsmall]
      refine ⟨_, rfl, fun _ => ?_, fun h => absurd hsmall h⟩
      rw [toMatrix_mul _ _ _ s.mNumClamping _ (by simpa [Mat.neg] using hQic), toMatrix_neg]
    · rw [if_neg hsmall]
      refine ⟨_, rfl, fun h => absurd h hsmall, fun _ => ?_⟩
      rw [toMatrix_add, toMatrix_add,
        toMatrix_mul _ _ _ s.mNumClamping _ (by simpa [Mat.neg] using hQic), toMatrix_neg,
        toMatrix_mul _ _ _ s.mNumClamping _ (by simpa [Mat.mul, Mat.transpose] using hQir),
        toMatrix_mul _ _ _ s.mNumClamping _ hQic, toMatrix_transpose,
        toMatrix_mul _ _ _ s.mNumClamping _ (by simpa [Mat.sub, Mat.identity] using hQc),
        toMatrix_sub, toMatrix_identity, toMatrix_mul _ _ _ s.mNumClamping _ hQic]

/-- Witness for C22: the two skeletons with inverse masses `2` and `3`, one
clamping column `(1, -1)`, one upper-bound column `(0, 1)` with ratio `1/2` and
`b = 7`: `Q = 7/2`, `Qinv = 2/7`, the squared norm of `I - Q Qinv` is `0`, and
the routine returns `-(2/7) * dQ(2) = -(2/7) * (12, -11)`. -/
theorem getJacobianOfLCPConstraintMatrixClampingSubset_position_witness :
    constraintCountsAgree exampleUpperBoundSnapshot
    ∧ ∃ J : Mat,
        getJacobianOfLCPConstraintMatrixClampingSubset exampleInvertibleExternal
          exampleUpperBoundSnapshot exampleUpperBoundWorld [7] .POSITION = .ok J
        ∧ J.coeff 0 0 = -(24 / 7) ∧ J.coeff 0 1 = 22 / 7 := by
  have hgm : exampleUpperBoundSnapshot.mGradientMatrices = [exampleUpperBoundGroup] := rfl
  have hnc : exampleUpperBoundSnapshot.mNumClamping = 1 := rfl
  have hnu : exampleUpperBoundSnapshot.mNumUpperBound = 1 := rfl
  have hres : ∀ g ∈ exampleUpperBoundSnapshot.mGradientMatrices, ∀ name ∈ g.skeletons,
      (exampleUpperBoundWorld.getSkeleton name).isSome := by
    rw [hgm]; decide
  have hwf : constraintCountsAgree exampleUpperBoundSnapshot := by
    unfold constraintCountsAgree
    rw [hgm, hnc, hnu]
    decide
  obtain ⟨A_c, A_ub, hA, _, h⟩ :=
    getJacobianOfLCPConstraintMatrixClampingSubset_position exampleInvertibleExternal
      exampleUpperBoundSnapshot exampleUpperBoundWorld [7] hres hwf
  have hcols : (match getClampingConstraintMatrix exampleUpperBoundSnapshot
      exampleUpperBoundWorld with
      | .ok M => M.cols
      | .error _ => 0) = 1 := rfl
  rw [hA] at hcols
  simp only at hcols
  obtain ⟨_, _, _, _, J, hJ, _, _⟩ := h _ _ _ _ _ _ rfl rfl rfl rfl rfl rfl
    (by rw [hcols]; decide)
  have h00 : (match getJacobianOfLCPConstraintMatrixClampingSubset exampleInvertibleExternal
        exampleUpperBoundSnapshot exampleUpperBoundWorld [7] .POSITION with
      | .ok Y => Y.coeff 0 0
      | .error _ => 0) = -(24 / 7) := by with_unfolding_all rfl
  have h01 : (match getJacobianOfLCPConstraintMatrixClampingSubset exampleInvertibleExternal
        exampleUpperBoundSnapshot exampleUpperBoundWorld [7] .POSITION with
      | .ok Y => Y.coeff 0 1
      | .error _ => 0) = 22 / 7 := by with_unfolding_all rfl
  rw [hJ] at h00 h01
  exact ⟨hwf, J, hJ, h00, h01⟩

/-! ## The two position formulas agree for an invertible `Q` -/

theorem sumTo_zero (n : Nat) (f : Nat → ℚ) (h : ∀ k, k < n → f k = 0) : sumTo n f = 0 := by
  induction n with
  | zero => rfl
  | succ k ih =>
    rw [sumTo, ih (fun j hj => h j (Nat.lt_succ_of_lt hj)), h k (Nat.lt_succ_self k)]
    simp

theorem coeffAt_mulVec_zero (A : Mat) (v : Vec) (hv : ∀ i, coeffAt v i = 0) (i : Nat) :
    coeffAt (A.mulVec v) i = 0 := by
  unfold Mat.mulVec
  rw [coeffAt_map_range]
  split
  · exact sumTo_zero _ _ (fun k _ => by rw [hv k]; simp)
  · rfl

theorem coeff_mul_zero_right (A B : Mat) (hB : ∀ r c, B.coeff r c = 0) (r c : Nat) :
    (A.mul B).coeff r c = 0 := by
  show sumTo A.cols (fun k => A.coeff r k * B.coeff k c) = 0
  exact sumTo_zero _ _ (fun k _ => by rw [hB k c]; simp)

theorem coeff_add_zero (A B : Mat) (hA : ∀ r c, A.coeff r c = 0) (hB : ∀ r c, B.coeff r c = 0)
    (r c : Nat) : (A.add B).coeff r c = 0 := by
  show A.coeff r c + B.coeff r c = 0
  rw [hA, hB]; simp

theorem constraintForcesJacobianRows_zero (ext : External) (world : World) (v0 : Vec)
    (hv : ∀ i, coeffAt v0 i = 0) (cs : List DifferentiableContactConstraint) (k : Nat) (R : Mat)
    (hR : ∀ r c, R.coeff r c = 0) (r c : Nat) :
    (constraintForcesJacobianRows ext world v0 cs k R).coeff r c = 0 := by
  induction cs generalizing k R with
  | nil => exact hR r c
  | cons x rest ih =>
    rw [constraintForcesJacobianRows]
    apply ih
    intro r1 c1
    show (if r1 = k ∧ c1 < R.cols then _ else R.coeff r1 c1) = 0
    split
    · exact coeffAt_mulVec_zero _ _ hv c1
    · exact hR r1 c1

theorem getJacobianOfClampingConstraintsTranspose_zero (ext : External) (s : BackpropSnapshot)
    (world : World) (v0 : Vec) (M : Mat) (hv : ∀ i, coeffAt v0 i = 0)
    (h : getJacobianOfClampingConstraintsTranspose ext s world v0 = .ok M) (r c : Nat) :
    M.coeff r c = 0 := by
  unfold getJacobianOfClampingConstraintsTranspose at h
  cases hcs : getClampingConstraints s with
  | error e => rw [hcs] at h; simp at h
  | ok cs =>
    rw [hcs] at h
    simp only at h
    split at h
    · simp only [Except.ok.injEq] at h
      subst h
      exact constraintForcesJacobianRows_zero ext _ v0 hv cs 0 _ (fun _ _ => rfl) r c
    · simp at h

theorem getJacobianOfUpperBoundConstraintsTranspose_zero (ext : External)
    (s : BackpropSnapshot) (world : World) (v0 : Vec) (M : Mat) (hv : ∀ i, coeffAt v0 i = 0)
    (h : getJacobianOfUpperBoundConstraintsTranspose ext s world v0 = .ok M) (r c : Nat) :
    M.coeff r c = 0 := by
  unfold getJacobianOfUpperBoundConstraintsTranspose at h
  simp only at h
  split at h
  · simp only [Except.ok.injEq] at h
    subst h
    exact constraintForcesJacobianRows_zero ext _ v0 hv _ 0 _ (fun _ _ => rfl) r c
  · simp at h

theorem getJacobianOfClampingConstraints_zero (ext : External) (s : BackpropSnapshot)
    (world : World) (f0 : Vec) (M : Mat) (hv : ∀ i, coeffAt f0 i = 0)
    (h : getJacobianOfClampingConstraints ext s world f0 = .ok M) (r c : Nat) :
    M.coeff r c = 0 := by
  obtain ⟨cs, _, _, _, _, hsum⟩ := getJacobianOfClampingConstraints_spec ext s world f0 M h
  rw [hsum]
  apply List.sum_eq_zero
  intro x hx
  rw [List.mem_map] at hx
  obtain ⟨p, _, hp⟩ := hx
  rw [← hp, hv]; simp

/-- The macro `dQT(rhs)` of either position branch has only zero coefficients
at a vector `rhs` of zeros, when the Jacobian of `Minv * 0` is zero. -/
theorem dQT_zero (ext : External) (s : BackpropSnapshot) (world : World)
    (A_c A_ub E Minv : Mat) (x : Vec) (M : Mat)
    (hzero : ∀ v : Vec, (∀ i, coeffAt v i = 0) →
      ∀ i j, (ext.getJacobianOfMinv s world v .POSITION).coeff i j = 0)
    (hx : ∀ i, coeffAt x i = 0)
    (h : (if 0 < A_ub.cols then dQT_ub ext s world .POSITION A_c A_ub E Minv x
      else dQ_c ext s world .POSITION A_c Minv x) = .ok M) (r c : Nat) :
    M.coeff r c = 0 := by
  have hm := hzero (A_c.mulVec x) (coeffAt_mulVec_zero A_c x hx)
  have hv := coeffAt_mulVec_zero (Minv.mul A_c) x hx
  split at h
  · unfold dQT_ub at h
    cases h1 : getJacobianOfClampingConstraintsTranspose ext s world ((Minv.mul A_c).mulVec x) with
    | error e => rw [h1] at h; simp at h
    | ok dA_cT =>
    cases h2 : getJacobianOfClampingConstraints ext s world x with
    | error e => rw [h1, h2] at h; simp at h
    | ok dA_c =>
    cases h3 : getJacobianOfUpperBoundConstraintsTranspose ext s world
        ((Minv.mul A_c).mulVec x) with
    | error e => rw [h1, h2, h3] at h; simp at h
    | ok dA_ubT =>
      rw [h1, h2, h3] at h
      simp only [Except.ok.injEq] at h
      subst h
      have z1 := getJacobianOfClampingConstraintsTranspose_zero ext s world _ _ hv h1
      have z2 := getJacobianOfClampingConstraints_zero ext s world _ _ hx h2
      have z3 := getJacobianOfUpperBoundConstraintsTranspose_zero ext s world _ _ hv h3
      have z4 := coeff_add_zero _ _ hm (coeff_mul_zero_right Minv _ z2)
      exact coeff_add_zero _ _
        (coeff_add_zero _ _ z1 (coeff_mul_zero_right _ _ z4))
        (coeff_mul_zero_right _ _ (coeff_add_zero _ _ z3 (coeff_mul_zero_right _ _ z4))) r c
  · unfold dQ_c at h
    cases h1 : getJacobianOfClampingConstraintsTranspose ext s world ((Minv.mul A_c).mulVec x) with
    | error e => rw [h1] at h; simp at h
    | ok dA_cT =>
    cases h2 : getJacobianOfClampingConstraints ext s world x with
    | error e => rw [h1, h2] at h; simp at h
    | ok dA_c =>
      rw [h1, h2] at h
      simp only [Except.ok.injEq] at h
      subst h
      have z1 := getJacobianOfClampingConstraintsTranspose_zero ext s world _ _ hv h1
      have z2 := getJacobianOfClampingConstraints_zero ext s world _ _ hx h2
      have z4 := coeff_add_zero _ _ hm (coeff_mul_zero_right Minv _ z2)
      exact coeff_add_zero _ _ z1 (coeff_mul_zero_right _ _ z4) r c

/-- With `Q * Qinv = 1`, the vector `(I - Q * Qinv) * b` has only zero
coefficients. -/
theorem imprecisionMap_mulVec_zero (Q Qinv : Mat) (b : Vec) (n : Nat) (hr : Q.rows = n)
    (hc : Q.cols = n) (hinv : Q.toMatrix n n * Qinv.toMatrix n n = 1) (i : Nat) :
    coeffAt (((Mat.identity Q.rows Q.cols).sub (Q.mul Qinv)).mulVec b) i = 0 := by
  unfold Mat.mulVec
  rw [coeffAt_map_range]
  split
  · rename_i hi
    apply sumTo_zero
    intro k hk
    have hi1 : i < n := by simpa [Mat.sub, Mat.identity, hr] using hi
    have hk1 : k < n := by simpa [Mat.sub, Mat.identity, hc] using hk
    have h1 := congrFun (congrFun hinv ⟨i, hi1⟩) ⟨k, hk1⟩
    rw [← toMatrix_mul Q Qinv n n n hc] at h1
    have h2 : ((Mat.identity Q.rows Q.cols).sub (Q.mul Qinv)).coeff i k
        = (if i = k then 1 else 0) - (Q.mul Qinv).coeff i k := rfl
    rw [h2]
    have h3 : (Q.mul Qinv).coeff i k = (1 : Matrix (Fin n) (Fin n) ℚ) ⟨i, hi1⟩ ⟨k, hk1⟩ := h1
    rw [h3, Matrix.one_apply]
    simp [Fin.ext_iff]
  · rfl

/-- For `wrt = position` and at least one clamping constraint, the routine
returns what `pseudoInverseJacobian` returns on the macros of the branch
selected by `A_ub.cols() > 0`. -/
theorem getJacobianOfLCPConstraintMatrixClampingSubset_position_eq (ext : External)
    (s : BackpropSnapshot) (world : World) (b : Vec) (A_c A_ub : Mat)
    (hAc : getClampingConstraintMatrix s world = .ok A_c)
    (hAub : getUpperBoundConstraintMatrix s (rewind s world) = .ok A_ub)
    (hc : A_c.cols ≠ 0) :
    getJacobianOfLCPConstraintMatrixClampingSubset ext s world b .POSITION
      = pseudoInverseJacobian
          (if 0 < A_ub.cols then
            dQ_ub ext s world .POSITION A_c (A_c.add (A_ub.mul (getUpperBoundMappingMatrix s)))
              (getUpperBoundMappingMatrix s) (getInvMassMatrix ext s (rewind s world))
          else dQ_c ext s world .POSITION A_c (getInvMassMatrix ext s (rewind s world)))
          (if 0 < A_ub.cols then
            dQT_ub ext s world .POSITION A_c A_ub (getUpperBoundMappingMatrix s)
              (getInvMassMatrix ext s (rewind s world))
          else dQ_c ext s world .POSITION A_c (getInvMassMatrix ext s (rewind s world)))
          ((A_c.transpose.mul (getInvMassMatrix ext s (rewind s world))).mul
            (A_c.add (A_ub.mul (getUpperBoundMappingMatrix s))))
          ⟨((A_c.transpose.mul (getInvMassMatrix ext s (rewind s world))).mul
              (A_c.add (A_ub.mul (getUpperBoundMappingMatrix s)))).cols,
            ((A_c.transpose.mul (getInvMassMatrix ext s (rewind s world))).mul
              (A_c.add (A_ub.mul (getUpperBoundMappingMatrix s)))).rows,
            ext.pseudoInverse ((A_c.transpose.mul (getInvMassMatrix ext s (rewind s world))).mul
              (A_c.add (A_ub.mul (getUpperBoundMappingMatrix s))))⟩ b := by
  unfold getJacobianOfLCPConstraintMatrixClampingSubset
  simp only [hAc, hAub, if_neg hc]
  rw [if_neg (by simp), if_pos trivial]
  split <;> rfl

/-- C30. On a snapshot whose counts agree, with at least one clamping
constraint, `Q = A_c^T Minv (A_c + A_ub E)`, `Qinv` its pseudo-inverse and
`dQ`, `dQT` the macros of the branch selected by `A_ub.cols() > 0`: if
`Q * Qinv = 1` and `Qinv * Q = 1` (and the Jacobian of `Minv * 0` is zero), the
pseudo-inverse derivative
`-Qinv dQ(Qinv b) + Qinv Qinv^T dQT((I - Q Qinv) b) + (I - Qinv Q) dQT(Qinv^T Qinv b)`
and the plain-inverse formula `-Qinv dQ(Qinv b)` both return and are the same
matrix, which is also the matrix
`getJacobianOfLCPConstraintMatrixClampingSubset` returns for `wrt = position`. -/
theorem pseudoInverseDerivative_eq_plainInverseJacobian (ext : External)
    (s : BackpropSnapshot) (world : World) (b : Vec)
    (hres : ∀ g ∈ s.mGradientMatrices, ∀ name ∈ g.skeletons, (world.getSkeleton name).isSome)
    (hwf : constraintCountsAgree s)
    (hzero : ∀ v : Vec, (∀ i, coeffAt v i = 0) →
      ∀ i j, (ext.getJacobianOfMinv s world v .POSITION).coeff i j = 0) :
    ∃ A_c A_ub : Mat,
      getClampingConstraintMatrix s world = .ok A_c
      ∧ getUpperBoundConstraintMatrix s (rewind s world) = .ok A_ub
      ∧ ∀ (E Minv A Q Qinv : Mat) (dQ dQT : Vec → Except Failure Mat),
          E = getUpperBoundMappingMatrix s →
          Minv = getInvMassMatrix ext s (rewind s world) →
          A = A_c.add (A_ub.mul E) →
          Q = (A_c.transpose.mul Minv).mul A →
          Qinv = ⟨Q.cols, Q.rows, ext.pseudoInverse Q⟩ →
          dQ = (if 0 < A_ub.cols then dQ_ub ext s world .POSITION A_c A E Minv
            else dQ_c ext s world .POSITION A_c Minv) →
          dQT = (if 0 < A_ub.cols then dQT_ub ext s world .POSITION A_c A_ub E Minv
            else dQ_c ext s world .POSITION A_c Minv) →
          A_c.cols ≠ 0 →
          Q.toMatrix s.mNumClamping s.mNumClamping * Qinv.toMatrix s.mNumClamping s.mNumClamping
            = 1 →
          Qinv.toMatrix s.mNumClamping s.mNumClamping * Q.toMatrix s.mNumClamping s.mNumClamping
            = 1 →
          ∃ F P J : Mat,
            pseudoInverseDerivative dQ dQT Q Qinv b = .ok F
            ∧ plainInverseJacobian dQ Qinv b = .ok P
            ∧ F.toMatrix s.mNumClamping s.mNumDOFs = P.toMatrix s.mNumClamping s.mNumDOFs
            ∧ getJacobianOfLCPConstraintMatrixClampingSubset ext s world b .POSITION = .ok J
            ∧ J.toMatrix s.mNumClamping s.mNumDOFs
                = P.toMatrix s.mNumClamping s.mNumDOFs := by
  obtain ⟨A_c, hAc, hrows, hcols⟩ := assembleMatrix_dims s world .CLAMPING hres
  obtain ⟨A_ub, hAub, hrowsU, hcolsU⟩ := assembleMatrix_dims s world .UPPER_BOUND hres
  have hAc2 : getClampingConstraintMatrix s world = .ok A_c := hAc
  have hAub1 : getUpperBoundConstraintMatrix s (rewind s world) = .ok A_ub := by
    rw [getUpperBoundConstraintMatrix_rewind]; exact hAub
  have hcols1 : A_c.cols = s.mNumClamping := hcols
  refine ⟨A_c, A_ub, hAc2, hAub1, ?_⟩
  intro E Minv A Q Qinv dQ dQT hE hM hA hQ hQi hdQ hdQT hc hQQi hQiQ
  have hQr : Q.rows = s.mNumClamping := by rw [hQ]; simpa [Mat.mul, Mat.transpose] using hcols1
  have hQc : Q.cols = s.mNumClamping := by rw [hQ, hA]; simpa [Mat.mul, Mat.add] using hcols1
  have hQir : Qinv.rows = s.mNumClamping := by rw [hQi]; exact hQc
  have hQic : Qinv.cols = s.mNumClamping := by rw [hQi]; exact hQr
  have hrun := getJacobianOfLCPConstraintMatrixClampingSubset_position_eq ext s world b A_c A_ub
    hAc2 hAub1 hc
  rw [← hE, ← hM, ← hA, ← hQ, ← hQi, ← hdQ, ← hdQT] at hrun
  have hokQ : ∀ x : Vec, x.length = s.mNumClamping → ∃ M, dQ x = .ok M := by
    intro x hx
    rw [hdQ]
    split
    · rw [hE]; exact dQ_ub_ok ext s world _ A_c A Minv x hwf hx
    · exact dQ_c_ok ext s world _ A_c Minv x hwf hx
  have hokQT : ∀ x : Vec, x.length = s.mNumClamping → ∃ M, dQT x = .ok M := by
    intro x hx
    rw [hdQT]
    split
    · exact dQT_ub_ok ext s world _ A_c A_ub E Minv x hwf hx
    · exact dQ_c_ok ext s world _ A_c Minv x hwf hx
  obtain ⟨d1, hd1⟩ := hokQ (Qinv.mulVec b) (by rw [length_mulVec, hQir])
  obtain ⟨d2, hd2⟩ := hokQT (((Mat.identity Q.rows Q.cols).sub (Q.mul Qinv)).mulVec b)
    (by rw [length_mulVec]; simpa [Mat.sub, Mat.identity] using hQr)
  obtain ⟨d3, hd3⟩ := hokQT ((Qinv.transpose.mul Qinv).mulVec b)
    (by rw [length_mulVec]; simpa [Mat.mul, Mat.transpose] using hQic)
  have hd2z : ∀ r c, d2.coeff r c = 0 := by
    intro r c
    refine dQT_zero ext s world A_c A_ub E Minv _ d2 hzero
      (imprecisionMap_mulVec_zero Q Qinv b s.mNumClamping hQr hQc hQQi) ?_ r c
    have h := hd2
    rw [hdQT] at h
    split at h <;> rename_i hub
    · rw [if_pos hub]; exact h
    · rw [if_neg hub]; exact h
  have hF : pseudoInverseDerivative dQ dQT Q Qinv b
      = .ok (((Qinv.neg.mul d1).add ((Qinv.mul Qinv.transpose).mul d2)).add
          (((Mat.identity Q.rows Q.cols).sub (Qinv.mul Q)).mul d3)) := by
    unfold pseudoInverseDerivative
    simp only [hd1, hd2, hd3]
  have hP : plainInverseJacobian dQ Qinv b = .ok (Qinv.neg.mul d1) := by
    unfold plainInverseJacobian
    simp only [hd1]
  have hFP : ((((Qinv.neg.mul d1).add ((Qinv.mul Qinv.transpose).mul d2)).add
        (((Mat.identity Q.rows Q.cols).sub (Qinv.mul Q)).mul d3))).toMatrix
          s.mNumClamping s.mNumDOFs
      = (Qinv.neg.mul d1).toMatrix s.mNumClamping s.mNumDOFs := by
    have hz : d2.toMatrix s.mNumClamping s.mNumDOFs = 0 := by
      funext i j
      exact hd2z i j
    rw [toMatrix_add, toMatrix_add,
      toMatrix_mul (Qinv.mul Qinv.transpose) d2 _ s.mNumClamping _
        (by simpa [Mat.mul, Mat.transpose] using hQir),
      toMatrix_mul ((Mat.identity Q.rows Q.cols).sub (Qinv.mul Q)) d3 _ s.mNumClamping _
        (by simpa [Mat.sub, Mat.identity] using hQc),
      toMatrix_sub, toMatrix_identity, toMatrix_mul Qinv Q _ s.mNumClamping _ hQic, hz, hQiQ]
    simp
  refine ⟨_, _, ?_, hF, hP, hFP, ?_⟩
  · exact if (((Mat.identity Q.rows Q.cols).sub (Q.mul Qinv)).squaredNorm < 1 / 10 ^ 18)
      then Qinv.neg.mul d1
      else ((Qinv.neg.mul d1).add ((Qinv.mul Qinv.transpose).mul d2)).add
          (((Mat.identity Q.rows Q.cols).sub (Qinv.mul Q)).mul d3)
  · rw [hrun]
    unfold pseudoInverseJacobian
    simp only
    split
    · exact ⟨hP, rfl⟩
    · exact ⟨hF, hFP⟩
/-- Witness for C30: the two skeletons with inverse masses `2` and `3`, one
clamping column `(1, -1)`, one upper-bound column `(0, 1)` with ratio `1/2` and
`b = 7`: `Q = 7/2` and `Qinv = 2/7` are inverse to each other, both formulas
return the same matrix, and the routine returns it, with `-(2/7) * 12` as its
first coefficient. -/
theorem pseudoInverseDerivative_eq_plainInverseJacobian_witness :
    ∃ (A_c A_ub Q Qinv F P J : Mat) (dQ dQT : Vec → Except Failure Mat),
      getClampingConstraintMatrix exampleUpperBoundSnapshot exampleUpperBoundWorld = .ok A_c
      ∧ getUpperBoundConstraintMatrix exampleUpperBoundSnapshot
          (rewind exampleUpperBoundSnapshot exampleUpperBoundWorld) = .ok A_ub
      ∧ Q = (A_c.transpose.mul (getInvMassMatrix exampleInvertibleExternal
            exampleUpperBoundSnapshot (rewind exampleUpperBoundSnapshot exampleUpperBoundWorld))).mul
          (A_c.add (A_ub.mul (getUpperBoundMappingMatrix exampleUpperBoundSnapshot)))
      ∧ Qinv = ⟨Q.cols, Q.rows, exampleInvertibleExternal.pseudoInverse Q⟩
      ∧ dQ = dQ_ub exampleInvertibleExternal exampleUpperBoundSnapshot exampleUpperBoundWorld
          .POSITION A_c (A_c.add (A_ub.mul (getUpperBoundMappingMatrix exampleUpperBoundSnapshot)))
          (getUpperBoundMappingMatrix exampleUpperBoundSnapshot)
          (getInvMassMatrix exampleInvertibleExternal exampleUpperBoundSnapshot
            (rewind exampleUpperBoundSnapshot exampleUpperBoundWorld))
      ∧ dQT = dQT_ub exampleInvertibleExternal exampleUpperBoundSnapshot exampleUpperBoundWorld
          .POSITION A_c A_ub (getUpperBoundMappingMatrix exampleUpperBoundSnapshot)
          (getInvMassMatrix exampleInvertibleExternal exampleUpperBoundSnapshot
            (rewind exampleUpperBoundSnapshot exampleUpperBoundWorld))
      ∧ Q.coeff 0 0 = 7 / 2 ∧ Qinv.coeff 0 0 = 2 / 7
      ∧ pseudoInverseDerivative dQ dQT Q Qinv [7] = .ok F
      ∧ plainInverseJacobian dQ Qinv [7] = .ok P
      ∧ F.toMatrix 1 2 = P.toMatrix 1 2
      ∧ getJacobianOfLCPConstraintMatrixClampingSubset exampleInvertibleExternal
          exampleUpperBoundSnapshot exampleUpperBoundWorld [7] .POSITION = .ok J
      ∧ J.toMatrix 1 2 = P.toMatrix 1 2
      ∧ J.coeff 0 0 = -(24 / 7) := by
  have hgm : exampleUpperBoundSnapshot.mGradientMatrices = [exampleUpperBoundGroup] := rfl
  have hnc : exampleUpperBoundSnapshot.mNumClamping = 1 := rfl
  have hnu : exampleUpperBoundSnapshot.mNumUpperBound = 1 := rfl
  have hres : ∀ g ∈ exampleUpperBoundSnapshot.mGradientMatrices, ∀ name ∈ g.skeletons,
      (exampleUpperBoundWorld.getSkeleton name).isSome := by
    rw [hgm]; decide
  have hwf : constraintCountsAgree exampleUpperBoundSnapshot := by
    unfold constraintCountsAgree
    rw [hgm, hnc, hnu]
    decide
  have hzero : ∀ v : Vec, (∀ i, coeffAt v i = 0) →
      ∀ i j, (exampleInvertibleExternal.getJacobianOfMinv exampleUpperBoundSnapshot
        exampleUpperBoundWorld v .POSITION).coeff i j = 0 := by
    intro v hv i j
    show (if i = j then coeffAt v i else 0) = 0
    rw [hv i]; simp
  obtain ⟨A_c, A_ub, hA, hAub, h⟩ :=
    pseudoInverseDerivative_eq_plainInverseJacobian exampleInvertibleExternal
      exampleUpperBoundSnapshot exampleUpperBoundWorld [7] hres hwf hzero
  have hcols : (match getClampingConstraintMatrix exampleUpperBoundSnapshot
      exampleUpperBoundWorld with
      | .ok M => M.cols
      | .error _ => 0) = 1 := rfl
  rw [hA] at hcols
  simp only at hcols
  have hcolsU : (match getUpperBoundConstraintMatrix exampleUpperBoundSnapshot
      (rewind exampleUpperBoundSnapshot exampleUpperBoundWorld) with
      | .ok M => M.cols
      | .error _ => 0) = 1 := rfl
  rw [hAub] at hcolsU
  simp only at hcolsU
  have hub : 0 < A_ub.cols := by rw [hcolsU]; decide
  have hq : (match getClampingConstraintMatrix exampleUpperBoundSnapshot exampleUpperBoundWorld,
        getUpperBoundConstraintMatrix exampleUpperBoundSnapshot
          (rewind exampleUpperBoundSnapshot exampleUpperBoundWorld) with
      | .ok M, .ok U =>
        ((M.transpose.mul (getInvMassMatrix exampleInvertibleExternal exampleUpperBoundSnapshot
          (rewind exampleUpperBoundSnapshot exampleUpperBoundWorld))).mul
            (M.add (U.mul (getUpperBoundMappingMatrix exampleUpperBoundSnapshot)))).coeff 0 0
      | _, _ => 0) = 7 / 2 := by with_unfolding_all rfl
  rw [hA, hAub] at hq
  simp only at hq
  have hqi : (exampleInvertibleExternal.pseudoInverse
      ((A_c.transpose.mul (getInvMassMatrix exampleInvertibleExternal exampleUpperBoundSnapshot
          (rewind exampleUpperBoundSnapshot exampleUpperBoundWorld))).mul
            (A_c.add (A_ub.mul (getUpperBoundMappingMatrix exampleUpperBoundSnapshot))))) 0 0
      = 2 / 7 := by
    show (if (0 : Nat) = 0 ∧ (0 : Nat) = 0 then 1 / _ else 0) = (2 / 7 : ℚ)
    rw [hq]; norm_num
  obtain ⟨F, P, J, hF, hP, hFP, hJ, hJP⟩ := h _ _ _ _ _ _ _ rfl rfl rfl rfl rfl rfl rfl
    (by rw [hcols]; decide)
    (by
      show Mat.toMatrix _ 1 1 * Mat.toMatrix _ 1 1 = 1
      ext i j
      fin_cases i
      fin_cases j
      simp only [Matrix.mul_apply, Mat.toMatrix, Finset.univ_unique, Fin.default_eq_zero,
        Finset.sum_singleton, Fin.val_zero, Fin.zero_eta, Fin.isValue, Matrix.one_apply_eq]
      rw [hq, hqi]; norm_num)
    (by
      show Mat.toMatrix _ 1 1 * Mat.toMatrix _ 1 1 = 1
      ext i j
      fin_cases i
      fin_cases j
      simp only [Matrix.mul_apply, Mat.toMatrix, Finset.univ_unique, Fin.default_eq_zero,
        Finset.sum_singleton, Fin.val_zero, Fin.zero_eta, Fin.isValue, Matrix.one_apply_eq]
      rw [hq, hqi]; norm_num)
  simp only [if_pos hub] at hF hP
  have h00 : (match getJacobianOfLCPConstraintMatrixClampingSubset exampleInvertibleExternal
        exampleUpperBoundSnapshot exampleUpperBoundWorld [7] .POSITION with
      | .ok Y => Y.coeff 0 0
      | .error _ => 0) = -(24 / 7) := by with_unfolding_all rfl
  rw [hJ] at h00
  exact ⟨A_c, A_ub, _, _, F, P, J, _, _, hA, hAub, rfl, rfl, rfl, rfl, hq, hqi, hF, hP, hFP,
    hJ, hJP, h00⟩

/-! ## The constraint-force Jacobian for mass -/

/-- Without upper-bound constraints `A_c + A_ub * E` is `A_c`. -/
theorem add_mul_of_cols_zero (A U E : Mat) (h : U.cols = 0) : A.add (U.mul E) = A := by
  cases A
  simp [Mat.add, Mat.mul, h, sumTo]

/-- C23 (amended). For `wrt = mass`, on a snapshot whose groups list skeletons
of the world and with at least one clamping constraint,
`getJacobianOfConstraintForce` returns `dQ_b + Q.solve(dB)` with
`Q = A_c^T * Minv * (A_c + A_ub * E)`: `dQ_b` is the result of
`getJacobianOfLCPConstraintMatrixClampingSubset(b, mass)`, which holds `b`
constant and, without upper-bound constraints, is
`-Q.solve(A_c^T * dMinv((A_c + A_ub * E) * Q.solve(b)))`; and `dB`, the result
of `getJacobianOfLCPOffsetClampingSubset(mass)`, is
`-(diag(bounce) * A_c^T * dt * (dMinv(tau - C) - Minv * dC))`, the derivative of
`b` with respect to mass. -/
theorem getJacobianOfConstraintForce_mass (ext : External) (s : BackpropSnapshot)
    (world : World)
    (hres : ∀ g ∈ s.mGradientMatrices, ∀ name ∈ g.skeletons, (world.getSkeleton name).isSome) :
    ∃ (A_c A_ub : Mat) (bounce b : Vec),
      getClampingConstraintMatrix s world = .ok A_c
      ∧ getUpperBoundConstraintMatrix s world = .ok A_ub
      ∧ getBounceDiagonals ext s = .ok bounce
      ∧ getClampingConstraintRelativeVels ext s = .ok b
      ∧ ∀ (Minv Q dMinv_f dC : Mat),
          Minv = getInvMassMatrix ext s (rewind s world) →
          Q = (A_c.transpose.mul Minv).mul (A_c.add (A_ub.mul (getUpperBoundMappingMatrix s))) →
          dMinv_f = ext.getJacobianOfMinv s (rewind s world)
            (Vec.sub s.mPreStepTorques
              (ext.coriolisAndGravityAndExternalForces (rewind s world))) .MASS →
          dC = ext.getJacobianOfC s (rewind s world) .MASS →
          A_c.cols ≠ 0 →
          ∃ dQ_b dB J : Mat,
            getJacobianOfLCPConstraintMatrixClampingSubset ext s (rewind s world) b .MASS
              = .ok dQ_b
            ∧ (A_ub.cols = 0 →
                dQ_b = (ext.solveMatrix Q (A_c.transpose.mul
                  (ext.getJacobianOfMinv s (rewind s world)
                    ((A_c.add (A_ub.mul (getUpperBoundMappingMatrix s))).mulVec
                      (ext.solve Q b)) .MASS))).neg)
            ∧ getJacobianOfLCPOffsetClampingSubset ext s (rewind s world) .MASS = .ok dB
            ∧ (bounce.length = s.mNumClamping → ∀ m : Nat,
                dB.toMatrix s.mNumClamping m
                  = -(Matrix.diagonal (fun i : Fin s.mNumClamping => coeffAt bounce i)
                      * ((A_c.toMatrix s.mNumDOFs s.mNumClamping).transpose
                        * (world.timeStep
                            • (dMinv_f.toMatrix s.mNumDOFs m
                              - Minv.toMatrix s.mNumDOFs s.mNumDOFs
                                * dC.toMatrix s.mNumDOFs m)))))
            ∧ getJacobianOfConstraintForce ext s world .MASS = .ok J
            ∧ J = dQ_b.add (ext.solveMatrix Q dB)
            ∧ ∀ m : Nat, J.toMatrix s.mNumClamping m
                = dQ_b.toMatrix s.mNumClamping m
                  + (ext.solveMatrix Q dB).toMatrix s.mNumClamping m := by
  obtain ⟨A_c, hA, har, hac⟩ := assembleMatrix_dims s world .CLAMPING hres
  obtain ⟨A_ub, hAub, _, _⟩ := assembleMatrix_dims s world .UPPER_BOUND hres
  have hA0 : getClampingConstraintMatrix s world = .ok A_c := hA
  have hAub0 : getUpperBoundConstraintMatrix s world = .ok A_ub := hAub
  have hA1 : getClampingConstraintMatrix s (rewind s world) = .ok A_c := by
    rw [getClampingConstraintMatrix_rewind]; exact hA
  have hAub1 : getUpperBoundConstraintMatrix s (rewind s world) = .ok A_ub := by
    rw [getUpperBoundConstraintMatrix_rewind]; exact hAub
  have hMc : (getInvMassMatrix ext s (rewind s world)).cols = s.mNumDOFs :=
    (dims_assembleBlockDiagonalMatrix ext s (rewind s world) .INV_MASS _).2
  refine ⟨A_c, A_ub, _, _, hA0, hAub0, getBounceDiagonals_ok ext s,
    getClampingConstraintRelativeVels_ok ext s, ?_⟩
  intro Minv Q dMinv_f dC hM hQ hdM hdC hne
  subst hM hQ hdM hdC
  have hdQ : getJacobianOfLCPConstraintMatrixClampingSubset ext s (rewind s world)
      ((s.mGradientMatrices.map (fun g => g.clampingConstraintRelativeVels)).flatten) .MASS
      = .ok (ext.solveMatrix
          ((A_c.transpose.mul (getInvMassMatrix ext s (rewind s world))).mul
            (A_c.add (A_ub.mul (getUpperBoundMappingMatrix s))))
          (A_c.transpose.mul (ext.getJacobianOfMinv s (rewind s world)
            (A_c.mulVec (ext.solve
              ((A_c.transpose.mul (getInvMassMatrix ext s (rewind s world))).mul
                (A_c.add (A_ub.mul (getUpperBoundMappingMatrix s))))
              ((s.mGradientMatrices.map (fun g => g.clampingConstraintRelativeVels)).flatten)))
            .MASS))).neg := by
    unfold getJacobianOfLCPConstraintMatrixClampingSubset
    rw [rewind_rewind]
    simp [hA1, hAub1, hne]
  have hdB : getJacobianOfLCPOffsetClampingSubset ext s (rewind s world) .MASS
      = .ok ((Mat.diagonal ((s.mGradientMatrices.map (fun g => g.bounceDiagonals)).flatten)).mul
          ((Mat.scale world.timeStep A_c.transpose).mul
            ((ext.getJacobianOfMinv s (rewind s world)
                (Vec.sub s.mPreStepTorques
                  (ext.coriolisAndGravityAndExternalForces (rewind s world))) .MASS).sub
              ((getInvMassMatrix ext s (rewind s world)).mul
                (ext.getJacobianOfC s (rewind s world) .MASS)))).neg) := by
    unfold getJacobianOfLCPOffsetClampingSubset
    rw [rewind_rewind]
    simp [hA1, getBounceDiagonals_ok, timeStep_rewind]
  have hJ : getJacobianOfConstraintForce ext s world .MASS
      = .ok ((ext.solveMatrix
          ((A_c.transpose.mul (getInvMassMatrix ext s (rewind s world))).mul
            (A_c.add (A_ub.mul (getUpperBoundMappingMatrix s))))
          (A_c.transpose.mul (ext.getJacobianOfMinv s (rewind s world)
            (A_c.mulVec (ext.solve
              ((A_c.transpose.mul (getInvMassMatrix ext s (rewind s world))).mul
                (A_c.add (A_ub.mul (getUpperBoundMappingMatrix s))))
              ((s.mGradientMatrices.map (fun g => g.clampingConstraintRelativeVels)).flatten)))
            .MASS))).neg.add
          (ext.solveMatrix
            ((A_c.transpose.mul (getInvMassMatrix ext s (rewind s world))).mul
              (A_c.add (A_ub.mul (getUpperBoundMappingMatrix s))))
            ((Mat.diagonal ((s.mGradientMatrices.map (fun g => g.bounceDiagonals)).flatten)).mul
              ((Mat.scale world.timeStep A_c.transpose).mul
                ((ext.getJacobianOfMinv s (rewind s world)
                    (Vec.sub s.mPreStepTorques
                      (ext.coriolisAndGravityAndExternalForces (rewind s world))) .MASS).sub
                  ((getInvMassMatrix ext s (rewind s world)).mul
                    (ext.getJacobianOfC s (rewind s world) .MASS)))).neg))) := by
    unfold getJacobianOfConstraintForce
    simp [hA0, hAub0, hne, hdB, hdQ, getClampingConstraintRelativeVels_ok]
  refine ⟨_, _, _, hdQ, ?_, hdB, ?_, hJ, rfl, ?_⟩
  · intro hub
    rw [add_mul_of_cols_zero A_c A_ub _ hub]
  · intro hbl m
    rw [toMatrix_mul _ _ _ s.mNumClamping _ (by simpa [Mat.diagonal] using hbl),
      toMatrix_diagonal, toMatrix_neg,
      toMatrix_mul _ _ _ s.mNumDOFs _ (by simpa [Mat.scale, Mat.transpose] using har),
      toMatrix_scale, toMatrix_transpose, toMatrix_sub,
      toMatrix_mul _ _ _ s.mNumDOFs _ hMc]
    simp [Matrix.mul_neg, Matrix.smul_mul, Matrix.mul_smul]
  · intro m
    rw [toMatrix_add]
/-- Witness for C23 (amended): the two skeletons with inverse masses `2` and
`3`, clamping column `(1, -1)`, no upper-bound constraint, `b = 7`, pre-step
torques `(1, 1)`, `dt = 1/100` and `dMinv(v) = diag(v)`: `Q = 5`,
`dQ_b = -(1/5) * (7/5, 7/5)`, `dB = -(1/100) * (1, -1)` and the routine
returns `dQ_b + (1/5) * dB = (-141/500, -139/500)`. -/
theorem getJacobianOfConstraintForce_mass_witness :
    ∃ (A_c A_ub : Mat) (b : Vec) (dQ_b dB J : Mat),
      getClampingConstraintMatrix exampleMassSnapshot exampleMassWorld = .ok A_c
      ∧ A_c.cols ≠ 0
      ∧ getUpperBoundConstraintMatrix exampleMassSnapshot exampleMassWorld = .ok A_ub
      ∧ A_ub.cols = 0
      ∧ getClampingConstraintRelativeVels exampleInvertibleExternal exampleMassSnapshot
          = .ok b
      ∧ getJacobianOfLCPConstraintMatrixClampingSubset exampleInvertibleExternal
          exampleMassSnapshot (rewind exampleMassSnapshot exampleMassWorld)
          b .MASS = .ok dQ_b
      ∧ dQ_b = (exampleInvertibleExternal.solveMatrix
          ((A_c.transpose.mul (getInvMassMatrix exampleInvertibleExternal exampleMassSnapshot
              (rewind exampleMassSnapshot exampleMassWorld))).mul
            (A_c.add (A_ub.mul (getUpperBoundMappingMatrix exampleMassSnapshot))))
          (A_c.transpose.mul (exampleInvertibleExternal.getJacobianOfMinv exampleMassSnapshot
            (rewind exampleMassSnapshot exampleMassWorld)
            ((A_c.add (A_ub.mul (getUpperBoundMappingMatrix exampleMassSnapshot))).mulVec
              (exampleInvertibleExternal.solve
                ((A_c.transpose.mul (getInvMassMatrix exampleInvertibleExternal
                    exampleMassSnapshot (rewind exampleMassSnapshot exampleMassWorld))).mul
                  (A_c.add (A_ub.mul (getUpperBoundMappingMatrix exampleMassSnapshot))))
                b)) .MASS))).neg
      ∧ getJacobianOfLCPOffsetClampingSubset exampleInvertibleExternal
          exampleMassSnapshot (rewind exampleMassSnapshot exampleMassWorld)
          .MASS = .ok dB
      ∧ getJacobianOfConstraintForce exampleInvertibleExternal exampleMassSnapshot
          exampleMassWorld .MASS = .ok J
      ∧ dQ_b.coeff 0 0 = -(7 / 25) ∧ dQ_b.coeff 0 1 = -(7 / 25)
      ∧ dB.coeff 0 0 = -(1 / 100) ∧ dB.coeff 0 1 = 1 / 100
      ∧ J.coeff 0 0 = -(141 / 500) ∧ J.coeff 0 1 = -(139 / 500) := by
  have hgm : exampleMassSnapshot.mGradientMatrices = [exampleMassGroup] := rfl
  have hres : ∀ g ∈ exampleMassSnapshot.mGradientMatrices, ∀ name ∈ g.skeletons,
      (exampleMassWorld.getSkeleton name).isSome := by
    rw [hgm]; decide
  obtain ⟨A_c, A_ub, bounce, b, hA, hAub, hbounce, hb, h⟩ :=
    getJacobianOfConstraintForce_mass exampleInvertibleExternal exampleMassSnapshot
      exampleMassWorld hres
  have hcols : (match getClampingConstraintMatrix exampleMassSnapshot
      exampleMassWorld with
      | .ok M => M.cols
      | .error _ => 0) = 1 := rfl
  rw [hA] at hcols
  simp only at hcols
  have hne : A_c.cols ≠ 0 := by rw [hcols]; decide
  have hub : (match getUpperBoundConstraintMatrix exampleMassSnapshot exampleMassWorld with
      | .ok M => M.cols
      | .error _ => 1) = 0 := rfl
  rw [hAub] at hub
  simp only at hub
  obtain ⟨dQ_b, dB, J, hdQ, hform, hdB, _, hJ, _, _⟩ := h _ _ _ _ rfl rfl rfl rfl hne
  have hbv : b = [7] := by
    rw [getClampingConstraintRelativeVels_ok] at hb
    simp only [Except.ok.injEq] at hb
    rw [← hb]
    rfl
  subst hbv
  have hq0 : (match getJacobianOfLCPConstraintMatrixClampingSubset exampleInvertibleExternal
        exampleMassSnapshot (rewind exampleMassSnapshot exampleMassWorld)
        [7] .MASS with
      | .ok Y => Y.coeff 0 0
      | .error _ => 0) = -(7 / 25) := by with_unfolding_all rfl
  have hq1 : (match getJacobianOfLCPConstraintMatrixClampingSubset exampleInvertibleExternal
        exampleMassSnapshot (rewind exampleMassSnapshot exampleMassWorld)
        [7] .MASS with
      | .ok Y => Y.coeff 0 1
      | .error _ => 0) = -(7 / 25) := by with_unfolding_all rfl
  have hB0 : (match getJacobianOfLCPOffsetClampingSubset exampleInvertibleExternal
        exampleMassSnapshot (rewind exampleMassSnapshot exampleMassWorld)
        .MASS with
      | .ok Y => Y.coeff 0 0
      | .error _ => 0) = -(1 / 100) := by with_unfolding_all rfl
  have hB1 : (match getJacobianOfLCPOffsetClampingSubset exampleInvertibleExternal
        exampleMassSnapshot (rewind exampleMassSnapshot exampleMassWorld)
        .MASS with
      | .ok Y => Y.coeff 0 1
      | .error _ => 0) = 1 / 100 := by with_unfolding_all rfl
  have hJ0 : (match getJacobianOfConstraintForce exampleInvertibleExternal
        exampleMassSnapshot exampleMassWorld .MASS with
      | .ok Y => Y.coeff 0 0
      | .error _ => 0) = -(141 / 500) := by with_unfolding_all rfl
  have hJ1 : (match getJacobianOfConstraintForce exampleInvertibleExternal
        exampleMassSnapshot exampleMassWorld .MASS with
      | .ok Y => Y.coeff 0 1
      | .error _ => 0) = -(139 / 500) := by with_unfolding_all rfl
  rw [hdQ] at hq0 hq1
  rw [hdB] at hB0 hB1
  rw [hJ] at hJ0 hJ1
  exact ⟨A_c, A_ub, _, dQ_b, dB, J, hA, hne, hAub, hub, hb, hdQ, hform hub, hdB, hJ, hq0, hq1,
    hB0, hB1, hJ0, hJ1⟩

/-- Counterexample to C23 as stated: in the example of the witness, which has
no upper-bound constraint, the routine returns `(-141/500, -139/500)` for
`wrt = mass`, whereas `-Q.solve(A_c^T * dMinv((A_c + A_ub * E) * Q.solve(b)))`,
the Jacobian of `Q^+ b` with `b` held constant, is `(-7/25, -7/25)`: the
result contains the term `Q.solve(dB)` of the derivative of `b` with respect
to mass. -/
theorem getJacobianOfConstraintForce_mass_not_constant_offset :
    ∃ (A_c A_ub : Mat) (b : Vec) (J : Mat),
      getClampingConstraintMatrix exampleMassSnapshot exampleMassWorld = .ok A_c
      ∧ getUpperBoundConstraintMatrix exampleMassSnapshot exampleMassWorld
          = .ok A_ub
      ∧ getClampingConstraintRelativeVels exampleInvertibleExternal exampleMassSnapshot
          = .ok b
      ∧ getJacobianOfConstraintForce exampleInvertibleExternal exampleMassSnapshot
          exampleMassWorld .MASS = .ok J
      ∧ J.coeff 0 0 = -(141 / 500) ∧ J.coeff 0 1 = -(139 / 500)
      ∧ (exampleInvertibleExternal.solveMatrix
          ((A_c.transpose.mul (getInvMassMatrix exampleInvertibleExternal
              exampleMassSnapshot
              (rewind exampleMassSnapshot exampleMassWorld))).mul
            (A_c.add (A_ub.mul (getUpperBoundMappingMatrix exampleMassSnapshot))))
          (A_c.transpose.mul (exampleInvertibleExternal.getJacobianOfMinv
            exampleMassSnapshot (rewind exampleMassSnapshot exampleMassWorld)
            ((A_c.add (A_ub.mul (getUpperBoundMappingMatrix exampleMassSnapshot))).mulVec
              (exampleInvertibleExternal.solve
                ((A_c.transpose.mul (getInvMassMatrix exampleInvertibleExternal
                    exampleMassSnapshot
                    (rewind exampleMassSnapshot exampleMassWorld))).mul
                  (A_c.add (A_ub.mul (getUpperBoundMappingMatrix exampleMassSnapshot))))
                b)) .MASS))).neg.coeff 0 0 = -(7 / 25)
      ∧ (exampleInvertibleExternal.solveMatrix
          ((A_c.transpose.mul (getInvMassMatrix exampleInvertibleExternal
              exampleMassSnapshot
              (rewind exampleMassSnapshot exampleMassWorld))).mul
            (A_c.add (A_ub.mul (getUpperBoundMappingMatrix exampleMassSnapshot))))
          (A_c.transpose.mul (exampleInvertibleExternal.getJacobianOfMinv
            exampleMassSnapshot (rewind exampleMassSnapshot exampleMassWorld)
            ((A_c.add (A_ub.mul (getUpperBoundMappingMatrix exampleMassSnapshot))).mulVec
              (exampleInvertibleExternal.solve
                ((A_c.transpose.mul (getInvMassMatrix exampleInvertibleExternal
                    exampleMassSnapshot
                    (rewind exampleMassSnapshot exampleMassWorld))).mul
                  (A_c.add (A_ub.mul (getUpperBoundMappingMatrix exampleMassSnapshot))))
                b)) .MASS))).neg.coeff 0 1 = -(7 / 25) := by
  cases hA : getClampingConstraintMatrix exampleMassSnapshot exampleMassWorld with
  | error e =>
    have h : (match getClampingConstraintMatrix exampleMassSnapshot
        exampleMassWorld with
        | .ok _ => true
        | .error _ => false) = true := rfl
    rw [hA] at h
    cases h
  | ok A_c =>
  cases hAub : getUpperBoundConstraintMatrix exampleMassSnapshot
      exampleMassWorld with
  | error e =>
    have h : (match getUpperBoundConstraintMatrix exampleMassSnapshot
        exampleMassWorld with
        | .ok _ => true
        | .error _ => false) = true := rfl
    rw [hAub] at h
    cases h
  | ok A_ub =>
  cases hJ : getJacobianOfConstraintForce exampleInvertibleExternal exampleMassSnapshot
      exampleMassWorld .MASS with
  | error e =>
    have h : (match getJacobianOfConstraintForce exampleInvertibleExternal
        exampleMassSnapshot exampleMassWorld .MASS with
        | .ok _ => true
        | .error _ => false) = true := by with_unfolding_all rfl
    rw [hJ] at h
    cases h
  | ok J =>
  have hJ0 : (match getJacobianOfConstraintForce exampleInvertibleExternal
        exampleMassSnapshot exampleMassWorld .MASS with
      | .ok Y => Y.coeff 0 0
      | .error _ => 0) = -(141 / 500) := by with_unfolding_all rfl
  have hJ1 : (match getJacobianOfConstraintForce exampleInvertibleExternal
        exampleMassSnapshot exampleMassWorld .MASS with
      | .ok Y => Y.coeff 0 1
      | .error _ => 0) = -(139 / 500) := by with_unfolding_all rfl
  rw [hJ] at hJ0 hJ1
  have hc0 : (match getClampingConstraintMatrix exampleMassSnapshot exampleMassWorld,
        getUpperBoundConstraintMatrix exampleMassSnapshot exampleMassWorld with
      | .ok M, .ok U =>
        (exampleInvertibleExternal.solveMatrix
          ((M.transpose.mul (getInvMassMatrix exampleInvertibleExternal
              exampleMassSnapshot
              (rewind exampleMassSnapshot exampleMassWorld))).mul
            (M.add (U.mul (getUpperBoundMappingMatrix exampleMassSnapshot))))
          (M.transpose.mul (exampleInvertibleExternal.getJacobianOfMinv
            exampleMassSnapshot (rewind exampleMassSnapshot exampleMassWorld)
            ((M.add (U.mul (getUpperBoundMappingMatrix exampleMassSnapshot))).mulVec
              (exampleInvertibleExternal.solve
                ((M.transpose.mul (getInvMassMatrix exampleInvertibleExternal
                    exampleMassSnapshot
                    (rewind exampleMassSnapshot exampleMassWorld))).mul
                  (M.add (U.mul (getUpperBoundMappingMatrix exampleMassSnapshot))))
                [7])) .MASS))).neg.coeff 0 0
      | _, _ => 0) = -(7 / 25) := by with_unfolding_all rfl
  have hc1 : (match getClampingConstraintMatrix exampleMassSnapshot exampleMassWorld,
        getUpperBoundConstraintMatrix exampleMassSnapshot exampleMassWorld with
      | .ok M, .ok U =>
        (exampleInvertibleExternal.solveMatrix
          ((M.transpose.mul (getInvMassMatrix exampleInvertibleExternal
              exampleMassSnapshot
              (rewind exampleMassSnapshot exampleMassWorld))).mul
            (M.add (U.mul (getUpperBoundMappingMatrix exampleMassSnapshot))))
          (M.transpose.mul (exampleInvertibleExternal.getJacobianOfMinv
            exampleMassSnapshot (rewind exampleMassSnapshot exampleMassWorld)
            ((M.add (U.mul (getUpperBoundMappingMatrix exampleMassSnapshot))).mulVec
              (exampleInvertibleExternal.solve
                ((M.transpose.mul (getInvMassMatrix exampleInvertibleExternal
                    exampleMassSnapshot
                    (rewind exampleMassSnapshot exampleMassWorld))).mul
                  (M.add (U.mul (getUpperBoundMappingMatrix exampleMassSnapshot))))
                [7])) .MASS))).neg.coeff 0 1
      | _, _ => 0) = -(7 / 25) := by with_unfolding_all rfl
  rw [hA, hAub] at hc0 hc1
  exact ⟨A_c, A_ub, [7], J, rfl, rfl, getClampingConstraintRelativeVels_ok _ _, rfl,
    hJ0, hJ1, hc0, hc1⟩

/-- With an upper-bound constraint the mass branch of
`getJacobianOfLCPConstraintMatrixClampingSubset` hands `A_c * Q.solve(b)` to
`getJacobianOfMinv` (line 4047), where the position branch of the same routine
hands `(A_c + A_ub * E) * rhs` (line 3945): for the two skeletons with inverse
masses `2` and `3`, clamping column `(1, -1)`, upper-bound column `(0, 1)` with
ratio `1/2` and `b = 7`, the branch returns `(-4/7, -4/7)`, and
`-Q.solve(A_c^T * dMinv((A_c + A_ub * E) * Q.solve(b)))` is `(-4/7, -2/7)`. -/
theorem getJacobianOfLCPConstraintMatrixClampingSubset_mass_upperBound :
    (match getJacobianOfLCPConstraintMatrixClampingSubset exampleInvertibleExternal
        exampleUpperBoundSnapshot (rewind exampleUpperBoundSnapshot exampleUpperBoundWorld)
        [7] .MASS with
      | .ok Y => (Y.coeff 0 0, Y.coeff 0 1)
      | .error _ => (0, 0)) = (-(4 / 7), -(4 / 7))
    ∧ (match getClampingConstraintMatrix exampleUpperBoundSnapshot exampleUpperBoundWorld,
        getUpperBoundConstraintMatrix exampleUpperBoundSnapshot exampleUpperBoundWorld with
      | .ok M, .ok U =>
        ((exampleInvertibleExternal.solveMatrix
          ((M.transpose.mul (getInvMassMatrix exampleInvertibleExternal
              exampleUpperBoundSnapshot
              (rewind exampleUpperBoundSnapshot exampleUpperBoundWorld))).mul
            (M.add (U.mul (getUpperBoundMappingMatrix exampleUpperBoundSnapshot))))
          (M.transpose.mul (exampleInvertibleExternal.getJacobianOfMinv
            exampleUpperBoundSnapshot (rewind exampleUpperBoundSnapshot exampleUpperBoundWorld)
            ((M.add (U.mul (getUpperBoundMappingMatrix exampleUpperBoundSnapshot))).mulVec
              (exampleInvertibleExternal.solve
                ((M.transpose.mul (getInvMassMatrix exampleInvertibleExternal
                    exampleUpperBoundSnapshot
                    (rewind exampleUpperBoundSnapshot exampleUpperBoundWorld))).mul
                  (M.add (U.mul (getUpperBoundMappingMatrix exampleUpperBoundSnapshot))))
                [7])) .MASS))).neg.coeff 0 0,
         (exampleInvertibleExternal.solveMatrix
          ((M.transpose.mul (getInvMassMatrix exampleInvertibleExternal
              exampleUpperBoundSnapshot
              (rewind exampleUpperBoundSnapshot exampleUpperBoundWorld))).mul
            (M.add (U.mul (getUpperBoundMappingMatrix exampleUpperBoundSnapshot))))
          (M.transpose.mul (exampleInvertibleExternal.getJacobianOfMinv
            exampleUpperBoundSnapshot (rewind exampleUpperBoundSnapshot exampleUpperBoundWorld)
            ((M.add (U.mul (getUpperBoundMappingMatrix exampleUpperBoundSnapshot))).mulVec
              (exampleInvertibleExternal.solve
                ((M.transpose.mul (getInvMassMatrix exampleInvertibleExternal
                    exampleUpperBoundSnapshot
                    (rewind exampleUpperBoundSnapshot exampleUpperBoundWorld))).mul
                  (M.add (U.mul (getUpperBoundMappingMatrix exampleUpperBoundSnapshot))))
                [7])) .MASS))).neg.coeff 0 1)
      | _, _ => (0, 0)) = (-(4 / 7), -(2 / 7)) :=
  ⟨by with_unfolding_all rfl, by with_unfolding_all rfl⟩

/-! ## The skeletons outside every constraint group -/

theorem length_backpropUngrouped (ext : External) (s : BackpropSnapshot) (world : World)
    (next : LossGradient) (visited : List String) (skels : List Skeleton) (this : LossGradient) :
    (backpropUngrouped ext s world next visited skels this).lossWrtTorque.length
        = this.lossWrtTorque.length
    ∧ (backpropUngrouped ext s world next visited skels this).lossWrtVelocity.length
        = this.lossWrtVelocity.length
    ∧ (backpropUngrouped ext s world next visited skels this).lossWrtPosition.length
        = this.lossWrtPosition.length := by
  induction skels generalizing this with
  | nil => exact ⟨rfl, rfl, rfl⟩
  | cons skel rest ih =>
    simp only [backpropUngrouped]
    split
    · obtain ⟨h1, h2, h3⟩ := ih
        { this with
          lossWrtTorque := writeSegment this.lossWrtTorque (s.mSkeletonOffset skel.name)
            skel.getNumDofs _
          lossWrtVelocity := writeSegment this.lossWrtVelocity (s.mSkeletonOffset skel.name)
            skel.getNumDofs _
          lossWrtPosition := writeSegment this.lossWrtPosition (s.mSkeletonOffset skel.name)
            skel.getNumDofs _ }
      exact ⟨by rw [h1]; exact length_writeSegment _ _ _ _,
        by rw [h2]; exact length_writeSegment _ _ _ _,
        by rw [h3]; exact length_writeSegment _ _ _ _⟩
    · exact ih this

/-- An index outside the segments of the skeletons of the list keeps its
coefficients through the loop over the skeletons outside the groups. -/
theorem coeffAt_backpropUngrouped_outside (ext : External) (s : BackpropSnapshot)
    (world : World) (next : LossGradient) (visited : List String) (skels : List Skeleton)
    (this : LossGradient) (x : Nat)
    (hx : ∀ skel ∈ skels, ¬ (s.mSkeletonOffset skel.name ≤ x
      ∧ x < s.mSkeletonOffset skel.name + skel.getNumDofs)) :
    coeffAt (backpropUngrouped ext s world next visited skels this).lossWrtTorque x
        = coeffAt this.lossWrtTorque x
    ∧ coeffAt (backpropUngrouped ext s world next visited skels this).lossWrtVelocity x
        = coeffAt this.lossWrtVelocity x
    ∧ coeffAt (backpropUngrouped ext s world next visited skels this).lossWrtPosition x
        = coeffAt this.lossWrtPosition x := by
  induction skels generalizing this with
  | nil => exact ⟨rfl, rfl, rfl⟩
  | cons skel rest ih =>
    have hrest : ∀ sk ∈ rest, ¬ (s.mSkeletonOffset sk.name ≤ x
        ∧ x < s.mSkeletonOffset sk.name + sk.getNumDofs) :=
      fun sk hsk => hx sk (List.mem_cons_of_mem _ hsk)
    have hhead := hx skel (List.mem_cons_self _ _)
    have hw : ∀ (v src : Vec),
        coeffAt (writeSegment v (s.mSkeletonOffset skel.name) skel.getNumDofs src) x
          = coeffAt v x := by
      intro v src
      rw [coeffAt_writeSegment, if_neg (fun h => hhead ⟨h.1, h.2.1⟩)]
    simp only [backpropUngrouped]
    split
    · obtain ⟨h1, h2, h3⟩ := ih
        { this with
          lossWrtTorque := writeSegment this.lossWrtTorque (s.mSkeletonOffset skel.name)
            skel.getNumDofs _
          lossWrtVelocity := writeSegment this.lossWrtVelocity (s.mSkeletonOffset skel.name)
            skel.getNumDofs _
          lossWrtPosition := writeSegment this.lossWrtPosition (s.mSkeletonOffset skel.name)
            skel.getNumDofs _ } hrest
      exact ⟨by rw [h1]; exact hw _ _, by rw [h2]; exact hw _ _, by rw [h3]; exact hw _ _⟩
    · exact ih this hrest

/-- The segment of a mobile skeleton that was not visited holds, after the
loop over the skeletons outside the groups, the three products that its
iteration writes. -/
theorem coeffAt_backpropUngrouped_segment (ext : External) (s : BackpropSnapshot)
    (world : World) (next : LossGradient) (visited : List String) (skels : List Skeleton)
    (this : LossGradient)
    (hord : skels.Pairwise (fun a b =>
      s.mSkeletonOffset a.name + a.getNumDofs ≤ s.mSkeletonOffset b.name))
    (skel : Skeleton) (hmem : skel ∈ skels) (hnv : skel.name ∉ visited)
    (hmob : skel.mobile = true)
    (hT : s.mSkeletonOffset skel.name + skel.getNumDofs ≤ this.lossWrtTorque.length)
    (hV : s.mSkeletonOffset skel.name + skel.getNumDofs ≤ this.lossWrtVelocity.length)
    (hP : s.mSkeletonOffset skel.name + skel.getNumDofs ≤ this.lossWrtPosition.length)
    (i : Nat) (hi : i < skel.getNumDofs) :
    coeffAt (backpropUngrouped ext s world next visited skels this).lossWrtTorque
        (s.mSkeletonOffset skel.name + i)
      = coeffAt ((Mat.scale s.mTimeStep (ext.skelInvMassMatrix skel)).transpose.mulVec
          (segmentOf next.lossWrtVelocity (s.mSkeletonOffset skel.name) skel.getNumDofs)) i
    ∧ coeffAt (backpropUngrouped ext s world next visited skels this).lossWrtVelocity
        (s.mSkeletonOffset skel.name + i)
      = coeffAt (Vec.add
          (((Mat.identity skel.getNumDofs skel.getNumDofs).sub
              ((Mat.scale s.mTimeStep (ext.skelInvMassMatrix skel)).mul
                (ext.skelVelCJacobian skel))).transpose.mulVec
            (segmentOf next.lossWrtVelocity (s.mSkeletonOffset skel.name) skel.getNumDofs))
          ((Mat.scale s.mTimeStep
              (Mat.identity skel.getNumDofs skel.getNumDofs)).transpose.mulVec
            (segmentOf next.lossWrtPosition (s.mSkeletonOffset skel.name) skel.getNumDofs))) i
    ∧ coeffAt (backpropUngrouped ext s world next visited skels this).lossWrtPosition
        (s.mSkeletonOffset skel.name + i)
      = coeffAt (Vec.add
          ((ext.skelUnconstrainedVelJacobianWrtPosition skel world.timeStep).transpose.mulVec
            (segmentOf next.lossWrtVelocity (s.mSkeletonOffset skel.name) skel.getNumDofs))
          ((Mat.identity skel.getNumDofs skel.getNumDofs).transpose.mulVec
            (segmentOf next.lossWrtPosition (s.mSkeletonOffset skel.name) skel.getNumDofs))) i := by
  induction skels generalizing this with
  | nil => exact absurd hmem (List.not_mem_nil _)
  | cons head rest ih =>
    rw [List.pairwise_cons] at hord
    rcases List.mem_cons.mp hmem with heq | hin
    · subst heq
      have hout : ∀ sk ∈ rest, ¬ (s.mSkeletonOffset sk.name ≤ s.mSkeletonOffset skel.name + i
          ∧ s.mSkeletonOffset skel.name + i < s.mSkeletonOffset sk.name + sk.getNumDofs) := by
        intro sk hsk h
        have := hord.1 sk hsk
        omega
      have hw : ∀ (v src : Vec), s.mSkeletonOffset skel.name + skel.getNumDofs ≤ v.length →
          coeffAt (writeSegment v (s.mSkeletonOffset skel.name) skel.getNumDofs src)
            (s.mSkeletonOffset skel.name + i) = coeffAt src i := by
        intro v src hv
        rw [coeffAt_writeSegment, if_pos ⟨by omega, by omega, by omega⟩]
        congr 1
        omega
      simp only [backpropUngrouped]
      rw [if_pos ⟨hnv, hmob⟩]
      obtain ⟨h1, h2, h3⟩ := coeffAt_backpropUngrouped_outside ext s world next visited rest
        { this with
          lossWrtTorque := writeSegment this.lossWrtTorque (s.mSkeletonOffset skel.name)
            skel.getNumDofs
            ((Mat.scale s.mTimeStep (ext.skelInvMassMatrix skel)).transpose.mulVec
              (segmentOf next.lossWrtVelocity (s.mSkeletonOffset skel.name) skel.getNumDofs))
          lossWrtVelocity := writeSegment this.lossWrtVelocity (s.mSkeletonOffset skel.name)
            skel.getNumDofs
            (Vec.add
              (((Mat.identity skel.getNumDofs skel.getNumDofs).sub
                  ((Mat.scale s.mTimeStep (ext.skelInvMassMatrix skel)).mul
                    (ext.skelVelCJacobian skel))).transpose.mulVec
                (segmentOf next.lossWrtVelocity (s.mSkeletonOffset skel.name) skel.getNumDofs))
              ((Mat.scale s.mTimeStep
                  (Mat.identity skel.getNumDofs skel.getNumDofs)).transpose.mulVec
                (segmentOf next.lossWrtPosition (s.mSkeletonOffset skel.name)
                  skel.getNumDofs)))
          lossWrtPosition := writeSegment this.lossWrtPosition (s.mSkeletonOffset skel.name)
            skel.getNumDofs
            (Vec.add
              ((ext.skelUnconstrainedVelJacobianWrtPosition skel
                  world.timeStep).transpose.mulVec
                (segmentOf next.lossWrtVelocity (s.mSkeletonOffset skel.name) skel.getNumDofs))
              ((Mat.identity skel.getNumDofs skel.getNumDofs).transpose.mulVec
                (segmentOf next.lossWrtPosition (s.mSkeletonOffset skel.name)
                  skel.getNumDofs))) }
        (s.mSkeletonOffset skel.name + i) hout
      exact ⟨by rw [h1]; exact hw _ _ hT, by rw [h2]; exact hw _ _ hV,
        by rw [h3]; exact hw _ _ hP⟩
    · simp only [backpropUngrouped]
      split
      · exact ih _ hord.2 hin (by rw [length_writeSegment]; exact hT)
          (by rw [length_writeSegment]; exact hV) (by rw [length_writeSegment]; exact hP)
      · exact ih this hord.2 hin hT hV hP
theorem length_scatterGroupLoss (s : BackpropSnapshot) (world : World) (groupThis : LossGradient)
    (names : List String) (cursor : Nat) (this r : LossGradient)
    (h : scatterGroupLoss s world groupThis names cursor this = .ok r) :
    r.lossWrtTorque.length = this.lossWrtTorque.length
    ∧ r.lossWrtVelocity.length = this.lossWrtVelocity.length
    ∧ r.lossWrtPosition.length = this.lossWrtPosition.length := by
  induction names generalizing cursor this with
  | nil =>
    simp only [scatterGroupLoss, Except.ok.injEq] at h
    subst h
    exact ⟨rfl, rfl, rfl⟩
  | cons name rest ih =>
    simp only [scatterGroupLoss] at h
    split at h
    · cases h
    · obtain ⟨h1, h2, h3⟩ := ih _ _ h
      exact ⟨by rw [h1]; exact length_writeSegment _ _ _ _,
        by rw [h2]; exact length_writeSegment _ _ _ _,
        by rw [h3]; exact length_writeSegment _ _ _ _⟩

/-- When the loop over the groups returns, the skeletons visited are those
named by the groups and those visited before, and the three world vectors
have kept their lengths. -/
theorem backpropGroups_visited (ext : External) (s : BackpropSnapshot) (world : World)
    (next : LossGradient) (explore : Bool) (groups : List ConstrainedGroupGradientMatrices)
    (visited : List String) (groupThis groupNext this : LossGradient)
    (hres : ∀ g ∈ groups, ∀ name ∈ g.skeletons, (world.getSkeleton name).isSome)
    (visited1 : List String) (r : LossGradient)
    (h : backpropGroups ext s world next explore groups visited groupThis groupNext this
      = .ok (visited1, r)) :
    (∀ name, name ∈ visited1 ↔
      name ∈ (groups.map (fun g => g.skeletons)).flatten ∨ name ∈ visited)
    ∧ r.lossWrtTorque.length = this.lossWrtTorque.length
    ∧ r.lossWrtVelocity.length = this.lossWrtVelocity.length
    ∧ r.lossWrtPosition.length = this.lossWrtPosition.length := by
  induction groups generalizing visited groupThis groupNext this with
  | nil =>
    simp only [backpropGroups, Except.ok.injEq, Prod.mk.injEq] at h
    obtain ⟨h1, h2⟩ := h
    subst h1 h2
    exact ⟨fun name => by simp, rfl, rfl, rfl⟩
  | cons group rest ih =>
    have hg := hres group (List.mem_cons_self _ _)
    have hrest : ∀ g ∈ rest, ∀ name ∈ g.skeletons, (world.getSkeleton name).isSome :=
      fun g hg1 => hres g (List.mem_cons_of_mem _ hg1)
    obtain ⟨g1, g2⟩ := gatherGroupLoss_spec s world next group.skeletons 0 visited
      { groupNext with
        lossWrtPosition := Vec.zero group.numDOFs
        lossWrtVelocity := Vec.zero group.numDOFs } hg
    simp only [backpropGroups] at h
    by_cases hP : group.skeletons.Nodup ∧ ∀ name ∈ group.skeletons, name ∉ visited
    · obtain ⟨v1, gn1, hgather, hv1⟩ := g1 hP
      rw [hgather] at h
      simp only at h
      split at h
      · cases h
      · rename_i this1 hsc
        obtain ⟨l1, l2, l3⟩ := length_scatterGroupLoss s world _ _ _ _ _ hsc
        obtain ⟨i1, i2, i3, i4⟩ := ih _ _ _ _ hrest h
        refine ⟨fun name => ?_, by rw [i2, l1], by rw [i3, l2], by rw [i4, l3]⟩
        rw [i1 name, hv1 name, List.map_cons, List.flatten_cons, List.mem_append]
        tauto
    · rw [g2 hP] at h
      cases h
theorem toFun_segmentOf (v : Vec) (start n : Nat) :
    Vec.toFun (segmentOf v start n) n = fun i : Fin n => coeffAt v (start + i) := by
  funext i
  simp only [Vec.toFun, coeffAt_segmentOf, i.isLt, if_true]

/-- An index outside the segments of the skeletons that the names resolve to
keeps its coefficients through the second inner loop over the skeletons of a
group. -/
theorem coeffAt_scatterGroupLoss_outside (s : BackpropSnapshot) (world : World)
    (groupThis : LossGradient) (names : List String) (cursor : Nat) (this r : LossGradient)
    (x : Nat)
    (hx : ∀ name ∈ names, ∀ sk, world.getSkeleton name = some sk →
      ¬ (s.mSkeletonOffset sk.name ≤ x ∧ x < s.mSkeletonOffset sk.name + sk.getNumDofs))
    (h : scatterGroupLoss s world groupThis names cursor this = .ok r) :
    coeffAt r.lossWrtTorque x = coeffAt this.lossWrtTorque x
    ∧ coeffAt r.lossWrtVelocity x = coeffAt this.lossWrtVelocity x
    ∧ coeffAt r.lossWrtPosition x = coeffAt this.lossWrtPosition x := by
  induction names generalizing cursor this with
  | nil =>
    simp only [scatterGroupLoss, Except.ok.injEq] at h
    subst h
    exact ⟨rfl, rfl, rfl⟩
  | cons name rest ih =>
    simp only [scatterGroupLoss] at h
    split at h
    · cases h
    · rename_i sk hsk
      have hhead := hx name (List.mem_cons_self _ _) sk hsk
      have hw : ∀ (v src : Vec),
          coeffAt (writeSegment v (s.mSkeletonOffset sk.name) sk.getNumDofs src) x
            = coeffAt v x := by
        intro v src
        rw [coeffAt_writeSegment, if_neg (fun h => hhead ⟨h.1, h.2.1⟩)]
      obtain ⟨h1, h2, h3⟩ := ih _ _ (fun n hn => hx n (List.mem_cons_of_mem _ hn)) h
      exact ⟨by rw [h1]; exact hw _ _, by rw [h2]; exact hw _ _, by rw [h3]; exact hw _ _⟩

/-- An index outside the segments of the skeletons that the groups name keeps
its coefficients through the loop over the groups. -/
theorem coeffAt_backpropGroups_outside (ext : External) (s : BackpropSnapshot) (world : World)
    (next : LossGradient) (explore : Bool) (groups : List ConstrainedGroupGradientMatrices)
    (visited : List String) (groupThis groupNext this : LossGradient) (x : Nat)
    (hx : ∀ g ∈ groups, ∀ name ∈ g.skeletons, ∀ sk, world.getSkeleton name = some sk →
      ¬ (s.mSkeletonOffset sk.name ≤ x ∧ x < s.mSkeletonOffset sk.name + sk.getNumDofs))
    (visited1 : List String) (r : LossGradient)
    (h : backpropGroups ext s world next explore groups visited groupThis groupNext this
      = .ok (visited1, r)) :
    coeffAt r.lossWrtTorque x = coeffAt this.lossWrtTorque x
    ∧ coeffAt r.lossWrtVelocity x = coeffAt this.lossWrtVelocity x
    ∧ coeffAt r.lossWrtPosition x = coeffAt this.lossWrtPosition x := by
  induction groups generalizing visited groupThis groupNext this with
  | nil =>
    simp only [backpropGroups, Except.ok.injEq, Prod.mk.injEq] at h
    obtain ⟨h1, h2⟩ := h
    subst h1 h2
    exact ⟨rfl, rfl, rfl⟩
  | cons group rest ih =>
    simp only [backpropGroups] at h
    split at h
    · cases h
    · split at h
      · cases h
      · rename_i hsc
        obtain ⟨l1, l2, l3⟩ := coeffAt_scatterGroupLoss_outside s world _ _ _ _ _ x
          (hx group (List.mem_cons_self _ _)) hsc
        obtain ⟨i1, i2, i3⟩ := ih _ _ _ _ (fun g hg => hx g (List.mem_cons_of_mem _ hg)) h
        exact ⟨by rw [i1, l1], by rw [i2, l2], by rw [i3, l3]⟩

/-- An index outside the segments of the skeletons of the list that are mobile
and were not visited keeps its coefficients through the loop over the
skeletons outside the groups: the other skeletons are skipped. -/
theorem coeffAt_backpropUngrouped_unwritten (ext : External) (s : BackpropSnapshot)
    (world : World) (next : LossGradient) (visited : List String) (skels : List Skeleton)
    (this : LossGradient) (x : Nat)
    (hx : ∀ skel ∈ skels, skel.name ∉ visited → skel.mobile = true →
      ¬ (s.mSkeletonOffset skel.name ≤ x
        ∧ x < s.mSkeletonOffset skel.name + skel.getNumDofs)) :
    coeffAt (backpropUngrouped ext s world next visited skels this).lossWrtTorque x
        = coeffAt this.lossWrtTorque x
    ∧ coeffAt (backpropUngrouped ext s world next visited skels this).lossWrtVelocity x
        = coeffAt this.lossWrtVelocity x
    ∧ coeffAt (backpropUngrouped ext s world next visited skels this).lossWrtPosition x
        = coeffAt this.lossWrtPosition x := by
  induction skels generalizing this with
  | nil => exact ⟨rfl, rfl, rfl⟩
  | cons skel rest ih =>
    have hrest : ∀ sk ∈ rest, sk.name ∉ visited → sk.mobile = true →
        ¬ (s.mSkeletonOffset sk.name ≤ x ∧ x < s.mSkeletonOffset sk.name + sk.getNumDofs) :=
      fun sk hsk => hx sk (List.mem_cons_of_mem _ hsk)
    simp only [backpropUngrouped]
    split
    · rename_i hc
      have hhead := hx skel (List.mem_cons_self _ _) hc.1 hc.2
      have hw : ∀ (v src : Vec),
          coeffAt (writeSegment v (s.mSkeletonOffset skel.name) skel.getNumDofs src) x
            = coeffAt v x := by
        intro v src
        rw [coeffAt_writeSegment, if_neg (fun h => hhead ⟨h.1, h.2.1⟩)]
      obtain ⟨h1, h2, h3⟩ := ih
        { this with
          lossWrtTorque := writeSegment this.lossWrtTorque (s.mSkeletonOffset skel.name)
            skel.getNumDofs _
          lossWrtVelocity := writeSegment this.lossWrtVelocity (s.mSkeletonOffset skel.name)
            skel.getNumDofs _
          lossWrtPosition := writeSegment this.lossWrtPosition (s.mSkeletonOffset skel.name)
            skel.getNumDofs _ } hrest
      exact ⟨by rw [h1]; exact hw _ _, by rw [h2]; exact hw _ _, by rw [h3]; exact hw _ _⟩
    · exact ih this hrest

/-- Two different skeletons of a list whose segments lie in order have
disjoint segments. -/
theorem segments_apart (s : BackpropSnapshot) (skels : List Skeleton)
    (hord : skels.Pairwise (fun a b =>
      s.mSkeletonOffset a.name + a.getNumDofs ≤ s.mSkeletonOffset b.name))
    (a b : Skeleton) (ha : a ∈ skels) (hb : b ∈ skels) (hne : a ≠ b) :
    s.mSkeletonOffset a.name + a.getNumDofs ≤ s.mSkeletonOffset b.name
    ∨ s.mSkeletonOffset b.name + b.getNumDofs ≤ s.mSkeletonOffset a.name := by
  have hsym : skels.Pairwise (fun a b =>
      s.mSkeletonOffset a.name + a.getNumDofs ≤ s.mSkeletonOffset b.name
      ∨ s.mSkeletonOffset b.name + b.getNumDofs ≤ s.mSkeletonOffset a.name) :=
    hord.imp (fun h => Or.inl h)
  exact List.Pairwise.forall (fun _ _ h => h.symm) hsym ha hb hne

/-- C24 (amended). In per-group mode, on a snapshot whose skeleton segments lie
in world order inside `[0, numDOFs)` and whose groups name skeletons of the
world, no name twice, `backprop` returns, and for every mobile skeleton of the
world that no constraint group names, with `n` DOFs and `n x n` matrices
`Minv` and `posVel`, its segment of the result is
`torque = (dt * Minv)^T * gV`,
`velocity = (I - dt * Minv * velC)^T * gV + dt * gP` and
`position = posVel^T * gV + gP`, where `gP`, `gV` are its segments of the
next-step gradients; and for every skeleton of the world that no constraint
group names and that is not mobile, its segment of the torque, velocity and
position results is left at zero. -/
theorem backprop_perGroup_ungrouped (ext : External) (s : BackpropSnapshot) (world : World)
    (next : LossGradient)
    (hslow : s.mSlowDebugResultsAgainstFD = false)
    (hres : ∀ g ∈ s.mGradientMatrices, ∀ name ∈ g.skeletons, (world.getSkeleton name).isSome)
    (hnodup : (s.mGradientMatrices.map (fun g => g.skeletons)).flatten.Nodup)
    (hord : (preStepWorld s world).skeletons.Pairwise (fun a b =>
      s.mSkeletonOffset a.name + a.getNumDofs ≤ s.mSkeletonOffset b.name))
    (hbound : ∀ skel ∈ (preStepWorld s world).skeletons,
      s.mSkeletonOffset skel.name + skel.getNumDofs ≤ s.mNumDOFs) :
    ∃ s1 r, backprop ext s world next true = .ok (s1, r)
      ∧ (∀ skel ∈ (preStepWorld s world).skeletons, skel.mobile = true →
          (∀ g ∈ s.mGradientMatrices, skel.name ∉ g.skeletons) →
          (ext.skelInvMassMatrix skel).rows = skel.getNumDofs →
          (ext.skelInvMassMatrix skel).cols = skel.getNumDofs →
          (ext.skelUnconstrainedVelJacobianWrtPosition skel world.timeStep).rows
            = skel.getNumDofs →
          (ext.skelUnconstrainedVelJacobianWrtPosition skel world.timeStep).cols
            = skel.getNumDofs →
          (fun i : Fin skel.getNumDofs =>
              coeffAt r.lossWrtTorque (s.mSkeletonOffset skel.name + i))
            = Matrix.mulVec
                (s.mTimeStep • (ext.skelInvMassMatrix skel).toMatrix
                  skel.getNumDofs skel.getNumDofs).transpose
                (fun i : Fin skel.getNumDofs =>
                  coeffAt next.lossWrtVelocity (s.mSkeletonOffset skel.name + i))
          ∧ (fun i : Fin skel.getNumDofs =>
              coeffAt r.lossWrtVelocity (s.mSkeletonOffset skel.name + i))
            = Matrix.mulVec
                (1 - (s.mTimeStep • (ext.skelInvMassMatrix skel).toMatrix
                      skel.getNumDofs skel.getNumDofs)
                    * (ext.skelVelCJacobian skel).toMatrix
                      skel.getNumDofs skel.getNumDofs).transpose
                (fun i : Fin skel.getNumDofs =>
                  coeffAt next.lossWrtVelocity (s.mSkeletonOffset skel.name + i))
              + s.mTimeStep • (fun i : Fin skel.getNumDofs =>
                  coeffAt next.lossWrtPosition (s.mSkeletonOffset skel.name + i))
          ∧ (fun i : Fin skel.getNumDofs =>
              coeffAt r.lossWrtPosition (s.mSkeletonOffset skel.name + i))
            = Matrix.mulVec
                ((ext.skelUnconstrainedVelJacobianWrtPosition skel world.timeStep).toMatrix
                  skel.getNumDofs skel.getNumDofs).transpose
                (fun i : Fin skel.getNumDofs =>
                  coeffAt next.lossWrtVelocity (s.mSkeletonOffset skel.name + i))
              + (fun i : Fin skel.getNumDofs =>
                  coeffAt next.lossWrtPosition (s.mSkeletonOffset skel.name + i)))
      ∧ ∀ skel ∈ (preStepWorld s world).skeletons, skel.mobile = false →
          (∀ g ∈ s.mGradientMatrices, skel.name ∉ g.skeletons) →
          ∀ i : Nat, i < skel.getNumDofs →
            coeffAt r.lossWrtTorque (s.mSkeletonOffset skel.name + i) = 0
            ∧ coeffAt r.lossWrtVelocity (s.mSkeletonOffset skel.name + i) = 0
            ∧ coeffAt r.lossWrtPosition (s.mSkeletonOffset skel.name + i) = 0 := by
  have hres1 : ∀ g ∈ s.mGradientMatrices, ∀ name ∈ g.skeletons,
      ((preStepWorld s world).getSkeleton name).isSome :=
    fun g hg name hn => isSome_getSkeleton_preStepWorld s world name (hres g hg name hn)
  obtain ⟨s1, h1, _, hgm, _⟩ := getMassVelJacobian_ok ext s (preStepWorld s world) hslow hres1
  have hk := (getMassVelJacobian_kept ext s s1 (preStepWorld s world) h1).1
  have hoff : s1.mSkeletonOffset = s.mSkeletonOffset := by
    have h := congrArg (fun t : BackpropSnapshot => t.mSkeletonOffset) hk
    exact h
  have htime : s1.mTimeStep = s.mTimeStep := by
    have h := congrArg (fun t : BackpropSnapshot => t.mTimeStep) hk
    exact h
  obtain ⟨b1, _⟩ := backpropGroups_spec ext s1 (preStepWorld s world) next true
    s1.mGradientMatrices [] ⟨[], [], [], []⟩ ⟨[], [], [], []⟩
    { lossWrtPosition := Vec.zero s.mNumDOFs
      lossWrtVelocity := Vec.zero s.mNumDOFs
      lossWrtTorque := Vec.zero s.mNumDOFs
      lossWrtMass := s1.mCachedMassVel.transpose.mulVec next.lossWrtVelocity }
    (by rw [hgm]; exact hres1)
  obtain ⟨visited1, r2, hb⟩ := b1 ⟨by rw [hgm]; exact hnodup,
    fun _ _ hm => absurd hm (List.not_mem_nil _)⟩
  obtain ⟨hvis, lT, lV, lP⟩ := backpropGroups_visited ext s1 (preStepWorld s world) next true
    s1.mGradientMatrices [] _ _ _ (by rw [hgm]; exact hres1) visited1 r2 hb
  have hrun : backprop ext s world next true
      = .ok (s1, backpropUngrouped ext s1 (preStepWorld s world) next visited1
          (preStepWorld s world).skeletons r2) := by
    unfold backprop
    simp only [Bool.true_eq_false, if_false, h1, hb]
  refine ⟨_, _, hrun, ?_, ?_⟩
  swap
  · intro skel hmem hmob hgroups i hi
    have hapart : ∀ sk ∈ (preStepWorld s world).skeletons, sk ≠ skel →
        ¬ (s.mSkeletonOffset sk.name ≤ s.mSkeletonOffset skel.name + i
          ∧ s.mSkeletonOffset skel.name + i < s.mSkeletonOffset sk.name + sk.getNumDofs) := by
      intro sk hsk hne hin
      rcases segments_apart s _ hord sk skel hsk hmem hne with h | h <;> omega
    obtain ⟨u1, u2, u3⟩ := coeffAt_backpropUngrouped_unwritten ext s1 (preStepWorld s world)
      next visited1 (preStepWorld s world).skeletons r2 (s.mSkeletonOffset skel.name + i)
      (fun sk hsk _ hm => by
        rw [hoff]
        exact hapart sk hsk (fun e => by rw [e, hmob] at hm; cases hm))
    obtain ⟨g1, g2, g3⟩ := coeffAt_backpropGroups_outside ext s1 (preStepWorld s world) next
      true s1.mGradientMatrices [] _ _ _ (s.mSkeletonOffset skel.name + i)
      (fun g hg name hname sk hsk => by
        rw [hoff]
        obtain ⟨hin, hnm⟩ := getSkeleton_some _ _ _ hsk
        exact hapart sk hin (fun e => hgroups g (by rw [← hgm]; exact hg)
          (by rw [← e, hnm]; exact hname)))
      visited1 r2 hb
    have hz0 : coeffAt (Vec.zero s.mNumDOFs) (s.mSkeletonOffset skel.name + i) = 0 :=
      coeffAt_replicate_zero _ _
    exact ⟨by rw [u1, g1]; exact hz0, by rw [u2, g2]; exact hz0, by rw [u3, g3]; exact hz0⟩
  intro skel hmem hmob hgroups hMr hMc hPr hPc
  have hnv : skel.name ∉ visited1 := by
    intro hin
    rcases (hvis skel.name).mp hin with h | h
    · rw [hgm, List.mem_flatten] at h
      obtain ⟨l, hl, hn⟩ := h
      rw [List.mem_map] at hl
      obtain ⟨g, hg, rfl⟩ := hl
      exact hgroups g hg hn
    · exact absurd h (List.not_mem_nil _)
  have hz : (Vec.zero s.mNumDOFs).length = s.mNumDOFs := by simp [Vec.zero]
  have hb0 := hbound skel hmem
  have hseg := coeffAt_backpropUngrouped_segment ext s1 (preStepWorld s world) next visited1
    (preStepWorld s world).skeletons r2 (by rw [hoff]; exact hord) skel hmem hnv hmob
    (by rw [hoff, lT]; show _ ≤ (Vec.zero s.mNumDOFs).length; rw [hz]; exact hb0)
    (by rw [hoff, lV]; show _ ≤ (Vec.zero s.mNumDOFs).length; rw [hz]; exact hb0)
    (by rw [hoff, lP]; show _ ≤ (Vec.zero s.mNumDOFs).length; rw [hz]; exact hb0)
  rw [hoff, htime] at hseg
  have hwt : (preStepWorld s world).timeStep = world.timeStep := rfl
  rw [hwt] at hseg
  refine ⟨?_, ?_, ?_⟩
  · funext i
    rw [(hseg i i.isLt).1]
    have := congrFun (toFun_transpose_mulVec (Mat.scale s.mTimeStep (ext.skelInvMassMatrix skel))
      (segmentOf next.lossWrtVelocity (s.mSkeletonOffset skel.name) skel.getNumDofs)
      skel.getNumDofs skel.getNumDofs (by simpa [Mat.scale] using hMr)
      (by simpa [Mat.scale] using hMc)) i
    rw [toFun_segmentOf, toMatrix_scale] at this
    exact this
  · funext i
    rw [(hseg i i.isLt).2.1]
    have h := congrFun (toFun_vecAdd
      (((Mat.identity skel.getNumDofs skel.getNumDofs).sub
          ((Mat.scale s.mTimeStep (ext.skelInvMassMatrix skel)).mul
            (ext.skelVelCJacobian skel))).transpose.mulVec
        (segmentOf next.lossWrtVelocity (s.mSkeletonOffset skel.name) skel.getNumDofs))
      ((Mat.scale s.mTimeStep
          (Mat.identity skel.getNumDofs skel.getNumDofs)).transpose.mulVec
        (segmentOf next.lossWrtPosition (s.mSkeletonOffset skel.name) skel.getNumDofs))
      skel.getNumDofs (by simp [Mat.mulVec, Mat.transpose, Mat.sub, Mat.identity])) i
    rw [toFun_transpose_mulVec _ _ skel.getNumDofs skel.getNumDofs
        (by simp [Mat.sub, Mat.identity]) (by simp [Mat.sub, Mat.identity]),
      toFun_transpose_mulVec _ _ skel.getNumDofs skel.getNumDofs
        (by simp [Mat.scale, Mat.identity]) (by simp [Mat.scale, Mat.identity]),
      toFun_segmentOf, toFun_segmentOf, toMatrix_sub, toMatrix_identity,
      toMatrix_mul _ _ _ skel.getNumDofs _ (by simpa [Mat.scale] using hMc),
      toMatrix_scale, toMatrix_scale, toMatrix_identity] at h
    rw [show coeffAt _ (i : Nat) = Vec.toFun _ skel.getNumDofs i from rfl, h]
    simp [Matrix.transpose_smul, Matrix.smul_mulVec_assoc]
  · funext i
    rw [(hseg i i.isLt).2.2]
    have h := congrFun (toFun_vecAdd
      ((ext.skelUnconstrainedVelJacobianWrtPosition skel world.timeStep).transpose.mulVec
        (segmentOf next.lossWrtVelocity (s.mSkeletonOffset skel.name) skel.getNumDofs))
      ((Mat.identity skel.getNumDofs skel.getNumDofs).transpose.mulVec
        (segmentOf next.lossWrtPosition (s.mSkeletonOffset skel.name) skel.getNumDofs))
      skel.getNumDofs (by simpa [Mat.mulVec, Mat.transpose] using hPc)) i
    rw [toFun_transpose_mulVec _ _ skel.getNumDofs skel.getNumDofs hPr hPc,
      toFun_transpose_mulVec _ _ skel.getNumDofs skel.getNumDofs
        (by simp [Mat.identity]) (by simp [Mat.identity]),
      toFun_segmentOf, toFun_segmentOf, toMatrix_identity] at h
    rw [show coeffAt _ (i : Nat) = Vec.toFun _ skel.getNumDofs i from rfl, h]
    simp
/-- Witness for C24 (amended): in `exampleImmobileWorld` (no groups, `dt = 1/100`,
`Minv = I`, `velC = I`, `posVel = 0`) with next-step gradients `gP = (3, 4)`,
`gV = (5, 6)`, the mobile skeleton `"a"` at offset 0 receives
`torque = 5/100`, `velocity = (99/100) * 5 + 3/100` and `position = 3`, and
the segment of the skeleton `"b"` at offset 1, which is not mobile, is left at
zero. -/
theorem backprop_perGroup_ungrouped_witness :
    ∃ s1 r, backprop exampleCoriolisExternal exampleImmobileSnapshot exampleImmobileWorld
        exampleNextLossTwo true = .ok (s1, r)
      ∧ exampleImmobileSnapshot.mSkeletonOffset "a" = 0
      ∧ coeffAt r.lossWrtTorque 0 = 1 / 20
      ∧ coeffAt r.lossWrtVelocity 0 = 249 / 50
      ∧ coeffAt r.lossWrtPosition 0 = 3
      ∧ exampleImmobileSnapshot.mSkeletonOffset "b" = 1
      ∧ coeffAt r.lossWrtTorque 1 = 0
      ∧ coeffAt r.lossWrtVelocity 1 = 0
      ∧ coeffAt r.lossWrtPosition 1 = 0 := by
  have hgm : exampleImmobileSnapshot.mGradientMatrices = [] := rfl
  obtain ⟨s1, r, hrun, hall⟩ :=
    backprop_perGroup_ungrouped exampleCoriolisExternal exampleImmobileSnapshot
      exampleImmobileWorld exampleNextLossTwo rfl
      (by rw [hgm]; intro g hg; exact absurd hg (List.not_mem_nil _))
      (by rw [hgm]; exact List.nodup_nil)
      (by
        show List.Pairwise _ [_, _]
        refine List.Pairwise.cons ?_ (List.Pairwise.cons ?_ List.Pairwise.nil)
        · intro b hb
          rw [List.mem_singleton] at hb
          subst hb
          decide
        · intro b hb
          exact absurd hb (List.not_mem_nil _))
      (by
        intro skel hskel
        have h : skel ∈ [_, _] := hskel
        rw [List.mem_cons, List.mem_singleton] at h
        rcases h with h | h <;> subst h <;> decide)
  have h0 : (match backprop exampleCoriolisExternal exampleImmobileSnapshot exampleImmobileWorld
        exampleNextLossTwo true with
      | .ok p => coeffAt p.2.lossWrtTorque 0
      | .error _ => 0) = 1 / 20 := by with_unfolding_all rfl
  have h1 : (match backprop exampleCoriolisExternal exampleImmobileSnapshot exampleImmobileWorld
        exampleNextLossTwo true with
      | .ok p => coeffAt p.2.lossWrtVelocity 0
      | .error _ => 0) = 249 / 50 := by with_unfolding_all rfl
  have h2 : (match backprop exampleCoriolisExternal exampleImmobileSnapshot exampleImmobileWorld
        exampleNextLossTwo true with
      | .ok p => coeffAt p.2.lossWrtPosition 0
      | .error _ => 0) = 3 := by with_unfolding_all rfl
  rw [hrun] at h0 h1 h2
  have hb : (⟨"b", [exampleDofB], none, false⟩ : Skeleton)
      ∈ (preStepWorld exampleImmobileSnapshot exampleImmobileWorld).skeletons :=
    List.mem_cons_of_mem _ (List.mem_cons_self _ _)
  have hzero := hall.2 _ hb rfl
    (by rw [hgm]; intro g hg; exact absurd hg (List.not_mem_nil _)) 0 (by decide)
  exact ⟨s1, r, hrun, rfl, h0, h1, h2, rfl, hzero.1, hzero.2.1, hzero.2.2⟩

/-- Counterexample to C24 as stated: the skeleton `"b"` of `exampleImmobileWorld`
is named by no group (there is none) and has the DOF at offset 1, but it is not
mobile; `backprop` in per-group mode leaves its segment at zero, whereas
`posVel^T * gV + gP` is `4`. -/
theorem backprop_perGroup_skips_immobile :
    exampleImmobileSnapshot.mGradientMatrices = []
    ∧ exampleImmobileSnapshot.mSkeletonOffset "b" = 1
    ∧ (exampleImmobileWorld.skeletons.map (fun skel => (skel.name, skel.getNumDofs, skel.mobile)))
        = [("a", 1, true), ("b", 1, false)]
    ∧ (∀ skel : Skeleton,
        (preStepWorld exampleImmobileSnapshot exampleImmobileWorld).skeletons[1]? = some skel →
        coeffAt (Vec.add
          ((exampleCoriolisExternal.skelUnconstrainedVelJacobianWrtPosition skel
              (1 / 100)).transpose.mulVec (segmentOf exampleNextLossTwo.lossWrtVelocity 1 1))
          ((Mat.identity 1 1).transpose.mulVec
            (segmentOf exampleNextLossTwo.lossWrtPosition 1 1))) 0 = 4)
    ∧ ∃ s1 r, backprop exampleCoriolisExternal exampleImmobileSnapshot exampleImmobileWorld
        exampleNextLossTwo true = .ok (s1, r)
      ∧ coeffAt r.lossWrtTorque 1 = 0
      ∧ coeffAt r.lossWrtVelocity 1 = 0
      ∧ coeffAt r.lossWrtPosition 1 = 0 := by
  refine ⟨rfl, rfl, rfl, ?_, ?_⟩
  · intro skel hskel
    have h : some (⟨"b", [exampleDofB], none, false⟩ : Skeleton) = some skel := hskel
    obtain rfl := Option.some.inj h
    with_unfolding_all rfl
  · cases hrun : backprop exampleCoriolisExternal exampleImmobileSnapshot exampleImmobileWorld
        exampleNextLossTwo true with
    | error e =>
      have h : (match backprop exampleCoriolisExternal exampleImmobileSnapshot
          exampleImmobileWorld exampleNextLossTwo true with
          | .ok _ => true
          | .error _ => false) = true := by with_unfolding_all rfl
      rw [hrun] at h
      cases h
    | ok p =>
      have h0 : (match backprop exampleCoriolisExternal exampleImmobileSnapshot
          exampleImmobileWorld exampleNextLossTwo true with
        | .ok p => coeffAt p.2.lossWrtTorque 1
        | .error _ => 0) = 0 := by with_unfolding_all rfl
      have h1 : (match backprop exampleCoriolisExternal exampleImmobileSnapshot
          exampleImmobileWorld exampleNextLossTwo true with
        | .ok p => coeffAt p.2.lossWrtVelocity 1
        | .error _ => 0) = 0 := by with_unfolding_all rfl
      have h2 : (match backprop exampleCoriolisExternal exampleImmobileSnapshot
          exampleImmobileWorld exampleNextLossTwo true with
        | .ok p => coeffAt p.2.lossWrtPosition 1
        | .error _ => 0) = 0 := by with_unfolding_all rfl
      rw [hrun] at h0 h1 h2
      exact ⟨p.1, p.2, rfl, h0, h1, h2⟩

/-! ## Ridders extrapolation of a polynomial sample -/

theorem map_range_congr {α : Type} (n : Nat) (f g : Nat → α) (h : ∀ c, c < n → f c = g c) :
    (List.range n).map f = (List.range n).map g :=
  List.map_congr_left (fun c hc => h c (List.mem_range.mp hc))

theorem sub_map_range (n : Nat) (f g : Nat → ℚ) :
    Vec.sub ((List.range n).map f) ((List.range n).map g)
      = (List.range n).map (fun c => f c - g c) := by
  unfold Vec.sub
  rw [List.length_map, List.length_range]
  apply map_range_congr
  intro c hc
  rw [coeffAt_map_range, coeffAt_map_range, if_pos hc, if_pos hc]

theorem subSized_map_range (n : Nat) (f g : Nat → ℚ) :
    Vec.subSized ((List.range n).map f) ((List.range n).map g)
      = .ok ((List.range n).map (fun c => f c - g c)) := by
  unfold Vec.subSized
  rw [if_pos (by simp), sub_map_range]

theorem div_map_range (n : Nat) (f : Nat → ℚ) (d : ℚ) :
    Vec.div ((List.range n).map f) d = (List.range n).map (fun c => f c / d) := by
  unfold Vec.div
  rw [List.map_map]
  rfl

theorem riddersCombine_map_range (n : Nat) (f g : Nat → ℚ) (fac : ℚ) :
    riddersCombine ((List.range n).map f) ((List.range n).map g) fac
      = .ok ((List.range n).map (fun c => (f c * fac - g c) / (fac - 1))) := by
  unfold riddersCombine
  rw [List.map_map]
  have h : ((fun x => x * fac) ∘ f) = fun c => f c * fac := rfl
  rw [h, subSized_map_range]
  simp only
  rw [div_map_range]

theorem foldl_max_ge (xs : List ℚ) (m : ℚ) : m ≤ xs.foldl (fun m y => max m |y|) m := by
  induction xs generalizing m with
  | nil => exact le_refl m
  | cons x rest ih => exact le_trans (le_max_left m |x|) (ih (max m |x|))

theorem foldl_max_lt (xs : List ℚ) (m B : ℚ) (hm : m < B) (hxs : ∀ x ∈ xs, |x| < B) :
    xs.foldl (fun m y => max m |y|) m < B := by
  induction xs generalizing m with
  | nil => exact hm
  | cons x rest ih =>
    exact ih (max m |x|) (max_lt hm (hxs x (List.mem_cons_self _ _)))
      (fun y hy => hxs y (List.mem_cons_of_mem _ hy))

theorem absMaxCoeff_ok (v : Vec) (hv : v ≠ []) : ∃ m, v.absMaxCoeff = .ok m := by
  cases v with
  | nil => exact absurd rfl hv
  | cons x xs => exact ⟨_, rfl⟩

theorem absMaxCoeff_lt (v : Vec) (m B : ℚ) (h : v.absMaxCoeff = .ok m)
    (hB : ∀ x ∈ v, |x| < B) : m < B := by
  cases v with
  | nil => cases h
  | cons x xs =>
    simp only [Vec.absMaxCoeff, Except.ok.injEq] at h
    rw [← h]
    exact foldl_max_lt xs |x| B (hB x (List.mem_cons_self _ _))
      (fun y hy => hB y (List.mem_cons_of_mem _ hy))

theorem map_range_ne_nil {α : Type} (n : Nat) (hn : 0 < n) (f : Nat → α) :
    (List.range n).map f ≠ [] := by
  intro h
  have := congrArg List.length h
  simp at this
  omega

theorem setCol_setCol (J : Mat) (i : Nat) (v : Vec) : (J.setCol i v).setCol i v = J.setCol i v := by
  unfold Mat.setCol
  simp only [Mat.mk.injEq, true_and]
  funext r c
  split <;> simp_all

/-- A polynomial of degree at most 4 has the central difference quotient
`p'(0) + (p'''(0)/6) h^2` at `0`. -/
theorem central_difference_of_quartic (p : Polynomial ℚ) (hp : p.natDegree ≤ 4) (h : ℚ)
    (hh : h ≠ 0) :
    (p.eval h - p.eval (-h)) / (2 * h) = p.coeff 1 + p.coeff 3 * h ^ 2 := by
  rw [Polynomial.eval_eq_sum_range' (Nat.lt_succ_of_le hp) h,
    Polynomial.eval_eq_sum_range' (Nat.lt_succ_of_le hp) (-h)]
  simp only [Finset.sum_range_succ, Finset.range_zero, Finset.sum_empty]
  field_simp
  ring

theorem derivative_eval_zero (p : Polynomial ℚ) :
    (Polynomial.derivative p).eval 0 = p.coeff 1 := by
  rw [← Polynomial.coeff_zero_eq_eval_zero, Polynomial.coeff_derivative]
  simp
/-- The extrapolation loop on a tableau whose column `iTab - 1` holds `a` in
the rows `1 .. iTab - 1`, whose first row holds `d1` and `d` in the columns
`iTab - 1` and `iTab`, with `(d * con2 - d1) / (con2 - 1) = a`: every entry it
writes is `a`, and the column of `J` is left alone or becomes `a`; it becomes
`a` when the loop starts at `jTab = 1` with an error below `bestError`. -/
theorem riddersExtrapolate_spec (con2 : ℚ) (hcon2 : 1 < con2) (i iTab n : Nat) (hn : 0 < n)
    (hiTab : 1 ≤ iTab) (a d d1 : Nat → ℚ)
    (hcomb : ∀ c, (d c * con2 - d1 c) / (con2 - 1) = a c)
    (m jTab : Nat) (fac : ℚ) (tab : Tableau) (best : ℚ) (J : Mat)
    (hj : 1 ≤ jTab) (hm : jTab + m = iTab + 1) (hfac : fac = con2 ^ jTab)
    (h0 : tab 0 iTab = (List.range n).map d)
    (h1 : tab 0 (iTab - 1) = (List.range n).map d1)
    (hprev : ∀ j, 1 ≤ j → j < iTab → tab j (iTab - 1) = (List.range n).map a)
    (hcur : ∀ j, 1 ≤ j → j < jTab → tab j iTab = (List.range n).map a)
    (hrows : J.rows = n) (hcols : i < J.cols) :
    ∃ tab1 best1 J1,
      riddersExtrapolate con2 i iTab m jTab fac tab best J = .ok (tab1, best1, J1)
      ∧ (∀ j k, k ≠ iTab → tab1 j k = tab j k)
      ∧ tab1 0 iTab = (List.range n).map d
      ∧ (∀ j, 1 ≤ j → j ≤ iTab → tab1 j iTab = (List.range n).map a)
      ∧ (J1 = J ∨ J1 = J.setCol i ((List.range n).map a))
      ∧ (jTab = 1 → 1 ≤ m →
          (∀ e1 e2, Vec.absMaxCoeff ((List.range n).map (fun c => a c - d c)) = .ok e1 →
            Vec.absMaxCoeff ((List.range n).map (fun c => a c - d1 c)) = .ok e2 →
            max e1 e2 < best) →
          J1 = J.setCol i ((List.range n).map a)) := by
  induction m generalizing jTab fac tab best J with
  | zero =>
    refine ⟨tab, best, J, rfl, fun _ _ _ => rfl, h0, ?_, Or.inl rfl, ?_⟩
    · intro j hj1 hj2
      exact hcur j hj1 (by omega)
    · intro _ hm1
      omega
  | succ m ih =>
    have hjle : jTab ≤ iTab := by omega
    -- the two entries combined in this pass
    have hcombine : riddersCombine (tab (jTab - 1) iTab) (tab (jTab - 1) (iTab - 1)) fac
        = .ok ((List.range n).map a) := by
      by_cases hj1 : jTab = 1
      · subst hj1
        rw [show (1 : Nat) - 1 = 0 from rfl, h0, h1, riddersCombine_map_range, hfac, pow_one]
        exact congrArg Except.ok (map_range_congr n _ _ (fun c _ => hcomb c))
      · rw [hcur (jTab - 1) (by omega) (by omega), hprev (jTab - 1) (by omega) (by omega),
          riddersCombine_map_range]
        have hfac1 : fac - 1 ≠ 0 := by
          have : 1 < fac := by rw [hfac]; exact one_lt_pow₀ hcon2 (by omega)
          linarith
        refine congrArg Except.ok (map_range_congr n _ _ (fun c _ => ?_))
        field_simp
        ring
    have hne : iTab - 1 ≠ iTab := by omega
    have ht1 : (tab.assign jTab iTab ((List.range n).map a)) jTab iTab = (List.range n).map a := by
      simp [Tableau.assign]
    have ht2 : (tab.assign jTab iTab ((List.range n).map a)) (jTab - 1) iTab
        = tab (jTab - 1) iTab := by
      have : jTab - 1 ≠ jTab := by omega
      simp [Tableau.assign, this]
    have ht3 : (tab.assign jTab iTab ((List.range n).map a)) (jTab - 1) (iTab - 1)
        = tab (jTab - 1) (iTab - 1) := by
      simp [Tableau.assign, hne]
    -- the entries that the error estimate reads
    obtain ⟨p, hp⟩ : ∃ p : Nat → ℚ, tab (jTab - 1) iTab = (List.range n).map p
        ∧ (jTab = 1 → p = d) := by
      by_cases hj1 : jTab = 1
      · subst hj1
        exact ⟨d, h0, fun _ => rfl⟩
      · exact ⟨a, hcur (jTab - 1) (by omega) (by omega), fun h => absurd h hj1⟩
    obtain ⟨q, hq⟩ : ∃ q : Nat → ℚ, tab (jTab - 1) (iTab - 1) = (List.range n).map q
        ∧ (jTab = 1 → q = d1) := by
      by_cases hj1 : jTab = 1
      · subst hj1
        exact ⟨d1, h1, fun _ => rfl⟩
      · exact ⟨a, hprev (jTab - 1) (by omega) (by omega), fun h => absurd h hj1⟩
    obtain ⟨e1, he1⟩ := absMaxCoeff_ok ((List.range n).map (fun c => a c - p c))
      (map_range_ne_nil n hn _)
    obtain ⟨e2, he2⟩ := absMaxCoeff_ok ((List.range n).map (fun c => a c - q c))
      (map_range_ne_nil n hn _)
    -- the state handed to the next pass
    have hnext : ∀ (best2 : ℚ) (J2 : Mat), J2.rows = n → i < J2.cols →
        ∃ tab1 best1 J1,
          riddersExtrapolate con2 i iTab m (jTab + 1) (con2 * fac)
            (tab.assign jTab iTab ((List.range n).map a)) best2 J2 = .ok (tab1, best1, J1)
          ∧ (∀ j k, k ≠ iTab → tab1 j k = tab j k)
          ∧ tab1 0 iTab = (List.range n).map d
          ∧ (∀ j, 1 ≤ j → j ≤ iTab → tab1 j iTab = (List.range n).map a)
          ∧ (J1 = J2 ∨ J1 = J2.setCol i ((List.range n).map a)) := by
      intro best2 J2 hrows2 hcols2
      obtain ⟨tab1, best1, J1, hr, hk, hd, ha, hJ, _⟩ := ih (jTab + 1) (con2 * fac)
        (tab.assign jTab iTab ((List.range n).map a)) best2 J2 (by omega) (by omega)
        (by rw [hfac, pow_succ]; ring)
        (by
          have : (0 : Nat) ≠ jTab := by omega
          simp [Tableau.assign, this, h0])
        (by simp [Tableau.assign, hne, h1])
        (by
          intro j hj1 hj2
          simp only [Tableau.assign, hne, and_false, if_false]
          exact hprev j hj1 hj2)
        (by
          intro j hj1 hj2
          by_cases hjj : j = jTab
          · subst hjj; exact ht1
          · simp only [Tableau.assign, hjj, false_and, if_false]
            exact hcur j hj1 (by omega))
        hrows2 hcols2
      refine ⟨tab1, best1, J1, hr, ?_, hd, ha, hJ⟩
      intro j k hkne
      rw [hk j k hkne]
      simp [Tableau.assign, hkne]
    rw [hp.1, hq.1] at hcombine
    simp only [riddersExtrapolate, hp.1, hq.1, hcombine, ht1, ht2, ht3, subSized_map_range,
      he1, he2]
    have hassign : J.assignCol i ((List.range n).map a)
        = .ok (J.setCol i ((List.range n).map a)) := by
      simp [Mat.assignCol, hcols, hrows]
    by_cases hlt : max e1 e2 < best
    · rw [if_pos hlt]
      simp only [hassign]
      obtain ⟨tab1, best1, J1, hr, hk, hd, ha, hJ⟩ := hnext (max e1 e2)
        (J.setCol i ((List.range n).map a)) hrows hcols
      refine ⟨tab1, best1, J1, hr, hk, hd, ha, ?_, ?_⟩
      · rcases hJ with h | h
        · exact Or.inr h
        · exact Or.inr (by rw [h, setCol_setCol])
      · intro _ _ _
        rcases hJ with h | h
        · exact h
        · rw [h, setCol_setCol]
    · rw [if_neg hlt]
      obtain ⟨tab1, best1, J1, hr, hk, hd, ha, hJ⟩ := hnext best J hrows hcols
      refine ⟨tab1, best1, J1, hr, hk, hd, ha, hJ, ?_⟩
      intro hj1 _ hbound
      have hpd := hp.2 hj1
      have hqd := hq.2 hj1
      subst hpd hqd
      exact absurd (hbound e1 e2 he1 he2) hlt
/-- The loop over the step sizes, entered at column `iTab` of a tableau whose
column `iTab - 1` holds the central difference `a1 + a3 s^2` in row 0 and `a1`
below it, for a sample whose central difference at step `h` is
`a1 + a3 h^2`: it returns, and column `i` of `J` is `a1`, provided it was `a1`
on entry or the loop is entered at `iTab = 1` with a first error estimate
below `bestError`. -/
theorem riddersStepSizes_spec {σ : Type} (calls : WorldCalls σ) (sample : σ → Vec)
    (wrt : WithRespectTo) (originalWrt : Vec) (i n : Nat) (hn : 0 < n)
    (P : Nat → ℚ → ℚ) (a1 a3 : Nat → ℚ) (inv : σ → Prop)
    (hset : ∀ w v, inv w → inv (calls.wrtSet wrt w v))
    (hsample : ∀ w t, inv w → sample (calls.wrtSet wrt w (Vec.addAt originalWrt i t))
      = (List.range n).map (fun c => P c t))
    (hP : ∀ c h, h ≠ 0 → (P c h - P c (-h)) / (2 * h) = a1 c + a3 c * h ^ 2)
    (J0 : Mat) (hrows : J0.rows = n) (hcols : i < J0.cols)
    (m iTab : Nat) (s : ℚ) (world : σ) (tab : Tableau) (best : ℚ) (J : Mat)
    (hworld : inv world) (hs : 0 < s) (hiTab : 1 ≤ iTab)
    (h1 : tab 0 (iTab - 1) = (List.range n).map (fun c => a1 c + a3 c * s ^ 2))
    (hprev : ∀ j, 1 ≤ j → j < iTab → tab j (iTab - 1) = (List.range n).map a1)
    (hJ : J = J0.setCol i ((List.range n).map a1)
      ∨ (J = J0 ∧ 1 ≤ m ∧ iTab = 1
        ∧ ∀ e1 e2,
          Vec.absMaxCoeff ((List.range n).map
            (fun c => a1 c - (a1 c + a3 c * (s / (14 / 10)) ^ 2))) = .ok e1 →
          Vec.absMaxCoeff ((List.range n).map
            (fun c => a1 c - (a1 c + a3 c * s ^ 2))) = .ok e2 →
          max e1 e2 < best)) :
    ∃ world1 J1,
      riddersStepSizes calls sample wrt originalWrt i m iTab s world tab best J
        = .ok (world1, J1)
      ∧ inv world1
      ∧ J1 = J0.setCol i ((List.range n).map a1) := by
  induction m generalizing iTab s world tab best J with
  | zero =>
    rcases hJ with h | h
    · exact ⟨world, J, rfl, hworld, h⟩
    · omega
  | succ m ih =>
    have hs1 : 0 < s / (14 / 10) := by positivity
    have hne : iTab - 1 ≠ iTab := by omega
    have hcentral : (List.range n).map
          (fun c => (P c (s / (14 / 10)) - P c (-(s / (14 / 10)))) / (2 * (s / (14 / 10))))
        = (List.range n).map (fun c => a1 c + a3 c * (s / (14 / 10)) ^ 2) :=
      map_range_congr n _ _ (fun c _ => hP c _ (ne_of_gt hs1))
    have hJrows : J.rows = n ∧ i < J.cols := by
      rcases hJ with h | ⟨h, _⟩
      · rw [h]; exact ⟨hrows, hcols⟩
      · rw [h]; exact ⟨hrows, hcols⟩
    obtain ⟨tab2, best2, J2, hrun, hk, hd, ha, hJ2, hforce⟩ :=
      riddersExtrapolate_spec ((14 / 10 : ℚ) * (14 / 10)) (by norm_num) i iTab n hn hiTab a1
        (fun c => a1 c + a3 c * (s / (14 / 10)) ^ 2) (fun c => a1 c + a3 c * s ^ 2)
        (by intro c; field_simp; ring)
        iTab 1 ((14 / 10 : ℚ) * (14 / 10))
        (tab.assign 0 iTab ((List.range n).map (fun c => a1 c + a3 c * (s / (14 / 10)) ^ 2)))
        best J (le_refl 1) (by omega) (by rw [pow_one])
        (by simp [Tableau.assign])
        (by simp [Tableau.assign, hne, h1])
        (by
          intro j hj1 hj2
          simp only [Tableau.assign, hne, and_false, if_false]
          exact hprev j hj1 hj2)
        (by intro j hj1 hj2; omega) hJrows.1 hJrows.2
    have hJ2good : J2 = J0.setCol i ((List.range n).map a1) := by
      rcases hJ with h | ⟨h, _, hi1, hb⟩
      · rcases hJ2 with h2 | h2
        · rw [h2, h]
        · rw [h2, h, setCol_setCol]
      · rw [hforce rfl hiTab hb, h]
    -- the test that ends the loop early reads two entries of size `n`
    obtain ⟨q, hq⟩ : ∃ q : Nat → ℚ, tab2 (iTab - 1) (iTab - 1) = (List.range n).map q := by
      rw [hk _ _ hne]
      by_cases h0 : iTab - 1 = 0
      · refine ⟨fun c => a1 c + a3 c * s ^ 2, ?_⟩
        simp only [Tableau.assign, hne, and_false, if_false]
        have h2 := h1
        rw [h0] at h2 ⊢
        exact h2
      · refine ⟨a1, ?_⟩
        simp only [Tableau.assign, hne, and_false, if_false]
        exact hprev (iTab - 1) (by omega) (by omega)
    obtain ⟨e, he⟩ := absMaxCoeff_ok ((List.range n).map (fun c => a1 c - q c))
      (map_range_ne_nil n hn _)
    have hquit : riddersQuitEarly 2 iTab tab2 best2
        = .ok (decide (e ≥ 2 * best2)) := by
      unfold riddersQuitEarly
      rw [ha iTab hiTab (le_refl _), hq, subSized_map_range]
      simp only [he]
    have hplus := hsample world (s / (14 / 10)) hworld
    have hminus := hsample (calls.wrtSet wrt world (Vec.addAt originalWrt i (s / (14 / 10))))
      (-(s / (14 / 10))) (hset _ _ hworld)
    simp only [riddersStepSizes, hplus, hminus, subSized_map_range, div_map_range, hcentral,
      hrun, hquit]
    by_cases hq2 : e ≥ 2 * best2
    · simp only [hq2, decide_True, if_true]
      exact ⟨_, J2, rfl, hset _ _ (hset _ _ hworld), hJ2good⟩
    · simp only [hq2, decide_False, Bool.false_eq_true, if_false]
      exact ih (iTab + 1) (s / (14 / 10)) _ tab2 best2 J2 (hset _ _ (hset _ _ hworld)) hs1
        (by omega)
        (by simpa using hd)
        (by
          intro j hj1 hj2
          simpa using ha j hj1 (by omega))
        (Or.inl hJ2good)

/-- The loop over the columns, for samples whose central difference in
column `c` at step `h` is `a1 c + a3 c * h^2`: it returns, and column `c` of
the result is `a1 c`. -/
theorem riddersColumns_spec {σ : Type} (calls : WorldCalls σ) (sample : σ → Vec)
    (wrt : WithRespectTo) (originalWrt : Vec) (n dim : Nat) (hn : 0 < n)
    (P : Nat → Nat → ℚ → ℚ) (a1 a3 : Nat → Nat → ℚ) (inv : σ → Prop)
    (hset : ∀ w v, inv w → inv (calls.wrtSet wrt w v))
    (hsample : ∀ c, c < dim → ∀ w t, inv w →
      sample (calls.wrtSet wrt w (Vec.addAt originalWrt c t))
        = (List.range n).map (fun r => P c r t))
    (hP : ∀ c, c < dim → ∀ r h, h ≠ 0 →
      (P c r h - P c r (-h)) / (2 * h) = a1 c r + a3 c r * h ^ 2)
    (hbound : ∀ c, c < dim → ∀ r, r < n → |a3 c r| * (1 / 1000) ^ 2 < maxDouble)
    (m i : Nat) (him : i + m = dim) (world : σ) (J : Mat) (hworld : inv world)
    (hrows : J.rows = n) (hcols : dim ≤ J.cols) :
    ∃ world1 J1,
      riddersColumns calls sample wrt originalWrt m i world J = .ok (world1, J1)
      ∧ inv world1
      ∧ (∀ r c, c < i → J1.coeff r c = J.coeff r c)
      ∧ (∀ r c, i ≤ c → c < dim → r < n → J1.coeff r c = a1 c r) := by
  induction m generalizing i world J with
  | zero =>
    exact ⟨world, J, rfl, hworld, fun _ _ _ => rfl, fun r c h1 h2 => by omega⟩
  | succ m ih =>
    have hi : i < dim := by omega
    have hh : (1 / 1000 : ℚ) ≠ 0 := by norm_num
    have hcentral : (List.range n).map
          (fun r => (P i r (1 / 1000) - P i r (-(1 / 1000))) / (2 * (1 / 1000)))
        = (List.range n).map (fun r => a1 i r + a3 i r * (1 / 1000) ^ 2) :=
      map_range_congr n _ _ (fun r _ => hP i hi r _ hh)
    have hlt : ∀ (t : ℚ), t ^ 2 ≤ (1 / 1000 : ℚ) ^ 2 → ∀ e,
        Vec.absMaxCoeff ((List.range n).map
          (fun r => a1 i r - (a1 i r + a3 i r * t ^ 2))) = .ok e → e < maxDouble := by
      intro t ht e he
      refine absMaxCoeff_lt _ e maxDouble he ?_
      intro x hx
      rw [List.mem_map] at hx
      obtain ⟨r, hr, rfl⟩ := hx
      have hb := hbound i hi r (List.mem_range.mp hr)
      have h1 : |a1 i r - (a1 i r + a3 i r * t ^ 2)| = |a3 i r| * t ^ 2 := by
        rw [show a1 i r - (a1 i r + a3 i r * t ^ 2) = -(a3 i r * t ^ 2) by ring, abs_neg,
          abs_mul, abs_of_nonneg (sq_nonneg t)]
      rw [h1]
      exact lt_of_le_of_lt (mul_le_mul_of_nonneg_left ht (abs_nonneg _)) hb
    obtain ⟨world3, J1, hrun, hinv3, hJ1⟩ := riddersStepSizes_spec calls sample wrt originalWrt
      i n hn (P i) (a1 i) (a3 i) inv hset (hsample i hi) (hP i hi) J hrows (by omega) 9 1
      (1 / 1000)
      (calls.wrtSet wrt (calls.wrtSet wrt world (Vec.addAt originalWrt i (1 / 1000)))
        (Vec.addAt originalWrt i (-(1 / 1000))))
      (Tableau.fresh.assign 0 0
        ((List.range n).map (fun r => a1 i r + a3 i r * (1 / 1000) ^ 2)))
      maxDouble J (hset _ _ (hset _ _ hworld)) (by norm_num) (le_refl 1)
      (by simp [Tableau.assign])
      (by intro j hj1 hj2; omega)
      (Or.inr ⟨rfl, by omega, rfl, fun e1 e2 he1 he2 =>
        max_lt (hlt _ (by norm_num) e1 he1) (hlt _ (le_refl _) e2 he2)⟩)
    obtain ⟨world4, J2, hrest, hinv4, hkeep, hgood⟩ := ih (i + 1) (by omega) world3 J1 hinv3
      (by rw [hJ1]; exact hrows) (by rw [hJ1]; exact hcols)
    have hplus := hsample i hi world (1 / 1000) hworld
    have hminus := hsample i hi (calls.wrtSet wrt world (Vec.addAt originalWrt i (1 / 1000)))
      (-(1 / 1000)) (hset _ _ hworld)
    refine ⟨world4, J2, ?_, hinv4, ?_, ?_⟩
    · simp only [riddersColumns, hplus, hminus, subSized_map_range, div_map_range, hcentral]
      rw [show (10 : Nat) - 1 = 9 from rfl, hrun]
      exact hrest
    · intro r c hc
      rw [hkeep r c (by omega), hJ1]
      have : c ≠ i := by omega
      simp [Mat.setCol, this]
    · intro r c hc1 hc2 hr
      by_cases hci : c = i
      · subst hci
        rw [hkeep r c (by omega), hJ1]
        simp [Mat.setCol, coeffAt_map_range, hr]
      · exact hgood r c (by omega) hc2 hr
/-- C28. In exact arithmetic, for a sample of `n > 0` components (as many as
the unperturbed sample has) that, on a set `inv` of world states which holds
the world and which writes of the differentiation variable do not leave,
depends only on the value written, and whose every component is, along each
coordinate, a polynomial of degree at most 4 in the perturbation (with a first
error estimate below the largest double):
`finiteDifferenceRiddersJacobianOfMinv` and
`finiteDifferenceRiddersJacobianOfC` return, and every coefficient of the
result is the derivative of the polynomial at the unperturbed point. -/
theorem ridders_exact_on_quartic {σ : Type} (calls : WorldCalls σ) (world : σ) (tau : Vec)
    (wrt : WithRespectTo) (n : Nat) (hn : 0 < n) (pMinv pC : Nat → Nat → Polynomial ℚ)
    (hdegMinv : ∀ c r, (pMinv c r).natDegree ≤ 4)
    (hdegC : ∀ c r, (pC c r).natDegree ≤ 4)
    (inv : σ → Prop) (hworld : inv world)
    (hset : ∀ w v, inv w → inv (calls.wrtSet wrt w v))
    (hMinv : ∀ c, c < calls.wrtDim wrt world → ∀ w t, inv w →
      implicitMultiplyByInvMassMatrix calls
          (calls.wrtSet wrt w (Vec.addAt (calls.wrtGet wrt world) c t)) tau
        = (List.range n).map (fun r => (pMinv c r).eval t))
    (hC : ∀ c, c < calls.wrtDim wrt world → ∀ w t, inv w →
      calls.getCoriolisAndGravityAndExternalForces
          (calls.wrtSet wrt w (Vec.addAt (calls.wrtGet wrt world) c t))
        = (List.range n).map (fun r => (pC c r).eval t))
    (hrowsMinv : (implicitMultiplyByInvMassMatrix calls world tau).length = n)
    (hrowsC : (calls.getCoriolisAndGravityAndExternalForces world).length = n)
    (hboundMinv : ∀ c, c < calls.wrtDim wrt world → ∀ r, r < n →
      |(pMinv c r).coeff 3| * (1 / 1000) ^ 2 < maxDouble)
    (hboundC : ∀ c, c < calls.wrtDim wrt world → ∀ r, r < n →
      |(pC c r).coeff 3| * (1 / 1000) ^ 2 < maxDouble) :
    (∃ world1 J, finiteDifferenceRiddersJacobianOfMinv calls world tau wrt = .ok (world1, J)
      ∧ ∀ c, c < calls.wrtDim wrt world → ∀ r, r < n →
          J.coeff r c = (Polynomial.derivative (pMinv c r)).eval 0)
    ∧ (∃ world1 J, finiteDifferenceRiddersJacobianOfC calls world wrt = .ok (world1, J)
      ∧ ∀ c, c < calls.wrtDim wrt world → ∀ r, r < n →
          J.coeff r c = (Polynomial.derivative (pC c r)).eval 0) := by
  constructor
  · obtain ⟨world1, J, hrun, _, _, hgood⟩ := riddersColumns_spec calls
      (fun w => implicitMultiplyByInvMassMatrix calls w tau) wrt (calls.wrtGet wrt world) n
      (calls.wrtDim wrt world) hn (fun c r t => (pMinv c r).eval t)
      (fun c r => (pMinv c r).coeff 1) (fun c r => (pMinv c r).coeff 3) inv hset hMinv
      (fun c _ r h hh => central_difference_of_quartic (pMinv c r) (hdegMinv c r) h hh)
      hboundMinv (calls.wrtDim wrt world) 0 (by omega) world
      (Mat.zero (implicitMultiplyByInvMassMatrix calls world tau).length
        (calls.wrtDim wrt world)) hworld hrowsMinv (le_refl _)
    refine ⟨(RestorableSnapshot.record calls world).restoreTo calls
      (calls.wrtSet wrt world1 (calls.wrtGet wrt world)), J, ?_, ?_⟩
    · unfold finiteDifferenceRiddersJacobianOfMinv
      simp only [hrun]
    · intro c hc r hr
      rw [hgood r c (Nat.zero_le c) hc hr, derivative_eval_zero]
  · obtain ⟨world1, J, hrun, _, _, hgood⟩ := riddersColumns_spec calls
      calls.getCoriolisAndGravityAndExternalForces wrt (calls.wrtGet wrt world) n
      (calls.wrtDim wrt world) hn (fun c r t => (pC c r).eval t)
      (fun c r => (pC c r).coeff 1) (fun c r => (pC c r).coeff 3) inv hset hC
      (fun c _ r h hh => central_difference_of_quartic (pC c r) (hdegC c r) h hh)
      hboundC (calls.wrtDim wrt world) 0 (by omega) world
      (Mat.zero (calls.getCoriolisAndGravityAndExternalForces world).length
        (calls.wrtDim wrt world)) hworld hrowsC (le_refl _)
    refine ⟨(RestorableSnapshot.record calls world).restoreTo calls
      (calls.wrtSet wrt world1 (calls.wrtGet wrt world)), J, ?_, ?_⟩
    · unfold finiteDifferenceRiddersJacobianOfC
      simp only [hrun]
    · intro c hc r hr
      rw [hgood r c (Nat.zero_le c) hc hr, derivative_eval_zero]

/-- Witness for C28: the world of one DOF at position `2` whose Coriolis force
is the cube of the position and whose inverse mass is its fourth power, with
`tau = 5`: the samples are `(2 + t)^3` and `5 (2 + t)^4`, and the two routines
return their derivatives `12` and `160`. -/
theorem ridders_exact_on_quartic_witness :
    (∃ world1 J, finiteDifferenceRiddersJacobianOfMinv examplePolynomialCalls 2 [5] .POSITION
        = .ok (world1, J) ∧ J.coeff 0 0 = 160)
    ∧ ∃ world1 J, finiteDifferenceRiddersJacobianOfC examplePolynomialCalls 2 .POSITION
        = .ok (world1, J) ∧ J.coeff 0 0 = 12 := by
  have hadd : ∀ t : ℚ, coeffAt (Vec.addAt [2] 0 t) 0 = 2 + t := by
    intro t
    simp [Vec.addAt, coeffAt]
  have hdeg4 : ((Polynomial.C (5 : ℚ)) * (Polynomial.X + Polynomial.C 2) ^ 4).natDegree ≤ 4 := by
    refine le_trans (Polynomial.natDegree_C_mul_le _ _) ?_
    refine le_trans (Polynomial.natDegree_pow_le) ?_
    have : (Polynomial.X + Polynomial.C (2 : ℚ)).natDegree ≤ 1 :=
      (Polynomial.natDegree_X_add_C (2 : ℚ)).le
    omega
  have hdeg3 : ((Polynomial.X + Polynomial.C (2 : ℚ)) ^ 3).natDegree ≤ 4 := by
    refine le_trans (Polynomial.natDegree_pow_le) ?_
    have : (Polynomial.X + Polynomial.C (2 : ℚ)).natDegree ≤ 1 :=
      (Polynomial.natDegree_X_add_C (2 : ℚ)).le
    omega
  have hc4 : ((Polynomial.C (5 : ℚ)) * (Polynomial.X + Polynomial.C 2) ^ 4).coeff 3 = 40 := by
    rw [Polynomial.coeff_C_mul, Polynomial.coeff_X_add_C_pow]
    norm_num [Nat.choose]
  have hc3 : ((Polynomial.X + Polynomial.C (2 : ℚ)) ^ 3).coeff 3 = 1 := by
    rw [Polynomial.coeff_X_add_C_pow]
    norm_num [Nat.choose]
  have hmax : (40 : ℚ) * (1 / 1000) ^ 2 < maxDouble := by
    unfold maxDouble
    have h1 : (1 : ℚ) ≤ 2 ^ 971 := one_le_pow₀ (by norm_num)
    have h2 : (40 : ℚ) * (1 / 1000) ^ 2 < 1 := by norm_num
    have h3 : (1 : ℚ) ≤ (2 ^ 53 - 1) := by norm_num
    calc (40 : ℚ) * (1 / 1000) ^ 2 < 1 := h2
      _ = 1 * 1 := by ring
      _ ≤ (2 ^ 53 - 1) * 2 ^ 971 := mul_le_mul h3 h1 (by norm_num) (by norm_num)
  obtain ⟨⟨w1, J1, h1, g1⟩, w2, J2, h2, g2⟩ := ridders_exact_on_quartic examplePolynomialCalls 2
    [5] .POSITION 1 (by decide)
    (fun _ _ => (Polynomial.C (5 : ℚ)) * (Polynomial.X + Polynomial.C 2) ^ 4)
    (fun _ _ => (Polynomial.X + Polynomial.C (2 : ℚ)) ^ 3)
    (fun _ _ => hdeg4) (fun _ _ => hdeg3)
    (fun _ => True) trivial (fun _ _ _ => trivial)
    (by
      intro c hc w t _
      have hc0 : c = 0 := by
        have : c < 1 := hc
        omega
      subst hc0
      show implicitMultiplyByInvMassMatrix examplePolynomialCalls
          (coeffAt (Vec.addAt [2] 0 t) 0) [5] = _
      rw [hadd]
      simp [implicitMultiplyByInvMassMatrix, implicitMultiplyByInvMassMatrixLoop,
        examplePolynomialCalls, writeSegment, segmentOf, coeffAt, List.range_succ]
      ring)
    (by
      intro c hc w t _
      have hc0 : c = 0 := by
        have : c < 1 := hc
        omega
      subst hc0
      show [(coeffAt (Vec.addAt [2] 0 t) 0) ^ 3] = _
      rw [hadd]
      simp
      ring)
    (by with_unfolding_all rfl) (by with_unfolding_all rfl)
    (by
      intro c _ r _
      rw [hc4]
      simpa using hmax)
    (by
      intro c _ r _
      rw [hc3]
      refine lt_trans ?_ hmax
      norm_num)
  refine ⟨⟨w1, J1, h1, ?_⟩, w2, J2, h2, ?_⟩
  · rw [g1 0 (by decide) 0 (by decide)]
    simp [Polynomial.derivative_mul, Polynomial.derivative_pow]
    norm_num
  · rw [g2 0 (by decide) 0 (by decide)]
    simp [Polynomial.derivative_pow]
    norm_num

/-- The extrapolation loop entered at `iTab = 1`, `jTab = 1` on a tableau whose
entry `tab[0][1]` has not been assigned: the first pass fails an assertion of
the linear-algebra library, on the sizes of `tab[0][1] * fac - tab[0][0]` or,
when `tab[0][0]` is empty too, on the empty argument of `maxCoeff`. -/
theorem riddersExtrapolate_unassigned (con2 : ℚ) (i m : Nat) (fac : ℚ) (tab : Tableau)
    (best : ℚ) (J : Mat) (h : tab 0 1 = []) :
    riddersExtrapolate con2 i 1 (m + 1) 1 fac tab best J = .error .assertion := by
  unfold riddersExtrapolate
  simp only [show (1 : Nat) - 1 = 0 from rfl, h, riddersCombine, Vec.subSized, List.map_nil,
    List.length_nil]
  by_cases h0 : 0 = (tab 0 0).length
  · have hnil : tab 0 0 = [] := List.length_eq_zero.mp h0.symm
    simp [hnil, Vec.sub, Vec.div, Tableau.assign, h, Vec.absMaxCoeff]
  · simp [h0]

/-- The sampling statements of `finiteDifferenceRiddersPosJacobianWrt` fail an
assertion or assign `tab[0][0]` and nothing else. -/
theorem finiteDifferenceRiddersPosJacobianWrtSample_spec {σ : Type} (calls : WorldCalls σ)
    (s : BackpropSnapshot) (wrt : WithRespectTo) (originalWrt : Vec) (i : Nat) (stepSize : ℚ)
    (world : σ) (tab : Tableau) :
    finiteDifferenceRiddersPosJacobianWrtSample calls s wrt originalWrt i stepSize world tab
        = .error .assertion
      ∨ ∃ world1 v,
        finiteDifferenceRiddersPosJacobianWrtSample calls s wrt originalWrt i stepSize world tab
          = .ok (world1, tab.assign 0 0 v) := by
  unfold finiteDifferenceRiddersPosJacobianWrtSample Vec.subSized
  simp only
  split_ifs with h
  · right
    exact ⟨_, _, rfl⟩
  · left
    rfl

/-- The routine `finiteDifferenceRiddersPosJacobianWrt` fails an assertion
whenever the differentiation variable has a coordinate: the loop over the step
sizes writes every central difference to `tab[0][0]` (line 3685), so that the
extrapolation reads the unassigned `tab[0][1]`. -/
theorem finiteDifferenceRiddersPosJacobianWrt_asserts {σ : Type} (calls : WorldCalls σ)
    (uninitialised : Nat → ℚ) (s : BackpropSnapshot) (world : σ) (wrt : WithRespectTo)
    (hdim : 0 < calls.wrtDim wrt world) :
    finiteDifferenceRiddersPosJacobianWrt calls uninitialised s world wrt
      = .error .assertion := by
  obtain ⟨d, hd⟩ : ∃ d, calls.wrtDim wrt world = d + 1 := ⟨calls.wrtDim wrt world - 1, by omega⟩
  unfold finiteDifferenceRiddersPosJacobianWrt
  simp only [hd, finiteDifferenceRiddersPosJacobianWrtColumns]
  rcases finiteDifferenceRiddersPosJacobianWrtSample_spec calls s wrt (calls.wrtGet wrt world) 0
      (1 / 1000)
      ((RestorableSnapshot.record calls world).restoreTo calls
        (calls.step (rewindWith calls s world))) Tableau.fresh with h1 | ⟨world1, v, h1⟩
  · simp only [h1]
  · simp only [h1, show (10 : Nat) - 1 = 8 + 1 from rfl,
      finiteDifferenceRiddersPosJacobianWrtStepSizes]
    rcases finiteDifferenceRiddersPosJacobianWrtSample_spec calls s wrt (calls.wrtGet wrt world)
        0 (1 / 1000 / (14 / 10)) world1 (Tableau.fresh.assign 0 0 v) with h2 | ⟨world2, v2, h2⟩
    · simp only [h2]
    · simp only [h2]
      rw [riddersExtrapolate_unassigned _ _ 0 _ _ _ _ (by simp [Tableau.assign, Tableau.fresh])]

/-- C27. The Ridders routine `finiteDifferenceRiddersPosJacobianWrt` does not
build the tableau of the claim: on the example body at height 2, snapshot of
one step, differentiating with respect to the position, it fails an assertion
in the first extrapolation, for `tab[0][1]` is never assigned. -/
theorem finiteDifferenceRiddersPosJacobianWrt_tableau_unassigned :
    finiteDifferenceRiddersPosJacobianWrt exampleBodyCalls (fun _ => 0) exampleBodySnapshot
      exampleBody .POSITION = .error .assertion :=
  finiteDifferenceRiddersPosJacobianWrt_asserts exampleBodyCalls (fun _ => 0)
    exampleBodySnapshot exampleBody .POSITION (by decide)

/-- A step-halving loop of `finiteDifferenceVelVelJacobian` entered with
`0 < eps <= 1e-20 * 2^(fuel + 1)` leaves within `fuel + 1` passes, by accepting
a sample or by failing the assertion. -/
theorem finiteDifferenceVelVelJacobianSearch_leaves {σ : Type}
    (areResultsStandardized : BackpropSnapshot → Bool) (calls : WorldCalls σ)
    (s : BackpropSnapshot) (i : Nat) ( plus : Bool) (fuel : Nat) (eps : ℚ) (world : σ)
    (hpos : 0 < eps) (hle : eps ≤ 1 / 10 ^ 20 * 2 ^ (fuel + 1)) :
    ∃ r, finiteDifferenceVelVelJacobianSearch areResultsStandardized calls s i plus (fuel + 1)
      eps world = some r := by
  induction fuel generalizing eps world with
  | zero =>
    unfold finiteDifferenceVelVelJacobianSearch
    have habs : ¬ (|eps * (1 / 2)| > 1 / 10 ^ 20) := by
      rw [abs_of_pos (by positivity)]
      norm_num at hle ⊢
      linarith
    simp only [habs, if_false]
    split_ifs <;> exact ⟨_, rfl⟩
  | succ fuel ih =>
    unfold finiteDifferenceVelVelJacobianSearch
    have hrec : ∀ w, ∃ r, finiteDifferenceVelVelJacobianSearch areResultsStandardized calls s i
        plus (fuel + 1) (eps * (1 / 2)) w = some r := by
      intro w
      refine ih (eps * (1 / 2)) w (by positivity) ?_
      have h2 : (2 : ℚ) ^ (fuel + 1 + 1) = 2 ^ (fuel + 1) * 2 := pow_succ _ _
      rw [h2] at hle
      linarith
    simp only
    split_ifs
    all_goals first | exact ⟨_, rfl⟩ | exact hrec _

/-- Each step-halving loop of `finiteDifferenceVelVelJacobian`, which starts
at `eps = 1e-7`, leaves within 44 passes, that is 44 forward passes: with a
sample accepted or with the assertion `eps > 1e-20` failed. -/
theorem finiteDifferenceVelVelJacobianSearch_within_44 {σ : Type}
    (areResultsStandardized : BackpropSnapshot → Bool) (calls : WorldCalls σ)
    (s : BackpropSnapshot) (i : Nat) ( plus : Bool) (fuel : Nat) (world : σ)
    (hfuel : 44 ≤ fuel) :
    ∃ r, finiteDifferenceVelVelJacobianSearch areResultsStandardized calls s i plus fuel
      (1 / 10 ^ 7) world = some r := by
  obtain ⟨k, rfl⟩ : ∃ k, fuel = k + 1 := ⟨fuel - 1, by omega⟩
  refine finiteDifferenceVelVelJacobianSearch_leaves areResultsStandardized calls s i plus k _
    world (by norm_num) ?_
  have h44 : (2 : ℚ) ^ 44 ≤ 2 ^ (k + 1) := pow_le_pow_right₀ (by norm_num) (by omega)
  have : (1 : ℚ) / 10 ^ 7 ≤ 1 / 10 ^ 20 * 2 ^ 44 := by norm_num
  calc (1 : ℚ) / 10 ^ 7 ≤ 1 / 10 ^ 20 * 2 ^ 44 := this
    _ ≤ 1 / 10 ^ 20 * 2 ^ (k + 1) := by
      exact mul_le_mul_of_nonneg_left h44 (by norm_num)

/-- On the example body at rest on the ground, every upward velocity takes the
body out of contact: the upward step-halving loop of
`finiteDifferenceVelVelJacobian` rejects every sample, so that it has not left
after `fuel` passes while `eps / 2^fuel > 1e-20`, and fails the assertion
otherwise. -/
theorem finiteDifferenceVelVelJacobianSearch_resting (fuel : Nat) (eps : ℚ)
    (world : ExampleBody) (hpos : 0 < eps) :
    finiteDifferenceVelVelJacobianSearch (fun _ => true) exampleBodyCalls
        exampleRestingSnapshot 0 true fuel eps world
      = if fuel = 0 ∨ 1 / 10 ^ 20 * 2 ^ fuel < eps then none else some (.error .assertion) := by
  induction fuel generalizing eps world with
  | zero => simp [finiteDifferenceVelVelJacobianSearch]
  | succ fuel ih =>
    unfold finiteDifferenceVelVelJacobianSearch
    have hcount : (exampleBodyCalls.forwardPass
        (exampleBodyCalls.setVelocities
          (rewindAllButVelocities exampleBodyCalls exampleRestingSnapshot world)
          (Vec.addAt exampleRestingSnapshot.mPreStepVelocity 0 eps))).mNumClamping = 0 := by
      have hv : ¬ (0 + eps ≤ 0) := by linarith
      simp [exampleBodyCalls, ExampleBody.forwardPass, ExampleBody.numClamping,
        exampleRestingSnapshot, exampleRestingBody, Vec.addAt, coeffAt, hv, hpos,
        rewindAllButVelocities]
    have hs : exampleRestingSnapshot.mNumClamping = 1 := by
      simp [exampleRestingSnapshot, exampleRestingBody, ExampleBody.forwardPass,
        ExampleBody.numClamping]
    simp only [if_true, hcount, hs]
    rw [if_neg (by simp)]
    have habs : |eps * (1 / 2)| = eps * (1 / 2) := abs_of_pos (by positivity)
    rw [habs]
    by_cases h : eps * (1 / 2) > 1 / 10 ^ 20
    · rw [if_pos h, ih _ _ (by positivity)]
      by_cases hf : fuel = 0
      · subst hf
        have : (1 : ℚ) / 10 ^ 20 * 2 ^ (0 + 1) < eps := by norm_num; linarith
        rw [if_pos (Or.inl rfl), if_pos (Or.inr this)]
      · have hp2 : (2 : ℚ) ^ (fuel + 1) = 2 ^ fuel * 2 := pow_succ _ _
        have h1 : ((1 : ℚ) / 10 ^ 20 * 2 ^ fuel < eps * (1 / 2))
            ↔ ((1 : ℚ) / 10 ^ 20 * 2 ^ (fuel + 1) < eps) := by
          rw [hp2]
          constructor <;> intro h' <;> linarith
        simp only [hf, false_or, h1, Nat.succ_ne_zero]
    · rw [if_neg h]
      have h2 : ¬ ((1 : ℚ) / 10 ^ 20 * 2 ^ (fuel + 1) < eps) := by
        intro h'
        apply h
        have h3 : (1 : ℚ) / 10 ^ 20 * 2 ^ 1 ≤ 1 / 10 ^ 20 * 2 ^ (fuel + 1) :=
          mul_le_mul_of_nonneg_left (pow_le_pow_right₀ (by norm_num) (by omega)) (by norm_num)
        rw [pow_one] at h3
        linarith
      rw [if_neg]
      rintro (h0 | hb)
      · omega
      · exact h2 hb

/-- The first step-halving loop of
`finiteDifferenceJacobianOfProjectionIntoClampsMatrix` on the example body
while it is in contact, for a snapshot without clamping contact: no sample has
the row count of the original, and the loop has not left after `fuel` passes,
whatever `fuel` is. -/
theorem finiteDifferenceJacobianOfProjectionIntoClampsMatrixPlus_sunk
    (forFiniteDifferencingDefault : Bool) (before v : Vec) (cols i fuel : Nat) (eps : ℚ)
    (world : ExampleBody) (hp : world.position ≤ 0) (hv : world.velocity ≤ 0) :
    finiteDifferenceJacobianOfProjectionIntoClampsMatrixPlus exampleBodyCalls
      forFiniteDifferencingDefault .FORCE before v (Mat.zero 0 cols) i fuel eps world
      = none := by
  induction fuel generalizing eps world with
  | zero => rfl
  | succ fuel ih =>
    unfold finiteDifferenceJacobianOfProjectionIntoClampsMatrixPlus
    have hrows : (exampleBodyCalls.getProjectionIntoClampsMatrix
        (exampleBodyCalls.forwardPass
          (exampleBodyCalls.wrtSet .FORCE world (Vec.addAt before i eps)))
        (exampleBodyCalls.wrtSet .FORCE world (Vec.addAt before i eps))
        forFiniteDifferencingDefault).rows = 1 := by
      simp [exampleBodyCalls, ExampleBody.forwardPass, ExampleBody.numClamping, Mat.zero, hp, hv]
    simp only [hrows]
    rw [if_neg (by simp [Mat.zero])]
    exact ih _ _ hp hv

/-- C26. Not every step-halving loop asserts: while the upward loop of
`finiteDifferenceVelVelJacobian` on the example body at rest on the ground has
not left after 43 passes and fails its assertion in the 44th,
`finiteDifferenceJacobianOfProjectionIntoClampsMatrix`, whose loops halve
`eps` without an assertion, has not returned after `fuel` passes for any
`fuel` on the example body in contact with a snapshot recorded out of
contact. -/
theorem finiteDifferenceJacobianOfProjectionIntoClampsMatrix_halves_forever :
    finiteDifferenceVelVelJacobianSearch (fun _ => true) exampleBodyCalls
        exampleRestingSnapshot 0 true 43 (1 / 10 ^ 7) exampleRestingBody = none
    ∧ finiteDifferenceVelVelJacobianSearch (fun _ => true) exampleBodyCalls
        exampleRestingSnapshot 0 true 44 (1 / 10 ^ 7) exampleRestingBody
      = some (.error .assertion)
    ∧ ∀ (ridders : ExampleBody → Except Failure (ExampleBody × Mat))
        (forFiniteDifferencingDefault : Bool) (fuel : Nat),
      finiteDifferenceJacobianOfProjectionIntoClampsMatrix exampleBodyCalls ridders
        forFiniteDifferencingDefault fuel exampleBodySnapshot exampleSunkBody [1] .FORCE false
        = none := by
  refine ⟨?_, ?_, ?_⟩
  · rw [finiteDifferenceVelVelJacobianSearch_resting 43 _ _ (by norm_num)]
    norm_num
  · rw [finiteDifferenceVelVelJacobianSearch_resting 44 _ _ (by norm_num)]
    norm_num
  · intro ridders dflt fuel
    have horig : exampleBodyCalls.getProjectionIntoClampsMatrix exampleBodySnapshot
        exampleSunkBody true = Mat.zero 0 1 := by
      simp [exampleBodyCalls, exampleBodySnapshot, exampleBody, ExampleBody.forwardPass,
        ExampleBody.numClamping]
      norm_num
    unfold finiteDifferenceJacobianOfProjectionIntoClampsMatrix
    simp only [horig, Bool.false_eq_true, if_false]
    have hdim : exampleBodyCalls.wrtDim .FORCE exampleSunkBody = 1 := rfl
    rw [hdim]
    unfold finiteDifferenceJacobianOfProjectionIntoClampsMatrixLoop
    simp only [finiteDifferenceJacobianOfProjectionIntoClampsMatrixPlus_sunk dflt _ _ 1 0 fuel _
      exampleSunkBody (by simp [exampleSunkBody]) (by simp [exampleSunkBody])]

theorem coeffAt_div (v : Vec) (c : ℚ) (r : Nat) : coeffAt (v.div c) r = coeffAt v r / c := by
  unfold Vec.div coeffAt
  by_cases h : r < v.length
  · simp [List.getD, h]
  · have hnone : v[r]? = none := List.getElem?_eq_none (by omega)
    simp [List.getD, hnone]

theorem length_div (v : Vec) (c : ℚ) : (v.div c).length = v.length := by
  simp [Vec.div]

theorem length_vecSub (a b : Vec) : (Vec.sub a b).length = a.length := by
  simp [Vec.sub]

theorem subSized_ok (a b : Vec) (h : a.length = b.length) :
    Vec.subSized a b = .ok (Vec.sub a b) := by
  simp [Vec.subSized, h]

theorem assignCol_ok (J : Mat) (i : Nat) (v : Vec) (hi : i < J.cols) (hv : v.length = J.rows) :
    J.assignCol i v = .ok (J.setCol i v) := by
  simp [Mat.assignCol, hi, hv]

/-- A loop over the columns that, on the states of `inv`, assigns `col i` to
column `i` and passes the state `next i w` on: it returns, and column `c` of
the result is `col c` for every column `c` from `i` on. -/
theorem columnLoop_spec {σ : Type} (loop : Nat → Nat → σ → Mat → Except Failure (σ × Mat))
    (inv : σ → Prop) (col : Nat → Vec) (next : Nat → σ → σ) (n dim : Nat)
    (h0 : ∀ i w J, loop 0 i w J = .ok (w, J))
    (hstep : ∀ m i w J, i < dim → inv w →
      loop (m + 1) i w J
        = match J.assignCol i (col i) with
          | .error e => .error e
          | .ok J1 => loop m (i + 1) (next i w) J1)
    (hnext : ∀ i w, i < dim → inv w → inv (next i w))
    (hlen : ∀ i, i < dim → (col i).length = n)
    (m i : Nat) (him : i + m = dim) (w : σ) (J : Mat) (hw : inv w) (hrows : J.rows = n)
    (hcols : dim ≤ J.cols) :
    ∃ w1 J1, loop m i w J = .ok (w1, J1) ∧ inv w1
      ∧ (∀ r c, c < i → J1.coeff r c = J.coeff r c)
      ∧ (∀ r c, i ≤ c → c < dim → J1.coeff r c = coeffAt (col c) r) := by
  induction m generalizing i w J with
  | zero => exact ⟨w, J, h0 i w J, hw, fun _ _ _ => rfl, fun r c h1 h2 => by omega⟩
  | succ m ih =>
    have hi : i < dim := by omega
    obtain ⟨w1, J1, hrun, hinv, hkeep, hgood⟩ := ih (i + 1) (by omega) (next i w)
      (J.setCol i (col i)) (hnext i w hi hw) hrows hcols
    refine ⟨w1, J1, ?_, hinv, ?_, ?_⟩
    · rw [hstep m i w J hi hw, assignCol_ok J i (col i) (by omega) (by rw [hlen i hi, hrows])]
      exact hrun
    · intro r c hc
      rw [hkeep r c (by omega)]
      have : c ≠ i := by omega
      simp [Mat.setCol, this]
    · intro r c hc1 hc2
      by_cases hci : c = i
      · subst hci
        rw [hkeep r c (by omega)]
        simp [Mat.setCol]
      · exact hgood r c (by omega) hc2

/-- The plain routine `finiteDifferenceJacobianOfC` on a world whose Coriolis
vector depends, on the states of `inv`, only on the value `v` written to the
differentiation variable, as `f v`: it returns, and column `c` is the central
difference of `f` at `wrt->get(world)` with step `1e-7`. -/
theorem finiteDifferenceJacobianOfC_central {σ : Type} (calls : WorldCalls σ) (world : σ)
    (wrt : WithRespectTo) (f : Vec → Vec) (inv : σ → Prop) (hworld : inv world)
    (hset : ∀ w v, inv w → inv (calls.wrtSet wrt w v))
    (hf : ∀ w v, inv w → calls.getCoriolisAndGravityAndExternalForces (calls.wrtSet wrt w v) = f v)
    (hlen : ∀ v, (f v).length = (calls.getCoriolisAndGravityAndExternalForces world).length) :
    ∃ world1 J, finiteDifferenceJacobianOfC calls world wrt false = .ok (world1, J)
      ∧ ∀ c, c < calls.wrtDim wrt world →
        ∀ r, r < (calls.getCoriolisAndGravityAndExternalForces world).length →
          J.coeff r c
            = (coeffAt (f (Vec.addAt (calls.wrtGet wrt world) c (1 / 10 ^ 7))) r
                - coeffAt (f (Vec.addAt (calls.wrtGet wrt world) c (-(1 / 10 ^ 7)))) r)
              / (2 * (1 / 10 ^ 7)) := by
  obtain ⟨world1, J, hrun, _, _, hgood⟩ := columnLoop_spec
    (finiteDifferenceJacobianOfCLoop calls wrt (calls.wrtGet wrt world)) inv
    (fun c => (Vec.sub (f (Vec.addAt (calls.wrtGet wrt world) c (1 / 10 ^ 7)))
      (f (Vec.addAt (calls.wrtGet wrt world) c (-(1 / 10 ^ 7))))).div (2 * (1 / 10 ^ 7)))
    (fun c w => calls.wrtSet wrt
      (calls.wrtSet wrt w (Vec.addAt (calls.wrtGet wrt world) c (1 / 10 ^ 7)))
      (Vec.addAt (calls.wrtGet wrt world) c (-(1 / 10 ^ 7))))
    (calls.getCoriolisAndGravityAndExternalForces world).length (calls.wrtDim wrt world)
    (fun _ _ _ => rfl)
    (by
      intro m i w J _ hw
      have h1 := hf w (Vec.addAt (calls.wrtGet wrt world) i (1 / 10 ^ 7)) hw
      have h2 := hf (calls.wrtSet wrt w (Vec.addAt (calls.wrtGet wrt world) i (1 / 10 ^ 7)))
        (Vec.addAt (calls.wrtGet wrt world) i (-(1 / 10 ^ 7))) (hset _ _ hw)
      simp only [finiteDifferenceJacobianOfCLoop, h1, h2,
        subSized_ok _ _ ((hlen _).trans (hlen _).symm)])
    (fun i w _ hw => hset _ _ (hset _ _ hw))
    (fun i _ => by rw [length_div, length_vecSub, hlen])
    (calls.wrtDim wrt world) 0 (by omega) world
    (Mat.zero (calls.getCoriolisAndGravityAndExternalForces world).length
      (calls.wrtDim wrt world)) hworld rfl (le_refl _)
  refine ⟨(RestorableSnapshot.record calls world).restoreTo calls
    (calls.wrtSet wrt world1 (calls.wrtGet wrt world)), J, ?_, ?_⟩
  · unfold finiteDifferenceJacobianOfC
    simp only [Bool.false_eq_true, if_false, hrun]
  · intro c hc r hr
    rw [hgood r c (Nat.zero_le c) hc, coeffAt_div, coeffAt_vecSub _ _ _ (by rw [hlen]; exact hr)]
theorem Preserves.rewindWith {σ : Type} (calls : WorldCalls σ) (inv : σ → Prop)
    (h : calls.Preserves inv) (s : BackpropSnapshot) (w : σ) (hw : inv w) :
    inv (rewindWith calls s w) :=
  h.2.2.2.1 _ _ (h.2.2.1 _ _ (h.2.1 _ _ (h.1 _ _ hw)))

theorem Preserves.rewindAllButPositions {σ : Type} (calls : WorldCalls σ) (inv : σ → Prop)
    (h : calls.Preserves inv) (s : BackpropSnapshot) (w : σ) (hw : inv w) :
    inv (rewindAllButPositions calls s w) :=
  h.2.2.2.1 _ _ (h.2.2.1 _ _ (h.2.1 _ _ hw))

theorem Preserves.restoreTo {σ : Type} (calls : WorldCalls σ) (inv : σ → Prop)
    (h : calls.Preserves inv) (snapshot : RestorableSnapshot) (w : σ) (hw : inv w) :
    inv (snapshot.restoreTo calls w) :=
  h.2.2.2.1 _ _ (h.2.2.1 _ _ (h.2.1 _ _ (h.1 _ _ hw)))

theorem Preserves.stepTimes {σ : Type} (calls : WorldCalls σ) (inv : σ → Prop)
    (h : calls.Preserves inv) (n : Nat) (w : σ) (hw : inv w) : inv (stepTimes calls n w) := by
  induction n generalizing w with
  | zero => exact hw
  | succ n ih => exact ih _ (h.2.2.2.2 _ hw)

/-- The plain routine `finiteDifferencePosPosJacobian` without subdivision, on
a world whose positions after one step from the pre-step velocities, forces
and LCP cache depend, on the states of `inv`, only on the positions `p`
written, as `f p`: it returns, and column `c` is the central difference of `f`
at the pre-step positions with step `1e-6`. -/
theorem finiteDifferencePosPosJacobian_central {σ : Type} (calls : WorldCalls σ)
    (ridders : σ → Nat → Except Failure (σ × Mat)) (uninitialised : Nat → ℚ)
    (s : BackpropSnapshot) (world : σ) (f : Vec → Vec) (inv : σ → Prop)
    (hworld : inv (calls.setTimeStep world (calls.getTimeStep world / ((1 : Nat) : ℚ))))
    (hpres : calls.Preserves inv)
    (hdofs : ∀ w, inv w → calls.getNumDofs w = s.mNumDOFs)
    (hf : ∀ w p, inv w →
      calls.getPositions (calls.step (calls.setPositions (rewindAllButPositions calls s w) p))
        = f p)
    (hlen : ∀ p, (f p).length = s.mNumDOFs) :
    ∃ world1 J,
      finiteDifferencePosPosJacobian calls ridders uninitialised s world 1 false
        = .ok (world1, J)
      ∧ ∀ c, c < s.mNumDOFs → ∀ r, r < s.mNumDOFs →
          J.coeff r c
            = (coeffAt (f (Vec.addAt s.mPreStepPosition c (1 / 10 ^ 6))) r
                - coeffAt (f (Vec.addAt s.mPreStepPosition c (-(1 / 10 ^ 6)))) r)
              / (2 * (1 / 10 ^ 6)) := by
  have hstart : inv (stepTimes calls 1 (rewindWith calls s
      (calls.setTimeStep world (calls.getTimeStep world / ((1 : Nat) : ℚ))))) :=
    Preserves.stepTimes calls inv hpres 1 _
      (Preserves.rewindWith calls inv hpres s _ hworld)
  obtain ⟨world1, J, hrun, _, _, hgood⟩ := columnLoop_spec
    (finiteDifferencePosPosJacobianCentralLoop calls s (RestorableSnapshot.record calls world))
    inv
    (fun c => (Vec.sub (f (Vec.addAt s.mPreStepPosition c (1 / 10 ^ 6)))
      (f (Vec.addAt s.mPreStepPosition c (-(1 / 10 ^ 6))))).div (2 * (1 / 10 ^ 6)))
    (fun c w => calls.step (calls.setPositions
      (rewindAllButPositions calls s
        (calls.step (calls.setPositions
          (rewindAllButPositions calls s
            ((RestorableSnapshot.record calls world).restoreTo calls w))
          (Vec.addAt s.mPreStepPosition c (1 / 10 ^ 6)))))
      (Vec.addAt s.mPreStepPosition c (-(1 / 10 ^ 6)))))
    s.mNumDOFs s.mNumDOFs
    (fun _ _ _ => rfl)
    (by
      intro m i w J _ hw
      have hw1 := Preserves.restoreTo calls inv hpres (RestorableSnapshot.record calls world) w hw
      have h1 := hf _ (Vec.addAt s.mPreStepPosition i (1 / 10 ^ 6)) hw1
      have hw2 := hpres.2.2.2.2 _ (hpres.1 _ (Vec.addAt s.mPreStepPosition i (1 / 10 ^ 6))
        (Preserves.rewindAllButPositions calls inv hpres s _ hw1))
      have h2 := hf _ (Vec.addAt s.mPreStepPosition i (-(1 / 10 ^ 6))) hw2
      simp only [finiteDifferencePosPosJacobianCentralLoop, h1, h2,
        subSized_ok _ _ ((hlen _).trans (hlen _).symm)])
    (by
      intro i w _ hw
      have hw1 := Preserves.restoreTo calls inv hpres (RestorableSnapshot.record calls world) w hw
      have hw2 := hpres.2.2.2.2 _ (hpres.1 _ (Vec.addAt s.mPreStepPosition i (1 / 10 ^ 6))
        (Preserves.rewindAllButPositions calls inv hpres s _ hw1))
      exact hpres.2.2.2.2 _ (hpres.1 _ _
        (Preserves.rewindAllButPositions calls inv hpres s _ hw2)))
    (fun i _ => by rw [length_div, length_vecSub, hlen])
    s.mNumDOFs 0 (by omega) _ (Mat.declared s.mNumDOFs s.mNumDOFs uninitialised) hstart rfl
    (le_refl _)
  refine ⟨(RestorableSnapshot.record calls world).restoreTo calls
    (calls.setTimeStep world1 (calls.getTimeStep world)), J, ?_, ?_⟩
  · unfold finiteDifferencePosPosJacobian
    simp only [Bool.false_eq_true, if_false, if_true, hdofs _ hstart, hrun]
  · intro c hc r hr
    rw [hgood r c (Nat.zero_le c) hc, coeffAt_div, coeffAt_vecSub _ _ _ (by rw [hlen]; exact hr)]

/-- The plain routine `finiteDifferencePosPosJacobian` with `subdivisions >= 2`,
on a world whose positions after `subdivisions` steps from the pre-step
velocities, forces and LCP cache depend, on the states of `inv`, only on the
positions `p` written, as `f p`, the unperturbed run giving `f` at the
pre-step positions: it returns, and column `c` is the one-sided difference of
`f` at the pre-step positions with step `1e-2 / subdivisions`. -/
theorem finiteDifferencePosPosJacobian_forward {σ : Type} (calls : WorldCalls σ)
    (ridders : σ → Nat → Except Failure (σ × Mat)) (uninitialised : Nat → ℚ)
    (s : BackpropSnapshot) (world : σ) (subdivisions : Nat) (hsub : 2 ≤ subdivisions)
    (f : Vec → Vec) (inv : σ → Prop)
    (hworld : inv (calls.setTimeStep world (calls.getTimeStep world / (subdivisions : ℚ))))
    (hpres : calls.Preserves inv)
    (hdofs : ∀ w, inv w → calls.getNumDofs w = s.mNumDOFs)
    (hf : ∀ w p, inv w →
      calls.getPositions
          (stepTimes calls subdivisions
            (calls.setPositions (rewindAllButPositions calls s w) p))
        = f p)
    (hbase : calls.getPositions
        (stepTimes calls subdivisions
          (rewindWith calls s
            (calls.setTimeStep world (calls.getTimeStep world / (subdivisions : ℚ)))))
      = f s.mPreStepPosition)
    (hlen : ∀ p, (f p).length = s.mNumDOFs) :
    ∃ world1 J,
      finiteDifferencePosPosJacobian calls ridders uninitialised s world subdivisions false
        = .ok (world1, J)
      ∧ ∀ c, c < s.mNumDOFs → ∀ r, r < s.mNumDOFs →
          J.coeff r c
            = (coeffAt (f (Vec.addAt s.mPreStepPosition c (1 / 10 ^ 2 / (subdivisions : ℚ)))) r
                - coeffAt (f s.mPreStepPosition) r)
              / (1 / 10 ^ 2 / (subdivisions : ℚ)) := by
  have hstart : inv (stepTimes calls subdivisions (rewindWith calls s
      (calls.setTimeStep world (calls.getTimeStep world / (subdivisions : ℚ))))) :=
    Preserves.stepTimes calls inv hpres subdivisions _
      (Preserves.rewindWith calls inv hpres s _ hworld)
  obtain ⟨world1, J, hrun, _, _, hgood⟩ := columnLoop_spec
    (finiteDifferencePosPosJacobianSubdividedLoop calls s (RestorableSnapshot.record calls world)
      subdivisions (f s.mPreStepPosition))
    inv
    (fun c => (Vec.sub (f (Vec.addAt s.mPreStepPosition c (1 / 10 ^ 2 / (subdivisions : ℚ))))
      (f s.mPreStepPosition)).div (1 / 10 ^ 2 / (subdivisions : ℚ)))
    (fun c w => stepTimes calls subdivisions (calls.setPositions
      (rewindAllButPositions calls s
        ((RestorableSnapshot.record calls world).restoreTo calls w))
      (Vec.addAt s.mPreStepPosition c (1 / 10 ^ 2 / (subdivisions : ℚ)))))
    s.mNumDOFs s.mNumDOFs
    (fun _ _ _ => rfl)
    (by
      intro m i w J _ hw
      have hw1 := Preserves.restoreTo calls inv hpres (RestorableSnapshot.record calls world) w hw
      have h1 := hf _ (Vec.addAt s.mPreStepPosition i (1 / 10 ^ 2 / (subdivisions : ℚ))) hw1
      simp only [finiteDifferencePosPosJacobianSubdividedLoop, h1,
        subSized_ok _ _ ((hlen _).trans (hlen _).symm)])
    (by
      intro i w _ hw
      have hw1 := Preserves.restoreTo calls inv hpres (RestorableSnapshot.record calls world) w hw
      exact Preserves.stepTimes calls inv hpres subdivisions _ (hpres.1 _ _
        (Preserves.rewindAllButPositions calls inv hpres s _ hw1)))
    (fun i _ => by rw [length_div, length_vecSub, hlen])
    s.mNumDOFs 0 (by omega) _ (Mat.declared s.mNumDOFs s.mNumDOFs uninitialised) hstart rfl
    (le_refl _)
  have hne : ¬ subdivisions = 1 := by omega
  refine ⟨(RestorableSnapshot.record calls world).restoreTo calls
    (calls.setTimeStep world1 (calls.getTimeStep world)), J, ?_, ?_⟩
  · unfold finiteDifferencePosPosJacobian
    simp only [Bool.false_eq_true, if_false, hne, hdofs _ hstart, hbase, hrun]
  · intro c hc r hr
    rw [hgood r c (Nat.zero_le c) hc, coeffAt_div, coeffAt_vecSub _ _ _ (by rw [hlen]; exact hr)]

/-- The plain routine `finiteDifferenceMassVelJacobian`, on a world whose
velocities after one step from the restored state with the pre-step positions
and velocities depend, on the states of `inv`, only on the masses `m` written,
as `f m`, the unperturbed step giving `f` at the masses read after it: it
returns, and column `c` is the one-sided difference of `f` at these masses
with step `1e-7`. -/
theorem finiteDifferenceMassVelJacobian_forward {σ : Type} (calls : WorldCalls σ)
    (ridders : σ → Except Failure (σ × Mat)) (uninitialised : Nat → ℚ)
    (s : BackpropSnapshot) (world : σ) (f : Vec → Vec) (inv : σ → Prop)
    (hworld : inv world) (hpres : calls.Preserves inv)
    (hset : ∀ w v, inv w → inv (calls.wrtSet .MASS w v))
    (hf : ∀ w m, inv w →
      calls.getVelocities
          (calls.step (calls.wrtSet .MASS
            (calls.setVelocities
              (calls.setPositions ((RestorableSnapshot.record calls world).restoreTo calls w)
                s.mPreStepPosition)
              s.mPreStepVelocity)
            m))
        = f m)
    (hbase : calls.getVelocities (calls.step (rewindWith calls s world))
      = f (calls.wrtGet .MASS (calls.step (rewindWith calls s world))))
    (hlen : ∀ m, (f m).length = s.mNumDOFs) :
    ∃ world1 J,
      finiteDifferenceMassVelJacobian calls ridders uninitialised s world false
        = .ok (world1, J)
      ∧ ∀ c, c < (calls.wrtGet .MASS (calls.step (rewindWith calls s world))).length →
        ∀ r, r < s.mNumDOFs →
          J.coeff r c
            = (coeffAt (f (Vec.addAt (calls.wrtGet .MASS (calls.step (rewindWith calls s world)))
                  c (1 / 10 ^ 7))) r
                - coeffAt (f (calls.wrtGet .MASS (calls.step (rewindWith calls s world)))) r)
              / (1 / 10 ^ 7) := by
  have hstart : inv (calls.step (rewindWith calls s world)) :=
    hpres.2.2.2.2 _ (Preserves.rewindWith calls inv hpres s _ hworld)
  obtain ⟨world1, J, hrun, _, _, hgood⟩ := columnLoop_spec
    (finiteDifferenceMassVelJacobianLoop calls s (RestorableSnapshot.record calls world)
      (calls.wrtGet .MASS (calls.step (rewindWith calls s world)))
      (f (calls.wrtGet .MASS (calls.step (rewindWith calls s world)))))
    inv
    (fun c => (Vec.sub
      (f (Vec.addAt (calls.wrtGet .MASS (calls.step (rewindWith calls s world))) c (1 / 10 ^ 7)))
      (f (calls.wrtGet .MASS (calls.step (rewindWith calls s world))))).div (1 / 10 ^ 7))
    (fun c w => calls.step (calls.wrtSet .MASS
      (calls.setVelocities
        (calls.setPositions ((RestorableSnapshot.record calls world).restoreTo calls w)
          s.mPreStepPosition)
        s.mPreStepVelocity)
      (Vec.addAt (calls.wrtGet .MASS (calls.step (rewindWith calls s world))) c (1 / 10 ^ 7))))
    s.mNumDOFs (calls.wrtGet .MASS (calls.step (rewindWith calls s world))).length
    (fun _ _ _ => rfl)
    (by
      intro m i w J _ hw
      have h1 := hf w
        (Vec.addAt (calls.wrtGet .MASS (calls.step (rewindWith calls s world))) i (1 / 10 ^ 7)) hw
      simp only [finiteDifferenceMassVelJacobianLoop, h1,
        subSized_ok _ _ ((hlen _).trans (hlen _).symm)])
    (by
      intro i w _ hw
      exact hpres.2.2.2.2 _ (hset _ _ (hpres.2.1 _ _ (hpres.1 _ _
        (Preserves.restoreTo calls inv hpres _ w hw)))))
    (fun i _ => by rw [length_div, length_vecSub, hlen])
    (calls.wrtGet .MASS (calls.step (rewindWith calls s world))).length 0 (by omega) _
    (Mat.declared s.mNumDOFs (calls.wrtGet .MASS (calls.step (rewindWith calls s world))).length
      uninitialised) hstart rfl (le_refl _)
  refine ⟨(RestorableSnapshot.record calls world).restoreTo calls world1, J, ?_, ?_⟩
  · unfold finiteDifferenceMassVelJacobian
    simp only [Bool.false_eq_true, if_false, hbase, hrun]
  · intro c hc r hr
    rw [hgood r c (Nat.zero_le c) hc, coeffAt_div, coeffAt_vecSub _ _ _ (by rw [hlen]; exact hr)]

theorem exampleBody_preserves (t : ℚ) :
    exampleBodyCalls.Preserves (fun w => w.mass = 1 ∧ w.timeStep = t) :=
  ⟨fun _ _ h => h, fun _ _ h => h, fun _ _ h => h, fun _ _ h => h, fun _ h => h⟩

theorem exampleBody_preserves_timeStep (t : ℚ) :
    exampleBodyCalls.Preserves (fun w => w.timeStep = t) :=
  ⟨fun _ _ h => h, fun _ _ h => h, fun _ _ h => h, fun _ _ h => h, fun _ h => h⟩

/-- The routine `finiteDifferenceMassVelJacobian` on the example body: its
column is the one-sided difference of the velocity `1 + (3/10) m^2` after the
step, at mass 1 with step `1e-7`. -/
theorem finiteDifferenceMassVelJacobian_exampleBody
    (ridders : ExampleBody → Except Failure (ExampleBody × Mat)) (uninitialised : Nat → ℚ) :
    ∃ world1 J,
      finiteDifferenceMassVelJacobian exampleBodyCalls ridders uninitialised exampleBodySnapshot
        exampleBody false = .ok (world1, J)
      ∧ J.coeff 0 0 = 3 / 5 + 3 / 10 ^ 8 := by
  obtain ⟨world1, J, hrun, hJ⟩ := finiteDifferenceMassVelJacobian_forward exampleBodyCalls ridders
    uninitialised exampleBodySnapshot exampleBody
    (fun m => [1 + 1 / 10 * 3 * (coeffAt m 0) ^ 2]) (fun w => w.timeStep = 1 / 10) rfl
    (exampleBody_preserves_timeStep _) (fun _ _ h => h)
    (by
      intro w m hw
      have ht : w.timeStep = 1 / 10 := hw
      simp [exampleBodyCalls, ExampleBody.step, RestorableSnapshot.restoreTo,
        RestorableSnapshot.record, exampleBodySnapshot, ExampleBody.forwardPass, exampleBody,
        ht, coeffAt])
    (by
      simp [exampleBodyCalls, ExampleBody.step, rewindWith, exampleBodySnapshot,
        ExampleBody.forwardPass, exampleBody, coeffAt])
    (fun _ => rfl)
  refine ⟨world1, J, hrun, ?_⟩
  rw [hJ 0 (by simp [exampleBodyCalls]) 0 (by simp [exampleBodySnapshot, ExampleBody.forwardPass])]
  simp [exampleBodyCalls, ExampleBody.step, rewindWith, exampleBodySnapshot,
    ExampleBody.forwardPass, exampleBody, coeffAt, Vec.addAt]
  norm_num
/-- C25 (amended). In plain mode, on a world whose re-run sub-computation `f`
depends only on the value written to the differentiation variable (on a set of
states that the calls of the routine do not leave) and has as many entries as
the Jacobian has rows: `finiteDifferenceJacobianOfC`, and
`finiteDifferencePosPosJacobian` with `subdivisions = 1`, return with column
`c` equal to the central difference `(f(x + eps e_c) - f(x - eps e_c)) / (2 eps)`
(`eps = 1e-7` and `1e-6`), while `finiteDifferencePosPosJacobian` with
`subdivisions >= 2` and `finiteDifferenceMassVelJacobian` return with column
`c` equal to the one-sided difference `(f(x + eps e_c) - f(x)) / eps`
(`eps = 1e-2 / subdivisions` and `1e-7`), `f(x)` being the unperturbed run. -/
theorem finiteDifference_plain_columns {σ : Type} (calls : WorldCalls σ)
    (riddersPos : σ → Nat → Except Failure (σ × Mat))
    (riddersMass : σ → Except Failure (σ × Mat)) (uninitialised : Nat → ℚ)
    (s : BackpropSnapshot) (world : σ) (wrt : WithRespectTo) (subdivisions : Nat)
    (hsub : 2 ≤ subdivisions) (fC fPos fSub fMass : Vec → Vec)
    (invC invPos invSub invMass : σ → Prop)
    (hC0 : invC world)
    (hCset : ∀ w v, invC w → invC (calls.wrtSet wrt w v))
    (hC : ∀ w v, invC w →
      calls.getCoriolisAndGravityAndExternalForces (calls.wrtSet wrt w v) = fC v)
    (hClen : ∀ v, (fC v).length = (calls.getCoriolisAndGravityAndExternalForces world).length)
    (hPos0 : invPos (calls.setTimeStep world (calls.getTimeStep world / ((1 : Nat) : ℚ))))
    (hPosPres : calls.Preserves invPos)
    (hPosDofs : ∀ w, invPos w → calls.getNumDofs w = s.mNumDOFs)
    (hPos : ∀ w p, invPos w →
      calls.getPositions (calls.step (calls.setPositions (rewindAllButPositions calls s w) p))
        = fPos p)
    (hPosLen : ∀ p, (fPos p).length = s.mNumDOFs)
    (hSub0 : invSub (calls.setTimeStep world (calls.getTimeStep world / (subdivisions : ℚ))))
    (hSubPres : calls.Preserves invSub)
    (hSubDofs : ∀ w, invSub w → calls.getNumDofs w = s.mNumDOFs)
    (hSub : ∀ w p, invSub w →
      calls.getPositions
          (stepTimes calls subdivisions
            (calls.setPositions (rewindAllButPositions calls s w) p))
        = fSub p)
    (hSubBase : calls.getPositions
        (stepTimes calls subdivisions
          (rewindWith calls s
            (calls.setTimeStep world (calls.getTimeStep world / (subdivisions : ℚ)))))
      = fSub s.mPreStepPosition)
    (hSubLen : ∀ p, (fSub p).length = s.mNumDOFs)
    (hMass0 : invMass world) (hMassPres : calls.Preserves invMass)
    (hMassSet : ∀ w v, invMass w → invMass (calls.wrtSet .MASS w v))
    (hMass : ∀ w m, invMass w →
      calls.getVelocities
          (calls.step (calls.wrtSet .MASS
            (calls.setVelocities
              (calls.setPositions ((RestorableSnapshot.record calls world).restoreTo calls w)
                s.mPreStepPosition)
              s.mPreStepVelocity)
            m))
        = fMass m)
    (hMassBase : calls.getVelocities (calls.step (rewindWith calls s world))
      = fMass (calls.wrtGet .MASS (calls.step (rewindWith calls s world))))
    (hMassLen : ∀ m, (fMass m).length = s.mNumDOFs) :
    (∃ world1 J, finiteDifferenceJacobianOfC calls world wrt false = .ok (world1, J)
      ∧ ∀ c, c < calls.wrtDim wrt world →
        ∀ r, r < (calls.getCoriolisAndGravityAndExternalForces world).length →
          J.coeff r c
            = (coeffAt (fC (Vec.addAt (calls.wrtGet wrt world) c (1 / 10 ^ 7))) r
                - coeffAt (fC (Vec.addAt (calls.wrtGet wrt world) c (-(1 / 10 ^ 7)))) r)
              / (2 * (1 / 10 ^ 7)))
    ∧ (∃ world1 J,
      finiteDifferencePosPosJacobian calls riddersPos uninitialised s world 1 false
        = .ok (world1, J)
      ∧ ∀ c, c < s.mNumDOFs → ∀ r, r < s.mNumDOFs →
          J.coeff r c
            = (coeffAt (fPos (Vec.addAt s.mPreStepPosition c (1 / 10 ^ 6))) r
                - coeffAt (fPos (Vec.addAt s.mPreStepPosition c (-(1 / 10 ^ 6)))) r)
              / (2 * (1 / 10 ^ 6)))
    ∧ (∃ world1 J,
      finiteDifferencePosPosJacobian calls riddersPos uninitialised s world subdivisions false
        = .ok (world1, J)
      ∧ ∀ c, c < s.mNumDOFs → ∀ r, r < s.mNumDOFs →
          J.coeff r c
            = (coeffAt
                  (fSub (Vec.addAt s.mPreStepPosition c (1 / 10 ^ 2 / (subdivisions : ℚ)))) r
                - coeffAt (fSub s.mPreStepPosition) r)
              / (1 / 10 ^ 2 / (subdivisions : ℚ)))
    ∧ (∃ world1 J,
      finiteDifferenceMassVelJacobian calls riddersMass uninitialised s world false
        = .ok (world1, J)
      ∧ ∀ c, c < (calls.wrtGet .MASS (calls.step (rewindWith calls s world))).length →
        ∀ r, r < s.mNumDOFs →
          J.coeff r c
            = (coeffAt
                  (fMass (Vec.addAt (calls.wrtGet .MASS (calls.step (rewindWith calls s world)))
                    c (1 / 10 ^ 7))) r
                - coeffAt (fMass (calls.wrtGet .MASS (calls.step (rewindWith calls s world)))) r)
              / (1 / 10 ^ 7)) :=
  ⟨finiteDifferenceJacobianOfC_central calls world wrt fC invC hC0 hCset hC hClen,
    finiteDifferencePosPosJacobian_central calls riddersPos uninitialised s world fPos invPos
      hPos0 hPosPres hPosDofs hPos hPosLen,
    finiteDifferencePosPosJacobian_forward calls riddersPos uninitialised s world subdivisions
      hsub fSub invSub hSub0 hSubPres hSubDofs hSub hSubBase hSubLen,
    finiteDifferenceMassVelJacobian_forward calls riddersMass uninitialised s world fMass invMass
      hMass0 hMassPres hMassSet hMass hMassBase hMassLen⟩

/-- Witness for C25: the example body at height 2 with velocity 1, force 3,
mass 1 and time step `1/10`, with the snapshot of one step of it. The Coriolis
force `(2 + t)^3` has the central difference `12 + 1e-14`, the position
`p^2 + 13/100` after one step the central difference `4`, the position
`(p^2 + 23/400)^2 + 26/400` after two half steps the one-sided difference
`260646201/8000000` at step `1/200`, and the velocity `1 + (3/10) m^2` after
one step the one-sided difference `3/5 + 3e-8`. -/
theorem finiteDifference_plain_columns_witness :
    (∃ world1 J, finiteDifferenceJacobianOfC exampleBodyCalls exampleBody .POSITION false
        = .ok (world1, J) ∧ J.coeff 0 0 = 12 + 1 / 10 ^ 14)
    ∧ (∃ world1 J,
      finiteDifferencePosPosJacobian exampleBodyCalls (fun w _ => .ok (w, Mat.zero 0 0))
          (fun _ => 0) exampleBodySnapshot exampleBody 1 false = .ok (world1, J)
        ∧ J.coeff 0 0 = 4)
    ∧ (∃ world1 J,
      finiteDifferencePosPosJacobian exampleBodyCalls (fun w _ => .ok (w, Mat.zero 0 0))
          (fun _ => 0) exampleBodySnapshot exampleBody 2 false = .ok (world1, J)
        ∧ J.coeff 0 0 = 260646201 / 8000000)
    ∧ (∃ world1 J,
      finiteDifferenceMassVelJacobian exampleBodyCalls (fun w => .ok (w, Mat.zero 0 0))
          (fun _ => 0) exampleBodySnapshot exampleBody false = .ok (world1, J)
        ∧ J.coeff 0 0 = 3 / 5 + 3 / 10 ^ 8) := by
  obtain ⟨⟨w1, J1, h1, g1⟩, ⟨w2, J2, h2, g2⟩, ⟨w3, J3, h3, g3⟩, ⟨w4, J4, h4, g4⟩⟩ :=
    finiteDifference_plain_columns exampleBodyCalls (fun w _ => .ok (w, Mat.zero 0 0))
      (fun w => .ok (w, Mat.zero 0 0)) (fun _ => 0) exampleBodySnapshot exampleBody .POSITION 2
      (le_refl 2)
      (fun v => [1 * (coeffAt v 0) ^ 3])
      (fun p => [(coeffAt p 0) ^ 2 + 13 / 100])
      (fun p => [((coeffAt p 0) ^ 2 + 23 / 400) ^ 2 + 26 / 400])
      (fun m => [1 + 1 / 10 * 3 * (coeffAt m 0) ^ 2])
      (fun w => w.velocity = 1)
      (fun w => w.mass = 1 ∧ w.timeStep = 1 / 10)
      (fun w => w.mass = 1 ∧ w.timeStep = 1 / 20)
      (fun w => w.timeStep = 1 / 10)
      rfl (fun _ _ h => h)
      (by
        intro w v hw
        have hv : w.velocity = 1 := hw
        simp [exampleBodyCalls, hv])
      (fun _ => rfl)
      (by
        refine ⟨rfl, ?_⟩
        simp [exampleBodyCalls, exampleBody])
      (exampleBody_preserves _) (fun _ _ => rfl)
      (by
        intro w p hw
        have hm : w.mass = 1 := hw.1
        have ht : w.timeStep = 1 / 10 := hw.2
        simp [exampleBodyCalls, ExampleBody.step, rewindAllButPositions, exampleBodySnapshot,
          ExampleBody.forwardPass, exampleBody, hm, ht, coeffAt]
        norm_num)
      (fun _ => rfl)
      (by
        refine ⟨rfl, ?_⟩
        simp [exampleBodyCalls, exampleBody]
        norm_num)
      (exampleBody_preserves _) (fun _ _ => rfl)
      (by
        intro w p hw
        have hm : w.mass = 1 := hw.1
        have ht : w.timeStep = 1 / 20 := hw.2
        simp [exampleBodyCalls, ExampleBody.step, rewindAllButPositions, exampleBodySnapshot,
          ExampleBody.forwardPass, exampleBody, hm, ht, coeffAt, stepTimes]
        norm_num)
      (by
        simp [exampleBodyCalls, ExampleBody.step, rewindWith, exampleBodySnapshot,
          ExampleBody.forwardPass, exampleBody, coeffAt, stepTimes]
        norm_num)
      (fun _ => rfl)
      rfl (exampleBody_preserves_timeStep _) (fun _ _ h => h)
      (by
        intro w m hw
        have ht : w.timeStep = 1 / 10 := hw
        simp [exampleBodyCalls, ExampleBody.step, RestorableSnapshot.restoreTo,
          RestorableSnapshot.record, exampleBodySnapshot, ExampleBody.forwardPass, exampleBody,
          ht, coeffAt])
      (by
        simp [exampleBodyCalls, ExampleBody.step, rewindWith, exampleBodySnapshot,
          ExampleBody.forwardPass, exampleBody, coeffAt])
      (fun _ => rfl)
  refine ⟨⟨w1, J1, h1, ?_⟩, ⟨w2, J2, h2, ?_⟩, ⟨w3, J3, h3, ?_⟩, ⟨w4, J4, h4, ?_⟩⟩
  · rw [g1 0 (by simp [exampleBodyCalls]) 0 (by simp [exampleBodyCalls])]
    simp [exampleBodyCalls, exampleBody, coeffAt, Vec.addAt]
    norm_num
  · rw [g2 0 (by simp [exampleBodySnapshot, ExampleBody.forwardPass]) 0
      (by simp [exampleBodySnapshot, ExampleBody.forwardPass])]
    simp [exampleBodySnapshot, ExampleBody.forwardPass, exampleBody, coeffAt, Vec.addAt]
    norm_num
  · rw [g3 0 (by simp [exampleBodySnapshot, ExampleBody.forwardPass]) 0
      (by simp [exampleBodySnapshot, ExampleBody.forwardPass])]
    simp [exampleBodySnapshot, ExampleBody.forwardPass, exampleBody, coeffAt, Vec.addAt]
    norm_num
  · rw [g4 0 (by simp [exampleBodyCalls]) 0
      (by simp [exampleBodySnapshot, ExampleBody.forwardPass])]
    simp [exampleBodyCalls, ExampleBody.step, rewindWith, exampleBodySnapshot,
      ExampleBody.forwardPass, exampleBody, coeffAt, Vec.addAt]
    norm_num

/-- Counterexample for C25: on the example body the velocity after one step is
`1 + (3/10) m^2` for the mass `m`; its central difference at `m = 1` with step
`1e-7` is `3/5`, while the column that the plain routine
`finiteDifferenceMassVelJacobian` returns is the one-sided difference
`3/5 + 3e-8`. -/
theorem finiteDifferenceMassVelJacobian_not_central :
    (coeffAt (exampleBodyCalls.getVelocities (exampleBodyCalls.step
          (exampleBodyCalls.wrtSet .MASS exampleBody (Vec.addAt [1] 0 (1 / 10 ^ 7))))) 0
        - coeffAt (exampleBodyCalls.getVelocities (exampleBodyCalls.step
          (exampleBodyCalls.wrtSet .MASS exampleBody (Vec.addAt [1] 0 (-(1 / 10 ^ 7)))))) 0)
      / (2 * (1 / 10 ^ 7)) = 3 / 5
    ∧ ∃ world1 J,
      finiteDifferenceMassVelJacobian exampleBodyCalls (fun w => .ok (w, Mat.zero 0 0))
          (fun _ => 0) exampleBodySnapshot exampleBody false = .ok (world1, J)
        ∧ J.coeff 0 0 = 3 / 5 + 3 / 10 ^ 8
        ∧ J.coeff 0 0 ≠ 3 / 5 := by
  refine ⟨?_, ?_⟩
  · simp [exampleBodyCalls, ExampleBody.step, exampleBody, coeffAt, Vec.addAt]
    norm_num
  · obtain ⟨world1, J, hrun, hJ⟩ := finiteDifferenceMassVelJacobian_exampleBody
      (fun w => .ok (w, Mat.zero 0 0)) (fun _ => 0)
    refine ⟨world1, J, hrun, hJ, ?_⟩
    rw [hJ]
    norm_num

theorem toFun_mulVec (A : Mat) (v : Vec) (n m : Nat) (hr : A.rows = n) (hc : A.cols = m) :
    Vec.toFun (A.mulVec v) n = Matrix.mulVec (A.toMatrix n m) (v.toFun m) := by
  funext i
  simp only [Vec.toFun, Mat.mulVec, coeffAt_map_range, hc, hr, i.isLt, if_true,
    sumTo_eq_sum, Matrix.mulVec, Matrix.dotProduct, Mat.toMatrix]

theorem toFun_vecSub (a b : Vec) (n : Nat) (ha : a.length = n) :
    Vec.toFun (Vec.sub a b) n = Vec.toFun a n - Vec.toFun b n := by
  funext i
  simp only [Vec.toFun, Vec.sub, coeffAt_map_range, ha, i.isLt, if_true, Pi.sub_apply]

theorem coeffAt_map_zero (f : ℚ → ℚ) (hf : f 0 = 0) (v : Vec) (i : Nat) :
    coeffAt (v.map f) i = f (coeffAt v i) := by
  unfold coeffAt
  by_cases h : i < v.length
  · simp [List.getD, h]
  · have hnone : v[i]? = none := List.getElem?_eq_none (by omega)
    simp [List.getD, hnone, hf]

theorem toFun_scale (c : ℚ) (a : Vec) (n : Nat) :
    Vec.toFun (Vec.scale c a) n = c • Vec.toFun a n := by
  funext i
  simp only [Vec.toFun, Vec.scale, coeffAt_map_zero (fun x => c * x) (mul_zero c), Pi.smul_apply,
    smul_eq_mul]

theorem toFun_neg (a : Vec) (n : Nat) : Vec.toFun (Vec.neg a) n = -Vec.toFun a n := by
  funext i
  simp only [Vec.toFun, Vec.neg, coeffAt_map_zero (fun x => -x) neg_zero, Pi.neg_apply]

theorem toFun_cwiseProduct (a b : Vec) (k : Nat) (ha : a.length = k) :
    Vec.toFun (a.cwiseProduct b) k
      = Matrix.mulVec (Matrix.diagonal (Vec.toFun a k)) (Vec.toFun b k) := by
  funext i
  simp only [Vec.toFun, Vec.cwiseProduct, coeffAt_map_range, ha, i.isLt, if_true,
    Matrix.mulVec_diagonal]

theorem toFun_addAt (v : Vec) (c : Nat) (h : ℚ) (n : Nat) (hv : v.length = n) (hc : c < n) :
    Vec.toFun (Vec.addAt v c h) n
      = Vec.toFun v n + fun i : Fin n => if (i : Nat) = c then h else 0 := by
  funext i
  simp only [Vec.toFun, Vec.addAt, coeffAt_set, Pi.add_apply]
  by_cases hi : (i : Nat) = c
  · simp [hi, hv, hc]
  · simp [hi]

theorem squaredNorm_sub_self (p : Vec) : (Vec.sub p p).squaredNorm = 0 := by
  unfold Vec.squaredNorm Vec.sub
  simp

theorem getVelocities_setExternalForces (world : World) (v : Vec) :
    (world.setExternalForces v).getVelocities = world.getVelocities := by
  unfold World.getVelocities
  rw [allDofs_setExternalForces]
  exact map_setDofs_kept (fun d x => { d with force := x }) (fun d => d.velocity)
    (fun _ _ => rfl) _ _ _

theorem getPositions_setExternalForces (world : World) (v : Vec) :
    (world.setExternalForces v).getPositions = world.getPositions := by
  unfold World.getPositions
  rw [allDofs_setExternalForces]
  exact map_setDofs_kept (fun d x => { d with force := x }) (fun d => d.position)
    (fun _ _ => rfl) _ _ _

theorem getExternalForces_setExternalForces (world : World) (v : Vec) :
    (world.setExternalForces v).getExternalForces
      = (List.range world.getNumDofs).map (fun i => coeffAt v (0 + i)) := by
  unfold World.getExternalForces
  rw [allDofs_setExternalForces,
    map_setDofs_written (fun d x => { d with force := x }) (fun d => d.force) (fun _ _ => rfl),
    length_allDofs]

theorem toFun_getExternalForces_setExternalForces (world : World) (v : Vec) (n : Nat)
    (hn : world.getNumDofs = n) :
    Vec.toFun (world.setExternalForces v).getExternalForces n = Vec.toFun v n := by
  funext i
  simp only [Vec.toFun, getExternalForces_setExternalForces, coeffAt_map_range, hn, i.isLt,
    if_true, Nat.zero_add]

/-- The linearised step model is affine in the force: its increment along
`d` is the product of `d` with `Minv (A Q⁺ dB + dt I)`, where
`dB = dt (diag(bounce) (-A_c^T)) Minv`. -/
theorem linearised_step_increment {n k : Nat} (M : Matrix (Fin n) (Fin n) ℚ)
    (A Ac : Matrix (Fin n) (Fin k) ℚ) (P : Matrix (Fin k) (Fin k) ℚ) (β : Fin k → ℚ)
    (vel c t d : Fin n → ℚ) (dt : ℚ) :
    (vel + Matrix.mulVec M (dt • (t + d - c)
        + Matrix.mulVec A (Matrix.mulVec P
            (-(Matrix.mulVec (Matrix.diagonal β)
              (Matrix.mulVec Ac.transpose (vel + dt • Matrix.mulVec M (t + d - c))))))))
      - (vel + Matrix.mulVec M (dt • (t - c)
        + Matrix.mulVec A (Matrix.mulVec P
            (-(Matrix.mulVec (Matrix.diagonal β)
              (Matrix.mulVec Ac.transpose (vel + dt • Matrix.mulVec M (t - c))))))))
      = Matrix.mulVec
          (M * (A * (P * ((dt • (Matrix.diagonal β * -Ac.transpose)) * M)) + dt • 1)) d := by
  have h1 : t + d - c = (t - c) + d := by abel
  rw [h1]
  simp only [Matrix.mulVec_add, Matrix.mulVec_neg, Matrix.mulVec_smul, smul_add,
    ← Matrix.mulVec_mulVec, Matrix.add_mulVec, Matrix.smul_mulVec_assoc, Matrix.neg_mulVec,
    Matrix.one_mulVec, neg_add, Matrix.mulVec_neg]
  abel_nf
  rw [smul_comm]
theorem toMatrix_mul_empty (A B : Mat) (n m : Nat) (hA : A.cols = 0) :
    (A.mul B).toMatrix n m = 0 := by
  rw [toMatrix_mul A B n 0 m hA]
  ext i j
  simp [Matrix.mul_apply]

theorem length_getVelocities (world : World) : world.getVelocities.length = world.getNumDofs := by
  simp [World.getVelocities, length_allDofs]

theorem length_getExternalForces (world : World) :
    world.getExternalForces.length = world.getNumDofs := by
  simp [World.getExternalForces, length_allDofs]

theorem getNumDofs_setExternalForces (world : World) (v : Vec) :
    (world.setExternalForces v).getNumDofs = world.getNumDofs := by
  simp [World.getNumDofs, World.setExternalForces, getNumDofs_setSkeletons]

/-- The value of `scratch` at the world with the external forces `tau`, at the
pre-step positions: with the inverse mass matrix `M` in its three forms, the
Coriolis vector `C` and a dense solve that multiplies by `pinv Q`. -/
theorem scratch_value (ext : External) (calls : WorldCalls World)
    (getConstraintForces : DifferentiableContactConstraint → World → Vec)
    (s : BackpropSnapshot) (world : World) (C : Vec)
    (M : Matrix (Fin s.mNumDOFs) (Fin s.mNumDOFs) ℚ)
    (pinv : Matrix (Fin s.mNumClamping) (Fin s.mNumClamping) ℚ →
      Matrix (Fin s.mNumClamping) (Fin s.mNumClamping) ℚ)
    (A_c A_ub : Mat)
    (hA : getClampingConstraintMatrix s world = .ok A_c)
    (hAub : getUpperBoundConstraintMatrix s world = .ok A_ub)
    (har : A_c.rows = s.mNumDOFs) (hac : A_c.cols = s.mNumClamping)
    (hdofs : world.getNumDofs = s.mNumDOFs)
    (hpos : world.getPositions = s.mPreStepPosition)
    (hbounce : ((s.mGradientMatrices.map (fun g => g.bounceDiagonals)).flatten).length
      = s.mNumClamping)
    (tau : Vec)
    (hC : ext.coriolisAndGravityAndExternalForces (world.setExternalForces tau) = C)
    (hMworld : (ext.worldInvMassMatrix (world.setExternalForces tau)).rows = s.mNumDOFs
      ∧ (ext.worldInvMassMatrix (world.setExternalForces tau)).cols = s.mNumDOFs
      ∧ (ext.worldInvMassMatrix (world.setExternalForces tau)).toMatrix s.mNumDOFs s.mNumDOFs
          = M)
    (hMfd : (assembleBlockDiagonalMatrix ext s (world.setExternalForces tau) .INV_MASS
        true).toMatrix s.mNumDOFs s.mNumDOFs = M)
    (hMimplicit : ∀ x, x.length = s.mNumDOFs →
      (implicitMultiplyByInvMassMatrix calls (world.setExternalForces tau) x).toFun s.mNumDOFs
        = Matrix.mulVec M (x.toFun s.mNumDOFs))
    (hsolve : ∀ Q b, Q.rows = s.mNumClamping → Q.cols = s.mNumClamping →
      b.length = s.mNumClamping →
      (ext.solve Q b).toFun s.mNumClamping
        = Matrix.mulVec (pinv (Q.toMatrix s.mNumClamping s.mNumClamping))
            (b.toFun s.mNumClamping)) :
    ∃ v, scratch ext calls getConstraintForces s (world.setExternalForces tau) = .ok v
      ∧ v.toFun s.mNumDOFs
        = world.getVelocities.toFun s.mNumDOFs
          + Matrix.mulVec M
            (world.timeStep • (tau.toFun s.mNumDOFs - C.toFun s.mNumDOFs)
              + Matrix.mulVec
                  ((A_c.add (A_ub.mul (getUpperBoundMappingMatrix s))).toMatrix s.mNumDOFs
                    s.mNumClamping)
                  (Matrix.mulVec
                    (pinv ((A_c.toMatrix s.mNumDOFs s.mNumClamping).transpose * M
                      * (A_c.add (A_ub.mul (getUpperBoundMappingMatrix s))).toMatrix s.mNumDOFs
                          s.mNumClamping))
                    (-(Matrix.mulVec
                        (Matrix.diagonal
                          (Vec.toFun ((s.mGradientMatrices.map
                            (fun g => g.bounceDiagonals)).flatten) s.mNumClamping))
                        (Matrix.mulVec (A_c.toMatrix s.mNumDOFs s.mNumClamping).transpose
                          (world.getVelocities.toFun s.mNumDOFs
                            + world.timeStep • Matrix.mulVec M
                                (tau.toFun s.mNumDOFs - C.toFun s.mNumDOFs))))))) := by
  have hA1 : getClampingConstraintMatrix s (world.setExternalForces tau) = .ok A_c := by
    unfold getClampingConstraintMatrix
    rw [assembleMatrix_setExternalForces]
    exact hA
  have hAub1 : getUpperBoundConstraintMatrix s (world.setExternalForces tau) = .ok A_ub := by
    unfold getUpperBoundConstraintMatrix
    rw [assembleMatrix_setExternalForces]
    exact hAub
  have hest1 : estimateClampingConstraintMatrixAt ext getConstraintForces s
      (world.setExternalForces tau) (world.setExternalForces tau).getPositions = .ok A_c := by
    unfold estimateClampingConstraintMatrixAt
    simp only [getPositions_setExternalForces, hpos, squaredNorm_sub_self, if_true, hA1]
  have hest2 : estimateUpperBoundConstraintMatrixAt ext getConstraintForces s
      (world.setExternalForces tau) (world.setExternalForces tau).getPositions = .ok A_ub := by
    unfold estimateUpperBoundConstraintMatrixAt
    simp only [getPositions_setExternalForces, hpos, squaredNorm_sub_self, if_true, hAub1]
  have hMfdc : (assembleBlockDiagonalMatrix ext s (world.setExternalForces tau) .INV_MASS
      true).cols = s.mNumDOFs :=
    (dims_assembleBlockDiagonalMatrix ext s (world.setExternalForces tau) .INV_MASS true).2
  -- the system matrix of the model
  have hQ : (computeLCPConstraintMatrixClampingSubset ext s (world.setExternalForces tau) A_c
        A_ub (getUpperBoundMappingMatrix s)).rows = s.mNumClamping
      ∧ (computeLCPConstraintMatrixClampingSubset ext s (world.setExternalForces tau) A_c
        A_ub (getUpperBoundMappingMatrix s)).cols = s.mNumClamping
      ∧ (computeLCPConstraintMatrixClampingSubset ext s (world.setExternalForces tau) A_c
        A_ub (getUpperBoundMappingMatrix s)).toMatrix s.mNumClamping s.mNumClamping
        = (A_c.toMatrix s.mNumDOFs s.mNumClamping).transpose * M
          * (A_c.add (A_ub.mul (getUpperBoundMappingMatrix s))).toMatrix s.mNumDOFs
              s.mNumClamping := by
    unfold computeLCPConstraintMatrixClampingSubset
    by_cases hub : A_ub.cols > 0
    · rw [if_pos hub]
      refine ⟨hac, hac, ?_⟩
      rw [toMatrix_mul _ _ _ s.mNumDOFs _ (by simpa [Mat.mul] using hMfdc),
        toMatrix_mul _ _ _ s.mNumDOFs _ (by simpa [Mat.transpose] using har),
        toMatrix_transpose, hMfd]
    · rw [if_neg hub]
      refine ⟨hac, hac, ?_⟩
      rw [toMatrix_mul _ _ _ s.mNumDOFs _ (by simpa [Mat.mul] using hMfdc),
        toMatrix_mul _ _ _ s.mNumDOFs _ (by simpa [Mat.transpose] using har),
        toMatrix_transpose, hMfd, toMatrix_add, toMatrix_mul_empty _ _ _ _ (by omega), add_zero]
  have hvel : (world.setExternalForces tau).getVelocities = world.getVelocities :=
    getVelocities_setExternalForces world tau
  have hvlen : world.getVelocities.length = s.mNumDOFs := by
    rw [length_getVelocities, hdofs]
  have hflen : (world.setExternalForces tau).getExternalForces.length = s.mNumDOFs := by
    rw [length_getExternalForces, getNumDofs_setExternalForces, hdofs]
  have hdt : (world.setExternalForces tau).timeStep = world.timeStep := rfl
  have hsub : (Vec.sub (world.setExternalForces tau).getExternalForces C).toFun s.mNumDOFs
      = tau.toFun s.mNumDOFs - C.toFun s.mNumDOFs := by
    rw [toFun_vecSub _ _ _ hflen, toFun_getExternalForces_setExternalForces _ _ _ hdofs]
  refine ⟨Vec.add (world.setExternalForces tau).getVelocities
    ((ext.worldInvMassMatrix (world.setExternalForces tau)).mulVec
      (Vec.add
        (Vec.scale (world.setExternalForces tau).timeStep
          (Vec.sub (world.setExternalForces tau).getExternalForces
            (ext.coriolisAndGravityAndExternalForces (world.setExternalForces tau))))
        ((A_c.add (A_ub.mul (getUpperBoundMappingMatrix s))).mulVec
          (ext.solve
            (computeLCPConstraintMatrixClampingSubset ext s (world.setExternalForces tau) A_c
              A_ub (getUpperBoundMappingMatrix s))
            (Vec.neg (Vec.cwiseProduct
              ((s.mGradientMatrices.map (fun g => g.bounceDiagonals)).flatten)
              (A_c.transpose.mulVec
                (Vec.add (world.setExternalForces tau).getVelocities
                  (Vec.scale (world.setExternalForces tau).timeStep
                    (implicitMultiplyByInvMassMatrix calls (world.setExternalForces tau)
                      (Vec.sub (world.setExternalForces tau).getExternalForces
                        (ext.coriolisAndGravityAndExternalForces (world.setExternalForces tau))))))))))))), ?_, ?_⟩
  · unfold scratch
    simp only [hest1, hest2, computeLCPOffsetClampingSubset, getBounceDiagonals_ok]
  · rw [toFun_vecAdd _ _ _ (by rw [hvel]; exact hvlen),
      toFun_mulVec _ _ _ _ hMworld.1 hMworld.2.1, hMworld.2.2,
      toFun_vecAdd _ _ _ (by simp [Vec.scale, Vec.sub, hflen]),
      toFun_scale, hC, hsub,
      toFun_mulVec _ _ _ s.mNumClamping (by simpa [Mat.add] using har)
        (by simpa [Mat.add] using hac),
      hsolve _ _ hQ.1 hQ.2.1 (by simp [Vec.neg, Vec.cwiseProduct, hbounce]), hQ.2.2,
      toFun_neg, toFun_cwiseProduct _ _ _ hbounce, toFun_transpose_mulVec _ _ _ _ har hac,
      toFun_vecAdd _ _ _ (by rw [hvel]; exact hvlen), toFun_scale,
      hMimplicit _ (by simp [Vec.sub, hflen]), hsub, hvel, hdt]
/-- The value of `getVelJacobianWrt` for the force, as a matrix:
`Minv (A Q⁺ dB + dt I)` with `dB = dt (diag(bounce) (-A_c^T)) Minv`, for a
dense solve that multiplies by `pinv Q`. -/
theorem getVelJacobianWrt_force_value (ext : External) (s : BackpropSnapshot) (world : World)
    (M : Matrix (Fin s.mNumDOFs) (Fin s.mNumDOFs) ℚ)
    (pinv : Matrix (Fin s.mNumClamping) (Fin s.mNumClamping) ℚ →
      Matrix (Fin s.mNumClamping) (Fin s.mNumClamping) ℚ)
    (A_c A_ub : Mat)
    (hA : getClampingConstraintMatrix s world = .ok A_c)
    (hAub : getUpperBoundConstraintMatrix s world = .ok A_ub)
    (har : A_c.rows = s.mNumDOFs) (hac : A_c.cols = s.mNumClamping)
    (hdofs : world.getNumDofs = s.mNumDOFs)
    (hdim : ∀ w, ext.wrtDim .FORCE w = w.getNumDofs)
    (hbounce : ((s.mGradientMatrices.map (fun g => g.bounceDiagonals)).flatten).length
      = s.mNumClamping)
    (hMrewound : (ext.worldInvMassMatrix (rewind s world)).rows = s.mNumDOFs
      ∧ (ext.worldInvMassMatrix (rewind s world)).cols = s.mNumDOFs
      ∧ (ext.worldInvMassMatrix (rewind s world)).toMatrix s.mNumDOFs s.mNumDOFs = M)
    (hMsnapshot : (getInvMassMatrix ext s (rewind s world)).toMatrix s.mNumDOFs s.mNumDOFs = M)
    (hsolveM : ∀ Q B, Q.rows = s.mNumClamping → Q.cols = s.mNumClamping →
      B.rows = s.mNumClamping →
      (ext.solveMatrix Q B).cols = B.cols
      ∧ (ext.solveMatrix Q B).toMatrix s.mNumClamping s.mNumDOFs
          = pinv (Q.toMatrix s.mNumClamping s.mNumClamping)
            * B.toMatrix s.mNumClamping s.mNumDOFs) :
    ∃ J, getVelJacobianWrt ext s world .FORCE = .ok J
      ∧ J.rows = s.mNumDOFs ∧ J.cols = s.mNumDOFs
      ∧ J.toMatrix s.mNumDOFs s.mNumDOFs
        = M * ((A_c.add (A_ub.mul (getUpperBoundMappingMatrix s))).toMatrix s.mNumDOFs
                s.mNumClamping
              * (pinv ((A_c.toMatrix s.mNumDOFs s.mNumClamping).transpose * M
                    * (A_c.add (A_ub.mul (getUpperBoundMappingMatrix s))).toMatrix s.mNumDOFs
                        s.mNumClamping)
                * ((world.timeStep
                    • (Matrix.diagonal
                        (Vec.toFun ((s.mGradientMatrices.map
                          (fun g => g.bounceDiagonals)).flatten) s.mNumClamping)
                      * -(A_c.toMatrix s.mNumDOFs s.mNumClamping).transpose)) * M))
            + world.timeStep • 1) := by
  have hA1 : getClampingConstraintMatrix s (rewind s world) = .ok A_c := by
    rw [getClampingConstraintMatrix_rewind]; exact hA
  have hAub1 : getUpperBoundConstraintMatrix s (rewind s world) = .ok A_ub := by
    rw [getUpperBoundConstraintMatrix_rewind]; exact hAub
  have hMc : (getInvMassMatrix ext s (rewind s world)).cols = s.mNumDOFs :=
    cols_getInvMassMatrix ext s (rewind s world)
  by_cases hdim0 : ext.wrtDim .FORCE world = 0
  · have hn0 : s.mNumDOFs = 0 := by rw [← hdofs, ← hdim world, hdim0]
    refine ⟨Mat.zero world.getNumDofs 0, ?_, ?_, ?_, ?_⟩
    · unfold getVelJacobianWrt
      rw [if_pos hdim0]
    · simp [Mat.zero, hdofs]
    · simp [Mat.zero, hn0]
    · ext i j
      exact absurd i.isLt (by omega)
  · -- the Jacobian of the constraint force
    have hdF : ∃ dF_c, getJacobianOfConstraintForce ext s (rewind s world) .FORCE = .ok dF_c
        ∧ dF_c.cols = s.mNumDOFs
        ∧ (A_c.add (A_ub.mul (getUpperBoundMappingMatrix s))).toMatrix s.mNumDOFs s.mNumClamping
            * dF_c.toMatrix s.mNumClamping s.mNumDOFs
          = (A_c.add (A_ub.mul (getUpperBoundMappingMatrix s))).toMatrix s.mNumDOFs
                s.mNumClamping
              * (pinv ((A_c.toMatrix s.mNumDOFs s.mNumClamping).transpose * M
                    * (A_c.add (A_ub.mul (getUpperBoundMappingMatrix s))).toMatrix s.mNumDOFs
                        s.mNumClamping)
                * ((world.timeStep
                    • (Matrix.diagonal
                        (Vec.toFun ((s.mGradientMatrices.map
                          (fun g => g.bounceDiagonals)).flatten) s.mNumClamping)
                      * -(A_c.toMatrix s.mNumDOFs s.mNumClamping).transpose)) * M)) := by
      by_cases hk : A_c.cols = 0
      · have hk0 : s.mNumClamping = 0 := by rw [← hac, hk]
        refine ⟨Mat.zero 0 (ext.wrtDim .FORCE (rewind s world)), ?_, ?_, ?_⟩
        · unfold getJacobianOfConstraintForce
          simp [hA1, hk]
        · simp [Mat.zero, hdim, getNumDofs_rewind, hdofs]
        · ext i j
          rw [Matrix.mul_apply, Matrix.mul_apply]
          rw [Finset.sum_eq_zero (fun x _ => absurd x.isLt (by omega)),
            Finset.sum_eq_zero (fun x _ => absurd x.isLt (by omega))]
      · have hdB : getJacobianOfLCPOffsetClampingSubset ext s (rewind s world) .FORCE
            = .ok ((Mat.scale world.timeStep
                ((Mat.diagonal ((s.mGradientMatrices.map
                    (fun g => g.bounceDiagonals)).flatten)).mul A_c.transpose.neg)).mul
                (getInvMassMatrix ext s (rewind s world))) := by
          unfold getJacobianOfLCPOffsetClampingSubset
          rw [rewind_rewind]
          simp [hA1, getBounceDiagonals_ok, timeStep_rewind]
        have hrun : getJacobianOfConstraintForce ext s (rewind s world) .FORCE
            = .ok (ext.solveMatrix
                ((A_c.transpose.mul (getInvMassMatrix ext s (rewind s world))).mul
                  (A_c.add (A_ub.mul (getUpperBoundMappingMatrix s))))
                ((Mat.scale world.timeStep
                  ((Mat.diagonal ((s.mGradientMatrices.map
                      (fun g => g.bounceDiagonals)).flatten)).mul A_c.transpose.neg)).mul
                  (getInvMassMatrix ext s (rewind s world)))) := by
          unfold getJacobianOfConstraintForce
          rw [rewind_rewind]
          simp [hA1, hAub1, hdB, hk]
        obtain ⟨hc, hm⟩ := hsolveM
          ((A_c.transpose.mul (getInvMassMatrix ext s (rewind s world))).mul
            (A_c.add (A_ub.mul (getUpperBoundMappingMatrix s))))
          ((Mat.scale world.timeStep
            ((Mat.diagonal ((s.mGradientMatrices.map
                (fun g => g.bounceDiagonals)).flatten)).mul A_c.transpose.neg)).mul
            (getInvMassMatrix ext s (rewind s world)))
          (by simpa [Mat.mul, Mat.transpose] using hac)
          (by simpa [Mat.mul, Mat.add] using hac)
          (by simpa [Mat.mul, Mat.scale, Mat.diagonal] using hbounce)
        refine ⟨_, hrun, ?_, ?_⟩
        · rw [hc]
          simpa [Mat.mul] using hMc
        · rw [hm, toMatrix_mul _ _ _ s.mNumDOFs _ (by simpa [Mat.mul] using hMc),
            toMatrix_mul _ _ _ s.mNumDOFs _ (by simpa [Mat.transpose] using har),
            toMatrix_transpose, hMsnapshot,
            toMatrix_mul _ _ _ s.mNumDOFs _
              (by simpa [Mat.mul, Mat.scale, Mat.neg, Mat.transpose] using har),
            toMatrix_scale,
            toMatrix_mul _ _ _ s.mNumClamping _ (by simpa [Mat.diagonal] using hbounce),
            toMatrix_diagonal, toMatrix_neg, toMatrix_transpose, hMsnapshot]
          rfl
    obtain ⟨dF_c, hdFrun, hdFc, hdFm⟩ := hdF
    refine ⟨(ext.worldInvMassMatrix (rewind s world)).mul
      (((A_c.add (A_ub.mul (getUpperBoundMappingMatrix s))).mul dF_c).add
        (Mat.scale (rewind s world).timeStep
          (Mat.identity world.getNumDofs world.getNumDofs))), ?_, ?_, ?_, ?_⟩
    · unfold getVelJacobianWrt
      rw [if_neg hdim0]
      simp only [hA1, hAub1, getClampingConstraintImpulses_ok, hdFrun, if_true]
    · simpa [Mat.mul] using hMrewound.1
    · simpa [Mat.mul, Mat.add] using hdFc
    · rw [toMatrix_mul _ _ _ s.mNumDOFs _ hMrewound.2.1, hMrewound.2.2, toMatrix_add,
        toMatrix_mul _ _ _ s.mNumClamping _ (by simpa [Mat.add] using hac), hdFm,
        toMatrix_scale, toMatrix_identity, timeStep_rewind]

/-- C29. With the inverse mass matrix `M` (in the forms that the world, the
snapshot and the skeletons give it), the Coriolis vector `C`, the constraint
matrices, the bounce diagonals and the velocity held fixed while the external
force varies, at the pre-step positions, and a dense solve that multiplies by
a matrix `pinv Q` depending on the coefficients of `Q` only: `scratch` returns
at every force, `getVelJacobianWrt` returns a matrix `J` for the force, the
increment of `scratch` from `tau` to `tau + delta` is `J * delta`, and the
central difference of `scratch` along coordinate `c` with any step `h != 0`
is column `c` of `J`. -/
theorem getVelJacobianWrt_force_exact (ext : External) (calls : WorldCalls World)
    (getConstraintForces : DifferentiableContactConstraint → World → Vec)
    (s : BackpropSnapshot) (world : World) (C : Vec)
    (M : Matrix (Fin s.mNumDOFs) (Fin s.mNumDOFs) ℚ)
    (pinv : Matrix (Fin s.mNumClamping) (Fin s.mNumClamping) ℚ →
      Matrix (Fin s.mNumClamping) (Fin s.mNumClamping) ℚ)
    (hres : ∀ g ∈ s.mGradientMatrices, ∀ name ∈ g.skeletons, (world.getSkeleton name).isSome)
    (hdofs : world.getNumDofs = s.mNumDOFs)
    (hpos : world.getPositions = s.mPreStepPosition)
    (hdim : ∀ w, ext.wrtDim .FORCE w = w.getNumDofs)
    (hbounce : ((s.mGradientMatrices.map (fun g => g.bounceDiagonals)).flatten).length
      = s.mNumClamping)
    (hC : ∀ tau, ext.coriolisAndGravityAndExternalForces (world.setExternalForces tau) = C)
    (hMworld : ∀ tau,
      (ext.worldInvMassMatrix (world.setExternalForces tau)).rows = s.mNumDOFs
      ∧ (ext.worldInvMassMatrix (world.setExternalForces tau)).cols = s.mNumDOFs
      ∧ (ext.worldInvMassMatrix (world.setExternalForces tau)).toMatrix s.mNumDOFs s.mNumDOFs
          = M)
    (hMfd : ∀ tau,
      (assembleBlockDiagonalMatrix ext s (world.setExternalForces tau) .INV_MASS
        true).toMatrix s.mNumDOFs s.mNumDOFs = M)
    (hMimplicit : ∀ tau x, x.length = s.mNumDOFs →
      (implicitMultiplyByInvMassMatrix calls (world.setExternalForces tau) x).toFun s.mNumDOFs
        = Matrix.mulVec M (x.toFun s.mNumDOFs))
    (hMrewound : (ext.worldInvMassMatrix (rewind s world)).rows = s.mNumDOFs
      ∧ (ext.worldInvMassMatrix (rewind s world)).cols = s.mNumDOFs
      ∧ (ext.worldInvMassMatrix (rewind s world)).toMatrix s.mNumDOFs s.mNumDOFs = M)
    (hMsnapshot : (getInvMassMatrix ext s (rewind s world)).toMatrix s.mNumDOFs s.mNumDOFs = M)
    (hsolve : ∀ Q b, Q.rows = s.mNumClamping → Q.cols = s.mNumClamping →
      b.length = s.mNumClamping →
      (ext.solve Q b).toFun s.mNumClamping
        = Matrix.mulVec (pinv (Q.toMatrix s.mNumClamping s.mNumClamping))
            (b.toFun s.mNumClamping))
    (hsolveM : ∀ Q B, Q.rows = s.mNumClamping → Q.cols = s.mNumClamping →
      B.rows = s.mNumClamping →
      (ext.solveMatrix Q B).cols = B.cols
      ∧ (ext.solveMatrix Q B).toMatrix s.mNumClamping s.mNumDOFs
          = pinv (Q.toMatrix s.mNumClamping s.mNumClamping)
            * B.toMatrix s.mNumClamping s.mNumDOFs) :
    ∃ J, getVelJacobianWrt ext s world .FORCE = .ok J
      ∧ (∀ tau, ∃ v,
          scratch ext calls getConstraintForces s (world.setExternalForces tau) = .ok v)
      ∧ (∀ tau delta v1 v0, tau.length = s.mNumDOFs →
          scratch ext calls getConstraintForces s (world.setExternalForces (Vec.add tau delta))
            = .ok v1 →
          scratch ext calls getConstraintForces s (world.setExternalForces tau) = .ok v0 →
          ∀ i, i < s.mNumDOFs → coeffAt v1 i - coeffAt v0 i = coeffAt (J.mulVec delta) i)
      ∧ (∀ tau c h vPlus vMinus, tau.length = s.mNumDOFs → c < s.mNumDOFs → h ≠ 0 →
          scratch ext calls getConstraintForces s (world.setExternalForces (Vec.addAt tau c h))
            = .ok vPlus →
          scratch ext calls getConstraintForces s
              (world.setExternalForces (Vec.addAt tau c (-h))) = .ok vMinus →
          ∀ i, i < s.mNumDOFs → (coeffAt vPlus i - coeffAt vMinus i) / (2 * h) = J.coeff i c) := by
  obtain ⟨A_c, hA, har, hac⟩ := assembleMatrix_dims s world .CLAMPING hres
  obtain ⟨A_ub, hAub, _, _⟩ := assembleMatrix_dims s world .UPPER_BOUND hres
  have hac1 : A_c.cols = s.mNumClamping := hac
  obtain ⟨J, hJ, hJr, hJc, hJm⟩ := getVelJacobianWrt_force_value ext s world M pinv A_c A_ub hA
    hAub har hac1 hdofs hdim hbounce hMrewound hMsnapshot hsolveM
  have hval := fun tau => scratch_value ext calls getConstraintForces s world C M pinv A_c A_ub
    hA hAub har hac1 hdofs hpos hbounce tau (hC tau) (hMworld tau) (hMfd tau) (hMimplicit tau)
    hsolve
  refine ⟨J, hJ, ?_, ?_, ?_⟩
  · intro tau
    obtain ⟨v, hv, _⟩ := hval tau
    exact ⟨v, hv⟩
  · intro tau delta v1 v0 htau h1 h0 i hi
    obtain ⟨w1, hw1, f1⟩ := hval (Vec.add tau delta)
    obtain ⟨w0, hw0, f0⟩ := hval tau
    rw [hw1] at h1
    rw [hw0] at h0
    obtain rfl := Except.ok.inj h1
    obtain rfl := Except.ok.inj h0
    rw [toFun_vecAdd _ _ _ htau] at f1
    have hinc := linearised_step_increment M
      ((A_c.add (A_ub.mul (getUpperBoundMappingMatrix s))).toMatrix s.mNumDOFs s.mNumClamping)
      (A_c.toMatrix s.mNumDOFs s.mNumClamping)
      (pinv ((A_c.toMatrix s.mNumDOFs s.mNumClamping).transpose * M
        * (A_c.add (A_ub.mul (getUpperBoundMappingMatrix s))).toMatrix s.mNumDOFs
            s.mNumClamping))
      (Vec.toFun ((s.mGradientMatrices.map (fun g => g.bounceDiagonals)).flatten) s.mNumClamping)
      (world.getVelocities.toFun s.mNumDOFs) (C.toFun s.mNumDOFs) (tau.toFun s.mNumDOFs)
      (delta.toFun s.mNumDOFs) world.timeStep
    rw [← f1, ← f0, ← hJm, ← toFun_mulVec J delta _ _ hJr hJc] at hinc
    exact congrFun hinc ⟨i, hi⟩
  · intro tau c h vPlus vMinus htau hc hh h1 h0 i hi
    obtain ⟨w1, hw1, f1⟩ := hval (Vec.addAt tau c h)
    obtain ⟨w0, hw0, f0⟩ := hval (Vec.addAt tau c (-h))
    rw [hw1] at h1
    rw [hw0] at h0
    obtain rfl := Except.ok.inj h1
    obtain rfl := Except.ok.inj h0
    have hsplit : Vec.toFun (Vec.addAt tau c h) s.mNumDOFs
        = Vec.toFun (Vec.addAt tau c (-h)) s.mNumDOFs
          + fun j : Fin s.mNumDOFs => if (j : Nat) = c then 2 * h else 0 := by
      rw [toFun_addAt _ _ _ _ htau hc, toFun_addAt _ _ _ _ htau hc]
      funext j
      by_cases hj : (j : Nat) = c
      · simp [hj]; ring
      · simp [hj]
    rw [hsplit] at f1
    have hinc := linearised_step_increment M
      ((A_c.add (A_ub.mul (getUpperBoundMappingMatrix s))).toMatrix s.mNumDOFs s.mNumClamping)
      (A_c.toMatrix s.mNumDOFs s.mNumClamping)
      (pinv ((A_c.toMatrix s.mNumDOFs s.mNumClamping).transpose * M
        * (A_c.add (A_ub.mul (getUpperBoundMappingMatrix s))).toMatrix s.mNumDOFs
            s.mNumClamping))
      (Vec.toFun ((s.mGradientMatrices.map (fun g => g.bounceDiagonals)).flatten) s.mNumClamping)
      (world.getVelocities.toFun s.mNumDOFs) (C.toFun s.mNumDOFs)
      (Vec.toFun (Vec.addAt tau c (-h)) s.mNumDOFs)
      (fun j : Fin s.mNumDOFs => if (j : Nat) = c then 2 * h else 0) world.timeStep
    rw [← f1, ← f0, ← hJm] at hinc
    have hi2 := congrFun hinc ⟨i, hi⟩
    have hcol : Matrix.mulVec (J.toMatrix s.mNumDOFs s.mNumDOFs)
        (fun j : Fin s.mNumDOFs => if (j : Nat) = c then 2 * h else 0) ⟨i, hi⟩
        = J.coeff i c * (2 * h) := by
      simp only [Matrix.mulVec, Matrix.dotProduct, Mat.toMatrix]
      rw [Finset.sum_eq_single ⟨c, hc⟩]
      · simp
      · intro j _ hj
        have : (j : Nat) ≠ c := fun e => hj (Fin.ext e)
        simp [this]
      · intro hmem
        exact absurd (Finset.mem_univ _) hmem
    rw [hcol] at hi2
    have hi3 : coeffAt w1 i - coeffAt w0 i = J.coeff i c * (2 * h) := hi2
    rw [hi3]
    field_simp

theorem exampleContact_skeletons (tau : Vec) :
    (exampleContactWorld.setExternalForces tau).skeletons
      = [ { name := "a", dofs := [{ exampleDofB with force := coeffAt tau 0 }],
            gradientConstraintMatrices := some exampleContactGroup, mobile := true },
          { name := "b", dofs := [{ exampleDofB with force := coeffAt tau 1 }],
            gradientConstraintMatrices := some exampleContactGroup, mobile := true } ] := by
  simp [World.setExternalForces, exampleContactWorld, setSkeletons, setDofs, Skeleton.getNumDofs]

theorem exampleContact_invMass_fd (tau : Vec) :
    (assembleBlockDiagonalMatrix exampleInvertibleExternal exampleContactStateSnapshot
        (exampleContactWorld.setExternalForces tau) .INV_MASS true).toMatrix
        exampleContactStateSnapshot.mNumDOFs exampleContactStateSnapshot.mNumDOFs
      = exampleContactInvMass exampleContactStateSnapshot.mNumDOFs := by
  funext i j
  unfold exampleContactInvMass
  rcases i with ⟨i, hi⟩
  rcases j with ⟨j, hj⟩
  have hi2 : i < 2 := hi
  have hj2 : j < 2 := hj
  have hsk := exampleContact_skeletons tau
  unfold assembleBlockDiagonalMatrix
  simp only [↓reduceIte]
  rw [hsk]
  simp only [Mat.toMatrix, blockDiagonalLoop, skelBlockToAssemble, exampleInvertibleExternal,
    exampleContactExternal, Skeleton.getNumDofs, List.length_singleton]
  interval_cases i <;> interval_cases j <;>
    simp [Mat.setBlock, Mat.scale, Mat.identity, Mat.zero]

theorem exampleContact_rewind_skeletons :
    (rewind exampleContactStateSnapshot exampleContactWorld).skeletons
      = [ { name := "a", dofs := [{ exampleDofB with position := 1, velocity := 0, force := 0 }],
            gradientConstraintMatrices := some exampleContactGroup, mobile := true },
          { name := "b", dofs := [{ exampleDofB with position := 1, velocity := 0, force := 0 }],
            gradientConstraintMatrices := some exampleContactGroup, mobile := true } ] := by
  with_unfolding_all rfl

theorem exampleContact_invMass_snapshot :
    (getInvMassMatrix exampleInvertibleExternal exampleContactStateSnapshot
        (rewind exampleContactStateSnapshot exampleContactWorld)).toMatrix
        exampleContactStateSnapshot.mNumDOFs exampleContactStateSnapshot.mNumDOFs
      = exampleContactInvMass exampleContactStateSnapshot.mNumDOFs := by
  funext i j
  unfold exampleContactInvMass
  rcases i with ⟨i, hi⟩
  rcases j with ⟨j, hj⟩
  have hi2 : i < 2 := hi
  have hj2 : j < 2 := hj
  rw [getInvMassMatrix_rewind, exampleContact_rewind_skeletons]
  simp only [Mat.toMatrix, blockDiagonalLoop, skelBlockToAssemble, exampleInvertibleExternal,
    exampleContactExternal, Skeleton.getNumDofs, List.length_singleton]
  interval_cases i <;> interval_cases j <;>
    simp [Mat.setBlock, Mat.scale, Mat.identity, Mat.zero]

theorem exampleContact_invMass_mulVec (n : Nat) (x : Fin n → ℚ) (i : Fin n) :
    Matrix.mulVec (exampleContactInvMass n) x i = (if (i : Nat) = 0 then 2 else 3) * x i := by
  simp only [Matrix.mulVec, Matrix.dotProduct, exampleContactInvMass]
  rw [Finset.sum_eq_single i]
  · simp
  · intro j _ hj
    have : (i : Nat) ≠ (j : Nat) := fun e => hj (Fin.ext e).symm
    simp [this]
  · intro h
    exact absurd (Finset.mem_univ _) h

theorem exampleContact_implicit (tau x : Vec) (hx : x.length = 2) :
    (implicitMultiplyByInvMassMatrix exampleContactCalls
        (exampleContactWorld.setExternalForces tau) x).toFun
        exampleContactStateSnapshot.mNumDOFs
      = Matrix.mulVec (exampleContactInvMass exampleContactStateSnapshot.mNumDOFs)
          (x.toFun exampleContactStateSnapshot.mNumDOFs) := by
  funext i
  rw [exampleContact_invMass_mulVec]
  rcases i with ⟨i, hi⟩
  have hi2 : i < 2 := hi
  have hdofs : exampleContactCalls.skeletonDofs (exampleContactWorld.setExternalForces tau)
      = [1, 1] := by
    show ((exampleContactWorld.setExternalForces tau).skeletons.map Skeleton.getNumDofs) = _
    rw [exampleContact_skeletons]
    rfl
  obtain ⟨a, b, rfl⟩ : ∃ a b, x = [a, b] := by
    match x, hx with
    | [a, b], _ => exact ⟨a, b, rfl⟩
  unfold implicitMultiplyByInvMassMatrix
  rw [hdofs]
  simp only [Vec.toFun, implicitMultiplyByInvMassMatrixLoop, exampleContactCalls]
  interval_cases i <;>
    simp [writeSegment, segmentOf, coeffAt, Vec.scale, List.range_succ]

theorem exampleContact_solve (Q : Mat) (b : Vec)
    (hc : Q.cols = exampleContactStateSnapshot.mNumClamping) :
    (exampleInvertibleExternal.solve Q b).toFun exampleContactStateSnapshot.mNumClamping
      = Matrix.mulVec
          (exampleReciprocal exampleContactStateSnapshot.mNumClamping
            (Q.toMatrix exampleContactStateSnapshot.mNumClamping
              exampleContactStateSnapshot.mNumClamping))
          (b.toFun exampleContactStateSnapshot.mNumClamping) := by
  have hc1 : Q.cols = 1 := hc
  funext i
  rcases i with ⟨i, hi⟩
  have hi1 : i < 1 := hi
  have hi0 : i = 0 := by omega
  subst hi0
  simp only [Matrix.mulVec, Matrix.dotProduct, exampleReciprocal, Mat.toMatrix, Vec.toFun]
  rw [Finset.sum_eq_single (⟨0, hi⟩ : Fin exampleContactStateSnapshot.mNumClamping)]
  · simp only [exampleInvertibleExternal, minNormSolveRow, hc1, coeffAt_map_range, sumTo]
    by_cases hq : Q.coeff 0 0 = 0
    · simp [hq]
    · simp
      field_simp
      ring
  · intro j _ hj
    exfalso
    apply hj
    apply Fin.ext
    have : (j : Nat) < 1 := j.isLt
    show (j : Nat) = 0
    omega
  · intro h
    exact absurd (Finset.mem_univ _) h

theorem exampleContact_solveMatrix (Q B : Mat)
    (hc : Q.cols = exampleContactStateSnapshot.mNumClamping)
    (hB : B.rows = exampleContactStateSnapshot.mNumClamping) :
    (exampleInvertibleExternal.solveMatrix Q B).cols = B.cols
    ∧ (exampleInvertibleExternal.solveMatrix Q B).toMatrix
        exampleContactStateSnapshot.mNumClamping exampleContactStateSnapshot.mNumDOFs
      = exampleReciprocal exampleContactStateSnapshot.mNumClamping
          (Q.toMatrix exampleContactStateSnapshot.mNumClamping
            exampleContactStateSnapshot.mNumClamping)
        * B.toMatrix exampleContactStateSnapshot.mNumClamping
            exampleContactStateSnapshot.mNumDOFs := by
  have hc1 : Q.cols = 1 := hc
  have hB1 : B.rows = 1 := hB
  refine ⟨rfl, ?_⟩
  funext i j
  rcases i with ⟨i, hi⟩
  have hi1 : i < 1 := hi
  have hi0 : i = 0 := by omega
  subst hi0
  simp only [Matrix.mul_apply, exampleReciprocal, Mat.toMatrix]
  rw [Finset.sum_eq_single (⟨0, hi⟩ : Fin exampleContactStateSnapshot.mNumClamping)]
  · simp only [exampleInvertibleExternal, exampleContactExternal, minNormSolveRow, hc1,
      coeffAt_map_range, sumTo, Mat.col, hB1]
    by_cases hq : Q.coeff 0 0 = 0
    · simp [hq]
    · simp
      field_simp
      ring
  · intro l _ hl
    exfalso
    apply hl
    apply Fin.ext
    have : (l : Nat) < 1 := l.isLt
    show (l : Nat) = 0
    omega
  · intro h
    exact absurd (Finset.mem_univ _) h
/-- Witness for C29: the two skeletons with inverse masses `2` and `3` joined
by one clamping contact of column `(1, -1)` with bounce diagonal `1`,
`dt = 1/100`, no Coriolis force, the system `Q = 5` solved by division: every
coefficient of the force-velocity Jacobian is `3/250`, `scratch` at the force
`(1, 2)` gives the velocity `(9/250, 9/250)`, and its increment from `(1, 2)`
to `(1, 2) + (3, 5)` is `J * (3, 5)`. -/
theorem getVelJacobianWrt_force_exact_witness :
    ∃ J v1 v0,
      getVelJacobianWrt exampleInvertibleExternal exampleContactStateSnapshot
          exampleContactWorld .FORCE = .ok J
      ∧ scratch exampleInvertibleExternal exampleContactCalls (fun _ _ => [])
          exampleContactStateSnapshot
          (exampleContactWorld.setExternalForces (Vec.add [1, 2] [3, 5])) = .ok v1
      ∧ scratch exampleInvertibleExternal exampleContactCalls (fun _ _ => [])
          exampleContactStateSnapshot (exampleContactWorld.setExternalForces [1, 2]) = .ok v0
      ∧ (∀ i, i < 2 → coeffAt v1 i - coeffAt v0 i = coeffAt (J.mulVec [3, 5]) i)
      ∧ J.coeff 0 0 = 3 / 250 ∧ J.coeff 0 1 = 3 / 250
      ∧ J.coeff 1 0 = 3 / 250 ∧ J.coeff 1 1 = 3 / 250
      ∧ coeffAt v0 0 = 9 / 250 ∧ coeffAt v0 1 = 9 / 250 := by
  have hgm : exampleContactStateSnapshot.mGradientMatrices = [exampleContactGroup] := rfl
  have hres : ∀ g ∈ exampleContactStateSnapshot.mGradientMatrices, ∀ name ∈ g.skeletons,
      (exampleContactWorld.getSkeleton name).isSome := by
    rw [hgm]; decide
  obtain ⟨J, hJ, hret, hinc, _⟩ := getVelJacobianWrt_force_exact exampleInvertibleExternal
    exampleContactCalls (fun _ _ => []) exampleContactStateSnapshot exampleContactWorld
    (Vec.zero 2) (exampleContactInvMass exampleContactStateSnapshot.mNumDOFs)
    (exampleReciprocal exampleContactStateSnapshot.mNumClamping) hres rfl rfl (fun _ => rfl) rfl
    (by
      intro tau
      show Vec.zero (exampleContactWorld.setExternalForces tau).getNumDofs = Vec.zero 2
      rw [getNumDofs_setExternalForces]
      rfl)
    (by
      intro tau
      refine ⟨?_, ?_, rfl⟩
      · show (exampleContactWorld.setExternalForces tau).getNumDofs = _
        rw [getNumDofs_setExternalForces]
        rfl
      · show (exampleContactWorld.setExternalForces tau).getNumDofs = _
        rw [getNumDofs_setExternalForces]
        rfl)
    exampleContact_invMass_fd
    (fun tau x hx => exampleContact_implicit tau x hx)
    ⟨rfl, rfl, rfl⟩
    exampleContact_invMass_snapshot
    (fun Q b _ hc _ => exampleContact_solve Q b hc)
    (fun Q B _ hc hB => exampleContact_solveMatrix Q B hc hB)
  obtain ⟨v1, h1⟩ := hret (Vec.add [1, 2] [3, 5])
  obtain ⟨v0, h0⟩ := hret [1, 2]
  have hJ00 : (match getVelJacobianWrt exampleInvertibleExternal exampleContactStateSnapshot
        exampleContactWorld .FORCE with
      | .ok Y => Y.coeff 0 0
      | .error _ => 0) = 3 / 250 := by with_unfolding_all rfl
  have hJ01 : (match getVelJacobianWrt exampleInvertibleExternal exampleContactStateSnapshot
        exampleContactWorld .FORCE with
      | .ok Y => Y.coeff 0 1
      | .error _ => 0) = 3 / 250 := by with_unfolding_all rfl
  have hJ10 : (match getVelJacobianWrt exampleInvertibleExternal exampleContactStateSnapshot
        exampleContactWorld .FORCE with
      | .ok Y => Y.coeff 1 0
      | .error _ => 0) = 3 / 250 := by with_unfolding_all rfl
  have hJ11 : (match getVelJacobianWrt exampleInvertibleExternal exampleContactStateSnapshot
        exampleContactWorld .FORCE with
      | .ok Y => Y.coeff 1 1
      | .error _ => 0) = 3 / 250 := by with_unfolding_all rfl
  have hv0 : (match scratch exampleInvertibleExternal exampleContactCalls (fun _ _ => [])
        exampleContactStateSnapshot (exampleContactWorld.setExternalForces [1, 2]) with
      | .ok v => coeffAt v 0
      | .error _ => 0) = 9 / 250 := by with_unfolding_all rfl
  have hv1 : (match scratch exampleInvertibleExternal exampleContactCalls (fun _ _ => [])
        exampleContactStateSnapshot (exampleContactWorld.setExternalForces [1, 2]) with
      | .ok v => coeffAt v 1
      | .error _ => 0) = 9 / 250 := by with_unfolding_all rfl
  rw [hJ] at hJ00 hJ01 hJ10 hJ11
  rw [h0] at hv0 hv1
  exact ⟨J, v1, v0, hJ, h1, h0, fun i hi => hinc [1, 2] [3, 5] v1 v0 rfl h1 h0 i hi,
    hJ00, hJ01, hJ10, hJ11, hv0, hv1⟩

end neural
end dart
